import Mathlib

/-!
# Forward-pass inference engine: embedding and verified properties

Shallow embedding of the C++ layer computation engine (`cpp_alexnet`):
`Tensor3D`, the direct and the tiled convolution layers, max pooling, the
fully-connected layer and the network orchestrator.

Conventions of the embedding.
* `float` values are an arbitrary linearly ordered commutative ring `α`
  (a field where division is needed); the rationals are one instance, and
  arithmetic is exact.
* Tensor dimensions and tensor coordinates are `Int`, as in the source (the
  output dimensions are computed by a subtraction and a truncating division).
  Layer parameters, tile sizes and loop counters, which the source only uses
  with non-negative values, are `Nat`.
* A `for (x = 0; x < n; x++)` loop is a `List.foldl` over `List.range n`.
* `std::vector` is a `List`; an out-of-range read (undefined behaviour in the
  source) yields `0` and an out-of-range write is dropped.
* The `std::vector` constructor throws when asked for a negative number of
  elements; functions that construct a tensor return `Option`.
-/

namespace AlexNet

/-! ## Tensor3D (Tensor3D.h, v1_baseline/Tensor3D.cpp) -/

/-- Three-dimensional tensor: `depth`, `height`, `width` and the flat buffer. -/
structure Tensor3D (α : Type) where
  depth : Int
  height : Int
  width : Int
  data : List α

namespace Tensor3D

variable {α : Type}

/-- Constructor `Tensor3D(d, h, w, initVal)`: `data(d * h * w, initVal)`.
A negative element count makes the vector constructor throw. -/
def new (d h w : Int) (initVal : α) : Option (Tensor3D α) :=
  if 0 ≤ d * h * w then
    some { depth := d, height := h, width := w, data := List.replicate (d * h * w).toNat initVal }
  else none

/-- Flat index used by `at`: `d * height * width + h * width + w`. -/
def index (t : Tensor3D α) (d h w : Int) : Int :=
  d * t.height * t.width + h * t.width + w

/-- Read through `at(d, h, w)`. -/
def at_ [Zero α] (t : Tensor3D α) (d h w : Int) : α :=
  if 0 ≤ t.index d h w then t.data.getD (t.index d h w).toNat 0 else 0

/-- Write through `at(d, h, w) = v`. -/
def setAt (t : Tensor3D α) (d h w : Int) (v : α) : Tensor3D α :=
  if 0 ≤ t.index d h w then { t with data := t.data.set (t.index d h w).toNat v } else t

/-- Port of `getDepth`. -/
def getDepth (t : Tensor3D α) : Int := t.depth

/-- Port of `getHeight`. -/
def getHeight (t : Tensor3D α) : Int := t.height

/-- Port of `getWidth`. -/
def getWidth (t : Tensor3D α) : Int := t.width

/-- Port of `getData`: the whole buffer. -/
def getData (t : Tensor3D α) : List α := t.data

/-- Coordinates inside the declared shape. -/
def InRange (t : Tensor3D α) (d h w : Int) : Prop :=
  0 ≤ d ∧ d < t.depth ∧ 0 ≤ h ∧ h < t.height ∧ 0 ≤ w ∧ w < t.width

/-- Class invariant: the buffer holds `depth * height * width` elements. -/
def WF (t : Tensor3D α) : Prop :=
  (t.data.length : Int) = t.depth * t.height * t.width

end Tensor3D

/-! ## Direct convolution (ConvolutionalLayer.cpp) -/

/-- Fields of `ConvolutionalLayer`. `weights` has shape
`outputChannels x inputChannels x kernelSize * kernelSize`. -/
structure ConvolutionalLayer (α : Type) where
  name : String
  inputChannels : Nat
  outputChannels : Nat
  kernelSize : Nat
  stride : Nat
  padding : Nat
  weights : Tensor3D α
  bias : List α

/-- Output extent `((inDim + 2 * padding - kernelSize) / stride) + 1`; the
division is C++ `int` division, which truncates toward zero. The stride is at least one
in every use (a zero stride is a division by zero in the source). -/
def convOutDim (inDim : Int) (kernelSize stride padding : Nat) : Int :=
  Int.tdiv (inDim + 2 * (padding : Int) - (kernelSize : Int)) (stride : Int) + 1

namespace ConvolutionalLayer

variable {α : Type} [LinearOrderedCommRing α]

/-- Constructor: the weight tensor `Tensor3D(outputChannels, inputChannels,
kernelSize * kernelSize)` filled with zeros, and a zero bias. -/
def new (name : String) (inputChannels outputChannels kernelSize stride padding : Nat) :
    ConvolutionalLayer α :=
  { name := name, inputChannels := inputChannels, outputChannels := outputChannels,
    kernelSize := kernelSize, stride := stride, padding := padding,
    weights := { depth := outputChannels, height := inputChannels,
                 width := ((kernelSize * kernelSize : Nat) : Int),
                 data := List.replicate (outputChannels * inputChannels * (kernelSize * kernelSize)) 0 },
    bias := List.replicate outputChannels 0 }

/-- Body of the `j` loop: one guarded multiply-accumulate into `output.at(to_, row, col)`. -/
def macStep (L : ConvolutionalLayer α) (input : Tensor3D α) (row col to_ ti i : Nat)
    (output : Tensor3D α) (j : Nat) : Tensor3D α :=
  let inputRow : Int := (L.stride : Int) * row + i - L.padding
  let inputCol : Int := (L.stride : Int) * col + j - L.padding
  if 0 ≤ inputRow ∧ inputRow < input.getHeight ∧ 0 ≤ inputCol ∧ inputCol < input.getWidth then
    let weightIdx : Nat := i * L.kernelSize + j
    output.setAt to_ row col
      (output.at_ to_ row col + L.weights.at_ to_ ti weightIdx * input.at_ ti inputRow inputCol)
  else output

/-- Body of the `to_` loop: bias, accumulation over `ti`, `i`, `j`, then ReLU. -/
def cellStep (L : ConvolutionalLayer α) (input : Tensor3D α) (row col : Nat)
    (output : Tensor3D α) (to_ : Nat) : Tensor3D α :=
  let output := output.setAt to_ row col (L.bias.getD to_ 0)
  let output := (List.range L.inputChannels).foldl (fun output ti =>
    (List.range L.kernelSize).foldl (fun output i =>
      (List.range L.kernelSize).foldl (fun output j =>
        L.macStep input row col to_ ti i output j) output) output) output
  output.setAt to_ row col (max 0 (output.at_ to_ row col))

/-- Port of `ConvolutionalLayer::forward`. -/
def forward (L : ConvolutionalLayer α) (input : Tensor3D α) : Option (Tensor3D α) :=
  let inputHeight := input.getHeight
  let inputWidth := input.getWidth
  let outputHeight := convOutDim inputHeight L.kernelSize L.stride L.padding
  let outputWidth := convOutDim inputWidth L.kernelSize L.stride L.padding
  match Tensor3D.new (L.outputChannels : Int) outputHeight outputWidth (0 : α) with
  | none => none
  | some output =>
    some ((List.range outputHeight.toNat).foldl (fun output row =>
      (List.range outputWidth.toNat).foldl (fun output col =>
        (List.range L.outputChannels).foldl (fun output to_ =>
          L.cellStep input row col output to_) output) output) output)

end ConvolutionalLayer

/-! ## Max pooling (MaxPoolingLayer.cpp) -/

/-- Fields of `MaxPoolingLayer`. -/
structure MaxPoolingLayer where
  name : String
  poolSize : Nat
  stride : Nat

/-- The constant `std::numeric_limits<float>::max()`, `(2 ^ 24 - 1) * 2 ^ 104`. -/
def FLT_MAX {α : Type} [LinearOrderedCommRing α] : α := (2 ^ 24 - 1) * 2 ^ 104

/-- Output extent `(inDim - poolSize) / stride + 1` with truncating division. -/
def poolOutDim (inDim : Int) (poolSize stride : Nat) : Int :=
  Int.tdiv (inDim - (poolSize : Int)) (stride : Int) + 1

namespace MaxPoolingLayer

variable {α : Type} [LinearOrderedCommRing α]

/-- The window scan: `maxVal` starts at `-FLT_MAX` and absorbs every window cell. -/
def windowMax (P : MaxPoolingLayer) (input : Tensor3D α) (c row col : Nat) : α :=
  (List.range P.poolSize).foldl (fun maxVal (i : Nat) =>
    (List.range P.poolSize).foldl (fun maxVal (j : Nat) =>
      let h : Int := (row : Int) * P.stride + i
      let w : Int := (col : Int) * P.stride + j
      max maxVal (input.at_ c h w)) maxVal) (-FLT_MAX)

/-- Port of `MaxPoolingLayer::forward`. -/
def forward (P : MaxPoolingLayer) (input : Tensor3D α) : Option (Tensor3D α) :=
  let channels := input.getDepth
  let inputHeight := input.getHeight
  let inputWidth := input.getWidth
  let outputHeight := poolOutDim inputHeight P.poolSize P.stride
  let outputWidth := poolOutDim inputWidth P.poolSize P.stride
  match Tensor3D.new channels outputHeight outputWidth (0 : α) with
  | none => none
  | some output =>
    some ((List.range channels.toNat).foldl (fun output c =>
      (List.range outputHeight.toNat).foldl (fun output row =>
        (List.range outputWidth.toNat).foldl (fun output col =>
          output.setAt (c : Nat) (row : Nat) (col : Nat) (P.windowMax input c row col)) output) output) output)

end MaxPoolingLayer

/-! ## Fully-connected layer (FullyConnectedLayer.cpp) -/

/-- Fields of `FullyConnectedLayer`; `weights` is `outputSize` rows of `inputSize` values. -/
structure FullyConnectedLayer (α : Type) where
  name : String
  inputSize : Nat
  outputSize : Nat
  weights : List (List α)
  bias : List α

namespace FullyConnectedLayer

variable {α : Type} [LinearOrderedCommRing α]

/-- Constructor: zero weights and zero bias. -/
def new (name : String) (inputSize outputSize : Nat) : FullyConnectedLayer α :=
  { name := name, inputSize := inputSize, outputSize := outputSize,
    weights := List.replicate outputSize (List.replicate inputSize 0),
    bias := List.replicate outputSize 0 }

/-- The flattening loops: `push_back(input.at(d, h, w))` in `d`, `h`, `w` order. -/
def flatten (input : Tensor3D α) : List α :=
  (List.range input.getDepth.toNat).foldl (fun flattenedInput (d : Nat) =>
    (List.range input.getHeight.toNat).foldl (fun flattenedInput (h : Nat) =>
      (List.range input.getWidth.toNat).foldl (fun flattenedInput (w : Nat) =>
        flattenedInput ++ [input.at_ d h w]) flattenedInput) flattenedInput) []

/-- Body of the `i` loop over output units. -/
def unitStep (F : FullyConnectedLayer α) (flattenedInput : List α) (outputVec : List α)
    (i : Nat) : List α :=
  let outputVec := outputVec.set i (F.bias.getD i 0)
  let outputVec := (List.range F.inputSize).foldl (fun outputVec j =>
    outputVec.set i (outputVec.getD i 0 + (F.weights.getD i []).getD j 0 * flattenedInput.getD j 0))
    outputVec
  if F.name ≠ "fc8" then outputVec.set i (max 0 (outputVec.getD i 0)) else outputVec

/-- Port of `FullyConnectedLayer::forward`. -/
def forward (F : FullyConnectedLayer α) (input : Tensor3D α) : Option (Tensor3D α) :=
  let flattenedInput := flatten input
  let outputVec := (List.range F.outputSize).foldl (F.unitStep flattenedInput)
    (List.replicate F.outputSize 0)
  match Tensor3D.new 1 1 (F.outputSize : Int) (0 : α) with
  | none => none
  | some output =>
    some ((List.range F.outputSize).foldl (fun output i =>
      output.setAt 0 0 (i : Nat) (outputVec.getD i 0)) output)

end FullyConnectedLayer

/-! ## Tiled convolution (v2_optimized/ConvolutionalLayerV2.cpp) -/

/-- Fields of `ConvolutionalLayerV2`: the direct layer's fields and the four tile sizes. -/
structure ConvolutionalLayerV2 (α : Type) where
  name : String
  inputChannels : Nat
  outputChannels : Nat
  kernelSize : Nat
  stride : Nat
  padding : Nat
  weights : Tensor3D α
  bias : List α
  Tm : Nat
  Tn : Nat
  Tr : Nat
  Tc : Nat

/-- Staging buffers of one tile (`ConvolutionalLayerV2::TileBuffers`). -/
structure TileBuffers (α : Type) where
  inputBuffer : List α
  weightBuffer : List α
  outputBuffer : List α
  tileRows : Nat
  tileCols : Nat
  tileInputHeight : Nat
  tileInputWidth : Nat
  tiSize : Nat
  toSize : Nat

/-- Constructor `TileBuffers(tm, tn, tr, tc, k, s)`. At every call site `tr, tc ≥ 1`,
so `tr * s + k - s` does not truncate. -/
def TileBuffers.new {α : Type} [Zero α] (tm tn tr tc k s : Nat) : TileBuffers α :=
  let tileInputHeight := tr * s + k - s
  let tileInputWidth := tc * s + k - s
  { inputBuffer := List.replicate (tn * tileInputHeight * tileInputWidth) 0,
    weightBuffer := List.replicate (tm * tn * k * k) 0,
    outputBuffer := List.replicate (tm * tr * tc) 0,
    tileRows := tr, tileCols := tc,
    tileInputHeight := tileInputHeight, tileInputWidth := tileInputWidth,
    tiSize := tn, toSize := tm }

/-- Values taken by `t` in `for (t = start; t < n; t += T)`, at most `fuel` iterations. -/
def tileStartsFrom (n T : Nat) : Nat → Nat → List Nat
  | 0, _ => []
  | fuel + 1, t => if t < n then t :: tileStartsFrom n T fuel (t + T) else []

/-- Values taken by `t` in `for (t = 0; t < n; t += T)`; with `T ≥ 1` the loop ends
within `n` iterations. -/
def tileStarts (n T : Nat) : List Nat := tileStartsFrom n T n 0

namespace ConvolutionalLayerV2

variable {α : Type} [LinearOrderedCommRing α]

/-- Constructor: the weight tensor `Tensor3D(outputChannels, inputChannels,
kernelSize * kernelSize)` filled with zeros, a zero bias, and the tile sizes. -/
def new (name : String) (inputChannels outputChannels kernelSize stride padding : Nat)
    (tileSizeM tileSizeN tileSizeR tileSizeC : Nat) : ConvolutionalLayerV2 α :=
  { name := name, inputChannels := inputChannels, outputChannels := outputChannels,
    kernelSize := kernelSize, stride := stride, padding := padding,
    weights := { depth := outputChannels, height := inputChannels,
                 width := ((kernelSize * kernelSize : Nat) : Int),
                 data := List.replicate (outputChannels * inputChannels * (kernelSize * kernelSize)) 0 },
    bias := List.replicate outputChannels 0,
    Tm := tileSizeM, Tn := tileSizeN, Tr := tileSizeR, Tc := tileSizeC }

/-- Body of the `w` loop of `loadInputTile`: stage one input value, zero outside the input. -/
def loadInputCell (L : ConvolutionalLayerV2 α) (input : Tensor3D α) (buffers : TileBuffers α)
    (tiStart rowStart colStart : Nat) (inputBuffer : List α) (tii h w : Nat) : List α :=
  let tiiOffset := (tii - tiStart) * buffers.tileInputHeight * buffers.tileInputWidth
  let inputRow : Int := (rowStart : Int) * L.stride + h - L.padding
  let inputCol : Int := (colStart : Int) * L.stride + w - L.padding
  if 0 ≤ inputRow ∧ inputRow < input.getHeight ∧ 0 ≤ inputCol ∧ inputCol < input.getWidth then
    inputBuffer.set (tiiOffset + h * buffers.tileInputWidth + w) (input.at_ tii inputRow inputCol)
  else
    inputBuffer.set (tiiOffset + h * buffers.tileInputWidth + w) 0

/-- Port of `loadInputTile`. The loops assign elements of `buffers.inputBuffer` only, which
is the state threaded through them. -/
def loadInputTile (L : ConvolutionalLayerV2 α) (input : Tensor3D α) (buffers : TileBuffers α)
    (tiStart tiEnd rowStart _rowEnd colStart _colEnd : Nat) : TileBuffers α :=
  { buffers with
    inputBuffer := (List.range' tiStart (tiEnd - tiStart)).foldl (fun inputBuffer tii =>
      (List.range buffers.tileInputHeight).foldl (fun inputBuffer h =>
        (List.range buffers.tileInputWidth).foldl (fun inputBuffer w =>
          L.loadInputCell input buffers tiStart rowStart colStart inputBuffer tii h w)
          inputBuffer) inputBuffer) buffers.inputBuffer }

/-- Body of the `j` loop of `loadWeightTile`: stage one weight. -/
def loadWeightCell (L : ConvolutionalLayerV2 α) (buffers : TileBuffers α)
    (toStart tiStart : Nat) (weightBuffer : List α) (too tii i j : Nat) : List α :=
  let tooOffset := (too - toStart) * buffers.tiSize * L.kernelSize * L.kernelSize
  let tiiOffset := tooOffset + (tii - tiStart) * L.kernelSize * L.kernelSize
  let weightIdx := i * L.kernelSize + j
  weightBuffer.set (tiiOffset + weightIdx) (L.weights.at_ too tii weightIdx)

/-- Port of `loadWeightTile`. The loops assign elements of `buffers.weightBuffer` only. -/
def loadWeightTile (L : ConvolutionalLayerV2 α) (buffers : TileBuffers α)
    (toStart toEnd tiStart tiEnd : Nat) : TileBuffers α :=
  { buffers with
    weightBuffer := (List.range' toStart (toEnd - toStart)).foldl (fun weightBuffer too =>
      (List.range' tiStart (tiEnd - tiStart)).foldl (fun weightBuffer tii =>
        (List.range L.kernelSize).foldl (fun weightBuffer i =>
          (List.range L.kernelSize).foldl (fun weightBuffer j =>
            L.loadWeightCell buffers toStart tiStart weightBuffer too tii i j)
            weightBuffer) weightBuffer) weightBuffer) buffers.weightBuffer }

/-- Port of `initOutputTileZero`: `std::fill` of the output buffer with zeros. -/
def initOutputTileZero (buffers : TileBuffers α) : TileBuffers α :=
  { buffers with outputBuffer := List.replicate buffers.outputBuffer.length 0 }

/-- The macro `PROCESS_TII(index)` inside `computeTileUnitTii`. -/
def processTii (L : ConvolutionalLayerV2 α) (i j trr tcc tiStart tiEnd : Nat)
    (weightIdxBase outputIdx : Nat) (buffers : TileBuffers α) (index : Nat) : TileBuffers α :=
  if tiStart + index < tiEnd then
    let tii := tiStart + index
    let weight := buffers.weightBuffer.getD
      (weightIdxBase + (tii - tiStart) * L.kernelSize * L.kernelSize + i * L.kernelSize + j) 0
    let h := trr * L.stride + i
    let w := tcc * L.stride + j
    let inputIdx := (tii - tiStart) * buffers.tileInputHeight * buffers.tileInputWidth +
      h * buffers.tileInputWidth + w
    let value := buffers.outputBuffer.getD outputIdx 0 + weight * buffers.inputBuffer.getD inputIdx 0
    { buffers with outputBuffer := buffers.outputBuffer.set outputIdx value }
  else buffers

/-- Port of `computeTileUnitTii`: seven unrolled `PROCESS_TII` and the remainder loop. -/
def computeTileUnitTii (L : ConvolutionalLayerV2 α) (buffers : TileBuffers α)
    (i j trr tcc tiStart tiEnd too toStartOffset : Nat) : TileBuffers α :=
  let tooOffset := (too - toStartOffset) * buffers.tileRows * buffers.tileCols
  let weightIdxBase := (too - toStartOffset) * buffers.tiSize * L.kernelSize * L.kernelSize
  let outputIdx := tooOffset + trr * buffers.tileCols + tcc
  let tiiLimit := min L.Tn (tiEnd - tiStart)
  let buffers := L.processTii i j trr tcc tiStart tiEnd weightIdxBase outputIdx buffers 0
  let buffers := L.processTii i j trr tcc tiStart tiEnd weightIdxBase outputIdx buffers 1
  let buffers := L.processTii i j trr tcc tiStart tiEnd weightIdxBase outputIdx buffers 2
  let buffers := L.processTii i j trr tcc tiStart tiEnd weightIdxBase outputIdx buffers 3
  let buffers := L.processTii i j trr tcc tiStart tiEnd weightIdxBase outputIdx buffers 4
  let buffers := L.processTii i j trr tcc tiStart tiEnd weightIdxBase outputIdx buffers 5
  let buffers := L.processTii i j trr tcc tiStart tiEnd weightIdxBase outputIdx buffers 6
  (List.range' 7 (tiiLimit - 7)).foldl
    (L.processTii i j trr tcc tiStart tiEnd weightIdxBase outputIdx) buffers

/-- The macro `PROCESS_TOO(index)` inside `computeTileUnitToo`. -/
def processToo (L : ConvolutionalLayerV2 α) (i j trr tcc tiStart tiEnd toStart toEnd : Nat)
    (buffers : TileBuffers α) (index : Nat) : TileBuffers α :=
  if toStart + index < toEnd then
    L.computeTileUnitTii buffers i j trr tcc tiStart tiEnd (toStart + index) toStart
  else buffers

/-- Port of `computeTileUnitToo`: four unrolled `PROCESS_TOO` and the remainder loop. -/
def computeTileUnitToo (L : ConvolutionalLayerV2 α) (buffers : TileBuffers α)
    (i j trr tcc tiStart tiEnd toStart toEnd : Nat) : TileBuffers α :=
  let tooLimit := min L.Tm (toEnd - toStart)
  let buffers := L.processToo i j trr tcc tiStart tiEnd toStart toEnd buffers 0
  let buffers := L.processToo i j trr tcc tiStart tiEnd toStart toEnd buffers 1
  let buffers := L.processToo i j trr tcc tiStart tiEnd toStart toEnd buffers 2
  let buffers := L.processToo i j trr tcc tiStart tiEnd toStart toEnd buffers 3
  (List.range' 4 (tooLimit - 4)).foldl
    (L.processToo i j trr tcc tiStart tiEnd toStart toEnd) buffers

/-- Port of `processTile`: loop order `i`, `j`, `trr`, `tcc`. -/
def processTile (L : ConvolutionalLayerV2 α) (buffers : TileBuffers α)
    (tiStart tiEnd toStart toEnd : Nat) : TileBuffers α :=
  (List.range L.kernelSize).foldl (fun b i =>
    (List.range L.kernelSize).foldl (fun b j =>
      (List.range buffers.tileRows).foldl (fun b trr =>
        (List.range buffers.tileCols).foldl (fun b tcc =>
          L.computeTileUnitToo b i j trr tcc tiStart tiEnd toStart toEnd)
          b) b) b) buffers

/-- Body of the `tcc` loop of `accumulateOutputTile`: add one tile value into the output. -/
def accumulateCell (buffers : TileBuffers α) (toStart rowStart colStart : Nat)
    (output : Tensor3D α) (too trr tcc : Nat) : Tensor3D α :=
  let tooOffset := (too - toStart) * buffers.tileRows * buffers.tileCols
  let val := buffers.outputBuffer.getD (tooOffset + trr * buffers.tileCols + tcc) 0
  output.setAt too ((rowStart + trr : Nat) : Int) ((colStart + tcc : Nat) : Int)
    (output.at_ too ((rowStart + trr : Nat) : Int) ((colStart + tcc : Nat) : Int) + val)

/-- Port of `accumulateOutputTile`: add the tile result into the output tensor. -/
def accumulateOutputTile (output : Tensor3D α) (buffers : TileBuffers α)
    (toStart toEnd rowStart _rowEnd colStart _colEnd : Nat) : Tensor3D α :=
  (List.range' toStart (toEnd - toStart)).foldl (fun output too =>
    (List.range buffers.tileRows).foldl (fun output trr =>
      (List.range buffers.tileCols).foldl (fun output tcc =>
        accumulateCell buffers toStart rowStart colStart output too trr tcc)
        output) output) output

/-- Body of the innermost tiling loop of `forward`: stage, compute and accumulate one tile. -/
def tileStep (L : ConvolutionalLayerV2 α) (input : Tensor3D α)
    (to_ toLimit ti tiLimit row rowLimit : Nat) (outputWidth : Nat)
    (output : Tensor3D α) (col : Nat) : Tensor3D α :=
  let colLimit := min (col + L.Tc) outputWidth
  let buffers : TileBuffers α := TileBuffers.new (toLimit - to_) (tiLimit - ti)
    (rowLimit - row) (colLimit - col) L.kernelSize L.stride
  let buffers := L.loadInputTile input buffers ti tiLimit row rowLimit col colLimit
  let buffers := L.loadWeightTile buffers to_ toLimit ti tiLimit
  let buffers := initOutputTileZero buffers
  let buffers := L.processTile buffers ti tiLimit to_ toLimit
  accumulateOutputTile output buffers to_ toLimit row rowLimit col colLimit

/-- Port of `ConvolutionalLayerV2::forward`. -/
def forward (L : ConvolutionalLayerV2 α) (input : Tensor3D α) : Option (Tensor3D α) :=
  let inputHeight := input.getHeight
  let inputWidth := input.getWidth
  let outputHeight := convOutDim inputHeight L.kernelSize L.stride L.padding
  let outputWidth := convOutDim inputWidth L.kernelSize L.stride L.padding
  match Tensor3D.new (L.outputChannels : Int) outputHeight outputWidth (0 : α) with
  | none => none
  | some output =>
    let output := (List.range L.outputChannels).foldl (fun output to_ =>
      (List.range outputHeight.toNat).foldl (fun output row =>
        (List.range outputWidth.toNat).foldl (fun output col =>
          output.setAt to_ row col (L.bias.getD to_ 0)) output) output) output
    let output := (tileStarts L.outputChannels L.Tm).foldl (fun output to_ =>
      let toLimit := min (to_ + L.Tm) L.outputChannels
      (tileStarts L.inputChannels L.Tn).foldl (fun output ti =>
        let tiLimit := min (ti + L.Tn) L.inputChannels
        (tileStarts outputHeight.toNat L.Tr).foldl (fun output row =>
          let rowLimit := min (row + L.Tr) outputHeight.toNat
          (tileStarts outputWidth.toNat L.Tc).foldl
            (L.tileStep input to_ toLimit ti tiLimit row rowLimit outputWidth.toNat)
            output) output) output) output
    some ((List.range L.outputChannels).foldl (fun output (to_ : Nat) =>
      (List.range outputHeight.toNat).foldl (fun output (row : Nat) =>
        (List.range outputWidth.toNat).foldl (fun output (col : Nat) =>
          output.setAt to_ row col (max 0 (output.at_ to_ row col))) output) output) output)

end ConvolutionalLayerV2

/-! ## Network orchestrator (CNN.cpp, v2_optimized/CNNV2.cpp) -/

/-- The closed set of layer variants behind the `Layer` interface. -/
inductive Layer (α : Type) where
  | conv (l : ConvolutionalLayer α)
  | convV2 (l : ConvolutionalLayerV2 α)
  | pool (l : MaxPoolingLayer)
  | fc (l : FullyConnectedLayer α)

namespace Layer

variable {α : Type} [LinearOrderedCommRing α]

/-- Virtual dispatch of `forward`. -/
def forward : Layer α → Tensor3D α → Option (Tensor3D α)
  | conv l, input => l.forward input
  | convV2 l, input => l.forward input
  | pool l, input => l.forward input
  | fc l, input => l.forward input

/-- Port of `Layer::getName`. -/
def getName : Layer α → String
  | conv l => l.name
  | convV2 l => l.name
  | pool l => l.name
  | fc l => l.name

end Layer

/-- The network: its owned layer sequence. -/
structure CNN (α : Type) where
  layers : List (Layer α)

namespace CNN

variable {α : Type} [LinearOrderedCommRing α]

/-- Constructor `CNN::CNN()`. -/
def new : CNN α :=
  { layers := [
      Layer.conv (ConvolutionalLayer.new "conv1" 3 64 11 4 2),
      Layer.pool { name := "pool1", poolSize := 3, stride := 2 },
      Layer.conv (ConvolutionalLayer.new "conv2" 64 192 5 1 2),
      Layer.pool { name := "pool2", poolSize := 3, stride := 2 },
      Layer.conv (ConvolutionalLayer.new "conv3" 192 384 3 1 1),
      Layer.conv (ConvolutionalLayer.new "conv4" 384 256 3 1 1),
      Layer.conv (ConvolutionalLayer.new "conv5" 256 256 3 1 1),
      Layer.pool { name := "pool5", poolSize := 3, stride := 2 },
      Layer.fc (FullyConnectedLayer.new "fc6" (6 * 6 * 256) 4096),
      Layer.fc (FullyConnectedLayer.new "fc7" 4096 4096),
      Layer.fc (FullyConnectedLayer.new "fc8" 4096 1000) ] }

/-- Constructor `CNNV2::CNNV2()`: tiled convolutions with the default tile sizes. -/
def newV2 : CNN α :=
  { layers := [
      Layer.convV2 (ConvolutionalLayerV2.new "conv1" 3 64 11 4 2 64 7 16 16),
      Layer.pool { name := "pool1", poolSize := 3, stride := 2 },
      Layer.convV2 (ConvolutionalLayerV2.new "conv2" 64 192 5 1 2 64 7 16 16),
      Layer.pool { name := "pool2", poolSize := 3, stride := 2 },
      Layer.convV2 (ConvolutionalLayerV2.new "conv3" 192 384 3 1 1 64 7 16 16),
      Layer.convV2 (ConvolutionalLayerV2.new "conv4" 384 256 3 1 1 64 7 16 16),
      Layer.convV2 (ConvolutionalLayerV2.new "conv5" 256 256 3 1 1 64 7 16 16),
      Layer.pool { name := "pool5", poolSize := 3, stride := 2 },
      Layer.fc (FullyConnectedLayer.new "fc6" (6 * 6 * 256) 4096),
      Layer.fc (FullyConnectedLayer.new "fc7" 4096 4096),
      Layer.fc (FullyConnectedLayer.new "fc8" 4096 1000) ] }

/-- Body of the layer loop of `forward`: `current = layer->forward(current)`, recording the
shape printed after the layer; a layer that throws ends the pass. -/
def layerStep (state : Option (Tensor3D α × List (Int × Int × Int))) (layer : Layer α) :
    Option (Tensor3D α × List (Int × Int × Int)) :=
  match state with
  | none => none
  | some (current, shapes) =>
    match layer.forward current with
    | none => none
    | some current =>
      some (current, shapes ++ [(current.getDepth, current.getHeight, current.getWidth)])

/-- The layer loop of `forward`. -/
def runLayers (layers : List (Layer α)) (input : Tensor3D α) :
    Option (Tensor3D α × List (Int × Int × Int)) :=
  layers.foldl layerStep (some (input, []))

/-- Value of `*std::max_element(first, last)`: the scan keeps the current largest
and replaces it when it is smaller than the next element. -/
def maxElement : List α → α
  | [] => 0
  | x :: xs => xs.foldl (fun largest y => if largest < y then y else largest) x

/-- The softmax stage of `forward`; `exp` stands for `std::exp`. -/
def softmax {α : Type} [LinearOrderedField α] (exp : α → α) (outputData : List α) : List α :=
  let maxVal := maxElement outputData
  let probabilities := outputData.map (fun x => exp (x - maxVal))
  let sumExp := probabilities.foldl (fun sumExp p => sumExp + p) 0
  probabilities.map (fun p => p / sumExp)

/-- Port of `CNN::forward` (identical in `CNNV2`): the layer loop, then softmax over the
buffer of the last tensor. -/
def forward {α : Type} [LinearOrderedField α] (exp : α → α) (net : CNN α)
    (input : Tensor3D α) : Option (List α) :=
  match runLayers net.layers input with
  | none => none
  | some (current, _) => some (softmax exp current.getData)

/-- One selection pass of the partial sort: the best element under `comp` (the first
such among equals) and the remaining elements in their original order. -/
def extractBest {β : Type} (comp : β → β → Bool) : List β → Option (β × List β)
  | [] => none
  | x :: xs =>
    match extractBest comp xs with
    | none => some (x, [])
    | some (y, ys) => if comp y x then some (y, x :: ys) else some (x, xs)

/-- Model of `std::partial_sort(first, first + middle, last, comp)` from the C++
standard library: the `middle` best elements under `comp`, in order, come first; the
standard leaves the order of the rest and of equal elements open, here they keep
their original order. -/
def partialSort {β : Type} (comp : β → β → Bool) : Nat → List β → List β
  | 0, l => l
  | middle + 1, l =>
    match extractBest comp l with
    | none => []
    | some (best, rest) => best :: partialSort comp middle rest

/-- The comparison lambda of `getTopKPredictions`: `a.second > b.second`. -/
def byProbabilityDesc (a b : Nat × α) : Bool := decide (a.2 > b.2)

/-- Port of `getTopKPredictions` (identical in `CNN` and `CNNV2`). -/
def getTopKPredictions (probabilities : List α) (k : Nat) : List (Nat × α) :=
  let idxProb := (List.range probabilities.length).foldl
    (fun idxProb i => idxProb ++ [(i, probabilities.getD i 0)]) []
  let idxProb := partialSort byProbabilityDesc k idxProb
  idxProb.take k

end CNN

/-! ## Auxiliary notions used to state the properties -/

namespace Tensor3D

variable {α : Type}

/-- A tensor of the given shape satisfying the class invariant. -/
def Shaped (t : Tensor3D α) (D H W : Int) : Prop :=
  t.depth = D ∧ t.height = H ∧ t.width = W ∧ (t.data.length : Int) = D * H * W

/-- Coordinates inside a `D x H x W` shape. -/
def InShape (D H W : Int) (c : Int × Int × Int) : Prop :=
  0 ≤ c.1 ∧ c.1 < D ∧ 0 ≤ c.2.1 ∧ c.2.1 < H ∧ 0 ≤ c.2.2 ∧ c.2.2 < W

/-- The tensor seen as a function of a coordinate triple. -/
def view [Zero α] (t : Tensor3D α) (c : Int × Int × Int) : α := t.at_ c.1 c.2.1 c.2.2

/-- The zero-padded input: the stored value inside the input, `0` outside. -/
def padded [Zero α] (t : Tensor3D α) (d row col : Int) : α :=
  if 0 ≤ row ∧ row < t.height ∧ 0 ≤ col ∧ col < t.width then t.at_ d row col else 0

end Tensor3D

/-- The staging buffers `b` differ from `b0` at most in the contents of the output buffer. -/
def TileBuffers.Frame {α : Type} (b0 b : TileBuffers α) : Prop :=
  b.inputBuffer = b0.inputBuffer ∧ b.weightBuffer = b0.weightBuffer ∧
  b.tileRows = b0.tileRows ∧ b.tileCols = b0.tileCols ∧
  b.tileInputHeight = b0.tileInputHeight ∧ b.tileInputWidth = b0.tileInputWidth ∧
  b.tiSize = b0.tiSize ∧ b.toSize = b0.toSize ∧
  b.outputBuffer.length = b0.outputBuffer.length

/-- The output buffer seen as a function of the slot number. -/
def TileBuffers.out {α : Type} [Zero α] (b : TileBuffers α) (k : Nat) : α :=
  b.outputBuffer.getD k 0

/-- The state transformer `f` keeps the invariant and adds `A c` to every cell `c` of the
region `R`. -/
def Adds {σ κ α : Type} [Add α] (Inv : σ → Prop) (view : σ → κ → α) (R : κ → Prop)
    (f : σ → σ) (A : κ → α) : Prop :=
  ∀ s, Inv s → Inv (f s) ∧ ∀ c, R c → view (f s) c = view s c + A c

/-- The convolution sum of the specification at output cell `(d, row, col)`: the sum over
input channels and kernel offsets of weight times zero-padded input. -/
def convSum {α : Type} [LinearOrderedCommRing α] (weights input : Tensor3D α)
    (N K S P : Nat) (d row col : Int) : α :=
  ∑ ti ∈ Finset.range N, ∑ i ∈ Finset.range K, ∑ j ∈ Finset.range K,
    weights.at_ d ti ((i * K + j : Nat) : Int) *
      input.padded ti ((S : Int) * row + i - P) ((S : Int) * col + j - P)

/-- The part of the convolution sum contributed by the input channels
`ti, ..., ti + tn - 1` of one input-channel tile. -/
def tileConvSum {α : Type} [LinearOrderedCommRing α] (weights input : Tensor3D α)
    (K S P : Nat) (ti tn : Nat) (d row col : Int) : α :=
  ∑ i ∈ Finset.range K, ∑ j ∈ Finset.range K, ∑ y ∈ Finset.range tn,
    weights.at_ d ((ti + y : Nat) : Int) ((i * K + j : Nat) : Int) *
      input.padded ((ti + y : Nat) : Int) ((S : Int) * row + i - P) ((S : Int) * col + j - P)

/-- The value the specification assigns to output cell `(d, row, col)` of a convolution:
`max(0, bias[d] + convSum)`. -/
def convValue {α : Type} [LinearOrderedCommRing α] (weights : Tensor3D α) (bias : List α)
    (input : Tensor3D α) (N K S P : Nat) (d row col : Int) : α :=
  max 0 (bias.getD d.toNat 0 + convSum weights input N K S P d row col)

/-- The shape `(depth, height, width)` a layer produces from an input of the given shape. -/
def Layer.outShape {α : Type} : Layer α → Int × Int × Int → Int × Int × Int
  | Layer.conv l, s =>
    ((l.outputChannels : Int), convOutDim s.2.1 l.kernelSize l.stride l.padding,
      convOutDim s.2.2 l.kernelSize l.stride l.padding)
  | Layer.convV2 l, s =>
    ((l.outputChannels : Int), convOutDim s.2.1 l.kernelSize l.stride l.padding,
      convOutDim s.2.2 l.kernelSize l.stride l.padding)
  | Layer.pool l, s => (s.1, poolOutDim s.2.1 l.poolSize l.stride, poolOutDim s.2.2 l.poolSize l.stride)
  | Layer.fc l, _ => (1, 1, (l.outputSize : Int))

/-- Conditions under which a layer returns a tensor for an input of the given shape: a
non-negative element count, and tile sizes of at least one for the tiled convolution. -/
def Layer.Runs {α : Type} (l : Layer α) (s : Int × Int × Int) : Prop :=
  0 ≤ (l.outShape s).1 ∧ 0 ≤ (l.outShape s).1 * (l.outShape s).2.1 * (l.outShape s).2.2 ∧
  match l with
  | Layer.convV2 l => 1 ≤ l.Tm ∧ 1 ≤ l.Tn ∧ 1 ≤ l.Tr ∧ 1 ≤ l.Tc
  | _ => True

/-- The successive output shapes of a layer sequence. -/
def shapeTrace {α : Type} : List (Layer α) → Int × Int × Int → List (Int × Int × Int)
  | [], _ => []
  | l :: ls, s => l.outShape s :: shapeTrace ls (l.outShape s)

/-- The shape after the whole layer sequence. -/
def finalShape {α : Type} : List (Layer α) → Int × Int × Int → Int × Int × Int
  | [], s => s
  | l :: ls, s => finalShape ls (l.outShape s)

/-- Every layer of the sequence returns a tensor. -/
def AllRun {α : Type} : List (Layer α) → Int × Int × Int → Prop
  | [], _ => True
  | l :: ls, s => l.Runs s ∧ AllRun ls (l.outShape s)

/-! ## Concrete instances on which the theorems are exercised -/

namespace Example

/-- A `2 x 5 x 4` input. -/
def input : Tensor3D Int :=
  { depth := 2, height := 5, width := 4,
    data := (List.range 40).map (fun i => ((i * 7 % 11 : Nat) : Int) - 5) }

/-- Weights of shape `3 x 2 x 9`. -/
def weights : Tensor3D Int :=
  { depth := 3, height := 2, width := 9,
    data := (List.range 54).map (fun i => ((i * 5 % 7 : Nat) : Int) - 3) }

/-- A direct layer: 2 input channels, 3 output channels, kernel 3, stride 2, padding 1. -/
def conv : ConvolutionalLayer Int :=
  { name := "conv", inputChannels := 2, outputChannels := 3, kernelSize := 3, stride := 2,
    padding := 1, weights := weights, bias := [1, -2, 3] }

/-- The tiled layer with the parameters of `conv` and tile sizes 2, 1, 2, 1, none of which
divides the corresponding extent evenly except the input-channel tile. -/
def convV2 : ConvolutionalLayerV2 Int :=
  { name := "conv", inputChannels := 2, outputChannels := 3, kernelSize := 3, stride := 2,
    padding := 1, weights := weights, bias := [1, -2, 3], Tm := 2, Tn := 1, Tr := 2, Tc := 1 }

/-- A layer whose kernel (4) is larger than the padded input below; stride 2, no padding. -/
def wideConv : ConvolutionalLayer Int :=
  { name := "wide", inputChannels := 1, outputChannels := 1, kernelSize := 4, stride := 2,
    padding := 0, weights := { depth := 1, height := 1, width := 16, data := List.replicate 16 0 },
    bias := [0] }

/-- A `1 x 1 x 1` input. -/
def pixel : Tensor3D Int := { depth := 1, height := 1, width := 1, data := [5] }

/-- A fully-connected layer with 40 inputs and 2 outputs. -/
def fc : FullyConnectedLayer Int :=
  { name := "fc7", inputSize := 40, outputSize := 2,
    weights := [List.replicate 40 1, List.replicate 40 (-1)], bias := [0, 1] }

end Example

end AlexNet


namespace AlexNet

/-- Layer `l2` of a `CNNV2` carries the parameters of layer `l1` of a `CNN`: a direct
convolution corresponds to the tiled convolution with the same fields and the default tile
sizes 64, 7, 16, 16; a pooling or fully-connected layer corresponds to itself. -/
def Layer.TiledAs {α : Type} : Layer α → Layer α → Prop
  | Layer.conv l1, Layer.convV2 l2 =>
    l2.name = l1.name ∧ l2.inputChannels = l1.inputChannels ∧
    l2.outputChannels = l1.outputChannels ∧ l2.kernelSize = l1.kernelSize ∧
    l2.stride = l1.stride ∧ l2.padding = l1.padding ∧ l2.weights = l1.weights ∧
    l2.bias = l1.bias ∧ l2.Tm = 64 ∧ l2.Tn = 7 ∧ l2.Tr = 16 ∧ l2.Tc = 16
  | Layer.pool l1, Layer.pool l2 => l2 = l1
  | Layer.fc l1, Layer.fc l2 => l2 = l1
  | _, _ => False

/-- Two layers of the same kind with the same name and shape parameters; the learned
parameters may differ. -/
def Layer.SameArch {α : Type} : Layer α → Layer α → Prop
  | Layer.conv a, Layer.conv b =>
    b.name = a.name ∧ b.inputChannels = a.inputChannels ∧
    b.outputChannels = a.outputChannels ∧ b.kernelSize = a.kernelSize ∧
    b.stride = a.stride ∧ b.padding = a.padding
  | Layer.convV2 a, Layer.convV2 b =>
    b.name = a.name ∧ b.inputChannels = a.inputChannels ∧
    b.outputChannels = a.outputChannels ∧ b.kernelSize = a.kernelSize ∧
    b.stride = a.stride ∧ b.padding = a.padding ∧
    b.Tm = a.Tm ∧ b.Tn = a.Tn ∧ b.Tr = a.Tr ∧ b.Tc = a.Tc
  | Layer.pool a, Layer.pool b => b = a
  | Layer.fc a, Layer.fc b =>
    b.name = a.name ∧ b.inputSize = a.inputSize ∧ b.outputSize = a.outputSize
  | _, _ => False

/-! ## Weight files (`loadWeights` of the layers and of the network) -/

/-- The size `sizeof(float)` in bytes. -/
def sizeofFloat : Nat := 4

/-- The file system as `std::ifstream` sees it: a path names at most one readable file,
whose contents are given as the sequence of 32-bit values stored in it (a file of
`4 * length` bytes). -/
structure FileSystem (α : Type) where
  contents : String → Option (List α)

/-- An open `std::ifstream`: the values not yet read, and whether every read so far
succeeded. -/
structure IFStream (α : Type) where
  rest : List α
  good : Bool

/-- Model of `file.read(reinterpret_cast<char*>(buffer.data()), size)` from the C++ standard
library, `size` in bytes: on a good stream holding enough data the first `size / 4` values
of the buffer are replaced by the next values of the file; when the file ends early the
values that are left are stored and the stream fails; a failed stream reads nothing. -/
def IFStream.read {α : Type} (file : IFStream α) (buffer : List α) (size : Nat) :
    List α × IFStream α :=
  let count := size / sizeofFloat
  if file.good then
    if count ≤ file.rest.length then
      (file.rest.take count ++ buffer.drop count, { rest := file.rest.drop count, good := true })
    else
      (file.rest ++ buffer.drop file.rest.length, { rest := [], good := false })
  else (buffer, file)

/-- Port of `ConvolutionalLayer::loadWeights`: the returned flag and the layer after the
call. There is no check of the file size. -/
def ConvolutionalLayer.loadWeights {α : Type} [Zero α] (L : ConvolutionalLayer α)
    (fs : FileSystem α) (filename : String) : Bool × ConvolutionalLayer α :=
  match fs.contents filename with
  | none => (false, L)
  | some contents =>
    let file : IFStream α := { rest := contents, good := true }
    let weightsSize := L.outputChannels * L.inputChannels * L.kernelSize * L.kernelSize * sizeofFloat
    let biasSize := L.outputChannels * sizeofFloat
    let weightsData : List α :=
      List.replicate (L.outputChannels * L.inputChannels * L.kernelSize * L.kernelSize) 0
    let r := file.read weightsData weightsSize
    let weightsData := r.1
    let file := r.2
    let weights := (List.range L.outputChannels).foldl (fun weights (to_ : Nat) =>
      (List.range L.inputChannels).foldl (fun weights (ti : Nat) =>
        (List.range (L.kernelSize * L.kernelSize)).foldl (fun weights (k : Nat) =>
          let idx := to_ * L.inputChannels * L.kernelSize * L.kernelSize +
            ti * L.kernelSize * L.kernelSize + k
          weights.setAt (to_ : Int) (ti : Int) (k : Int) (weightsData.getD idx 0))
          weights) weights) L.weights
    let bias := (file.read L.bias biasSize).1
    (true, { L with weights := weights, bias := bias })

/-- Port of `ConvolutionalLayerV2::loadWeights`: the file size (`tellg` at the end of the
file) is compared with the expected size before anything is read. -/
def ConvolutionalLayerV2.loadWeights {α : Type} [Zero α] (L : ConvolutionalLayerV2 α)
    (fs : FileSystem α) (filename : String) : Bool × ConvolutionalLayerV2 α :=
  match fs.contents filename with
  | none => (false, L)
  | some contents =>
    let file : IFStream α := { rest := contents, good := true }
    let fileSize := contents.length * sizeofFloat
    let weightsSize := L.outputChannels * L.inputChannels * L.kernelSize * L.kernelSize * sizeofFloat
    let biasSize := L.outputChannels * sizeofFloat
    if fileSize ≠ weightsSize + biasSize then (false, L)
    else
      let weightsData : List α :=
        List.replicate (L.outputChannels * L.inputChannels * L.kernelSize * L.kernelSize) 0
      let r := file.read weightsData weightsSize
      let weightsData := r.1
      let file := r.2
      let weights := (List.range L.outputChannels).foldl (fun weights (to_ : Nat) =>
        (List.range L.inputChannels).foldl (fun weights (ti : Nat) =>
          (List.range (L.kernelSize * L.kernelSize)).foldl (fun weights (k : Nat) =>
            let idx := to_ * L.inputChannels * L.kernelSize * L.kernelSize +
              ti * L.kernelSize * L.kernelSize + k
            weights.setAt (to_ : Int) (ti : Int) (k : Int) (weightsData.getD idx 0))
            weights) weights) L.weights
      let bias := (file.read L.bias biasSize).1
      (true, { L with weights := weights, bias := bias })

/-- Port of `FullyConnectedLayer::loadWeights`. There is no check of the file size. -/
def FullyConnectedLayer.loadWeights {α : Type} [Zero α] (F : FullyConnectedLayer α)
    (fs : FileSystem α) (filename : String) : Bool × FullyConnectedLayer α :=
  match fs.contents filename with
  | none => (false, F)
  | some contents =>
    let file : IFStream α := { rest := contents, good := true }
    let weightsSize := F.outputSize * F.inputSize * sizeofFloat
    let biasSize := F.outputSize * sizeofFloat
    let weightsData : List α := List.replicate (F.outputSize * F.inputSize) 0
    let r := file.read weightsData weightsSize
    let weightsData := r.1
    let file := r.2
    let weights := (List.range F.outputSize).foldl (fun weights (i : Nat) =>
      (List.range F.inputSize).foldl (fun weights (j : Nat) =>
        weights.set i ((weights.getD i []).set j (weightsData.getD (i * F.inputSize + j) 0)))
        weights) F.weights
    let bias := (file.read F.bias biasSize).1
    (true, { F with weights := weights, bias := bias })

namespace Layer

variable {α : Type} [Zero α]

/-- Virtual dispatch of `loadWeights`; a pooling layer keeps the default of `Layer`, which
returns `true`. -/
def loadWeights : Layer α → FileSystem α → String → Bool × Layer α
  | conv l, fs, filename => ((l.loadWeights fs filename).1, conv (l.loadWeights fs filename).2)
  | convV2 l, fs, filename => ((l.loadWeights fs filename).1, convV2 (l.loadWeights fs filename).2)
  | pool l, _, _ => (true, pool l)
  | fc l, fs, filename => ((l.loadWeights fs filename).1, fc (l.loadWeights fs filename).2)

/-- The test `dynamic_cast<MaxPoolingLayer*>(layer.get())`. -/
def isMaxPooling : Layer α → Bool
  | pool _ => true
  | _ => false

end Layer

namespace CNN

variable {α : Type} [Zero α]

/-- Body of the layer loop of `loadWeights`. The state is the `success` flag, the layers
visited so far as the call leaves them, and the `(layerName, filename)` pairs of the lines
`Loading weights for layer: ... from ...` written to `std::cout`, one per call of a layer's
`loadWeights`. -/
def loadStep (fs : FileSystem α) (basePath : String)
    (state : Bool × List (Layer α) × List (String × String)) (layer : Layer α) :
    Bool × List (Layer α) × List (String × String) :=
  if layer.isMaxPooling then (state.1, state.2.1 ++ [layer], state.2.2)
  else
    let layerName := layer.getName
    let filename := basePath ++ "/" ++ layerName ++ "_combined.bin"
    let r := layer.loadWeights fs filename
    (if !r.1 then false else state.1, state.2.1 ++ [r.2], state.2.2 ++ [(layerName, filename)])

/-- Port of `CNN::loadWeights` and of `CNNV2::loadWeights` (the same loop; `CNN` first calls
`loadLayerMetadata`, which only fills the table `layerSizes` that no other function reads):
the returned flag, the network after the call and the load lines written to `std::cout`. -/
def loadWeights (net : CNN α) (fs : FileSystem α) (basePath : String) :
    Bool × CNN α × List (String × String) :=
  let r := net.layers.foldl (loadStep fs basePath) (true, [], [])
  (r.1, { layers := r.2.1 }, r.2.2)

end CNN

namespace Example

/-- The tiled layer of `convV2` with all weights zero. -/
def zeroConvV2 : ConvolutionalLayerV2 Int :=
  { name := "conv", inputChannels := 2, outputChannels := 3, kernelSize := 3, stride := 2,
    padding := 1, weights := { depth := 3, height := 2, width := 9, data := List.replicate 54 0 },
    bias := [1, -2, 3], Tm := 2, Tn := 1, Tr := 2, Tc := 1 }

/-- A `2 x 4 x 4` input whose channel 0 has the single largest value `9` at `(1, 2)`. -/
def peak : Tensor3D Int :=
  { depth := 2, height := 4, width := 4,
    data := [0, 1, 2, 3, 1, 2, 9, 3, 0, 1, 2, 3, 3, 2, 1, 0,
             5, 5, 5, 5, 5, 5, 5, 5, 5, 5, 5, 5, 5, 5, 5, 5] }

/-- The input `input` over the rationals. -/
def inputQ : Tensor3D ℚ :=
  { depth := 2, height := 5, width := 4,
    data := (List.range 40).map (fun i => ((i * 7 % 11 : Nat) : ℚ) - 5) }

/-- The weights `weights` over the rationals. -/
def weightsQ : Tensor3D ℚ :=
  { depth := 3, height := 2, width := 9,
    data := (List.range 54).map (fun i => ((i * 5 % 7 : Nat) : ℚ) - 3) }

/-- A final layer with 18 inputs and 2 outputs. -/
def fcQ : FullyConnectedLayer ℚ :=
  { name := "fc8", inputSize := 18, outputSize := 2,
    weights := [List.replicate 18 1, (List.range 18).map (fun i => ((i : Nat) : ℚ) - 9)],
    bias := [0, 1] }

/-- A small direct network: one convolution and one fully-connected layer. -/
def netDirect : CNN ℚ :=
  { layers := [
      Layer.conv { name := "conv", inputChannels := 2, outputChannels := 3, kernelSize := 3,
                   stride := 2, padding := 1, weights := weightsQ, bias := [1, -2, 3] },
      Layer.fc fcQ ] }

/-- The network `netDirect` with the convolution tiled at the default tile sizes. -/
def netTiled : CNN ℚ :=
  { layers := [
      Layer.convV2 { name := "conv", inputChannels := 2, outputChannels := 3, kernelSize := 3,
                     stride := 2, padding := 1, weights := weightsQ, bias := [1, -2, 3],
                     Tm := 64, Tn := 7, Tr := 16, Tc := 16 },
      Layer.fc fcQ ] }

/-- A file system in which every path names an empty file. -/
def emptyFiles : FileSystem Int := { contents := fun _ => some [] }

/-- A file system in which every path names a file of 56 values, one value short of the
`57` values of the layers `conv` and `convV2`. -/
def shortFiles : FileSystem Int :=
  { contents := fun _ => some ((List.range 56).map (fun i => ((i : Nat) : Int) - 20)) }

/-- A file system holding one weight file of `3 * 2 * 3 * 3 + 3 = 57` values. -/
def weightFiles : FileSystem Int :=
  { contents := fun path =>
      if path = "weights/conv_combined.bin" then
        some ((List.range 57).map (fun i => ((i : Nat) : Int) - 20))
      else none }

end Example

end AlexNet


namespace AlexNet

/-! ## HLS accelerator (v3_hls_compatible)

Conventions of this part of the embedding.
* `data_t` (`ap_fixed<12, 6>`) is an arbitrary linearly ordered commutative ring, so
  arithmetic is exact.
* A C array `data_t a[D1][D2][D3]` is the list of its `D1 * D2 * D3` elements in row-major
  order: `a[i][j][k]` is the element at offset `i * D2 * D3 + j * D3 + k`. The memories
  behind the `data_t*` ports are lists as well.
* The `int` parameters, which the accelerator is used with non-negative values of, are
  `Nat`; the input coordinates `h + h_offset * S - P`, which can be negative, are `Int`.
-/

namespace Accelerator

/-- Tile size for output channels (cnn_params.h). -/
def TM : Nat := 8

/-- Tile size for input channels. -/
def TN : Nat := 4

/-- Tile size for output rows. -/
def TR : Nat := 7

/-- Tile size for output columns. -/
def TC : Nat := 7

/-- Largest supported kernel size. -/
def MAX_KERNEL_SIZE : Nat := 5

/-- Largest supported stride. -/
def MAX_STRIDE : Nat := 2

/-- Rows of the input buffer: `TR * MAX_STRIDE + MAX_KERNEL_SIZE - MAX_STRIDE`. -/
def INPUT_TILE_HEIGHT : Nat := TR * MAX_STRIDE + MAX_KERNEL_SIZE - MAX_STRIDE

/-- Columns of the input buffer: `TC * MAX_STRIDE + MAX_KERNEL_SIZE - MAX_STRIDE`. -/
def INPUT_TILE_WIDTH : Nat := TC * MAX_STRIDE + MAX_KERNEL_SIZE - MAX_STRIDE

/-- The struct `LayerConfig` (cnn_types.h). -/
structure LayerConfig where
  input_channels : Nat
  output_channels : Nat
  input_height : Nat
  input_width : Nat
  output_height : Nat
  output_width : Nat
  kernel_size : Nat
  stride : Nat
  padding : Nat

/-- Offset of `a[i][j][k]` in a C array `a[D1][D2][D3]`. -/
def at3 (D2 D3 i j k : Nat) : Nat := i * D2 * D3 + j * D3 + k

variable {α : Type} [LinearOrderedCommRing α]

/-- Port of `load_input_tile` (data_mover.cpp): the input buffer after the call. The local
`row_buffer`, whose elements are all assigned before they are read, starts as zeros. -/
def load_input_tile (input_ddr : List α) (input_buffer : List α)
    (n_offset h_offset w_offset N H W S P : Nat) : List α :=
  let n_limit := if n_offset + TN > N then N - n_offset else TN
  let input_buffer := (List.range TN).foldl (fun input_buffer (n : Nat) =>
    (List.range INPUT_TILE_HEIGHT).foldl (fun input_buffer (h : Nat) =>
      (List.range INPUT_TILE_WIDTH).foldl (fun input_buffer (w : Nat) =>
        input_buffer.set (at3 INPUT_TILE_HEIGHT INPUT_TILE_WIDTH n h w) 0)
        input_buffer) input_buffer) input_buffer
  (List.range n_limit).foldl (fun input_buffer (n : Nat) =>
    (List.range INPUT_TILE_HEIGHT).foldl (fun input_buffer (h : Nat) =>
      let row_buffer := (List.range INPUT_TILE_WIDTH).foldl (fun row_buffer (w : Nat) =>
        let input_h : Int := (h : Int) + (h_offset : Int) * S - P
        let input_w : Int := (w : Int) + (w_offset : Int) * S - P
        if 0 ≤ input_h ∧ input_h < H ∧ 0 ≤ input_w ∧ input_w < W then
          let input_idx : Int := ((n + n_offset : Nat) : Int) * H * W + input_h * W + input_w
          row_buffer.set w (input_ddr.getD input_idx.toNat 0)
        else row_buffer.set w 0) (List.replicate INPUT_TILE_WIDTH (0 : α))
      (List.range INPUT_TILE_WIDTH).foldl (fun input_buffer (w : Nat) =>
        input_buffer.set (at3 INPUT_TILE_HEIGHT INPUT_TILE_WIDTH n h w) (row_buffer.getD w 0))
        input_buffer) input_buffer) input_buffer

/-- Port of `load_weight_tile`: the weight buffer after the call. The loop
`for (k_base = 0; k_base < K2; k_base += 4)` takes the values `tileStarts K2 4`. -/
def load_weight_tile (weights_ddr : List α) (weight_buffer : List α)
    (m_offset n_offset M N K : Nat) : List α :=
  let m_limit := if m_offset + TM > M then M - m_offset else TM
  let n_limit := if n_offset + TN > N then N - n_offset else TN
  let K2 := K * K
  let weight_buffer := (List.range TM).foldl (fun weight_buffer (m : Nat) =>
    (List.range TN).foldl (fun weight_buffer (n : Nat) =>
      (List.range (MAX_KERNEL_SIZE * MAX_KERNEL_SIZE)).foldl (fun weight_buffer (k : Nat) =>
        weight_buffer.set (at3 TN (MAX_KERNEL_SIZE * MAX_KERNEL_SIZE) m n k) 0)
        weight_buffer) weight_buffer) weight_buffer
  (List.range m_limit).foldl (fun weight_buffer (m : Nat) =>
    (List.range n_limit).foldl (fun weight_buffer (n : Nat) =>
      (tileStarts K2 4).foldl (fun weight_buffer (k_base : Nat) =>
        let k_limit := if k_base + 4 ≤ K2 then 4 else K2 - k_base
        (List.range k_limit).foldl (fun weight_buffer (k_offset : Nat) =>
          let k := k_base + k_offset
          let weight_idx := (m + m_offset) * N * K2 + (n + n_offset) * K2 + k
          weight_buffer.set (at3 TN (MAX_KERNEL_SIZE * MAX_KERNEL_SIZE) m n k)
            (weights_ddr.getD weight_idx 0))
          weight_buffer) weight_buffer) weight_buffer) weight_buffer

/-- Port of `load_bias`: the bias buffer after the call. -/
def load_bias (bias_ddr : List α) (bias_buffer : List α) (m_offset M : Nat) : List α :=
  let m_limit := if m_offset + TM > M then M - m_offset else TM
  let bias_buffer := (List.range TM).foldl (fun bias_buffer (m : Nat) =>
    bias_buffer.set m 0) bias_buffer
  (List.range m_limit).foldl (fun bias_buffer (m : Nat) =>
    bias_buffer.set m (bias_ddr.getD (m + m_offset) 0)) bias_buffer

/-- Port of `init_output_buffer` (buffer_manager.cpp): the output buffer after the call. -/
def init_output_buffer (output_buffer : List α) (bias_buffer : List α) (tm_bound : Nat) :
    List α :=
  (List.range TM).foldl (fun output_buffer (too : Nat) =>
    (List.range TR).foldl (fun output_buffer (trr : Nat) =>
      (List.range TC).foldl (fun output_buffer (tcc : Nat) =>
        output_buffer.set (at3 TR TC too trr tcc)
          (if too < tm_bound then bias_buffer.getD too 0 else 0))
        output_buffer) output_buffer) output_buffer

/-- Port of `store_output_tile`: the memory behind `output_ddr` after the call. The local
`row_buffer` starts as zeros; the elements read from it are assigned first. -/
def store_output_tile (output_ddr : List α) (output_buffer : List α)
    (m_offset h_offset w_offset M R C : Nat) : List α :=
  let m_limit := if m_offset + TM > M then M - m_offset else TM
  let r_limit := if h_offset + TR > R then R - h_offset else TR
  let c_limit := if w_offset + TC > C then C - w_offset else TC
  (List.range m_limit).foldl (fun output_ddr (m : Nat) =>
    (List.range r_limit).foldl (fun output_ddr (r : Nat) =>
      let row_buffer := (List.range c_limit).foldl (fun row_buffer (c : Nat) =>
        row_buffer.set c (output_buffer.getD (at3 TR TC m r c) 0)) (List.replicate TC (0 : α))
      (List.range c_limit).foldl (fun output_ddr (c : Nat) =>
        let output_idx := (m + m_offset) * R * C + (r + h_offset) * C + (c + w_offset)
        output_ddr.set output_idx (row_buffer.getD c 0)) output_ddr) output_ddr) output_ddr

/-- Port of `compute_tile` (compute_engine.cpp): the output buffer after the call. The loop
`for (too_base = 0; too_base < tm_bound; too_base += 2)` takes the values
`tileStarts tm_bound 2`. -/
def compute_tile (input_buffer weight_buffer output_buffer : List α)
    (kernel_size stride tm_bound tn_bound tr_bound tc_bound : Nat) : List α :=
  (List.range kernel_size).foldl (fun output_buffer (i : Nat) =>
    (List.range kernel_size).foldl (fun output_buffer (j : Nat) =>
      (List.range tr_bound).foldl (fun output_buffer (trr : Nat) =>
        (List.range tc_bound).foldl (fun output_buffer (tcc : Nat) =>
          let h := trr * stride + i
          let w := tcc * stride + j
          let k_idx := i * kernel_size + j
          (tileStarts tm_bound 2).foldl (fun output_buffer (too_base : Nat) =>
            let too_limit := if too_base + 2 ≤ tm_bound then 2 else tm_bound - too_base
            (List.range tn_bound).foldl (fun output_buffer (tii : Nat) =>
              (List.range too_limit).foldl (fun output_buffer (too_offset : Nat) =>
                let too := too_base + too_offset
                output_buffer.set (at3 TR TC too trr tcc)
                  (output_buffer.getD (at3 TR TC too trr tcc) 0 +
                    weight_buffer.getD (at3 TN (MAX_KERNEL_SIZE * MAX_KERNEL_SIZE) too tii k_idx) 0 *
                    input_buffer.getD (at3 INPUT_TILE_HEIGHT INPUT_TILE_WIDTH tii h w) 0))
                output_buffer) output_buffer) output_buffer)
          output_buffer) output_buffer) output_buffer) output_buffer

/-- Port of `apply_relu`: the buffer after the call. -/
def apply_relu (buffer : List α) (tm tr tc : Nat) : List α :=
  (List.range tm).foldl (fun buffer (too : Nat) =>
    (List.range tr).foldl (fun buffer (trr : Nat) =>
      (List.range tc).foldl (fun buffer (tcc : Nat) =>
        if buffer.getD (at3 TR TC too trr tcc) 0 < 0 then
          buffer.set (at3 TR TC too trr tcc) 0
        else buffer) buffer) buffer) buffer

/-- The on-chip buffers of `fashion_mnist_cnn_accelerator` and the memory behind
`output_ddr`: the state its loops change. -/
structure Memory (α : Type) where
  input_buffer : List α
  weight_buffer : List α
  output_buffer : List α
  bias_buffer : List α
  output_ddr : List α

/-- Body of `tn_loop`: load the weight and input tiles, accumulate into the output buffer. -/
def tnStep (input_ddr weights_ddr : List α) (N M input_H input_W K S P : Nat)
    (m_offset r_offset c_offset tm_bound tr_bound tc_bound : Nat) (mem : Memory α) (tn : Nat) :
    Memory α :=
  let n_offset := tn * TN
  let tn_bound := if N - n_offset < TN then N - n_offset else TN
  let weight_buffer := load_weight_tile weights_ddr mem.weight_buffer m_offset n_offset M N K
  let input_buffer := load_input_tile input_ddr mem.input_buffer n_offset r_offset c_offset N input_H input_W S P
  let output_buffer := compute_tile input_buffer weight_buffer mem.output_buffer K S tm_bound tn_bound tr_bound tc_bound
  { mem with weight_buffer := weight_buffer, input_buffer := input_buffer, output_buffer := output_buffer }

/-- Body of `tc_loop`: one output tile. -/
def tcStep (input_ddr weights_ddr : List α) (N M input_H input_W output_H output_W K S P : Nat)
    (tn_steps m_offset tm_bound r_offset tr_bound : Nat) (mem : Memory α) (tc : Nat) :
    Memory α :=
  let c_offset := tc * TC
  let tc_bound := if output_W - c_offset < TC then output_W - c_offset else TC
  let output_buffer := init_output_buffer mem.output_buffer mem.bias_buffer tm_bound
  let mem := { mem with output_buffer := output_buffer }
  let mem := (List.range tn_steps).foldl
    (tnStep input_ddr weights_ddr N M input_H input_W K S P m_offset r_offset c_offset
      tm_bound tr_bound tc_bound) mem
  let output_buffer := apply_relu mem.output_buffer tm_bound tr_bound tc_bound
  let output_ddr := store_output_tile mem.output_ddr output_buffer m_offset r_offset c_offset M output_H output_W
  { mem with output_buffer := output_buffer, output_ddr := output_ddr }

/-- Body of `tr_loop`. -/
def trStep (input_ddr weights_ddr : List α) (N M input_H input_W output_H output_W K S P : Nat)
    (tn_steps tc_steps m_offset tm_bound : Nat) (mem : Memory α) (tr : Nat) : Memory α :=
  let r_offset := tr * TR
  let tr_bound := if output_H - r_offset < TR then output_H - r_offset else TR
  (List.range tc_steps).foldl
    (tcStep input_ddr weights_ddr N M input_H input_W output_H output_W K S P tn_steps
      m_offset tm_bound r_offset tr_bound) mem

/-- Body of `tm_loop`. -/
def tmStep (input_ddr weights_ddr bias_ddr : List α)
    (N M input_H input_W output_H output_W K S P : Nat)
    (tn_steps tr_steps tc_steps : Nat) (mem : Memory α) (tm : Nat) : Memory α :=
  let m_offset := tm * TM
  let tm_bound := if M - m_offset < TM then M - m_offset else TM
  let bias_buffer := load_bias bias_ddr mem.bias_buffer m_offset M
  let mem := { mem with bias_buffer := bias_buffer }
  (List.range tr_steps).foldl
    (trStep input_ddr weights_ddr N M input_H input_W output_H output_W K S P tn_steps
      tc_steps m_offset tm_bound) mem

/-- Port of `fashion_mnist_cnn_accelerator` (cnn_top.cpp): the memory behind `output_ddr`
after the call. `mem` holds the contents the local buffers start with, which the source
leaves indeterminate, and the initial contents of the output memory. -/
def fashion_mnist_cnn_accelerator (input_ddr weights_ddr bias_ddr : List α)
    (layer_config : LayerConfig) (_layer_idx : Int) (mem : Memory α) : List α :=
  let N := layer_config.input_channels
  let M := layer_config.output_channels
  let input_H := layer_config.input_height
  let input_W := layer_config.input_width
  let output_H := layer_config.output_height
  let output_W := layer_config.output_width
  let K := layer_config.kernel_size
  let S := layer_config.stride
  let P := layer_config.padding
  if N ≤ TN ∧ M ≤ TM ∧ output_H ≤ TR ∧ output_W ≤ TC then
    let bias_buffer := load_bias bias_ddr mem.bias_buffer 0 M
    let weight_buffer := load_weight_tile weights_ddr mem.weight_buffer 0 0 M N K
    let input_buffer := load_input_tile input_ddr mem.input_buffer 0 0 0 N input_H input_W S P
    let output_buffer := init_output_buffer mem.output_buffer bias_buffer M
    let output_buffer := compute_tile input_buffer weight_buffer output_buffer K S M N output_H output_W
    let output_buffer := apply_relu output_buffer M output_H output_W
    store_output_tile mem.output_ddr output_buffer 0 0 0 M output_H output_W
  else
    let tm_steps := (M + TM - 1) / TM
    let tn_steps := (N + TN - 1) / TN
    let tr_steps := (output_H + TR - 1) / TR
    let tc_steps := (output_W + TC - 1) / TC
    ((List.range tm_steps).foldl
      (tmStep input_ddr weights_ddr bias_ddr N M input_H input_W output_H output_W K S P
        tn_steps tr_steps tc_steps) mem).output_ddr

/-- Body of the `kw` loop of `conv2d_reference` (cnn_top_test.cpp): one guarded
multiply-accumulate into `output[out_idx]`. -/
def conv2d_reference_tap (input weights : List α)
    (in_channels in_height in_width kernel_size stride padding : Nat)
    (oc oh ow out_idx ic kh : Nat) (output : List α) (kw : Nat) : List α :=
  let ih : Int := (oh : Int) * stride + kh - padding
  let iw : Int := (ow : Int) * stride + kw - padding
  if ih < 0 ∨ ih ≥ in_height ∨ iw < 0 ∨ iw ≥ in_width then output
  else
    let in_idx : Int := (ic : Int) * in_height * in_width + ih * in_width + iw
    let in_val := input.getD in_idx.toNat 0
    let w_idx := oc * in_channels * kernel_size * kernel_size +
      ic * kernel_size * kernel_size + kh * kernel_size + kw
    let w_val := weights.getD w_idx 0
    output.set out_idx (output.getD out_idx 0 + in_val * w_val)

/-- Body of the `ow` loop of `conv2d_reference`: bias, accumulation, ReLU of one cell. -/
def conv2d_reference_cell (input weights bias : List α)
    (in_channels in_height in_width out_height out_width kernel_size stride padding : Nat)
    (oc oh : Nat) (output : List α) (ow : Nat) : List α :=
  let out_idx := oc * out_height * out_width + oh * out_width + ow
  let output := output.set out_idx (bias.getD oc 0)
  let output := (List.range in_channels).foldl (fun output (ic : Nat) =>
    (List.range kernel_size).foldl (fun output (kh : Nat) =>
      (List.range kernel_size).foldl
        (conv2d_reference_tap input weights in_channels in_height in_width kernel_size stride
          padding oc oh ow out_idx ic kh) output) output) output
  if output.getD out_idx 0 < 0 then output.set out_idx 0 else output

/-- Port of `conv2d_reference`: the vector `output` after the call. -/
def conv2d_reference (input weights bias output : List α)
    (in_channels in_height in_width out_channels out_height out_width : Nat)
    (kernel_size stride padding : Nat) : List α :=
  let output := List.replicate output.length (0 : α)
  (List.range out_channels).foldl (fun output (oc : Nat) =>
    (List.range out_height).foldl (fun output (oh : Nat) =>
      (List.range out_width).foldl
        (conv2d_reference_cell input weights bias in_channels in_height in_width out_height
          out_width kernel_size stride padding oc oh) output) output) output

/-- The input value at channel `ic`, row `ih`, column `iw` of the zero-padded input held in
the memory `input`. -/
def ddrPadded (input : List α) (H W : Nat) (ic : Nat) (ih iw : Int) : α :=
  if 0 ≤ ih ∧ ih < H ∧ 0 ≤ iw ∧ iw < W then
    input.getD ((ic : Int) * H * W + ih * W + iw).toNat 0
  else 0

/-- The value of output cell `(oc, oh, ow)`: bias plus zero-padded convolution sum, then
ReLU. -/
def refValue (input weights bias : List α) (N H W K S P : Nat) (oc oh ow : Nat) : α :=
  max 0 (bias.getD oc 0 + ∑ ic ∈ Finset.range N, ∑ kh ∈ Finset.range K, ∑ kw ∈ Finset.range K,
    weights.getD (oc * N * K * K + ic * K * K + kh * K + kw) 0 *
      ddrPadded input H W ic ((oh : Int) * S + kh - P) ((ow : Int) * S + kw - P))

/-- The local buffers have the sizes of their declarations. -/
def Memory.Sized (mem : Memory α) : Prop :=
  mem.input_buffer.length = TN * INPUT_TILE_HEIGHT * INPUT_TILE_WIDTH ∧
  mem.weight_buffer.length = TM * TN * (MAX_KERNEL_SIZE * MAX_KERNEL_SIZE) ∧
  mem.output_buffer.length = TM * TR * TC ∧
  mem.bias_buffer.length = TM

/-- The state inside `tm_loop`: buffers of the declared sizes, an output memory of at least
`M * R * C` elements, and the bias buffer holding the biases of the current output-channel
tile. -/
def Memory.Ready (bias_ddr : List α) (M R C m_offset tm_bound : Nat) (mem : Memory α) : Prop :=
  mem.Sized ∧ M * R * C ≤ mem.output_ddr.length ∧
  ∀ x, x < tm_bound → mem.bias_buffer.getD x 0 = bias_ddr.getD (x + m_offset) 0

/-- The output memory seen as a function of the output cell `(oc, oh, ow)`. -/
def Memory.cell (R C : Nat) (mem : Memory α) (c : Nat × Nat × Nat) : α :=
  mem.output_ddr.getD (at3 R C c.1 c.2.1 c.2.2) 0

/-- Output cells of an `M x R x C` output. -/
def InOutput (M R C : Nat) (c : Nat × Nat × Nat) : Prop := c.1 < M ∧ c.2.1 < R ∧ c.2.2 < C

end Accelerator

namespace Example

/-- The configuration of the test in `cnn_top_test.cpp`: `2 x 7 x 7` to `4 x 5 x 5`, kernel 3,
stride 1, no padding; it fits one tile. -/
def testConfig : Accelerator.LayerConfig :=
  { input_channels := 2, output_channels := 4, input_height := 7, input_width := 7,
    output_height := 5, output_width := 5, kernel_size := 3, stride := 1, padding := 0 }

/-- A configuration that takes the tiled path: `5 x 9 x 9` to `9 x 5 x 8`, kernel 2, stride 2,
padding 1. -/
def tiledConfig : Accelerator.LayerConfig :=
  { input_channels := 5, output_channels := 9, input_height := 9, input_width := 9,
    output_height := 5, output_width := 8, kernel_size := 2, stride := 2, padding := 1 }

/-- Local buffers and output memory filled with the value `7`. -/
def dirtyMemory (outputSize : Nat) : Accelerator.Memory Int :=
  { input_buffer := List.replicate (4 * 17 * 17) 7, weight_buffer := List.replicate (8 * 4 * 25) 7,
    output_buffer := List.replicate (8 * 7 * 7) 7, bias_buffer := List.replicate 8 7,
    output_ddr := List.replicate outputSize 7 }

/-- Test data: `n` values between `-4` and `4`. -/
def testData (n seed : Nat) : List Int :=
  (List.range n).map (fun i => (((i * seed + 3) % 9 : Nat) : Int) - 4)

end Example

end AlexNet


namespace AlexNet

/-! ## Checked execution

The source indexes tensors and staging buffers without a range test; an access outside the
declared range is undefined behaviour. The definitions of this section repeat the loop
nests with every such access tested: the result is `none` as soon as one access is out of
range. -/

namespace Tensor3D

variable {α : Type}

/-- Read through `at(d, h, w)`, tested against the declared shape. -/
def atChecked [Zero α] (t : Tensor3D α) (d h w : Int) : Option α :=
  if 0 ≤ d ∧ d < t.depth ∧ 0 ≤ h ∧ h < t.height ∧ 0 ≤ w ∧ w < t.width then
    some (t.at_ d h w)
  else none

/-- Write through `at(d, h, w) = v`, tested against the declared shape. -/
def setAtChecked (t : Tensor3D α) (d h w : Int) (v : α) : Option (Tensor3D α) :=
  if 0 ≤ d ∧ d < t.depth ∧ 0 ≤ h ∧ h < t.height ∧ 0 ≤ w ∧ w < t.width then
    some (t.setAt d h w v)
  else none

/-- The declared dimensions of a tensor. -/
def Dims (t : Tensor3D α) (D H W : Int) : Prop :=
  t.depth = D ∧ t.height = H ∧ t.width = W

end Tensor3D

namespace ConvolutionalLayer

variable {α : Type} [LinearOrderedCommRing α]

/-- The body of the `j` loop of `forward` with the three tensor accesses tested. -/
def macStepChecked (L : ConvolutionalLayer α) (input : Tensor3D α) (row col to_ ti i : Nat)
    (output : Tensor3D α) (j : Nat) : Option (Tensor3D α) :=
  let inputRow : Int := (L.stride : Int) * row + i - L.padding
  let inputCol : Int := (L.stride : Int) * col + j - L.padding
  if 0 ≤ inputRow ∧ inputRow < input.getHeight ∧ 0 ≤ inputCol ∧ inputCol < input.getWidth then
    let weightIdx : Nat := i * L.kernelSize + j
    do
      let weight ← L.weights.atChecked to_ ti weightIdx
      let value ← input.atChecked ti inputRow inputCol
      let old ← output.atChecked to_ row col
      output.setAtChecked to_ row col (old + weight * value)
  else some output

/-- The body of the `to_` loop of `forward` with every tensor access tested. -/
def cellStepChecked (L : ConvolutionalLayer α) (input : Tensor3D α) (row col : Nat)
    (output : Tensor3D α) (to_ : Nat) : Option (Tensor3D α) := do
  let output ← output.setAtChecked to_ row col (L.bias.getD to_ 0)
  let output ← (List.range L.inputChannels).foldlM (fun output ti =>
    (List.range L.kernelSize).foldlM (fun output i =>
      (List.range L.kernelSize).foldlM (fun output j =>
        L.macStepChecked input row col to_ ti i output j) output) output) output
  let old ← output.atChecked to_ row col
  output.setAtChecked to_ row col (max 0 old)

/-- The loop nest of `ConvolutionalLayer::forward` with every tensor access tested. -/
def forwardChecked (L : ConvolutionalLayer α) (input : Tensor3D α) : Option (Tensor3D α) :=
  let inputHeight := input.getHeight
  let inputWidth := input.getWidth
  let outputHeight := convOutDim inputHeight L.kernelSize L.stride L.padding
  let outputWidth := convOutDim inputWidth L.kernelSize L.stride L.padding
  match Tensor3D.new (L.outputChannels : Int) outputHeight outputWidth (0 : α) with
  | none => none
  | some output =>
    (List.range outputHeight.toNat).foldlM (fun output row =>
      (List.range outputWidth.toNat).foldlM (fun output col =>
        (List.range L.outputChannels).foldlM (fun output to_ =>
          L.cellStepChecked input row col output to_) output) output) output

end ConvolutionalLayer

namespace MaxPoolingLayer

variable {α : Type} [LinearOrderedCommRing α]

/-- The window scan of `forward` with every read of the input tested. -/
def windowMaxChecked (P : MaxPoolingLayer) (input : Tensor3D α) (c row col : Nat) : Option α :=
  (List.range P.poolSize).foldlM (fun maxVal (i : Nat) =>
    (List.range P.poolSize).foldlM (fun maxVal (j : Nat) =>
      let h : Int := (row : Int) * P.stride + i
      let w : Int := (col : Int) * P.stride + j
      do
        let value ← input.atChecked c h w
        some (max maxVal value)) maxVal) (-FLT_MAX)

/-- The loop nest of `MaxPoolingLayer::forward` with every tensor access tested. -/
def forwardChecked (P : MaxPoolingLayer) (input : Tensor3D α) : Option (Tensor3D α) :=
  let channels := input.getDepth
  let inputHeight := input.getHeight
  let inputWidth := input.getWidth
  let outputHeight := poolOutDim inputHeight P.poolSize P.stride
  let outputWidth := poolOutDim inputWidth P.poolSize P.stride
  match Tensor3D.new channels outputHeight outputWidth (0 : α) with
  | none => none
  | some output =>
    (List.range channels.toNat).foldlM (fun output c =>
      (List.range outputHeight.toNat).foldlM (fun output row =>
        (List.range outputWidth.toNat).foldlM (fun output col => do
          let maxVal ← P.windowMaxChecked input c row col
          output.setAtChecked (c : Nat) (row : Nat) (col : Nat) maxVal) output) output) output

end MaxPoolingLayer

namespace ConvolutionalLayerV2

variable {α : Type} [LinearOrderedCommRing α]

/-- The macro `PROCESS_TII(index)` with the three buffer accesses tested against the buffer
sizes. -/
def processTiiChecked (L : ConvolutionalLayerV2 α) (i j trr tcc tiStart tiEnd : Nat)
    (weightIdxBase outputIdx : Nat) (buffers : TileBuffers α) (index : Nat) :
    Option (TileBuffers α) :=
  if tiStart + index < tiEnd then
    let tii := tiStart + index
    let h := trr * L.stride + i
    let w := tcc * L.stride + j
    let inputIdx := (tii - tiStart) * buffers.tileInputHeight * buffers.tileInputWidth +
      h * buffers.tileInputWidth + w
    do
      let weight ← buffers.weightBuffer[weightIdxBase +
        (tii - tiStart) * L.kernelSize * L.kernelSize + i * L.kernelSize + j]?
      let value ← buffers.inputBuffer[inputIdx]?
      let old ← buffers.outputBuffer[outputIdx]?
      some { buffers with outputBuffer := buffers.outputBuffer.set outputIdx (old + weight * value) }
  else some buffers

/-- Checked form of `computeTileUnitTii`. -/
def computeTileUnitTiiChecked (L : ConvolutionalLayerV2 α) (buffers : TileBuffers α)
    (i j trr tcc tiStart tiEnd too toStartOffset : Nat) : Option (TileBuffers α) :=
  let tooOffset := (too - toStartOffset) * buffers.tileRows * buffers.tileCols
  let weightIdxBase := (too - toStartOffset) * buffers.tiSize * L.kernelSize * L.kernelSize
  let outputIdx := tooOffset + trr * buffers.tileCols + tcc
  let tiiLimit := min L.Tn (tiEnd - tiStart)
  do
    let buffers ← L.processTiiChecked i j trr tcc tiStart tiEnd weightIdxBase outputIdx buffers 0
    let buffers ← L.processTiiChecked i j trr tcc tiStart tiEnd weightIdxBase outputIdx buffers 1
    let buffers ← L.processTiiChecked i j trr tcc tiStart tiEnd weightIdxBase outputIdx buffers 2
    let buffers ← L.processTiiChecked i j trr tcc tiStart tiEnd weightIdxBase outputIdx buffers 3
    let buffers ← L.processTiiChecked i j trr tcc tiStart tiEnd weightIdxBase outputIdx buffers 4
    let buffers ← L.processTiiChecked i j trr tcc tiStart tiEnd weightIdxBase outputIdx buffers 5
    let buffers ← L.processTiiChecked i j trr tcc tiStart tiEnd weightIdxBase outputIdx buffers 6
    (List.range' 7 (tiiLimit - 7)).foldlM
      (L.processTiiChecked i j trr tcc tiStart tiEnd weightIdxBase outputIdx) buffers

/-- Checked form of the macro `PROCESS_TOO(index)`. -/
def processTooChecked (L : ConvolutionalLayerV2 α)
    (i j trr tcc tiStart tiEnd toStart toEnd : Nat) (buffers : TileBuffers α) (index : Nat) :
    Option (TileBuffers α) :=
  if toStart + index < toEnd then
    L.computeTileUnitTiiChecked buffers i j trr tcc tiStart tiEnd (toStart + index) toStart
  else some buffers

/-- Checked form of `computeTileUnitToo`. -/
def computeTileUnitTooChecked (L : ConvolutionalLayerV2 α) (buffers : TileBuffers α)
    (i j trr tcc tiStart tiEnd toStart toEnd : Nat) : Option (TileBuffers α) :=
  let tooLimit := min L.Tm (toEnd - toStart)
  do
    let buffers ← L.processTooChecked i j trr tcc tiStart tiEnd toStart toEnd buffers 0
    let buffers ← L.processTooChecked i j trr tcc tiStart tiEnd toStart toEnd buffers 1
    let buffers ← L.processTooChecked i j trr tcc tiStart tiEnd toStart toEnd buffers 2
    let buffers ← L.processTooChecked i j trr tcc tiStart tiEnd toStart toEnd buffers 3
    (List.range' 4 (tooLimit - 4)).foldlM
      (L.processTooChecked i j trr tcc tiStart tiEnd toStart toEnd) buffers

/-- Checked form of `processTile`. -/
def processTileChecked (L : ConvolutionalLayerV2 α) (buffers : TileBuffers α)
    (tiStart tiEnd toStart toEnd : Nat) : Option (TileBuffers α) :=
  (List.range L.kernelSize).foldlM (fun b i =>
    (List.range L.kernelSize).foldlM (fun b j =>
      (List.range buffers.tileRows).foldlM (fun b trr =>
        (List.range buffers.tileCols).foldlM (fun b tcc =>
          L.computeTileUnitTooChecked b i j trr tcc tiStart tiEnd toStart toEnd)
          b) b) b) buffers

/-! ## The tile computation as ordinary nested loops -/

/-- One multiply-accumulate of the tile computation:
`outputBuffer[out(too, trr, tcc)] += weightBuffer[w(too, tii, i, j)] *
inputBuffer[in(tii, trr * S + i, tcc * S + j)]`. -/
def tileMac (L : ConvolutionalLayerV2 α) (tiStart toStart : Nat) (b : TileBuffers α)
    (i j trr tcc too tii : Nat) : TileBuffers α :=
  let out := (too - toStart) * b.tileRows * b.tileCols + trr * b.tileCols + tcc
  let w := (too - toStart) * b.tiSize * L.kernelSize * L.kernelSize +
    (tii - tiStart) * L.kernelSize * L.kernelSize + i * L.kernelSize + j
  let inp := (tii - tiStart) * b.tileInputHeight * b.tileInputWidth +
    (trr * L.stride + i) * b.tileInputWidth + (tcc * L.stride + j)
  { b with outputBuffer :=
      b.outputBuffer.set out (b.outputBuffer.getD out 0 + b.weightBuffer.getD w 0 * b.inputBuffer.getD inp 0) }

/-- Specification form of `processTile`: ordinary nested loops over the run-time tile
widths, in the order kernel row, kernel column, output row in tile, output column in tile,
output channel in tile, input channel in tile, one multiply-accumulate per iteration and no
unrolled macro. -/
def processTileLoops (L : ConvolutionalLayerV2 α) (buffers : TileBuffers α)
    (tiStart tiEnd toStart toEnd : Nat) : TileBuffers α :=
  (List.range L.kernelSize).foldl (fun b i =>
    (List.range L.kernelSize).foldl (fun b j =>
      (List.range buffers.tileRows).foldl (fun b trr =>
        (List.range buffers.tileCols).foldl (fun b tcc =>
          (List.range' toStart (toEnd - toStart)).foldl (fun b too =>
            (List.range' tiStart (tiEnd - tiStart)).foldl (fun b tii =>
              L.tileMac tiStart toStart b i j trr tcc too tii) b) b) b) b) b) buffers

end ConvolutionalLayerV2

/-- The buffers `b` have the sizes the constructor `TileBuffers(tm, tn, tr, tc, k, s)` gives
them; the contents are arbitrary. -/
def TileBuffers.SizedAs {α : Type} [Zero α] (b : TileBuffers α) (tm tn tr tc k s : Nat) : Prop :=
  b.tileRows = tr ∧ b.tileCols = tc ∧ b.tiSize = tn ∧ b.toSize = tm ∧
  b.tileInputHeight = (TileBuffers.new tm tn tr tc k s : TileBuffers α).tileInputHeight ∧
  b.tileInputWidth = (TileBuffers.new tm tn tr tc k s : TileBuffers α).tileInputWidth ∧
  b.inputBuffer.length = (TileBuffers.new tm tn tr tc k s : TileBuffers α).inputBuffer.length ∧
  b.weightBuffer.length = (TileBuffers.new tm tn tr tc k s : TileBuffers α).weightBuffer.length ∧
  b.outputBuffer.length = (TileBuffers.new tm tn tr tc k s : TileBuffers α).outputBuffer.length

namespace Example

/-- The layer of the two-tile example: 2 input channels, 1 output channel, kernel 1, stride 1,
no padding, zero bias, weights `2` and `-1`, and one input channel per tile. -/
def reluV2 : ConvolutionalLayerV2 Int :=
  { name := "relu", inputChannels := 2, outputChannels := 1, kernelSize := 1, stride := 1,
    padding := 0, weights := { depth := 1, height := 2, width := 1, data := [2, -1] },
    bias := [0], Tm := 1, Tn := 1, Tr := 1, Tc := 1 }

/-- A `2 x 1 x 1` input of ones. -/
def ones : Tensor3D Int := { depth := 2, height := 1, width := 1, data := [1, 1] }

/-- The staging buffers of the tile of `reluV2` on `ones` that starts at input channel `ti`,
after `processTile`. -/
def reluTile (ti : Nat) : TileBuffers Int :=
  reluV2.processTile (ConvolutionalLayerV2.initOutputTileZero (reluV2.loadWeightTile
    (reluV2.loadInputTile ones (TileBuffers.new 1 1 1 1 1 1) ti (ti + 1) 0 1 0 1)
    0 1 ti (ti + 1))) ti (ti + 1) 0 1

/-- A pooling layer with window 3 and stride 2, as in the network. -/
def pool : MaxPoolingLayer := { name := "pool", poolSize := 3, stride := 2 }

/-- Staging buffers of a tile of `convV2` (2 output channels, 1 input channel, 2 rows,
1 column) with arbitrary contents. -/
def buffers : TileBuffers Int :=
  { inputBuffer := (List.range 15).map (fun i => ((i * 3 % 7 : Nat) : Int) - 3),
    weightBuffer := (List.range 18).map (fun i => ((i * 5 % 11 : Nat) : Int) - 5),
    outputBuffer := [4, -1, 0, 7],
    tileRows := 2, tileCols := 1, tileInputHeight := 5, tileInputWidth := 3,
    tiSize := 1, toSize := 2 }

/-- A tiled layer whose tile widths (5 output channels, 9 input channels) exceed the unroll
factors 4 and 7 of the macros; kernel 1, stride 1. -/
def wideV2 : ConvolutionalLayerV2 Int :=
  { name := "wide", inputChannels := 9, outputChannels := 5, kernelSize := 1, stride := 1,
    padding := 0,
    weights := { depth := 5, height := 9, width := 1,
                 data := (List.range 45).map (fun i => ((i * 4 % 7 : Nat) : Int) - 3) },
    bias := [0, 0, 0, 0, 0], Tm := 5, Tn := 9, Tr := 1, Tc := 1 }

/-- Staging buffers of the single tile of `wideV2` on a `9 x 1 x 1` input. -/
def wideBuffers : TileBuffers Int :=
  { inputBuffer := (List.range 9).map (fun i => ((i * 2 % 5 : Nat) : Int) - 2),
    weightBuffer := (List.range 45).map (fun i => ((i * 4 % 7 : Nat) : Int) - 3),
    outputBuffer := [0, 0, 0, 0, 0],
    tileRows := 1, tileCols := 1, tileInputHeight := 1, tileInputWidth := 1,
    tiSize := 9, toSize := 5 }

/-- A `3 x 3 x 2` output tensor with arbitrary contents. -/
def output : Tensor3D Int :=
  { depth := 3, height := 3, width := 2,
    data := (List.range 18).map (fun i => ((i * 4 % 9 : Nat) : Int) - 4) }

end Example

end AlexNet


namespace AlexNet

/-! ## 32-bit `int` arithmetic of the layer engine

The embedding computes element counts and flat indices in unbounded integers. The
definitions of this section repeat the `int` products of construction, `forward` and
`loadWeights` in two's-complement 32-bit arithmetic, to compare the two. -/

/-- Result of an `int` operation whose mathematical value is `z`: the value wrapped to the
range of a 32-bit two's-complement integer. -/
def wrap32 (z : Int) : Int := (z + 2 ^ 31) % 2 ^ 32 - 2 ^ 31

/-- Product `a * b` of two `int` values. -/
def mul32 (a b : Int) : Int := wrap32 (a * b)

/-- Sum `a + b` of two `int` values. -/
def add32 (a b : Int) : Int := wrap32 (a + b)

/-- Product `f1 * f2 * ... * fn` of `int` factors, associated to the left as C++ does. -/
def prod32 : List Int → Int
  | [] => 1
  | f :: fs => fs.foldl mul32 f

/-- The intermediate and final mathematical values of `f1 * f2 * ... * fn`: `f1`, `f1 * f2`,
and so on. -/
def partialProducts : List Int → List Int
  | [] => []
  | f :: fs => (fs.foldl (fun (acc : Int × List Int) g => (acc.1 * g, acc.2 ++ [acc.1 * g]))
      (f, [f])).2

/-- Flat index of `Tensor3D::at(d, h, w)` as the machine computes it:
`static_cast<size_t>(d) * height * width` is a 64-bit unsigned product, `h * width` is an
`int` product, and the sum is formed in 64-bit unsigned arithmetic. -/
def Tensor3D.machineIndex {α : Type} (t : Tensor3D α) (d h w : Int) : Int :=
  (d % 2 ^ 64 * t.height * t.width + mul32 h t.width + w) % 2 ^ 64

/-- The index `int idx = (to * inputChannels * kernelSize * kernelSize) +
(ti * kernelSize * kernelSize) + k` of the convolution `loadWeights`, in `int` arithmetic. -/
def convWeightIdx32 (inputChannels kernelSize to_ ti k : Int) : Int :=
  add32 (add32 (mul32 (mul32 (mul32 to_ inputChannels) kernelSize) kernelSize)
    (mul32 (mul32 ti kernelSize) kernelSize)) k

/-- The index `i * inputSize + j` of `FullyConnectedLayer::loadWeights`, in `int`
arithmetic. -/
def fcWeightIdx32 (inputSize i j : Int) : Int := add32 (mul32 i inputSize) j

/-- The element counts and byte counts a layer forms with `int` operands for an input of shape
`s`, each as the list of its factors in source order. Every flat index formed by the layer is
below one of these counts.
* convolution: `kernelSize * kernelSize` and the weight tensor `d * h * w` (constructor); the
  output tensor `d * h * w` (`forward`); `outputChannels * inputChannels * kernelSize *
  kernelSize`, the same times `sizeof(float)`, and `outputChannels * sizeof(float)`
  (`loadWeights`);
* tiled convolution: the same, and for the largest tile the buffer sizes
  `tn * tileInputHeight * tileInputWidth`, `tm * tn * k * k`, `tm * tr * tc` and the terms
  `tr * s`, `tc * s` of `TileBuffers`;
* pooling: the output tensor `d * h * w`;
* fully connected: `getDepth() * getHeight() * getWidth()` and the output tensor
  `1 * 1 * outputSize` (`forward`); `outputSize * inputSize`, the same times
  `sizeof(float)`, and `outputSize * sizeof(float)` (`loadWeights`). -/
def Layer.intProducts {α : Type} : Layer α → Int × Int × Int → List (List Int)
  | Layer.conv l, s =>
    [[l.kernelSize, l.kernelSize],
     [l.outputChannels, l.inputChannels, (l.kernelSize * l.kernelSize : Nat)],
     [l.outputChannels, convOutDim s.2.1 l.kernelSize l.stride l.padding,
       convOutDim s.2.2 l.kernelSize l.stride l.padding],
     [l.outputChannels, l.inputChannels, l.kernelSize, l.kernelSize],
     [l.outputChannels, l.inputChannels, l.kernelSize, l.kernelSize, 4],
     [l.outputChannels, 4]]
  | Layer.convV2 l, s =>
    [[l.kernelSize, l.kernelSize],
     [l.outputChannels, l.inputChannels, (l.kernelSize * l.kernelSize : Nat)],
     [l.outputChannels, convOutDim s.2.1 l.kernelSize l.stride l.padding,
       convOutDim s.2.2 l.kernelSize l.stride l.padding],
     [l.outputChannels, l.inputChannels, l.kernelSize, l.kernelSize],
     [l.outputChannels, l.inputChannels, l.kernelSize, l.kernelSize, 4],
     [l.outputChannels, 4],
     [(min l.Tr (convOutDim s.2.1 l.kernelSize l.stride l.padding).toNat : Nat), l.stride],
     [(min l.Tc (convOutDim s.2.2 l.kernelSize l.stride l.padding).toNat : Nat), l.stride],
     [(min l.Tn l.inputChannels : Nat),
       (min l.Tr (convOutDim s.2.1 l.kernelSize l.stride l.padding).toNat * l.stride +
         l.kernelSize - l.stride : Nat),
       (min l.Tc (convOutDim s.2.2 l.kernelSize l.stride l.padding).toNat * l.stride +
         l.kernelSize - l.stride : Nat)],
     [(min l.Tm l.outputChannels : Nat), (min l.Tn l.inputChannels : Nat), l.kernelSize,
       l.kernelSize],
     [(min l.Tm l.outputChannels : Nat),
       (min l.Tr (convOutDim s.2.1 l.kernelSize l.stride l.padding).toNat : Nat),
       (min l.Tc (convOutDim s.2.2 l.kernelSize l.stride l.padding).toNat : Nat)]]
  | Layer.pool l, s =>
    [[s.1, poolOutDim s.2.1 l.poolSize l.stride, poolOutDim s.2.2 l.poolSize l.stride]]
  | Layer.fc l, s =>
    [[s.1, s.2.1, s.2.2],
     [1, 1, l.outputSize],
     [l.outputSize, l.inputSize],
     [l.outputSize, l.inputSize, 4],
     [l.outputSize, 4]]

/-- The `int` products of all layers of a sequence, each layer with the shape the layers
before it produce. -/
def productsTrace {α : Type} : List (Layer α) → Int × Int × Int → List (List Int)
  | [], _ => []
  | l :: ls, s => l.intProducts s ++ productsTrace ls (l.outShape s)

/-! ## Fashion-MNIST accelerator and its host program (cpp_fashion_mnist) -/

namespace FashionMnist

/-- Filters of the second convolution (defines.h). -/
def CONV2_FILTERS : Nat := 64

/-- Side of the second pooling output. -/
def P2_SIZE : Nat := 7

/-- Inputs of the first fully-connected layer: `7 * 7 * 64`. -/
def FC1_WEIGHTS_H : Nat := 3136

/-- Number of classes. -/
def FC2_WEIGHTS_W : Nat := 10

/-- Port of `get_3d_index` (nnet_fixed.cpp). -/
def get_3d_index (ch row col height width : Nat) : Nat :=
  ch * height * width + row * width + col

/-- Port of `flatten_minimal`: the array `output` after the call. -/
def flatten_minimal {α : Type} [Zero α] (output input : List α) : List α :=
  (List.range FC1_WEIGHTS_H).foldl (fun output (i : Nat) =>
    let ch := i % CONV2_FILTERS
    let spatial_idx := i / CONV2_FILTERS
    let row := spatial_idx / P2_SIZE
    let col := spatial_idx % P2_SIZE
    output.set i (input.getD (get_3d_index ch row col P2_SIZE P2_SIZE) 0)) output

/-- The loop of `flatten_minimal` with both array accesses tested against the declared sizes
(`flattened[FC1_WEIGHTS_H]`, `pool2_out[CONV2_FILTERS * P2_SIZE * P2_SIZE]`) and the source
indices read recorded in order. -/
def flatten_minimalChecked {α : Type} [Zero α] (output input : List α) :
    Option (List α × List Nat) :=
  (List.range FC1_WEIGHTS_H).foldlM (fun (state : List α × List Nat) (i : Nat) =>
    let ch := i % CONV2_FILTERS
    let spatial_idx := i / CONV2_FILTERS
    let row := spatial_idx / P2_SIZE
    let col := spatial_idx % P2_SIZE
    let src := get_3d_index ch row col P2_SIZE P2_SIZE
    if i < FC1_WEIGHTS_H ∧ src < CONV2_FILTERS * P2_SIZE * P2_SIZE then
      some (state.1.set i (input.getD src 0), state.2 ++ [src])
    else none) (output, [])

/-! ### Host program (processing_sys_application_code/cnn_app.c)

`float` values are exact rationals; a `short` is the integer it holds. -/

/-- Conversion of a floating-point value to an integer type: truncation toward zero. -/
def truncToInt (q : ℚ) : Int := if 0 ≤ q then ⌊q⌋ else ⌈q⌉

/-- The cast `(short)` applied to an integer value: two's-complement wrap to 16 bits. -/
def toShort (z : Int) : Int := (z + 32768) % 65536 - 32768

/-- Port of `float_to_fixed16_5`: the field `data` of the result. -/
def float_to_fixed16_5 (f : ℚ) : Int :=
  let f := if f > 15999 / 1000 then 15999 / 1000 else f
  let f := if f < -16 then -16 else f
  toShort (truncToInt (f * (2 ^ 11 : Nat)))

/-- Port of `fixed16_5_to_float`, applied to the field `data`. -/
def fixed16_5_to_float (data : Int) : ℚ := (data : ℚ) / ((2 ^ 11 : Nat) : ℚ)

/-- Return code `CNN_SUCCESS`. -/
def CNN_SUCCESS : Int := 0

/-- Return code `CNN_ERROR_ACCELERATOR`. -/
def CNN_ERROR_ACCELERATOR : Int := 2

/-- Return code `CNN_ERROR_DATA`. -/
def CNN_ERROR_DATA : Int := 3

/-- Return code `CNN_ERROR_TIMEOUT`. -/
def CNN_ERROR_TIMEOUT : Int := 4

/-- Control register bit `AP_CTRL_START_BIT`. -/
def AP_CTRL_START_BIT : Nat := 1

/-- Control register bit `AP_CTRL_DONE_BIT`. -/
def AP_CTRL_DONE_BIT : Nat := 2

/-- Control register bit `AP_CTRL_IDLE_BIT`. -/
def AP_CTRL_IDLE_BIT : Nat := 4

/-- What the host program observes of the accelerator and the memory it shares with it.
* `status k` is the value returned by the `k`-th read of the control register;
* `readback offset addr` is the value read back from the address register at `offset` after
  `addr` was written to it;
* `predictions buffer` is the contents of the predictions buffer (the `data` fields) when
  step 5 reads it, `buffer` being the contents stored in step 1. -/
structure Hardware where
  status : Nat → Nat
  readback : Nat → Nat → Nat
  predictions : List Int → List Int

/-- Port of `reset_accelerator`; `reads` counts the reads of the control register made so
far. Returns the code and the new count. -/
def reset_accelerator (hw : Hardware) (reads : Nat) : Int × Nat :=
  let status := hw.status reads
  if status &&& AP_CTRL_IDLE_BIT ≠ 0 then (CNN_SUCCESS, reads + 1)
  else
    let status := hw.status (reads + 1)
    if ¬ (status &&& AP_CTRL_IDLE_BIT ≠ 0) then (CNN_ERROR_ACCELERATOR, reads + 2)
    else (CNN_SUCCESS, reads + 2)

/-- The `do ... while (elapsed_ms < timeout_ms)` loop of `wait_for_accelerator_completion`,
at most `fuel` iterations. -/
def waitLoop (hw : Hardware) (timeout_ms : Nat) : Nat → Nat → Nat → Int
  | 0, _, _ => CNN_ERROR_TIMEOUT
  | fuel + 1, reads, elapsed_ms =>
    let status := hw.status reads
    if status &&& AP_CTRL_DONE_BIT ≠ 0 then CNN_SUCCESS
    else
      let elapsed_ms := elapsed_ms + 10
      if elapsed_ms < timeout_ms then waitLoop hw timeout_ms fuel (reads + 1) elapsed_ms
      else CNN_ERROR_TIMEOUT

/-- Port of `wait_for_accelerator_completion`: the loop ends within `timeout_ms / 10 + 1`
iterations. -/
def wait_for_accelerator_completion (hw : Hardware) (reads : Nat) (timeout_ms : Nat) : Int :=
  waitLoop hw timeout_ms (timeout_ms / 10 + 1) reads 0

/-- The table `addr_regs` of `run_cnn_single_image`: register offset and DDR address. -/
def addr_regs : List (Nat × Nat) :=
  [(0x10, 0x04000000), (0x20, 0x08000000), (0x28, 0x10000000), (0x38, 0x18000000),
   (0x40, 0x20000000), (0x50, 0x28000000), (0x58, 0x30000000), (0x68, 0x38000000),
   (0x70, 0x40000000), (0x80, 0x48000000)]

/-- The predictions buffer as step 1 of `run_cnn_single_image` leaves it: every entry holds
the marker `float_to_fixed16_5(-999.0f)`. -/
def markerBuffer : List Int :=
  (List.range FC2_WEIGHTS_W).foldl (fun predictions_ptr (i : Nat) =>
    predictions_ptr.set i (float_to_fixed16_5 (-999))) (List.replicate FC2_WEIGHTS_W 0)

/-- The flag `data_changed` after the loop of step 5 over the predictions buffer. -/
def dataChanged (predictions_ptr : List Int) : Bool :=
  (List.range FC2_WEIGHTS_W).foldl (fun data_changed (i : Nat) =>
    let pred_val := fixed16_5_to_float (predictions_ptr.getD i 0)
    if pred_val ≠ -999 then true else data_changed) false

/-- Port of `run_cnn_single_image`: the return code. The copies of the image and of the
parameters to their DDR regions and the console output do not influence it and are left
out. -/
def run_cnn_single_image (hw : Hardware) : Int :=
  let predictions_ptr := markerBuffer
  let reset := reset_accelerator hw 0
  if reset.1 ≠ CNN_SUCCESS then CNN_ERROR_ACCELERATOR
  else
    let config_success := addr_regs.foldl (fun config_success (reg : Nat × Nat) =>
      let readback := hw.readback reg.1 reg.2
      if readback = reg.2 then config_success else false) true
    if ¬ (config_success = true) then CNN_ERROR_ACCELERATOR
    else
      let result := wait_for_accelerator_completion hw reset.2 15000
      if result ≠ CNN_SUCCESS then result
      else
        let predictions_ptr := hw.predictions predictions_ptr
        let data_changed := dataChanged predictions_ptr
        if ¬ (data_changed = true) then CNN_ERROR_DATA
        else CNN_SUCCESS

end FashionMnist

namespace Example

/-- An accelerator that is idle, accepts every address, reports `DONE` at once and writes
nothing to the predictions buffer. -/
def silentHardware : FashionMnist.Hardware :=
  { status := fun _ => 6, readback := fun _ addr => addr, predictions := fun buffer => buffer }

end Example

end AlexNet


namespace AlexNet

namespace Accelerator

/-! ## Checked execution of the accelerator

The accelerator indexes its on-chip arrays and the memories behind its ports without a
range test. The definitions of this section repeat its functions with every array access
tested: a subscript of an on-chip array against the declared dimension, an index into a
memory region against the size of the region (`N * H * W` input values, `M * N * K * K`
weights, `M` biases, `M * R * C` output values). The result is `none` as soon as one access
is out of range. The functions that write `output_ddr` also record the indices they write. -/

variable {α : Type} [LinearOrderedCommRing α]

/-- Read `a[i]` of an array or memory region of `size` elements. -/
def read1 (a : List α) (size i : Nat) : Option α :=
  if i < size then some (a.getD i 0) else none

/-- Write `a[i] = v` of an array or memory region of `size` elements. -/
def write1 (a : List α) (size i : Nat) (v : α) : Option (List α) :=
  if i < size then some (a.set i v) else none

/-- Read `a[i][j][k]` of an array declared `a[D1][D2][D3]`. -/
def read3 (a : List α) (D1 D2 D3 i j k : Nat) : Option α :=
  if i < D1 ∧ j < D2 ∧ k < D3 then some (a.getD (at3 D2 D3 i j k) 0) else none

/-- Write `a[i][j][k] = v` of an array declared `a[D1][D2][D3]`. -/
def write3 (a : List α) (D1 D2 D3 i j k : Nat) (v : α) : Option (List α) :=
  if i < D1 ∧ j < D2 ∧ k < D3 then some (a.set (at3 D2 D3 i j k) v) else none

/-- Read of a memory region of `size` elements at a signed index. -/
def readInt (a : List α) (size : Nat) (idx : Int) : Option α :=
  if 0 ≤ idx ∧ idx < size then some (a.getD idx.toNat 0) else none

/-- The function `load_input_tile` with every access tested. -/
def load_input_tileChecked (input_ddr : List α) (input_buffer : List α)
    (n_offset h_offset w_offset N H W S P : Nat) : Option (List α) :=
  let n_limit := if n_offset + TN > N then N - n_offset else TN
  do
    let input_buffer ← (List.range TN).foldlM (fun input_buffer (n : Nat) =>
      (List.range INPUT_TILE_HEIGHT).foldlM (fun input_buffer (h : Nat) =>
        (List.range INPUT_TILE_WIDTH).foldlM (fun input_buffer (w : Nat) =>
          write3 input_buffer TN INPUT_TILE_HEIGHT INPUT_TILE_WIDTH n h w 0)
          input_buffer) input_buffer) input_buffer
    (List.range n_limit).foldlM (fun input_buffer (n : Nat) =>
      (List.range INPUT_TILE_HEIGHT).foldlM (fun input_buffer (h : Nat) => do
        let row_buffer ← (List.range INPUT_TILE_WIDTH).foldlM (fun row_buffer (w : Nat) =>
          let input_h : Int := (h : Int) + (h_offset : Int) * S - P
          let input_w : Int := (w : Int) + (w_offset : Int) * S - P
          if 0 ≤ input_h ∧ input_h < H ∧ 0 ≤ input_w ∧ input_w < W then
            let input_idx : Int := ((n + n_offset : Nat) : Int) * H * W + input_h * W + input_w
            do
              let v ← readInt input_ddr (N * H * W) input_idx
              write1 row_buffer INPUT_TILE_WIDTH w v
          else write1 row_buffer INPUT_TILE_WIDTH w 0) (List.replicate INPUT_TILE_WIDTH (0 : α))
        (List.range INPUT_TILE_WIDTH).foldlM (fun input_buffer (w : Nat) => do
          let v ← read1 row_buffer INPUT_TILE_WIDTH w
          write3 input_buffer TN INPUT_TILE_HEIGHT INPUT_TILE_WIDTH n h w v)
          input_buffer) input_buffer) input_buffer

/-- The function `load_weight_tile` with every access tested. -/
def load_weight_tileChecked (weights_ddr : List α) (weight_buffer : List α)
    (m_offset n_offset M N K : Nat) : Option (List α) :=
  let m_limit := if m_offset + TM > M then M - m_offset else TM
  let n_limit := if n_offset + TN > N then N - n_offset else TN
  let K2 := K * K
  do
    let weight_buffer ← (List.range TM).foldlM (fun weight_buffer (m : Nat) =>
      (List.range TN).foldlM (fun weight_buffer (n : Nat) =>
        (List.range (MAX_KERNEL_SIZE * MAX_KERNEL_SIZE)).foldlM (fun weight_buffer (k : Nat) =>
          write3 weight_buffer TM TN (MAX_KERNEL_SIZE * MAX_KERNEL_SIZE) m n k 0)
          weight_buffer) weight_buffer) weight_buffer
    (List.range m_limit).foldlM (fun weight_buffer (m : Nat) =>
      (List.range n_limit).foldlM (fun weight_buffer (n : Nat) =>
        (tileStarts K2 4).foldlM (fun weight_buffer (k_base : Nat) =>
          let k_limit := if k_base + 4 ≤ K2 then 4 else K2 - k_base
          (List.range k_limit).foldlM (fun weight_buffer (k_offset : Nat) =>
            let k := k_base + k_offset
            let weight_idx := (m + m_offset) * N * K2 + (n + n_offset) * K2 + k
            do
              let v ← read1 weights_ddr (M * N * K * K) weight_idx
              write3 weight_buffer TM TN (MAX_KERNEL_SIZE * MAX_KERNEL_SIZE) m n k v)
            weight_buffer) weight_buffer) weight_buffer) weight_buffer

/-- The function `load_bias` with every access tested. -/
def load_biasChecked (bias_ddr : List α) (bias_buffer : List α) (m_offset M : Nat) :
    Option (List α) :=
  let m_limit := if m_offset + TM > M then M - m_offset else TM
  do
    let bias_buffer ← (List.range TM).foldlM (fun bias_buffer (m : Nat) =>
      write1 bias_buffer TM m 0) bias_buffer
    (List.range m_limit).foldlM (fun bias_buffer (m : Nat) => do
      let v ← read1 bias_ddr M (m + m_offset)
      write1 bias_buffer TM m v) bias_buffer

/-- The function `init_output_buffer` with every access tested. -/
def init_output_bufferChecked (output_buffer : List α) (bias_buffer : List α)
    (tm_bound : Nat) : Option (List α) :=
  (List.range TM).foldlM (fun output_buffer (too : Nat) =>
    (List.range TR).foldlM (fun output_buffer (trr : Nat) =>
      (List.range TC).foldlM (fun output_buffer (tcc : Nat) => do
        let v ← if too < tm_bound then read1 bias_buffer TM too else some 0
        write3 output_buffer TM TR TC too trr tcc v)
        output_buffer) output_buffer) output_buffer

/-- The function `store_output_tile` with every access tested. The state of its loops is
the memory behind `output_ddr` paired with the list of the indices written so far. -/
def store_output_tileChecked (output_ddr : List α × List Nat) (output_buffer : List α)
    (m_offset h_offset w_offset M R C : Nat) : Option (List α × List Nat) :=
  let m_limit := if m_offset + TM > M then M - m_offset else TM
  let r_limit := if h_offset + TR > R then R - h_offset else TR
  let c_limit := if w_offset + TC > C then C - w_offset else TC
  (List.range m_limit).foldlM (fun output_ddr (m : Nat) =>
    (List.range r_limit).foldlM (fun output_ddr (r : Nat) => do
      let row_buffer ← (List.range c_limit).foldlM (fun row_buffer (c : Nat) => do
        let v ← read3 output_buffer TM TR TC m r c
        write1 row_buffer TC c v) (List.replicate TC (0 : α))
      (List.range c_limit).foldlM (fun (output_ddr : List α × List Nat) (c : Nat) =>
        let output_idx := (m + m_offset) * R * C + (r + h_offset) * C + (c + w_offset)
        do
          let v ← read1 row_buffer TC c
          let written ← write1 output_ddr.1 (M * R * C) output_idx v
          some (written, output_ddr.2 ++ [output_idx])) output_ddr) output_ddr) output_ddr

/-- The function `compute_tile` with every access tested. -/
def compute_tileChecked (input_buffer weight_buffer output_buffer : List α)
    (kernel_size stride tm_bound tn_bound tr_bound tc_bound : Nat) : Option (List α) :=
  (List.range kernel_size).foldlM (fun output_buffer (i : Nat) =>
    (List.range kernel_size).foldlM (fun output_buffer (j : Nat) =>
      (List.range tr_bound).foldlM (fun output_buffer (trr : Nat) =>
        (List.range tc_bound).foldlM (fun output_buffer (tcc : Nat) =>
          let h := trr * stride + i
          let w := tcc * stride + j
          let k_idx := i * kernel_size + j
          (tileStarts tm_bound 2).foldlM (fun output_buffer (too_base : Nat) =>
            let too_limit := if too_base + 2 ≤ tm_bound then 2 else tm_bound - too_base
            (List.range tn_bound).foldlM (fun output_buffer (tii : Nat) =>
              (List.range too_limit).foldlM (fun output_buffer (too_offset : Nat) =>
                let too := too_base + too_offset
                do
                  let acc ← read3 output_buffer TM TR TC too trr tcc
                  let weight ← read3 weight_buffer TM TN (MAX_KERNEL_SIZE * MAX_KERNEL_SIZE)
                    too tii k_idx
                  let value ← read3 input_buffer TN INPUT_TILE_HEIGHT INPUT_TILE_WIDTH tii h w
                  write3 output_buffer TM TR TC too trr tcc (acc + weight * value))
                output_buffer) output_buffer) output_buffer)
          output_buffer) output_buffer) output_buffer) output_buffer

/-- The function `apply_relu` with every access tested. -/
def apply_reluChecked (buffer : List α) (tm tr tc : Nat) : Option (List α) :=
  (List.range tm).foldlM (fun buffer (too : Nat) =>
    (List.range tr).foldlM (fun buffer (trr : Nat) =>
      (List.range tc).foldlM (fun buffer (tcc : Nat) => do
        let v ← read3 buffer TM TR TC too trr tcc
        if v < 0 then write3 buffer TM TR TC too trr tcc 0 else some buffer)
        buffer) buffer) buffer

/-- Body of `tn_loop` with every access tested. -/
def tnStepChecked (input_ddr weights_ddr : List α) (N M input_H input_W K S P : Nat)
    (m_offset r_offset c_offset tm_bound tr_bound tc_bound : Nat) (mem : Memory α) (tn : Nat) :
    Option (Memory α) :=
  let n_offset := tn * TN
  let tn_bound := if N - n_offset < TN then N - n_offset else TN
  do
    let weight_buffer ← load_weight_tileChecked weights_ddr mem.weight_buffer m_offset n_offset M N K
    let input_buffer ← load_input_tileChecked input_ddr mem.input_buffer n_offset r_offset c_offset N input_H input_W S P
    let output_buffer ← compute_tileChecked input_buffer weight_buffer mem.output_buffer K S tm_bound tn_bound tr_bound tc_bound
    some { mem with weight_buffer := weight_buffer, input_buffer := input_buffer, output_buffer := output_buffer }

/-- Body of `tc_loop` with every access tested. The state is the memory paired with the
list of the indices of `output_ddr` written so far. -/
def tcStepChecked (input_ddr weights_ddr : List α)
    (N M input_H input_W output_H output_W K S P : Nat)
    (tn_steps m_offset tm_bound r_offset tr_bound : Nat) (state : Memory α × List Nat)
    (tc : Nat) : Option (Memory α × List Nat) :=
  let c_offset := tc * TC
  let tc_bound := if output_W - c_offset < TC then output_W - c_offset else TC
  do
    let output_buffer ← init_output_bufferChecked state.1.output_buffer state.1.bias_buffer tm_bound
    let mem : Memory α := { state.1 with output_buffer := output_buffer }
    let mem ← (List.range tn_steps).foldlM
      (tnStepChecked input_ddr weights_ddr N M input_H input_W K S P m_offset r_offset c_offset
        tm_bound tr_bound tc_bound) mem
    let output_buffer ← apply_reluChecked mem.output_buffer tm_bound tr_bound tc_bound
    let output_ddr ← store_output_tileChecked (mem.output_ddr, state.2) output_buffer m_offset r_offset c_offset M output_H output_W
    some ({ mem with output_buffer := output_buffer, output_ddr := output_ddr.1 }, output_ddr.2)

/-- Body of `tr_loop` with every access tested. -/
def trStepChecked (input_ddr weights_ddr : List α)
    (N M input_H input_W output_H output_W K S P : Nat)
    (tn_steps tc_steps m_offset tm_bound : Nat) (state : Memory α × List Nat) (tr : Nat) :
    Option (Memory α × List Nat) :=
  let r_offset := tr * TR
  let tr_bound := if output_H - r_offset < TR then output_H - r_offset else TR
  (List.range tc_steps).foldlM
    (tcStepChecked input_ddr weights_ddr N M input_H input_W output_H output_W K S P tn_steps
      m_offset tm_bound r_offset tr_bound) state

/-- Body of `tm_loop` with every access tested. -/
def tmStepChecked (input_ddr weights_ddr bias_ddr : List α)
    (N M input_H input_W output_H output_W K S P : Nat)
    (tn_steps tr_steps tc_steps : Nat) (state : Memory α × List Nat) (tm : Nat) :
    Option (Memory α × List Nat) :=
  let m_offset := tm * TM
  let tm_bound := if M - m_offset < TM then M - m_offset else TM
  do
    let bias_buffer ← load_biasChecked bias_ddr state.1.bias_buffer m_offset M
    let mem : Memory α := { state.1 with bias_buffer := bias_buffer }
    (List.range tr_steps).foldlM
      (trStepChecked input_ddr weights_ddr N M input_H input_W output_H output_W K S P tn_steps
        tc_steps m_offset tm_bound) (mem, state.2)

/-- The function `fashion_mnist_cnn_accelerator` with every array access tested: the memory
behind `output_ddr` after the call and the indices of `output_ddr` written, in order. -/
def fashion_mnist_cnn_acceleratorChecked (input_ddr weights_ddr bias_ddr : List α)
    (layer_config : LayerConfig) (_layer_idx : Int) (mem : Memory α) :
    Option (List α × List Nat) :=
  let N := layer_config.input_channels
  let M := layer_config.output_channels
  let input_H := layer_config.input_height
  let input_W := layer_config.input_width
  let output_H := layer_config.output_height
  let output_W := layer_config.output_width
  let K := layer_config.kernel_size
  let S := layer_config.stride
  let P := layer_config.padding
  if N ≤ TN ∧ M ≤ TM ∧ output_H ≤ TR ∧ output_W ≤ TC then
    do
      let bias_buffer ← load_biasChecked bias_ddr mem.bias_buffer 0 M
      let weight_buffer ← load_weight_tileChecked weights_ddr mem.weight_buffer 0 0 M N K
      let input_buffer ← load_input_tileChecked input_ddr mem.input_buffer 0 0 0 N input_H input_W S P
      let output_buffer ← init_output_bufferChecked mem.output_buffer bias_buffer M
      let output_buffer ← compute_tileChecked input_buffer weight_buffer output_buffer K S M N output_H output_W
      let output_buffer ← apply_reluChecked output_buffer M output_H output_W
      store_output_tileChecked (mem.output_ddr, []) output_buffer 0 0 0 M output_H output_W
  else
    let tm_steps := (M + TM - 1) / TM
    let tn_steps := (N + TN - 1) / TN
    let tr_steps := (output_H + TR - 1) / TR
    let tc_steps := (output_W + TC - 1) / TC
    do
      let state ← (List.range tm_steps).foldlM
        (tmStepChecked input_ddr weights_ddr bias_ddr N M input_H input_W output_H output_W K S P
          tn_steps tr_steps tc_steps) (mem, [])
      some (state.1.output_ddr, state.2)

/-- The indices of `output_ddr` that one call of `store_output_tile` writes, in the order
of its loops. -/
def storeWrites (m_offset h_offset w_offset M R C : Nat) : List Nat :=
  let m_limit := if m_offset + TM > M then M - m_offset else TM
  let r_limit := if h_offset + TR > R then R - h_offset else TR
  let c_limit := if w_offset + TC > C then C - w_offset else TC
  (List.range m_limit).flatMap (fun m =>
    (List.range r_limit).flatMap (fun r =>
      (List.range c_limit).flatMap (fun c =>
        [(m + m_offset) * R * C + (r + h_offset) * C + (c + w_offset)])))

/-- The indices of `output_ddr` that the tiled path writes: the writes of
`store_output_tile` for each tile, in the order of `tm_loop`, `tr_loop`, `tc_loop`. -/
def tiledWrites (M R C : Nat) : List Nat :=
  (List.range ((M + TM - 1) / TM)).flatMap (fun tm =>
    (List.range ((R + TR - 1) / TR)).flatMap (fun tr =>
      (List.range ((C + TC - 1) / TC)).flatMap (fun tc =>
        storeWrites (tm * TM) (tr * TR) (tc * TC) M R C)))

end Accelerator

end AlexNet

namespace AlexNet

/-! ## Generic loop lemmas -/

section Loops

variable {σ ι κ α : Type}

/-- A loop whose iterations touch pairwise disjoint sets of cells: every cell in the
footprint of an iteration is transformed by that iteration only. -/
theorem foldl_footprint (Inv : σ → Prop) (view : σ → κ → α) (R : κ → Prop)
    (step : σ → ι → σ) (Q : ι → κ → Prop) (G : ι → κ → α → α) :
    ∀ (l : List ι), l.Nodup →
      (∀ x y c, x ∈ l → y ∈ l → Q x c → Q y c → x = y) →
      (∀ s x, x ∈ l → Inv s → Inv (step s x) ∧ ∀ c, R c →
        (Q x c → view (step s x) c = G x c (view s c)) ∧
        (¬ Q x c → view (step s x) c = view s c)) →
      ∀ s0, Inv s0 → Inv (l.foldl step s0) ∧ ∀ c, R c →
        (∀ x ∈ l, Q x c → view (l.foldl step s0) c = G x c (view s0 c)) ∧
        ((∀ x ∈ l, ¬ Q x c) → view (l.foldl step s0) c = view s0 c) := by
  intro l
  induction l with
  | nil =>
    intro _ _ _ s0 h0
    exact ⟨h0, fun c _ => ⟨fun x hx => absurd hx (List.not_mem_nil x), fun _ => rfl⟩⟩
  | cons a l ih =>
    intro hnd hdisj hstep s0 h0
    have hnd' := List.nodup_cons.mp hnd
    have ha := hstep s0 a (List.mem_cons_self a l) h0
    have ih' := ih hnd'.2
      (fun x y c hx hy => hdisj x y c (List.mem_cons_of_mem a hx) (List.mem_cons_of_mem a hy))
      (fun s x hx => hstep s x (List.mem_cons_of_mem a hx)) (step s0 a) ha.1
    refine ⟨ih'.1, fun c hc => ⟨?_, ?_⟩⟩
    · intro x hx hq
      rcases List.mem_cons.mp hx with rfl | hxl
      · have hnone : ∀ y ∈ l, ¬ Q y c := by
          intro y hy hqy
          have := hdisj x y c (List.mem_cons_self x l) (List.mem_cons_of_mem x hy) hq hqy
          exact hnd'.1 (this ▸ hy)
        rw [List.foldl_cons, ((ih'.2 c hc).2 hnone), ((ha.2 c hc).1 hq)]
      · have hna : ¬ Q a c := by
          intro hqa
          have := hdisj a x c (List.mem_cons_self a l) hx hqa hq
          exact hnd'.1 (this ▸ hxl)
        rw [List.foldl_cons, ((ih'.2 c hc).1 x hxl hq), ((ha.2 c hc).2 hna)]
    · intro hnone
      rw [List.foldl_cons, (ih'.2 c hc).2 (fun x hx => hnone x (List.mem_cons_of_mem a hx)),
        (ha.2 c hc).2 (hnone a (List.mem_cons_self a l))]

/-- A loop whose every iteration adds `A x c` to cell `c`: the cell gains the sum. -/
theorem foldl_additive [AddCommMonoid α] (Inv : σ → Prop) (view : σ → κ → α) (R : κ → Prop)
    (step : σ → ι → σ) (A : ι → κ → α) :
    ∀ (l : List ι),
      (∀ s x, x ∈ l → Inv s → Inv (step s x) ∧ ∀ c, R c →
        view (step s x) c = view s c + A x c) →
      ∀ s0, Inv s0 → Inv (l.foldl step s0) ∧ ∀ c, R c →
        view (l.foldl step s0) c = view s0 c + (l.map (fun x => A x c)).sum := by
  intro l
  induction l with
  | nil =>
    intro _ s0 h0
    exact ⟨h0, fun c _ => by simp⟩
  | cons a l ih =>
    intro hstep s0 h0
    have ha := hstep s0 a (List.mem_cons_self a l) h0
    have ih' := ih (fun s x hx => hstep s x (List.mem_cons_of_mem a hx)) (step s0 a) ha.1
    refine ⟨ih'.1, fun c hc => ?_⟩
    rw [List.foldl_cons, ih'.2 c hc, ha.2 c hc, List.map_cons, List.sum_cons, add_assoc]

end Loops

/-! ## Tensor3D: indexing -/

namespace Tensor3D

variable {α : Type}

theorem flat_nonneg {H W d h w : Int} (hd : 0 ≤ d) (hh : 0 ≤ h) (hH : h < H) (hw : 0 ≤ w)
    (hW : w < W) : 0 ≤ d * H * W + h * W + w := by
  have h1 : 0 ≤ d * H := mul_nonneg hd (by omega)
  have h2 : 0 ≤ d * H * W := mul_nonneg h1 (by omega)
  have h3 : 0 ≤ h * W := mul_nonneg hh (by omega)
  omega

theorem flat_lt {D H W d h w : Int} (hD : d < D) (hh : 0 ≤ h) (hH : h < H)
    (hw : 0 ≤ w) (hW : w < W) : d * H * W + h * W + w < D * H * W := by
  have h1 : (h + 1) * W ≤ H * W := mul_le_mul_of_nonneg_right (by omega) (by omega)
  have h2 : (d + 1) * (H * W) ≤ D * (H * W) :=
    mul_le_mul_of_nonneg_right (by omega) (mul_nonneg (by omega) (by omega))
  nlinarith

theorem pair_inj {W a w a' w' : Int} (hw : 0 ≤ w) (hW : w < W) (hw' : 0 ≤ w') (hW' : w' < W)
    (e : w + W * a = w' + W * a') : a = a' ∧ w = w' := by
  have hWpos : 0 < W := by omega
  have k1 : (w' + W * a') / W = a ∧ (w' + W * a') % W = w :=
    (Int.ediv_emod_unique hWpos).mpr ⟨e, hw, hW⟩
  have k2 : (w' + W * a') / W = a' ∧ (w' + W * a') % W = w' :=
    (Int.ediv_emod_unique hWpos).mpr ⟨rfl, hw', hW'⟩
  exact ⟨k1.1.symm.trans k2.1, k1.2.symm.trans k2.2⟩

theorem flat_inj {H W d h w d' h' w' : Int} (hh : 0 ≤ h) (hH : h < H)
    (hw : 0 ≤ w) (hW : w < W) (hh' : 0 ≤ h') (hH' : h' < H) (hw' : 0 ≤ w') (hW' : w' < W)
    (e : d * H * W + h * W + w = d' * H * W + h' * W + w') : d = d' ∧ h = h' ∧ w = w' := by
  have e1 : w + W * (d * H + h) = w' + W * (d' * H + h') := by linarith
  have p1 := pair_inj hw hW hw' hW' e1
  have e2 : h + H * d = h' + H * d' := by linarith [p1.1]
  have p2 := pair_inj hh hH hh' hH' e2
  exact ⟨p2.1, p2.2, p1.2⟩



theorem index_eq {t : Tensor3D α} {D H W : Int} (ht : t.Shaped D H W) (d h w : Int) :
    t.index d h w = d * H * W + h * W + w := by
  unfold index
  rw [ht.2.1, ht.2.2.1]

theorem index_bounds [Zero α] {t : Tensor3D α} {D H W : Int} (ht : t.Shaped D H W)
    {c : Int × Int × Int} (hc : InShape D H W c) :
    0 ≤ t.index c.1 c.2.1 c.2.2 ∧ (t.index c.1 c.2.1 c.2.2).toNat < t.data.length := by
  obtain ⟨h1, h2, h3, h4, h5, h6⟩ := hc
  have hn := flat_nonneg (H := H) (W := W) h1 h3 h4 h5 h6
  have hl := flat_lt (D := D) (H := H) (W := W) h2 h3 h4 h5 h6
  rw [index_eq ht]
  refine ⟨hn, ?_⟩
  have := ht.2.2.2
  omega

theorem shaped_setAt {t : Tensor3D α} {D H W : Int} (ht : t.Shaped D H W) (d h w : Int) (v : α) :
    (t.setAt d h w v).Shaped D H W := by
  unfold setAt
  split
  · exact ⟨ht.1, ht.2.1, ht.2.2.1, by simpa using ht.2.2.2⟩
  · exact ht

theorem view_setAt_same [Zero α] {t : Tensor3D α} {D H W : Int} (ht : t.Shaped D H W)
    {c : Int × Int × Int} (hc : InShape D H W c) (v : α) :
    (t.setAt c.1 c.2.1 c.2.2 v).view c = v := by
  have hb := index_bounds ht hc
  have hidx : (t.setAt c.1 c.2.1 c.2.2 v).index c.1 c.2.1 c.2.2 = t.index c.1 c.2.1 c.2.2 := by
    rw [index_eq (shaped_setAt ht _ _ _ v), index_eq ht]
  unfold view at_
  rw [hidx, if_pos hb.1]
  unfold setAt
  rw [if_pos hb.1]
  simp [List.getD_eq_getElem?_getD, List.getElem?_set, hb.2]

theorem view_setAt_other [Zero α] {t : Tensor3D α} {D H W : Int} (ht : t.Shaped D H W)
    {c c' : Int × Int × Int} (hc : InShape D H W c) (hc' : InShape D H W c') (hne : c' ≠ c)
    (v : α) : (t.setAt c.1 c.2.1 c.2.2 v).view c' = t.view c' := by
  have hb := index_bounds ht hc
  have hb' := index_bounds ht hc'
  have hidx : (t.setAt c.1 c.2.1 c.2.2 v).index c'.1 c'.2.1 c'.2.2 = t.index c'.1 c'.2.1 c'.2.2 := by
    rw [index_eq (shaped_setAt ht _ _ _ v), index_eq ht]
  have hdiff : (t.index c.1 c.2.1 c.2.2).toNat ≠ (t.index c'.1 c'.2.1 c'.2.2).toNat := by
    intro e
    have e' : t.index c.1 c.2.1 c.2.2 = t.index c'.1 c'.2.1 c'.2.2 := by
      have := hb.1; have := hb'.1; omega
    rw [index_eq ht, index_eq ht] at e'
    obtain ⟨_, _, h3, h4, h5, h6⟩ := hc
    obtain ⟨_, _, h3', h4', h5', h6'⟩ := hc'
    have := flat_inj h3 h4 h5 h6 h3' h4' h5' h6' e'
    exact hne (Prod.ext this.1.symm (Prod.ext this.2.1.symm this.2.2.symm))
  unfold view at_
  rw [hidx, if_pos hb'.1]
  unfold setAt
  rw [if_pos hb.1]
  simp [List.getD_eq_getElem?_getD, List.getElem?_set, hdiff, hb'.1]

/-- Effect of one write through `at` on a well-shaped tensor. -/
theorem setAt_spec [Zero α] {t : Tensor3D α} {D H W : Int} (ht : t.Shaped D H W)
    {c : Int × Int × Int} (hc : InShape D H W c) (v : α) :
    (t.setAt c.1 c.2.1 c.2.2 v).Shaped D H W ∧ ∀ c', InShape D H W c' →
      (c' = c → (t.setAt c.1 c.2.1 c.2.2 v).view c' = v) ∧
      (c' ≠ c → (t.setAt c.1 c.2.1 c.2.2 v).view c' = t.view c') := by
  refine ⟨shaped_setAt ht _ _ _ v, fun c' hc' => ⟨?_, ?_⟩⟩
  · rintro rfl
    exact view_setAt_same ht hc v
  · intro hne
    exact view_setAt_other ht hc hc' hne v

theorem shaped_new {d h w : Int} {v : α} {t : Tensor3D α} (e : Tensor3D.new d h w v = some t) :
    t.Shaped d h w ∧ t.data = List.replicate (d * h * w).toNat v := by
  unfold Tensor3D.new at e
  split at e
  · rename_i hnn
    cases e
    refine ⟨⟨rfl, rfl, rfl, ?_⟩, rfl⟩
    simp only [List.length_replicate]
    omega
  · cases e

theorem new_isSome {d h w : Int} (v : α) (hnn : 0 ≤ d * h * w) :
    ∃ t, Tensor3D.new d h w v = some t := by
  unfold Tensor3D.new
  rw [if_pos hnn]
  exact ⟨_, rfl⟩

/-- Range sums as list sums. -/
theorem sum_map_range {β : Type} [AddCommMonoid β] (f : Nat → β) (n : Nat) :
    ((List.range n).map f).sum = ∑ i ∈ Finset.range n, f i := by
  induction n with
  | zero => simp
  | succ n ih => rw [List.range_succ, List.map_append, List.sum_append, ih,
      Finset.sum_range_succ]; simp

end Tensor3D
end AlexNet

namespace AlexNet

section Loops

variable {σ ι κ α : Type}

/-- A loop that accumulates into one cell and leaves the others alone. -/
theorem foldl_cell_add [AddCommMonoid α] (Inv : σ → Prop) (view : σ → κ → α) (R : κ → Prop)
    (step : σ → ι → σ) (c0 : κ) (F : ι → α) :
    ∀ (l : List ι),
      (∀ s x, x ∈ l → Inv s → Inv (step s x) ∧ ∀ c, R c →
        (c = c0 → view (step s x) c = view s c + F x) ∧
        (c ≠ c0 → view (step s x) c = view s c)) →
      ∀ s0, Inv s0 → Inv (l.foldl step s0) ∧ ∀ c, R c →
        (c = c0 → view (l.foldl step s0) c = view s0 c + (l.map F).sum) ∧
        (c ≠ c0 → view (l.foldl step s0) c = view s0 c) := by
  intro l
  induction l with
  | nil =>
    intro _ s0 h0
    exact ⟨h0, fun c _ => ⟨fun _ => by simp, fun _ => rfl⟩⟩
  | cons a l ih =>
    intro hstep s0 h0
    have ha := hstep s0 a (List.mem_cons_self a l) h0
    have ih' := ih (fun s x hx => hstep s x (List.mem_cons_of_mem a hx)) (step s0 a) ha.1
    refine ⟨ih'.1, fun c hc => ⟨fun e => ?_, fun e => ?_⟩⟩
    · rw [List.foldl_cons, (ih'.2 c hc).1 e, (ha.2 c hc).1 e, List.map_cons, List.sum_cons,
        add_assoc]
    · rw [List.foldl_cons, (ih'.2 c hc).2 e, (ha.2 c hc).2 e]

end Loops

namespace ConvolutionalLayer

open Tensor3D

variable {α : Type} [LinearOrderedCommRing α]

/-- One kernel tap of the specification's sum. -/
theorem macStep_spec (L : ConvolutionalLayer α) (input : Tensor3D α) (row col to_ ti i j : Nat)
    {D H W : Int} {output : Tensor3D α} (ho : output.Shaped D H W)
    (hc : InShape D H W ((to_ : Int), (row : Int), (col : Int))) :
    (L.macStep input row col to_ ti i output j).Shaped D H W ∧ ∀ c, InShape D H W c →
      (c = ((to_ : Int), (row : Int), (col : Int)) →
        (L.macStep input row col to_ ti i output j).view c = output.view c +
          L.weights.at_ to_ ti ((i * L.kernelSize + j : Nat) : Int) *
            input.padded ti ((L.stride : Int) * row + i - L.padding)
              ((L.stride : Int) * col + j - L.padding)) ∧
      (c ≠ ((to_ : Int), (row : Int), (col : Int)) →
        (L.macStep input row col to_ ti i output j).view c = output.view c) := by
  unfold macStep padded getHeight getWidth
  dsimp only
  split
  · have := setAt_spec ho hc (output.at_ to_ row col + L.weights.at_ to_ ti
      ((i * L.kernelSize + j : Nat) : Int) * input.at_ ti ((L.stride : Int) * row + i - L.padding)
        ((L.stride : Int) * col + j - L.padding))
    refine ⟨this.1, fun c hc' => ⟨fun e => ?_, fun e => ?_⟩⟩
    · rw [(this.2 c hc').1 e, e]
      rfl
    · exact (this.2 c hc').2 e
  · exact ⟨ho, fun c _ => ⟨fun _ => by simp, fun _ => rfl⟩⟩

/-- Effect of the body of the `to` loop: the cell receives the specified value. -/
theorem cellStep_spec (L : ConvolutionalLayer α) (input : Tensor3D α) (row col to_ : Nat)
    {D H W : Int} {output : Tensor3D α} (ho : output.Shaped D H W)
    (hc : InShape D H W ((to_ : Int), (row : Int), (col : Int))) :
    (L.cellStep input row col output to_).Shaped D H W ∧ ∀ c, InShape D H W c →
      (c = ((to_ : Int), (row : Int), (col : Int)) →
        (L.cellStep input row col output to_).view c =
          convValue L.weights L.bias input L.inputChannels L.kernelSize L.stride L.padding
            c.1 c.2.1 c.2.2) ∧
      (c ≠ ((to_ : Int), (row : Int), (col : Int)) →
        (L.cellStep input row col output to_).view c = output.view c) := by
  have h1 := setAt_spec ho hc (L.bias.getD to_ 0)
  -- the three accumulation loops
  have hj : ∀ ti i, ∀ s : Tensor3D α, s.Shaped D H W →
      ((List.range L.kernelSize).foldl (fun output j =>
        L.macStep input row col to_ ti i output j) s).Shaped D H W ∧ ∀ c, InShape D H W c →
      (c = ((to_ : Int), (row : Int), (col : Int)) →
        ((List.range L.kernelSize).foldl (fun output j =>
          L.macStep input row col to_ ti i output j) s).view c = s.view c +
          ((List.range L.kernelSize).map (fun j =>
            L.weights.at_ to_ ti ((i * L.kernelSize + j : Nat) : Int) *
            input.padded ti ((L.stride : Int) * row + i - L.padding)
              ((L.stride : Int) * col + j - L.padding))).sum) ∧
      (c ≠ ((to_ : Int), (row : Int), (col : Int)) →
        ((List.range L.kernelSize).foldl (fun output j =>
          L.macStep input row col to_ ti i output j) s).view c = s.view c) := by
    intro ti i s hs
    exact foldl_cell_add (fun s : Tensor3D α => s.Shaped D H W) Tensor3D.view (InShape D H W)
      _ _ _ _ (fun s j _ hs => L.macStep_spec input row col to_ ti i j hs hc) s hs
  have hi : ∀ ti, ∀ s : Tensor3D α, s.Shaped D H W →
      ((List.range L.kernelSize).foldl (fun output i =>
        (List.range L.kernelSize).foldl (fun output j =>
          L.macStep input row col to_ ti i output j) output) s).Shaped D H W ∧
      ∀ c, InShape D H W c →
      (c = ((to_ : Int), (row : Int), (col : Int)) →
        ((List.range L.kernelSize).foldl (fun output i =>
          (List.range L.kernelSize).foldl (fun output j =>
            L.macStep input row col to_ ti i output j) output) s).view c = s.view c +
          ((List.range L.kernelSize).map (fun i => ((List.range L.kernelSize).map (fun j =>
            L.weights.at_ to_ ti ((i * L.kernelSize + j : Nat) : Int) *
            input.padded ti ((L.stride : Int) * row + i - L.padding)
              ((L.stride : Int) * col + j - L.padding))).sum)).sum) ∧
      (c ≠ ((to_ : Int), (row : Int), (col : Int)) →
        ((List.range L.kernelSize).foldl (fun output i =>
          (List.range L.kernelSize).foldl (fun output j =>
            L.macStep input row col to_ ti i output j) output) s).view c = s.view c) := by
    intro ti s hs
    exact foldl_cell_add (fun s : Tensor3D α => s.Shaped D H W) Tensor3D.view (InShape D H W)
      _ _ _ _ (fun s i _ hs => hj ti i s hs) s hs
  have hti := foldl_cell_add (fun s : Tensor3D α => s.Shaped D H W) Tensor3D.view
    (InShape D H W)
    (fun output ti => (List.range L.kernelSize).foldl (fun output i =>
        (List.range L.kernelSize).foldl (fun output j =>
          L.macStep input row col to_ ti i output j) output) output)
    ((to_ : Int), (row : Int), (col : Int))
    (fun ti => ((List.range L.kernelSize).map (fun i => ((List.range L.kernelSize).map (fun j =>
            L.weights.at_ to_ ti ((i * L.kernelSize + j : Nat) : Int) *
            input.padded ti ((L.stride : Int) * row + i - L.padding)
              ((L.stride : Int) * col + j - L.padding))).sum)).sum)
    (List.range L.inputChannels) (fun s ti _ hs => hi ti s hs) _ h1.1
  unfold cellStep
  dsimp only
  have h3 := setAt_spec hti.1 hc (max 0 (Tensor3D.at_ ((List.range L.inputChannels).foldl
    (fun output ti => (List.range L.kernelSize).foldl (fun output i =>
        (List.range L.kernelSize).foldl (fun output j =>
          L.macStep input row col to_ ti i output j) output) output)
    (output.setAt to_ row col (L.bias.getD to_ 0))) to_ row col))
  refine ⟨h3.1, fun c hc' => ⟨fun e => ?_, fun e => ?_⟩⟩
  · rw [(h3.2 c hc').1 e]
    have e1 := (hti.2 _ hc).1 rfl
    have e2 := (h1.2 _ hc).1 rfl
    unfold Tensor3D.view at e1 e2
    dsimp only at e1 e2
    rw [e1, e2, e]
    unfold convValue convSum
    simp only [sum_map_range, Int.toNat_ofNat]
  · rw [(h3.2 c hc').2 e, (hti.2 c hc').2 e, (h1.2 c hc').2 e]

end ConvolutionalLayer
end AlexNet

namespace AlexNet

section Loops

variable {σ κ α : Type}

/-- A counted loop whose iteration `x` transforms exactly the cells `c` with
`proj c = x` and `E c`. -/
theorem foldl_range_footprint (Inv : σ → Prop) (view : σ → κ → α) (R : κ → Prop)
    (step : σ → Nat → σ) (n : Nat) (proj : κ → Int) (E : κ → Prop) (G : κ → α → α)
    (hstep : ∀ s x, x < n → Inv s → Inv (step s x) ∧ ∀ c, R c →
      ((proj c = (x : Int) ∧ E c) → view (step s x) c = G c (view s c)) ∧
      (¬ (proj c = (x : Int) ∧ E c) → view (step s x) c = view s c))
    (s0 : σ) (h0 : Inv s0) :
    Inv ((List.range n).foldl step s0) ∧ ∀ c, R c →
      ((0 ≤ proj c ∧ proj c < (n : Int) ∧ E c) →
        view ((List.range n).foldl step s0) c = G c (view s0 c)) ∧
      (¬ (0 ≤ proj c ∧ proj c < (n : Int) ∧ E c) →
        view ((List.range n).foldl step s0) c = view s0 c) := by
  have key := foldl_footprint Inv view R step (fun x c => proj c = (x : Int) ∧ E c)
    (fun _ c v => G c v) (List.range n) (List.nodup_range n)
    (fun x y c _ _ hx hy => by have := hx.1.symm.trans hy.1; exact_mod_cast this)
    (fun s x hx hs => hstep s x (List.mem_range.mp hx) hs) s0 h0
  refine ⟨key.1, fun c hc => ⟨fun h => ?_, fun h => ?_⟩⟩
  · have hmem : (proj c).toNat ∈ List.range n := List.mem_range.mpr (by omega)
    exact (key.2 c hc).1 _ hmem ⟨by omega, h.2.2⟩
  · refine (key.2 c hc).2 (fun x hx hq => h ⟨?_, ?_, hq.2⟩)
    · have := hq.1; omega
    · have := hq.1; have := List.mem_range.mp hx; omega

end Loops

namespace ConvolutionalLayer

open Tensor3D

variable {α : Type} [LinearOrderedCommRing α]

/-- The loop nest of `forward` writes the specified value into every cell. -/
theorem loops_spec (L : ConvolutionalLayer α) (input : Tensor3D α) (H W : Int)
    {output : Tensor3D α} (ho : output.Shaped L.outputChannels H W) :
    ((List.range H.toNat).foldl (fun output row =>
      (List.range W.toNat).foldl (fun output col =>
        (List.range L.outputChannels).foldl (fun output to_ =>
          L.cellStep input row col output to_) output) output) output).Shaped
        L.outputChannels H W ∧
    ∀ c, InShape L.outputChannels H W c →
      ((List.range H.toNat).foldl (fun output row =>
        (List.range W.toNat).foldl (fun output col =>
          (List.range L.outputChannels).foldl (fun output to_ =>
            L.cellStep input row col output to_) output) output) output).view c =
        convValue L.weights L.bias input L.inputChannels L.kernelSize L.stride L.padding
          c.1 c.2.1 c.2.2 := by
  have key := foldl_range_footprint (fun s : Tensor3D α => s.Shaped L.outputChannels H W)
    Tensor3D.view (InShape L.outputChannels H W)
    (fun output row =>
      (List.range W.toNat).foldl (fun output col =>
        (List.range L.outputChannels).foldl (fun output to_ =>
          L.cellStep input row col output to_) output) output)
    H.toNat (fun c => c.2.1) (fun _ => True)
    (fun c _ => convValue L.weights L.bias input L.inputChannels L.kernelSize L.stride
      L.padding c.1 c.2.1 c.2.2)
    (by
      intro s row hrow hs
      have kc := foldl_range_footprint (fun s : Tensor3D α => s.Shaped L.outputChannels H W)
        Tensor3D.view (InShape L.outputChannels H W)
        (fun output col =>
          (List.range L.outputChannels).foldl (fun output to_ =>
            L.cellStep input row col output to_) output)
        W.toNat (fun c => c.2.2) (fun c => c.2.1 = (row : Int))
        (fun c _ => convValue L.weights L.bias input L.inputChannels L.kernelSize L.stride
          L.padding c.1 c.2.1 c.2.2)
        (by
          intro s col hcol hs
          have kt := foldl_range_footprint
            (fun s : Tensor3D α => s.Shaped L.outputChannels H W)
            Tensor3D.view (InShape L.outputChannels H W)
            (fun output to_ => L.cellStep input row col output to_)
            L.outputChannels (fun c => c.1)
            (fun c => c.2.1 = (row : Int) ∧ c.2.2 = (col : Int))
            (fun c _ => convValue L.weights L.bias input L.inputChannels L.kernelSize L.stride
              L.padding c.1 c.2.1 c.2.2)
            (by
              intro s to_ hto hs
              have hin : InShape L.outputChannels H W ((to_ : Int), (row : Int), (col : Int)) :=
                ⟨by simp, by simpa using hto, by simp, by simp only; omega, by simp,
                  by simp only; omega⟩
              have hcell := L.cellStep_spec input row col to_ hs hin
              refine ⟨hcell.1, fun c hc => ⟨fun h => (hcell.2 c hc).1 ?_,
                fun h => (hcell.2 c hc).2 ?_⟩⟩
              · exact Prod.ext h.1 (Prod.ext h.2.1 h.2.2)
              · intro e
                exact h ⟨by rw [e], by rw [e], by rw [e]⟩)
            s hs
          refine ⟨kt.1, fun c hc => ⟨fun h => (kt.2 c hc).1 ⟨hc.1, hc.2.1, h.2, h.1⟩,
            fun h => (kt.2 c hc).2 (fun h' => h ⟨h'.2.2.2, h'.2.2.1⟩)⟩⟩)
        s hs
      refine ⟨kc.1, fun c hc => ⟨fun h => (kc.2 c hc).1 ⟨hc.2.2.2.2.1, ?_, h.1⟩,
        fun h => (kc.2 c hc).2 (fun h' => h ⟨h'.2.2, trivial⟩)⟩⟩
      have := hc.2.2.2.2.2; dsimp only; omega)
    output ho
  refine ⟨key.1, fun c hc => (key.2 c hc).1 ⟨hc.2.2.1, ?_, trivial⟩⟩
  have := hc.2.2.2.1; dsimp only; omega

/-- Specification of `forward`: it returns exactly when the element count is non-negative,
and then every cell of the result holds the specified value. -/
theorem direct_forward_spec (L : ConvolutionalLayer α) (input : Tensor3D α)
    (hnn : 0 ≤ (L.outputChannels : Int) *
      convOutDim input.height L.kernelSize L.stride L.padding *
      convOutDim input.width L.kernelSize L.stride L.padding) :
    ∃ t, L.forward input = some t ∧
      t.Shaped L.outputChannels (convOutDim input.height L.kernelSize L.stride L.padding)
        (convOutDim input.width L.kernelSize L.stride L.padding) ∧
      ∀ c, InShape L.outputChannels (convOutDim input.height L.kernelSize L.stride L.padding)
        (convOutDim input.width L.kernelSize L.stride L.padding) c →
        t.view c = convValue L.weights L.bias input L.inputChannels L.kernelSize L.stride
          L.padding c.1 c.2.1 c.2.2 := by
  obtain ⟨t0, ht0⟩ := new_isSome (0 : α) hnn
  have hs := (shaped_new ht0).1
  have key := L.loops_spec input _ _ hs
  refine ⟨_, ?_, key.1, key.2⟩
  unfold forward getHeight getWidth
  simp only [ht0]

theorem direct_forward_none (L : ConvolutionalLayer α) (input : Tensor3D α)
    (hneg : ¬ 0 ≤ (L.outputChannels : Int) *
      convOutDim input.height L.kernelSize L.stride L.padding *
      convOutDim input.width L.kernelSize L.stride L.padding) :
    L.forward input = none := by
  unfold forward getHeight getWidth Tensor3D.new
  simp only [if_neg hneg]

end ConvolutionalLayer
end AlexNet

namespace AlexNet

section Loops

variable {σ ιa ιb α : Type}

/-- Two nested loops are one loop over the pairs, in lexicographic order. -/
theorem foldl_product (f : σ → ιa → ιb → σ) (la : List ιa) (lb : List ιb) (s : σ) :
    (List.product la lb).foldl (fun s p => f s p.1 p.2) s =
      la.foldl (fun s x => lb.foldl (fun s y => f s x y) s) s := by
  induction la generalizing s with
  | nil => rfl
  | cons a la ih =>
    have e : List.product (a :: la) lb = lb.map (fun b => (a, b)) ++ List.product la lb := rfl
    rw [e, List.foldl_append, List.foldl_map, ih, List.foldl_cons]

/-- A loop `for (x = a; x < a + n; x++)` is the counted loop shifted by `a`. -/
theorem foldl_range' (f : σ → Nat → σ) (a n : Nat) (s : σ) :
    (List.range' a n).foldl f s = (List.range n).foldl (fun s x => f s (a + x)) s := by
  rw [List.range'_eq_map_range, List.foldl_map]

/-- Sum over the pairs of two lists as an iterated sum. -/
theorem sum_map_product [AddCommMonoid α] (f : ιa → ιb → α) (la : List ιa) (lb : List ιb) :
    ((List.product la lb).map (fun p => f p.1 p.2)).sum =
      (la.map (fun x => (lb.map (fun y => f x y)).sum)).sum := by
  induction la with
  | nil => rfl
  | cons a la ih =>
    have e : List.product (a :: la) lb = lb.map (fun b => (a, b)) ++ List.product la lb := rfl
    rw [e, List.map_append, List.sum_append, ih, List.map_cons, List.sum_cons, List.map_map]
    rfl

/-- Iterations that leave the state alone can be dropped. -/
theorem foldl_id_of_forall (f : σ → ιa → σ) (l : List ιa) (s : σ)
    (h : ∀ s, ∀ x ∈ l, f s x = s) : l.foldl f s = s := by
  induction l generalizing s with
  | nil => rfl
  | cons a l ih =>
    rw [List.foldl_cons, h s a (List.mem_cons_self a l)]
    exact ih s (fun s x hx => h s x (List.mem_cons_of_mem a hx))

/-- A hand-unrolled loop: `u` unrolled guarded copies of the body followed by the
remainder loop `for (x = u; x < n; x++)` run the body for `x = 0, ..., n - 1`, whenever
the guard makes the body a no-op from `n` on. -/
theorem foldl_unrolled (f : σ → Nat → σ) (u n : Nat) (s : σ)
    (hguard : ∀ s x, n ≤ x → f s x = s) :
    (List.range' u (n - u)).foldl f ((List.range u).foldl f s) = (List.range n).foldl f s := by
  rcases Nat.lt_or_ge n u with h | h
  · have e1 : n - u = 0 := by omega
    rw [e1, List.range'_zero, List.foldl_nil]
    have e2 : List.range u = List.range n ++ List.range' n (u - n) := by
      have := List.range'_append_1 0 n (u - n)
      simp only [Nat.zero_add] at this
      rw [List.range_eq_range', List.range_eq_range', this]
      congr 1
      omega
    rw [e2, List.foldl_append]
    exact foldl_id_of_forall f _ _ (fun s x hx => hguard s x (List.mem_range'_1.mp hx).1)
  · have e2 : List.range n = List.range u ++ List.range' u (n - u) := by
      have := List.range'_append_1 0 u (n - u)
      simp only [Nat.zero_add] at this
      rw [List.range_eq_range', List.range_eq_range', this]
      congr 1
      omega
    rw [e2, List.foldl_append]

end Loops

/-! ## Flat indices of the staging buffers -/

theorem flat3_lt {A B C a b c : Nat} (ha : a < A) (hb : b < B) (hc : c < C) :
    a * B * C + b * C + c < A * B * C := by
  have := @Tensor3D.flat_lt (A : Int) B C a b c (by exact_mod_cast ha) (by simp)
    (by exact_mod_cast hb) (by simp) (by exact_mod_cast hc)
  exact_mod_cast this

theorem flat3_inj {B C a b c a' b' c' : Nat} (hb : b < B) (hc : c < C) (hb' : b' < B)
    (hc' : c' < C) (e : a * B * C + b * C + c = a' * B * C + b' * C + c') :
    a = a' ∧ b = b' ∧ c = c' := by
  have := @Tensor3D.flat_inj (B : Int) C a b c a' b' c' (by simp) (by exact_mod_cast hb)
    (by simp) (by exact_mod_cast hc) (by simp) (by exact_mod_cast hb') (by simp)
    (by exact_mod_cast hc') (by exact_mod_cast e)
  exact ⟨by exact_mod_cast this.1, by exact_mod_cast this.2.1, by exact_mod_cast this.2.2⟩

theorem flat2_lt {B C b c : Nat} (hb : b < B) (hc : c < C) : b * C + c < B * C := by
  have := @flat3_lt 1 B C 0 b c (by omega) hb hc
  simpa using this

theorem flat2_inj {C b c b' c' : Nat} (hc : c < C) (hc' : c' < C)
    (e : b * C + c = b' * C + c') : b = b' ∧ c = c' := by
  have e' : ((b * C + c : Nat) : Int) = ((b' * C + c' : Nat) : Int) := by rw [e]
  push_cast at e'
  have := @Tensor3D.pair_inj (C : Int) b c b' c' (by simp) (by exact_mod_cast hc) (by simp)
    (by exact_mod_cast hc') (by linarith)
  exact ⟨by exact_mod_cast this.1, by exact_mod_cast this.2⟩

/-- Point writes with state-independent values at pairwise distinct slots of a buffer. -/
theorem foldl_set_spec {ι α : Type} [Zero α] (key : ι → Nat) (val : ι → α) (ops : List ι)
    (hnd : ops.Nodup) (hinj : ∀ x ∈ ops, ∀ y ∈ ops, key x = key y → x = y)
    (buf : List α) (hlt : ∀ x ∈ ops, key x < buf.length) :
    (ops.foldl (fun b op => b.set (key op) (val op)) buf).length = buf.length ∧
    (∀ x ∈ ops, (ops.foldl (fun b op => b.set (key op) (val op)) buf).getD (key x) 0 = val x) ∧
    (∀ k, (∀ x ∈ ops, key x ≠ k) →
      (ops.foldl (fun b op => b.set (key op) (val op)) buf).getD k 0 = buf.getD k 0) := by
  have key_ := foldl_footprint (fun b : List α => b.length = buf.length)
    (fun b k => b.getD k 0) (fun _ => True) (fun b op => b.set (key op) (val op))
    (fun op k => k = key op) (fun op _ _ => val op) ops hnd
    (fun x y c hx hy h1 h2 => hinj x hx y hy (h1.symm.trans h2))
    (fun s x hx hs => ⟨by simpa using hs, fun c _ => ⟨fun e => by
        subst e
        have := hlt x hx
        simp [List.getD_eq_getElem?_getD, List.getElem?_set, hs, this],
      fun e => by
        have : key x ≠ c := fun h => e h.symm
        simp [List.getD_eq_getElem?_getD, List.getElem?_set, this]⟩⟩)
    buf rfl
  refine ⟨key_.1, fun x hx => (key_.2 (key x) trivial).1 x hx rfl,
    fun k hk => (key_.2 k trivial).2 (fun x hx e => hk x hx e.symm)⟩

end AlexNet

namespace AlexNet

section Loops

variable {σ ιa ιb ιc α : Type}

/-- Three nested loops are one loop over the triples. -/
theorem foldl_product3 (f : σ → ιa → ιb → ιc → σ) (la : List ιa) (lb : List ιb)
    (lc : List ιc) (s : σ) :
    (List.product la (List.product lb lc)).foldl (fun s p => f s p.1 p.2.1 p.2.2) s =
      la.foldl (fun s x => lb.foldl (fun s y => lc.foldl (fun s z => f s x y z) s) s) s := by
  rw [foldl_product (fun s x (p : ιb × ιc) => f s x p.1 p.2)]
  congr
  funext s x
  exact foldl_product (fun s y z => f s x y z) lb lc s

theorem mem_product3 {la : List ιa} {lb : List ιb} {lc : List ιc} {p : ιa × ιb × ιc} :
    p ∈ List.product la (List.product lb lc) ↔ p.1 ∈ la ∧ p.2.1 ∈ lb ∧ p.2.2 ∈ lc := by
  obtain ⟨x, y, z⟩ := p
  simp [List.pair_mem_product]

theorem nodup_product3 {la : List ιa} {lb : List ιb} {lc : List ιc} (ha : la.Nodup)
    (hb : lb.Nodup) (hc : lc.Nodup) : (List.product la (List.product lb lc)).Nodup :=
  List.Nodup.product ha (List.Nodup.product hb hc)

end Loops

namespace ConvolutionalLayerV2

open Tensor3D

variable {α : Type} [LinearOrderedCommRing α]

theorem loadInputCell_eq (L : ConvolutionalLayerV2 α) (input : Tensor3D α)
    (b : TileBuffers α) (tiStart rowStart colStart : Nat) (ib : List α) (x h w : Nat) :
    L.loadInputCell input b tiStart rowStart colStart ib (tiStart + x) h w =
      ib.set (x * b.tileInputHeight * b.tileInputWidth + h * b.tileInputWidth + w)
        (input.padded ((tiStart + x : Nat) : Int) ((rowStart : Int) * L.stride + h - L.padding)
          ((colStart : Int) * L.stride + w - L.padding)) := by
  unfold loadInputCell padded getHeight getWidth
  simp only [Nat.add_sub_cancel_left]
  split <;> rfl

/-- After `loadInputTile` the input buffer holds the zero-padded input patch. -/
theorem loadInputTile_spec (L : ConvolutionalLayerV2 α) (input : Tensor3D α)
    (b : TileBuffers α) (tiStart tiEnd rowStart rowEnd colStart colEnd : Nat)
    (hlen : b.inputBuffer.length = (tiEnd - tiStart) * b.tileInputHeight * b.tileInputWidth) :
    (L.loadInputTile input b tiStart tiEnd rowStart rowEnd colStart colEnd).inputBuffer.length =
      b.inputBuffer.length ∧
    ∀ x h w, x < tiEnd - tiStart → h < b.tileInputHeight → w < b.tileInputWidth →
      (L.loadInputTile input b tiStart tiEnd rowStart rowEnd colStart colEnd).inputBuffer.getD
        (x * b.tileInputHeight * b.tileInputWidth + h * b.tileInputWidth + w) 0 =
      input.padded ((tiStart + x : Nat) : Int) ((rowStart : Int) * L.stride + h - L.padding)
          ((colStart : Int) * L.stride + w - L.padding) := by
  have e : (L.loadInputTile input b tiStart tiEnd rowStart rowEnd colStart colEnd).inputBuffer =
      (List.product (List.range (tiEnd - tiStart)) (List.product (List.range b.tileInputHeight)
        (List.range b.tileInputWidth))).foldl (fun ib p =>
          ib.set (p.1 * b.tileInputHeight * b.tileInputWidth + p.2.1 * b.tileInputWidth + p.2.2)
            (input.padded ((tiStart + p.1 : Nat) : Int)
              ((rowStart : Int) * L.stride + p.2.1 - L.padding)
              ((colStart : Int) * L.stride + p.2.2 - L.padding))) b.inputBuffer := by
    unfold loadInputTile
    simp only [foldl_range']
    rw [← foldl_product3 (fun ib x h w =>
      L.loadInputCell input b tiStart rowStart colStart ib (tiStart + x) h w)]
    simp only [loadInputCell_eq]
  rw [e]
  have key := foldl_set_spec
    (fun p : Nat × Nat × Nat =>
      p.1 * b.tileInputHeight * b.tileInputWidth + p.2.1 * b.tileInputWidth + p.2.2)
    (fun p : Nat × Nat × Nat => input.padded ((tiStart + p.1 : Nat) : Int)
              ((rowStart : Int) * L.stride + p.2.1 - L.padding)
              ((colStart : Int) * L.stride + p.2.2 - L.padding))
    (List.product (List.range (tiEnd - tiStart)) (List.product (List.range b.tileInputHeight)
        (List.range b.tileInputWidth)))
    (nodup_product3 (List.nodup_range _) (List.nodup_range _) (List.nodup_range _))
    (by
      intro p hp q hq e
      have hp' := mem_product3.mp hp
      have hq' := mem_product3.mp hq
      simp only [List.mem_range] at hp' hq'
      have := flat3_inj hp'.2.1 hp'.2.2 hq'.2.1 hq'.2.2 e
      exact Prod.ext this.1 (Prod.ext this.2.1 this.2.2))
    b.inputBuffer
    (by
      intro p hp
      have hp' := mem_product3.mp hp
      simp only [List.mem_range] at hp'
      rw [hlen]
      exact flat3_lt hp'.1 hp'.2.1 hp'.2.2)
  refine ⟨key.1, fun x h w hx hh hw => ?_⟩
  exact key.2.1 (x, h, w) (mem_product3.mpr ⟨List.mem_range.mpr hx, List.mem_range.mpr hh,
    List.mem_range.mpr hw⟩)

end ConvolutionalLayerV2
end AlexNet

namespace AlexNet

section Loops

variable {σ ιa ιb ιc ιd α : Type}

/-- Four nested loops are one loop over the quadruples. -/
theorem foldl_product4 (f : σ → ιa → ιb → ιc → ιd → σ) (la : List ιa) (lb : List ιb)
    (lc : List ιc) (ld : List ιd) (s : σ) :
    (List.product la (List.product lb (List.product lc ld))).foldl
        (fun s p => f s p.1 p.2.1 p.2.2.1 p.2.2.2) s =
      la.foldl (fun s x => lb.foldl (fun s y => lc.foldl (fun s z =>
        ld.foldl (fun s u => f s x y z u) s) s) s) s := by
  rw [foldl_product (fun s x (p : ιb × ιc × ιd) => f s x p.1 p.2.1 p.2.2)]
  congr
  funext s x
  exact foldl_product3 (fun s y z u => f s x y z u) lb lc ld s

theorem mem_product4 {la : List ιa} {lb : List ιb} {lc : List ιc} {ld : List ιd}
    {p : ιa × ιb × ιc × ιd} :
    p ∈ List.product la (List.product lb (List.product lc ld)) ↔
      p.1 ∈ la ∧ p.2.1 ∈ lb ∧ p.2.2.1 ∈ lc ∧ p.2.2.2 ∈ ld := by
  obtain ⟨x, y, z, u⟩ := p
  simp [List.pair_mem_product]

end Loops

theorem flat4_lt {A B K a b i j : Nat} (ha : a < A) (hb : b < B) (hi : i < K) (hj : j < K) :
    a * B * K * K + b * K * K + i * K + j < A * B * K * K := by
  have h := @flat3_lt A B (K * K) a b (i * K + j) ha hb (flat2_lt hi hj)
  have e1 : a * B * K * K = a * B * (K * K) := Nat.mul_assoc _ _ _
  have e2 : b * K * K = b * (K * K) := Nat.mul_assoc _ _ _
  have e3 : A * B * K * K = A * B * (K * K) := Nat.mul_assoc _ _ _
  omega

theorem flat4_inj {B K a b i j a' b' i' j' : Nat} (hb : b < B) (hi : i < K) (hj : j < K)
    (hb' : b' < B) (hi' : i' < K) (hj' : j' < K)
    (e : a * B * K * K + b * K * K + i * K + j = a' * B * K * K + b' * K * K + i' * K + j') :
    a = a' ∧ b = b' ∧ i = i' ∧ j = j' := by
  have e1 : a * B * K * K = a * B * (K * K) := Nat.mul_assoc _ _ _
  have e2 : b * K * K = b * (K * K) := Nat.mul_assoc _ _ _
  have e3 : a' * B * K * K = a' * B * (K * K) := Nat.mul_assoc _ _ _
  have e4 : b' * K * K = b' * (K * K) := Nat.mul_assoc _ _ _
  have h := @flat3_inj B (K * K) a b (i * K + j) a' b' (i' * K + j') hb (flat2_lt hi hj) hb'
    (flat2_lt hi' hj') (by omega)
  have h2 := flat2_inj hj hj' h.2.2
  exact ⟨h.1, h.2.1, h2.1, h2.2⟩

namespace ConvolutionalLayerV2

open Tensor3D

variable {α : Type} [LinearOrderedCommRing α]

theorem loadWeightCell_eq (L : ConvolutionalLayerV2 α) (b : TileBuffers α)
    (toStart tiStart : Nat) (wb : List α) (x y i j : Nat) :
    L.loadWeightCell b toStart tiStart wb (toStart + x) (tiStart + y) i j =
      wb.set (x * b.tiSize * L.kernelSize * L.kernelSize + y * L.kernelSize * L.kernelSize +
          i * L.kernelSize + j)
        (L.weights.at_ ((toStart + x : Nat) : Int) ((tiStart + y : Nat) : Int)
          ((i * L.kernelSize + j : Nat) : Int)) := by
  unfold loadWeightCell
  simp only [Nat.add_sub_cancel_left, Nat.add_assoc]

/-- After `loadWeightTile` the weight buffer holds the weights of the tile. -/
theorem loadWeightTile_spec (L : ConvolutionalLayerV2 α) (b : TileBuffers α)
    (toStart toEnd tiStart tiEnd : Nat) (htn : b.tiSize = tiEnd - tiStart)
    (hlen : b.weightBuffer.length =
      (toEnd - toStart) * (tiEnd - tiStart) * L.kernelSize * L.kernelSize) :
    (L.loadWeightTile b toStart toEnd tiStart tiEnd).weightBuffer.length =
      b.weightBuffer.length ∧
    ∀ x y i j, x < toEnd - toStart → y < tiEnd - tiStart → i < L.kernelSize →
      j < L.kernelSize →
      (L.loadWeightTile b toStart toEnd tiStart tiEnd).weightBuffer.getD
        (x * b.tiSize * L.kernelSize * L.kernelSize + y * L.kernelSize * L.kernelSize +
          i * L.kernelSize + j) 0 =
      L.weights.at_ ((toStart + x : Nat) : Int) ((tiStart + y : Nat) : Int)
          ((i * L.kernelSize + j : Nat) : Int) := by
  have e : (L.loadWeightTile b toStart toEnd tiStart tiEnd).weightBuffer =
      (List.product (List.range (toEnd - toStart)) (List.product (List.range (tiEnd - tiStart))
        (List.product (List.range L.kernelSize) (List.range L.kernelSize)))).foldl (fun wb p =>
          wb.set (p.1 * b.tiSize * L.kernelSize * L.kernelSize +
              p.2.1 * L.kernelSize * L.kernelSize + p.2.2.1 * L.kernelSize + p.2.2.2)
            (L.weights.at_ ((toStart + p.1 : Nat) : Int) ((tiStart + p.2.1 : Nat) : Int)
              ((p.2.2.1 * L.kernelSize + p.2.2.2 : Nat) : Int))) b.weightBuffer := by
    unfold loadWeightTile
    simp only [foldl_range']
    rw [← foldl_product4 (fun wb x y i j =>
      L.loadWeightCell b toStart tiStart wb (toStart + x) (tiStart + y) i j)]
    simp only [loadWeightCell_eq]
  rw [e]
  have key := foldl_set_spec
    (fun p : Nat × Nat × Nat × Nat => p.1 * b.tiSize * L.kernelSize * L.kernelSize +
              p.2.1 * L.kernelSize * L.kernelSize + p.2.2.1 * L.kernelSize + p.2.2.2)
    (fun p : Nat × Nat × Nat × Nat =>
      L.weights.at_ ((toStart + p.1 : Nat) : Int) ((tiStart + p.2.1 : Nat) : Int)
              ((p.2.2.1 * L.kernelSize + p.2.2.2 : Nat) : Int))
    (List.product (List.range (toEnd - toStart)) (List.product (List.range (tiEnd - tiStart))
        (List.product (List.range L.kernelSize) (List.range L.kernelSize))))
    (List.Nodup.product (List.nodup_range _)
      (nodup_product3 (List.nodup_range _) (List.nodup_range _) (List.nodup_range _)))
    (by
      intro p hp q hq e
      have hp' := mem_product4.mp hp
      have hq' := mem_product4.mp hq
      simp only [List.mem_range] at hp' hq'
      rw [htn] at e
      have := flat4_inj hp'.2.1 hp'.2.2.1 hp'.2.2.2 hq'.2.1 hq'.2.2.1 hq'.2.2.2 e
      exact Prod.ext this.1 (Prod.ext this.2.1 (Prod.ext this.2.2.1 this.2.2.2)))
    b.weightBuffer
    (by
      intro p hp
      have hp' := mem_product4.mp hp
      simp only [List.mem_range] at hp'
      rw [hlen, htn]
      exact flat4_lt hp'.1 hp'.2.1 hp'.2.2.1 hp'.2.2.2)
  refine ⟨key.1, fun x y i j hx hy hi hj => ?_⟩
  exact key.2.1 (x, y, i, j) (mem_product4.mpr ⟨List.mem_range.mpr hx, List.mem_range.mpr hy,
    List.mem_range.mpr hi, List.mem_range.mpr hj⟩)

end ConvolutionalLayerV2
end AlexNet

namespace AlexNet

section Loops

variable {σ ι κ α : Type}

theorem adds_foldl [AddCommMonoid α] {Inv : σ → Prop} {view : σ → κ → α} {R : κ → Prop}
    {step : σ → ι → σ} {A : ι → κ → α} (l : List ι)
    (h : ∀ x ∈ l, Adds Inv view R (fun s => step s x) (A x)) :
    Adds Inv view R (fun s => l.foldl step s) (fun c => (l.map (fun x => A x c)).sum) := by
  intro s hs
  exact foldl_additive Inv view R step A l (fun s x hx hs => h x hx s hs) s hs

theorem adds_id [AddCommMonoid α] {Inv : σ → Prop} {view : σ → κ → α} {R : κ → Prop} :
    Adds Inv view R (fun s => s) (fun _ => 0) :=
  fun _ hs => ⟨hs, fun _ _ => (add_zero _).symm⟩

theorem adds_congr [AddCommMonoid α] {Inv : σ → Prop} {view : σ → κ → α} {R : κ → Prop}
    {f g : σ → σ} {A B : κ → α} (h : Adds Inv view R f A) (hf : ∀ s, Inv s → g s = f s)
    (hA : ∀ c, R c → B c = A c) : Adds Inv view R g B := by
  intro s hs
  rw [hf s hs]
  exact ⟨(h s hs).1, fun c hc => by rw [(h s hs).2 c hc, hA c hc]⟩

/-- A sum over a counted range in which a single index contributes. -/
theorem sum_range_single [AddCommMonoid α] (n x0 : Nat) (hx : x0 < n) (g : Nat → α)
    (h : ∀ x, x < n → x ≠ x0 → g x = 0) : ((List.range n).map g).sum = g x0 := by
  rw [Tensor3D.sum_map_range]
  exact Finset.sum_eq_single_of_mem x0 (Finset.mem_range.mpr hx)
    (fun x hx' hne => h x (Finset.mem_range.mp hx') hne)

theorem sum_range_zero [AddCommMonoid α] (n : Nat) (g : Nat → α)
    (h : ∀ x, x < n → g x = 0) : ((List.range n).map g).sum = 0 := by
  rw [Tensor3D.sum_map_range]
  exact Finset.sum_eq_zero (fun x hx' => h x (Finset.mem_range.mp hx'))

end Loops

namespace ConvolutionalLayerV2

open Tensor3D

variable {α : Type} [LinearOrderedCommRing α]

/-- The product accumulated by `PROCESS_TII(y)` for output channel offset `x`. -/
theorem processTii_adds (L : ConvolutionalLayerV2 α) (b0 : TileBuffers α)
    (i j trr tcc tiStart tiEnd base outIdx y : Nat) (hy : tiStart + y < tiEnd)
    (hout : outIdx < b0.outputBuffer.length) :
    Adds (TileBuffers.Frame b0) TileBuffers.out (fun k => k < b0.outputBuffer.length)
      (fun b => L.processTii i j trr tcc tiStart tiEnd base outIdx b y)
      (fun k => if k = outIdx then
        b0.weightBuffer.getD (base + y * L.kernelSize * L.kernelSize + i * L.kernelSize + j) 0 *
        b0.inputBuffer.getD (y * b0.tileInputHeight * b0.tileInputWidth +
          (trr * L.stride + i) * b0.tileInputWidth + (tcc * L.stride + j)) 0 else 0) := by
  intro b hb
  obtain ⟨h1, h2, h3, h4, h5, h6, h7, h8, h9⟩ := hb
  unfold processTii
  dsimp only
  rw [if_pos hy]
  simp only [Nat.add_sub_cancel_left]
  refine ⟨⟨h1, h2, h3, h4, h5, h6, h7, h8, by simpa using h9⟩, fun k hk => ?_⟩
  unfold TileBuffers.out
  dsimp only
  rw [h1, h2, h5, h6]
  by_cases e : k = outIdx
  · subst e
    rw [if_pos rfl]
    have hk' : k < b.outputBuffer.length := by omega
    simp [List.getD_eq_getElem?_getD, List.getElem?_set, hk']
  · rw [if_neg e, add_zero]
    have e' : outIdx ≠ k := fun h => e h.symm
    simp [List.getD_eq_getElem?_getD, List.getElem?_set, e']

theorem processTii_guard (L : ConvolutionalLayerV2 α)
    (i j trr tcc tiStart tiEnd base outIdx : Nat) (b : TileBuffers α) (y : Nat)
    (hy : tiEnd - tiStart ≤ y) :
    L.processTii i j trr tcc tiStart tiEnd base outIdx b y = b := by
  unfold processTii
  rw [if_neg (by omega)]

/-- The unrolled `computeTileUnitTii` is the plain loop over the input channels of the tile. -/
theorem computeTileUnitTii_eq (L : ConvolutionalLayerV2 α) (b : TileBuffers α)
    (i j trr tcc tiStart tiEnd too toStartOffset : Nat) (hTn : tiEnd - tiStart ≤ L.Tn) :
    L.computeTileUnitTii b i j trr tcc tiStart tiEnd too toStartOffset =
      (List.range (tiEnd - tiStart)).foldl
        (L.processTii i j trr tcc tiStart tiEnd
          ((too - toStartOffset) * b.tiSize * L.kernelSize * L.kernelSize)
          ((too - toStartOffset) * b.tileRows * b.tileCols + trr * b.tileCols + tcc)) b := by
  unfold computeTileUnitTii
  simp only [Nat.min_eq_right hTn]
  exact foldl_unrolled _ 7 (tiEnd - tiStart) b
    (fun s x hx => L.processTii_guard i j trr tcc tiStart tiEnd _ _ s x hx)

end ConvolutionalLayerV2
end AlexNet

namespace AlexNet
namespace ConvolutionalLayerV2

open Tensor3D

variable {α : Type} [LinearOrderedCommRing α]

/-- Accumulation performed by `computeTileUnitTii` for the output channel offset `x`. -/
theorem computeTileUnitTii_adds (L : ConvolutionalLayerV2 α) (b0 : TileBuffers α)
    (i j trr tcc tiStart tiEnd toStart x tm : Nat) (hTn : tiEnd - tiStart ≤ L.Tn)
    (hlen : b0.outputBuffer.length = tm * b0.tileRows * b0.tileCols)
    (hx : x < tm) (htrr : trr < b0.tileRows) (htcc : tcc < b0.tileCols) :
    Adds (TileBuffers.Frame b0) TileBuffers.out (fun k => k < b0.outputBuffer.length)
      (fun b => L.computeTileUnitTii b i j trr tcc tiStart tiEnd (toStart + x) toStart)
      (fun k => ((List.range (tiEnd - tiStart)).map (fun y =>
        if k = x * b0.tileRows * b0.tileCols + trr * b0.tileCols + tcc then
          b0.weightBuffer.getD (x * b0.tiSize * L.kernelSize * L.kernelSize +
            y * L.kernelSize * L.kernelSize + i * L.kernelSize + j) 0 *
          b0.inputBuffer.getD (y * b0.tileInputHeight * b0.tileInputWidth +
            (trr * L.stride + i) * b0.tileInputWidth + (tcc * L.stride + j)) 0 else 0)).sum) := by
  have hout : x * b0.tileRows * b0.tileCols + trr * b0.tileCols + tcc <
      b0.outputBuffer.length := by
    rw [hlen]
    exact flat3_lt hx htrr htcc
  refine adds_congr (adds_foldl (List.range (tiEnd - tiStart)) (fun y hy =>
    L.processTii_adds b0 i j trr tcc tiStart tiEnd
      (x * b0.tiSize * L.kernelSize * L.kernelSize)
      (x * b0.tileRows * b0.tileCols + trr * b0.tileCols + tcc) y
      (by have := List.mem_range.mp hy; omega) hout)) ?_ (fun _ _ => rfl)
  intro b hb
  rw [L.computeTileUnitTii_eq b i j trr tcc tiStart tiEnd _ _ hTn]
  simp only [Nat.add_sub_cancel_left]
  rw [hb.2.2.1, hb.2.2.2.1, hb.2.2.2.2.2.2.1]

theorem processToo_guard (L : ConvolutionalLayerV2 α)
    (i j trr tcc tiStart tiEnd toStart toEnd : Nat) (b : TileBuffers α) (x : Nat)
    (hx : toEnd - toStart ≤ x) :
    L.processToo i j trr tcc tiStart tiEnd toStart toEnd b x = b := by
  unfold processToo
  rw [if_neg (by omega)]

/-- The unrolled `computeTileUnitToo` is the plain loop over the output channels of the tile. -/
theorem computeTileUnitToo_eq (L : ConvolutionalLayerV2 α) (b : TileBuffers α)
    (i j trr tcc tiStart tiEnd toStart toEnd : Nat) (hTm : toEnd - toStart ≤ L.Tm) :
    L.computeTileUnitToo b i j trr tcc tiStart tiEnd toStart toEnd =
      (List.range (toEnd - toStart)).foldl
        (L.processToo i j trr tcc tiStart tiEnd toStart toEnd) b := by
  unfold computeTileUnitToo
  simp only [Nat.min_eq_right hTm]
  exact foldl_unrolled _ 4 (toEnd - toStart) b
    (fun s x hx => L.processToo_guard i j trr tcc tiStart tiEnd toStart toEnd s x hx)

/-- Accumulation performed by `computeTileUnitToo` at one kernel tap and tile position. -/
theorem computeTileUnitToo_adds (L : ConvolutionalLayerV2 α) (b0 : TileBuffers α)
    (i j trr tcc tiStart tiEnd toStart toEnd : Nat) (hTn : tiEnd - tiStart ≤ L.Tn)
    (hTm : toEnd - toStart ≤ L.Tm)
    (hlen : b0.outputBuffer.length = (toEnd - toStart) * b0.tileRows * b0.tileCols)
    (htrr : trr < b0.tileRows) (htcc : tcc < b0.tileCols) :
    Adds (TileBuffers.Frame b0) TileBuffers.out (fun k => k < b0.outputBuffer.length)
      (fun b => L.computeTileUnitToo b i j trr tcc tiStart tiEnd toStart toEnd)
      (fun k => ((List.range (toEnd - toStart)).map (fun x =>
        ((List.range (tiEnd - tiStart)).map (fun y =>
        if k = x * b0.tileRows * b0.tileCols + trr * b0.tileCols + tcc then
          b0.weightBuffer.getD (x * b0.tiSize * L.kernelSize * L.kernelSize +
            y * L.kernelSize * L.kernelSize + i * L.kernelSize + j) 0 *
          b0.inputBuffer.getD (y * b0.tileInputHeight * b0.tileInputWidth +
            (trr * L.stride + i) * b0.tileInputWidth + (tcc * L.stride + j)) 0
        else 0)).sum)).sum) := by
  refine adds_congr (adds_foldl (List.range (toEnd - toStart)) (fun x hx => ?_))
    (fun b _ => L.computeTileUnitToo_eq b i j trr tcc tiStart tiEnd toStart toEnd hTm)
    (fun _ _ => rfl)
  have hx' := List.mem_range.mp hx
  refine adds_congr (L.computeTileUnitTii_adds b0 i j trr tcc tiStart tiEnd toStart x
    (toEnd - toStart) hTn hlen hx' htrr htcc) ?_ (fun _ _ => rfl)
  intro b _
  unfold processToo
  rw [if_pos (by omega)]

/-- Accumulation performed by `processTile`: every kernel tap, tile position, output channel
and input channel of the tile contributes one product. -/
theorem processTile_adds (L : ConvolutionalLayerV2 α) (b0 : TileBuffers α)
    (tiStart tiEnd toStart toEnd : Nat) (hTn : tiEnd - tiStart ≤ L.Tn)
    (hTm : toEnd - toStart ≤ L.Tm)
    (hlen : b0.outputBuffer.length = (toEnd - toStart) * b0.tileRows * b0.tileCols) :
    Adds (TileBuffers.Frame b0) TileBuffers.out (fun k => k < b0.outputBuffer.length)
      (fun b => L.processTile b tiStart tiEnd toStart toEnd)
      (fun k => ((List.range L.kernelSize).map (fun i =>
        ((List.range L.kernelSize).map (fun j =>
        ((List.range b0.tileRows).map (fun trr =>
        ((List.range b0.tileCols).map (fun tcc =>
        ((List.range (toEnd - toStart)).map (fun x =>
        ((List.range (tiEnd - tiStart)).map (fun y =>
        if k = x * b0.tileRows * b0.tileCols + trr * b0.tileCols + tcc then
          b0.weightBuffer.getD (x * b0.tiSize * L.kernelSize * L.kernelSize +
            y * L.kernelSize * L.kernelSize + i * L.kernelSize + j) 0 *
          b0.inputBuffer.getD (y * b0.tileInputHeight * b0.tileInputWidth +
            (trr * L.stride + i) * b0.tileInputWidth + (tcc * L.stride + j)) 0
        else 0)).sum)).sum)).sum)).sum)).sum)).sum) := by
  refine adds_congr (adds_foldl (List.range L.kernelSize) (fun i _ =>
    adds_foldl (List.range L.kernelSize) (fun j _ =>
      adds_foldl (List.range b0.tileRows) (fun trr htrr =>
        adds_foldl (List.range b0.tileCols) (fun tcc htcc =>
          L.computeTileUnitToo_adds b0 i j trr tcc tiStart tiEnd toStart toEnd hTn hTm hlen
            (List.mem_range.mp htrr) (List.mem_range.mp htcc))))))
    ?_ (fun _ _ => rfl)
  intro b hb
  unfold processTile
  rw [hb.2.2.1, hb.2.2.2.1]

end ConvolutionalLayerV2
end AlexNet

namespace AlexNet

/-- Collapse of the indicator sums of `processTile` at one output slot of the tile. -/
theorem sum_tile_collapse {α : Type} [AddCommMonoid α] (K tr tc tm tn : Nat)
    (F : Nat → Nat → Nat → Nat → Nat → Nat → α) (x0 trr0 tcc0 : Nat)
    (hx : x0 < tm) (htrr : trr0 < tr) (htcc : tcc0 < tc) :
    ((List.range K).map (fun i => ((List.range K).map (fun j =>
      ((List.range tr).map (fun trr => ((List.range tc).map (fun tcc =>
      ((List.range tm).map (fun x => ((List.range tn).map (fun y =>
        if x0 * tr * tc + trr0 * tc + tcc0 = x * tr * tc + trr * tc + tcc then
          F i j trr tcc x y else 0)).sum)).sum)).sum)).sum)).sum)).sum =
    ∑ i ∈ Finset.range K, ∑ j ∈ Finset.range K, ∑ y ∈ Finset.range tn,
      F i j trr0 tcc0 x0 y := by
  rw [Tensor3D.sum_map_range]
  refine Finset.sum_congr rfl (fun i _ => ?_)
  rw [Tensor3D.sum_map_range]
  refine Finset.sum_congr rfl (fun j _ => ?_)
  rw [sum_range_single tr trr0 htrr, sum_range_single tc tcc0 htcc,
    sum_range_single tm x0 hx, Tensor3D.sum_map_range]
  · simp
  · intro x hx' hne
    refine sum_range_zero _ _ (fun y _ => if_neg (fun e => hne ?_))
    exact (flat3_inj htrr htcc htrr htcc e).1.symm
  · intro tcc htcc' hne
    refine sum_range_zero _ _ (fun x _ => sum_range_zero _ _ (fun y _ => if_neg (fun e =>
      hne ?_)))
    exact (flat3_inj htrr htcc htrr htcc' e).2.2.symm
  · intro trr htrr' hne
    refine sum_range_zero _ _ (fun tcc htcc' => sum_range_zero _ _ (fun x _ =>
      sum_range_zero _ _ (fun y _ => if_neg (fun e => hne ?_))))
    exact (flat3_inj htrr htcc htrr' htcc' e).2.1.symm

end AlexNet

namespace AlexNet
namespace ConvolutionalLayerV2

open Tensor3D

variable {α : Type} [LinearOrderedCommRing α]

/-- Effect of `accumulateOutputTile`: every cell of the tile gains its tile value, and the
cells outside the tile keep theirs. -/
theorem accumulateOutputTile_spec (b : TileBuffers α)
    (toStart toEnd rowStart rowEnd colStart colEnd : Nat) {D H W : Int}
    {output : Tensor3D α} (ho : output.Shaped D H W)
    (hD : ((toStart + (toEnd - toStart) : Nat) : Int) ≤ D)
    (hH : ((rowStart + b.tileRows : Nat) : Int) ≤ H)
    (hW : ((colStart + b.tileCols : Nat) : Int) ≤ W) :
    (accumulateOutputTile output b toStart toEnd rowStart rowEnd colStart colEnd).Shaped D H W ∧
    ∀ c, InShape D H W c →
      (∀ x trr tcc, x < toEnd - toStart → trr < b.tileRows → tcc < b.tileCols →
        c = (((toStart + x : Nat) : Int), ((rowStart + trr : Nat) : Int),
          ((colStart + tcc : Nat) : Int)) →
        (accumulateOutputTile output b toStart toEnd rowStart rowEnd colStart colEnd).view c =
          output.view c +
            b.outputBuffer.getD (x * b.tileRows * b.tileCols + trr * b.tileCols + tcc) 0) ∧
      ((∀ x trr tcc, x < toEnd - toStart → trr < b.tileRows → tcc < b.tileCols →
        c ≠ (((toStart + x : Nat) : Int), ((rowStart + trr : Nat) : Int),
          ((colStart + tcc : Nat) : Int))) →
        (accumulateOutputTile output b toStart toEnd rowStart rowEnd colStart colEnd).view c =
          output.view c) := by
  have e : accumulateOutputTile output b toStart toEnd rowStart rowEnd colStart colEnd =
      (List.product (List.range (toEnd - toStart)) (List.product (List.range b.tileRows)
        (List.range b.tileCols))).foldl (fun out p =>
          accumulateCell b toStart rowStart colStart out (toStart + p.1) p.2.1 p.2.2) output := by
    unfold accumulateOutputTile
    simp only [foldl_range']
    rw [← foldl_product3 (fun out x trr tcc =>
      accumulateCell b toStart rowStart colStart out (toStart + x) trr tcc)]
  rw [e]
  have key := foldl_footprint (fun s : Tensor3D α => s.Shaped D H W) Tensor3D.view
    (InShape D H W)
    (fun out (p : Nat × Nat × Nat) =>
      accumulateCell b toStart rowStart colStart out (toStart + p.1) p.2.1 p.2.2)
    (fun p c => c = (((toStart + p.1 : Nat) : Int), ((rowStart + p.2.1 : Nat) : Int),
          ((colStart + p.2.2 : Nat) : Int)))
    (fun p _ v => v +
      b.outputBuffer.getD (p.1 * b.tileRows * b.tileCols + p.2.1 * b.tileCols + p.2.2) 0)
    (List.product (List.range (toEnd - toStart)) (List.product (List.range b.tileRows)
        (List.range b.tileCols)))
    (nodup_product3 (List.nodup_range _) (List.nodup_range _) (List.nodup_range _))
    (by
      intro p q c _ _ hp hq
      have e := hp.symm.trans hq
      simp only [Prod.mk.injEq, Nat.cast_inj] at e
      exact Prod.ext (by omega) (Prod.ext (by omega) (by omega)))
    (by
      intro s p hp hs
      have hp' := mem_product3.mp hp
      simp only [List.mem_range] at hp'
      have hin : InShape D H W (((toStart + p.1 : Nat) : Int), ((rowStart + p.2.1 : Nat) : Int),
          ((colStart + p.2.2 : Nat) : Int)) := by
        refine ⟨by positivity, ?_, by positivity, ?_, by positivity, ?_⟩ <;>
          simp only <;> push_cast at hD hH hW ⊢ <;> omega
      have hset := setAt_spec hs hin
        (s.at_ ((toStart + p.1 : Nat) : Int) ((rowStart + p.2.1 : Nat) : Int)
          ((colStart + p.2.2 : Nat) : Int) +
          b.outputBuffer.getD (p.1 * b.tileRows * b.tileCols + p.2.1 * b.tileCols + p.2.2) 0)
      unfold accumulateCell
      simp only [Nat.add_sub_cancel_left]
      refine ⟨hset.1, fun c hc => ⟨fun h => ?_, fun h => (hset.2 c hc).2 h⟩⟩
      rw [(hset.2 c hc).1 h, h]
      rfl)
    output ho
  refine ⟨key.1, fun c hc => ⟨fun x trr tcc hx htrr htcc hceq => ?_, fun hne => ?_⟩⟩
  · exact (key.2 c hc).1 (x, trr, tcc) (mem_product3.mpr ⟨List.mem_range.mpr hx,
      List.mem_range.mpr htrr, List.mem_range.mpr htcc⟩) hceq
  · refine (key.2 c hc).2 (fun p hp => ?_)
    have hp' := mem_product3.mp hp
    simp only [List.mem_range] at hp'
    exact hne p.1 p.2.1 p.2.2 hp'.1 hp'.2.1 hp'.2.2

end ConvolutionalLayerV2
end AlexNet

namespace AlexNet
namespace ConvolutionalLayerV2

open Tensor3D

variable {α : Type} [LinearOrderedCommRing α]

/-- The staged tile computes, at each of its output slots, the tile's part of the
convolution sum. -/
theorem tile_out (L : ConvolutionalLayerV2 α) (input : Tensor3D α)
    (to_ toLimit ti tiLimit row rowLimit col colLimit : Nat)
    (hTm : toLimit - to_ ≤ L.Tm) (hTn : tiLimit - ti ≤ L.Tn) :
    (L.processTile (initOutputTileZero (L.loadWeightTile (L.loadInputTile input
      (TileBuffers.new (toLimit - to_) (tiLimit - ti) (rowLimit - row) (colLimit - col)
        L.kernelSize L.stride) ti tiLimit row rowLimit col colLimit) to_ toLimit ti tiLimit))
      ti tiLimit to_ toLimit).tileRows = rowLimit - row ∧
    (L.processTile (initOutputTileZero (L.loadWeightTile (L.loadInputTile input
      (TileBuffers.new (toLimit - to_) (tiLimit - ti) (rowLimit - row) (colLimit - col)
        L.kernelSize L.stride) ti tiLimit row rowLimit col colLimit) to_ toLimit ti tiLimit))
      ti tiLimit to_ toLimit).tileCols = colLimit - col ∧
    ∀ x trr tcc, x < toLimit - to_ → trr < rowLimit - row → tcc < colLimit - col →
    (L.processTile (initOutputTileZero (L.loadWeightTile (L.loadInputTile input
      (TileBuffers.new (toLimit - to_) (tiLimit - ti) (rowLimit - row) (colLimit - col)
        L.kernelSize L.stride) ti tiLimit row rowLimit col colLimit) to_ toLimit ti tiLimit))
      ti tiLimit to_ toLimit).outputBuffer.getD
        (x * (rowLimit - row) * (colLimit - col) + trr * (colLimit - col) + tcc) 0 =
      tileConvSum L.weights input L.kernelSize L.stride L.padding ti (tiLimit - ti)
        ((to_ + x : Nat) : Int) ((row + trr : Nat) : Int) ((col + tcc : Nat) : Int) := by
  obtain ⟨b1, hb1⟩ : ∃ b1 : TileBuffers α, b1 = TileBuffers.new (toLimit - to_) (tiLimit - ti)
    (rowLimit - row) (colLimit - col) L.kernelSize L.stride := ⟨_, rfl⟩
  rw [← hb1]
  have hI := L.loadInputTile_spec input b1 ti tiLimit row rowLimit col colLimit
    (by rw [hb1]; simp [TileBuffers.new])
  obtain ⟨b2, hb2⟩ : ∃ b2 : TileBuffers α,
    b2 = L.loadInputTile input b1 ti tiLimit row rowLimit col colLimit := ⟨_, rfl⟩
  rw [← hb2] at hI ⊢
  have hW := L.loadWeightTile_spec b2 to_ toLimit ti tiLimit (by rw [hb2, hb1]; rfl)
    (by rw [hb2, hb1]; simp [TileBuffers.new, loadInputTile])
  obtain ⟨b3, hb3⟩ : ∃ b3 : TileBuffers α,
    b3 = L.loadWeightTile b2 to_ toLimit ti tiLimit := ⟨_, rfl⟩
  rw [← hb3] at hW ⊢
  obtain ⟨b4, hb4⟩ : ∃ b4 : TileBuffers α, b4 = initOutputTileZero b3 := ⟨_, rfl⟩
  rw [← hb4]
  have f_tr : b4.tileRows = rowLimit - row := by rw [hb4, hb3, hb2, hb1]; rfl
  have f_tc : b4.tileCols = colLimit - col := by rw [hb4, hb3, hb2, hb1]; rfl
  have f_tn : b4.tiSize = tiLimit - ti := by rw [hb4, hb3, hb2, hb1]; rfl
  have f_tih : b4.tileInputHeight = (rowLimit - row) * L.stride + L.kernelSize - L.stride := by
    rw [hb4, hb3, hb2, hb1]; rfl
  have f_tiw : b4.tileInputWidth = (colLimit - col) * L.stride + L.kernelSize - L.stride := by
    rw [hb4, hb3, hb2, hb1]; rfl
  have f_ib : b4.inputBuffer = b2.inputBuffer := by rw [hb4, hb3]; rfl
  have f_wb : b4.weightBuffer = b3.weightBuffer := by rw [hb4]; rfl
  have f_len : b4.outputBuffer.length =
      (toLimit - to_) * b4.tileRows * b4.tileCols := by
    rw [f_tr, f_tc, hb4, hb3, hb2, hb1]
    simp [TileBuffers.new, initOutputTileZero, loadWeightTile, loadInputTile]
  have f_zero : ∀ k, b4.out k = 0 := by
    intro k
    rw [hb4]
    simp [TileBuffers.out, initOutputTileZero, List.getD_eq_getElem?_getD]
  have hP := L.processTile_adds b4 ti tiLimit to_ toLimit hTn hTm f_len b4
    ⟨rfl, rfl, rfl, rfl, rfl, rfl, rfl, rfl, rfl⟩
  refine ⟨hP.1.2.2.1.trans f_tr, hP.1.2.2.2.1.trans f_tc, fun x trr tcc hx htrr htcc => ?_⟩
  have hk : x * (rowLimit - row) * (colLimit - col) + trr * (colLimit - col) + tcc <
      b4.outputBuffer.length := by
    rw [f_len, f_tr, f_tc]
    exact flat3_lt hx htrr htcc
  have hval := hP.2 _ hk
  unfold TileBuffers.out at hval
  rw [hval]
  have hz := f_zero (x * (rowLimit - row) * (colLimit - col) + trr * (colLimit - col) + tcc)
  unfold TileBuffers.out at hz
  rw [hz, zero_add]
  dsimp only
  rw [f_tr, f_tc, sum_tile_collapse _ _ _ _ _ _ x trr tcc hx htrr htcc]
  unfold tileConvSum
  refine Finset.sum_congr rfl (fun i hi => Finset.sum_congr rfl (fun j hj =>
    Finset.sum_congr rfl (fun y hy => ?_)))
  have hi' := Finset.mem_range.mp hi
  have hj' := Finset.mem_range.mp hj
  have hy' := Finset.mem_range.mp hy
  have b1h : b1.tileInputHeight = (rowLimit - row) * L.stride + L.kernelSize - L.stride := by
    rw [hb1]; rfl
  have b1w : b1.tileInputWidth = (colLimit - col) * L.stride + L.kernelSize - L.stride := by
    rw [hb1]; rfl
  have b2n : b2.tiSize = tiLimit - ti := by rw [hb2, hb1]; rfl
  have hh : trr * L.stride + i < b1.tileInputHeight := by
    rw [b1h]
    have h1 : (trr + 1) * L.stride ≤ (rowLimit - row) * L.stride :=
      Nat.mul_le_mul_right _ htrr
    have h2 : (trr + 1) * L.stride = trr * L.stride + L.stride := by ring
    omega
  have hw : tcc * L.stride + j < b1.tileInputWidth := by
    rw [b1w]
    have h1 : (tcc + 1) * L.stride ≤ (colLimit - col) * L.stride :=
      Nat.mul_le_mul_right _ htcc
    have h2 : (tcc + 1) * L.stride = tcc * L.stride + L.stride := by ring
    omega
  have eW := hW.2 x y i j hx hy' hi' hj'
  have eI := hI.2 y (trr * L.stride + i) (tcc * L.stride + j) hy' hh hw
  rw [f_wb, f_ib, f_tn, f_tih, f_tiw, ← b2n, eW, ← b1h, ← b1w, eI]
  have r1 : (row : Int) * L.stride + ((trr * L.stride + i : Nat) : Int) - L.padding =
      (L.stride : Int) * ((row + trr : Nat) : Int) + i - L.padding := by
    push_cast; ring
  have r2 : (col : Int) * L.stride + ((tcc * L.stride + j : Nat) : Int) - L.padding =
      (L.stride : Int) * ((col + tcc : Nat) : Int) + j - L.padding := by
    push_cast; ring
  rw [r1, r2]

end ConvolutionalLayerV2
end AlexNet

namespace AlexNet
namespace ConvolutionalLayerV2

open Tensor3D

variable {α : Type} [LinearOrderedCommRing α]

/-- One tile of the tiling loops adds, to every output cell of the tile, the part of the
convolution sum that belongs to the tile's input channels. -/
theorem tileStep_adds (L : ConvolutionalLayerV2 α) (input : Tensor3D α)
    (to_ toLimit ti tiLimit row rowLimit outputWidth col : Nat) {H W : Int}
    (hto : to_ ≤ toLimit) (htoM : toLimit ≤ L.outputChannels)
    (hTm : toLimit - to_ ≤ L.Tm) (hTn : tiLimit - ti ≤ L.Tn)
    (hrow : row ≤ rowLimit) (hrowH : (rowLimit : Int) ≤ H)
    (hcol : col ≤ outputWidth) (hcolW : (outputWidth : Int) ≤ W) :
    Adds (fun s : Tensor3D α => s.Shaped L.outputChannels H W) Tensor3D.view
      (InShape L.outputChannels H W)
      (fun out => L.tileStep input to_ toLimit ti tiLimit row rowLimit outputWidth out col)
      (fun c => if (to_ : Int) ≤ c.1 ∧ c.1 < toLimit ∧ (row : Int) ≤ c.2.1 ∧ c.2.1 < rowLimit ∧
          (col : Int) ≤ c.2.2 ∧ c.2.2 < ((min (col + L.Tc) outputWidth : Nat) : Int) then
        tileConvSum L.weights input L.kernelSize L.stride L.padding ti (tiLimit - ti)
          c.1 c.2.1 c.2.2 else 0) := by
  intro out ho
  have hT := L.tile_out input to_ toLimit ti tiLimit row rowLimit col
    (min (col + L.Tc) outputWidth) hTm hTn
  unfold tileStep
  dsimp only
  obtain ⟨b5, hb5⟩ : ∃ b5 : TileBuffers α, b5 = L.processTile (initOutputTileZero
    (L.loadWeightTile (L.loadInputTile input
      (TileBuffers.new (toLimit - to_) (tiLimit - ti) (rowLimit - row)
        (min (col + L.Tc) outputWidth - col) L.kernelSize L.stride)
      ti tiLimit row rowLimit col (min (col + L.Tc) outputWidth)) to_ toLimit ti tiLimit))
      ti tiLimit to_ toLimit := ⟨_, rfl⟩
  rw [← hb5] at hT ⊢
  have hA := accumulateOutputTile_spec b5 to_ toLimit row rowLimit col
    (min (col + L.Tc) outputWidth) ho
    (by have : to_ + (toLimit - to_) = toLimit := by omega
        rw [this]; exact_mod_cast htoM)
    (by rw [hT.1]
        have : row + (rowLimit - row) = rowLimit := by omega
        rw [this]; exact hrowH)
    (by rw [hT.2.1]
        have : (((col + (min (col + L.Tc) outputWidth - col) : Nat)) : Int) ≤ outputWidth := by
          have : col + (min (col + L.Tc) outputWidth - col) ≤ outputWidth := by omega
          exact_mod_cast this
        omega)
  refine ⟨hA.1, fun c hc => ?_⟩
  by_cases hreg : (to_ : Int) ≤ c.1 ∧ c.1 < toLimit ∧ (row : Int) ≤ c.2.1 ∧ c.2.1 < rowLimit ∧
          (col : Int) ≤ c.2.2 ∧ c.2.2 < ((min (col + L.Tc) outputWidth : Nat) : Int)
  · rw [if_pos hreg]
    obtain ⟨h1, h2, h3, h4, h5, h6⟩ := hreg
    have hx : (c.1 - to_).toNat < toLimit - to_ := by omega
    have htrr : (c.2.1 - row).toNat < rowLimit - row := by omega
    have htcc : (c.2.2 - col).toNat < min (col + L.Tc) outputWidth - col := by omega
    have e1 : ((to_ + (c.1 - to_).toNat : Nat) : Int) = c.1 := by omega
    have e2 : ((row + (c.2.1 - row).toNat : Nat) : Int) = c.2.1 := by omega
    have e3 : ((col + (c.2.2 - col).toNat : Nat) : Int) = c.2.2 := by omega
    have hceq : c = (((to_ + (c.1 - to_).toNat : Nat) : Int),
        ((row + (c.2.1 - row).toNat : Nat) : Int), ((col + (c.2.2 - col).toNat : Nat) : Int)) :=
      Prod.ext e1.symm (Prod.ext e2.symm e3.symm)
    have := (hA.2 c hc).1 _ _ _ hx (by rw [hT.1]; exact htrr) (by rw [hT.2.1]; exact htcc) hceq
    rw [this, hT.1, hT.2.1, hT.2.2 _ _ _ hx htrr htcc, e1, e2, e3]
  · rw [if_neg hreg, add_zero]
    refine (hA.2 c hc).2 (fun x trr tcc hx htrr htcc hceq => hreg ?_)
    rw [hT.1] at htrr
    rw [hT.2.1] at htcc
    rw [hceq]
    dsimp only
    push_cast
    omega

end ConvolutionalLayerV2
end AlexNet

namespace AlexNet

/-! ## The tiling loops partition each dimension -/

section Tiles

variable {α : Type}

theorem tileStartsFrom_indicator [AddCommMonoid α] (n T : Nat) (hT : 1 ≤ T) (p : Int)
    (hp : p < n) (g : α) :
    ∀ fuel t, n ≤ t + fuel →
      ((tileStartsFrom n T fuel t).map (fun (s : Nat) =>
        if (s : Int) ≤ p ∧ p < ((min (s + T) n : Nat) : Int) then g else 0)).sum =
      if (t : Int) ≤ p then g else 0 := by
  intro fuel
  induction fuel with
  | zero =>
    intro t ht
    have : ¬ (t : Int) ≤ p := by omega
    simp [tileStartsFrom, this]
  | succ fuel ih =>
    intro t ht
    unfold tileStartsFrom
    by_cases htn : t < n
    · rw [if_pos htn, List.map_cons, List.sum_cons, ih (t + T) (by omega)]
      by_cases h1 : (t : Int) ≤ p
      · by_cases h2 : ((t + T : Nat) : Int) ≤ p
        · have h3 : ¬ ((t : Int) ≤ p ∧ p < ((min (t + T) n : Nat) : Int)) := by
            push_cast at h2 ⊢
            omega
          rw [if_neg h3, if_pos h2, if_pos h1, zero_add]
        · have h3 : (t : Int) ≤ p ∧ p < ((min (t + T) n : Nat) : Int) := by
            push_cast at h2 ⊢
            omega
          rw [if_pos h3, if_neg h2, if_pos h1, add_zero]
      · have h2 : ¬ ((t + T : Nat) : Int) ≤ p := by push_cast; omega
        have h3 : ¬ ((t : Int) ≤ p ∧ p < ((min (t + T) n : Nat) : Int)) := fun h => h1 h.1
        rw [if_neg h3, if_neg h2, if_neg h1, add_zero]
    · rw [if_neg htn]
      have : ¬ (t : Int) ≤ p := by omega
      simp [this]

/-- Every position `0 ≤ p < n` lies in exactly one tile `[t, min (t + T) n)`: a sum over
the tiles of a term guarded by membership of `p` reduces to the term. -/
theorem tileStarts_sum_ite [AddCommMonoid α] (n T : Nat) (hT : 1 ≤ T) (p : Int)
    (hp0 : 0 ≤ p) (hp : p < n) (E : Prop) [Decidable E] (Pt : Nat → Prop) [DecidablePred Pt]
    (g : α)
    (hiff : ∀ t, Pt t ↔ (E ∧ ((t : Int) ≤ p ∧ p < ((min (t + T) n : Nat) : Int)))) :
    ((tileStarts n T).map (fun t => if Pt t then g else 0)).sum = if E then g else 0 := by
  by_cases hE : E
  · have e : (fun t => if Pt t then g else 0) = (fun s : Nat =>
        if (s : Int) ≤ p ∧ p < ((min (s + T) n : Nat) : Int) then g else 0) := by
      funext t
      have := hiff t
      by_cases h : Pt t
      · rw [if_pos h, if_pos (this.mp h).2]
      · rw [if_neg h, if_neg (fun h' => h (this.mpr ⟨hE, h'⟩))]
    rw [e, if_pos hE]
    unfold tileStarts
    rw [tileStartsFrom_indicator n T hT p hp g n 0 (by omega), if_pos (by simpa using hp0)]
  · have e : (fun t => if Pt t then g else 0) = (fun _ : Nat => (0 : α)) := by
      funext t
      rw [if_neg (fun h => hE ((hiff t).mp h).1)]
    rw [e, if_neg hE]
    simp

theorem tileStartsFrom_sum [AddCommMonoid α] (n T : Nat) (hT : 1 ≤ T) (f : Nat → α) :
    ∀ fuel t, n ≤ t + fuel →
      ((tileStartsFrom n T fuel t).map (fun s =>
        ∑ y ∈ Finset.range (min (s + T) n - s), f (s + y))).sum =
      ∑ x ∈ Finset.Ico t n, f x := by
  intro fuel
  induction fuel with
  | zero =>
    intro t ht
    have : Finset.Ico t n = ∅ := Finset.Ico_eq_empty (by omega)
    simp [tileStartsFrom, this]
  | succ fuel ih =>
    intro t ht
    unfold tileStartsFrom
    by_cases htn : t < n
    · rw [if_pos htn, List.map_cons, List.sum_cons, ih (t + T) (by omega)]
      have e1 : ∑ y ∈ Finset.range (min (t + T) n - t), f (t + y) =
          ∑ x ∈ Finset.Ico t (min (t + T) n), f x := by
        rw [Finset.sum_Ico_eq_sum_range]
      rw [e1]
      by_cases h : t + T ≤ n
      · rw [Nat.min_eq_left h]
        exact Finset.sum_Ico_consecutive f (by omega) h
      · have e2 : Finset.Ico (t + T) n = ∅ := Finset.Ico_eq_empty (by omega)
        rw [Nat.min_eq_right (by omega), e2, Finset.sum_empty, add_zero]
    · rw [if_neg htn]
      have : Finset.Ico t n = ∅ := Finset.Ico_eq_empty (by omega)
      simp [this]

/-- Summing, over the tiles, the sums over each tile gives the sum over the whole range. -/
theorem tileStarts_sum [AddCommMonoid α] (n T : Nat) (hT : 1 ≤ T) (f : Nat → α) :
    ((tileStarts n T).map (fun s =>
      ∑ y ∈ Finset.range (min (s + T) n - s), f (s + y))).sum = ∑ x ∈ Finset.range n, f x := by
  unfold tileStarts
  rw [tileStartsFrom_sum n T hT f n 0 (by omega), Finset.range_eq_Ico]

theorem tileStartsFrom_lt (n T : Nat) : ∀ fuel t, ∀ s ∈ tileStartsFrom n T fuel t, s < n := by
  intro fuel
  induction fuel with
  | zero => intro t s hs; simp [tileStartsFrom] at hs
  | succ fuel ih =>
    intro t s hs
    unfold tileStartsFrom at hs
    by_cases htn : t < n
    · rw [if_pos htn] at hs
      rcases List.mem_cons.mp hs with rfl | h
      · exact htn
      · exact ih _ s h
    · rw [if_neg htn] at hs
      simp at hs

theorem tileStarts_lt {n T s : Nat} (hs : s ∈ tileStarts n T) : s < n :=
  tileStartsFrom_lt n T n 0 s hs

/-- A list sum of finite sums is the finite sum of the list sums. -/
theorem sum_map_finset_sum [AddCommMonoid α] {ι κ : Type} (l : List ι) (s : Finset κ)
    (g : ι → κ → α) :
    (l.map (fun t => ∑ i ∈ s, g t i)).sum = ∑ i ∈ s, (l.map (fun t => g t i)).sum := by
  induction l with
  | nil => simp
  | cons a l ih => simp only [List.map_cons, List.sum_cons, ih, Finset.sum_add_distrib]

end Tiles
end AlexNet

namespace AlexNet

open Tensor3D

/-- A loop nest over all cells `(d, row, col)` that transforms each cell by `G`. -/
theorem foldl_cells {α : Type} [Zero α] (G : Int × Int × Int → α → α) (D : Nat) (H W : Int)
    {out : Tensor3D α} (ho : out.Shaped D H W) :
    ((List.range D).foldl (fun out d =>
      (List.range H.toNat).foldl (fun out row =>
        (List.range W.toNat).foldl (fun out col =>
          out.setAt (d : Int) (row : Int) (col : Int)
            (G ((d : Int), (row : Int), (col : Int)) (out.at_ (d : Int) (row : Int) (col : Int))))
          out) out) out).Shaped D H W ∧
    ∀ c, InShape D H W c →
      ((List.range D).foldl (fun out d =>
        (List.range H.toNat).foldl (fun out row =>
          (List.range W.toNat).foldl (fun out col =>
            out.setAt (d : Int) (row : Int) (col : Int)
              (G ((d : Int), (row : Int), (col : Int))
                (out.at_ (d : Int) (row : Int) (col : Int))))
            out) out) out).view c = G c (out.view c) := by
  have e := foldl_product3 (fun (out : Tensor3D α) (d row col : Nat) =>
    out.setAt (d : Int) (row : Int) (col : Int)
      (G ((d : Int), (row : Int), (col : Int)) (out.at_ (d : Int) (row : Int) (col : Int))))
    (List.range D) (List.range H.toNat) (List.range W.toNat) out
  rw [← e]
  have key := foldl_footprint (fun s : Tensor3D α => s.Shaped D H W) Tensor3D.view
    (InShape D H W)
    (fun out (p : Nat × Nat × Nat) =>
      out.setAt (p.1 : Int) (p.2.1 : Int) (p.2.2 : Int)
        (G ((p.1 : Int), (p.2.1 : Int), (p.2.2 : Int))
          (out.at_ (p.1 : Int) (p.2.1 : Int) (p.2.2 : Int))))
    (fun p c => c = ((p.1 : Int), (p.2.1 : Int), (p.2.2 : Int)))
    (fun _ c v => G c v)
    (List.product (List.range D) (List.product (List.range H.toNat) (List.range W.toNat)))
    (nodup_product3 (List.nodup_range _) (List.nodup_range _) (List.nodup_range _))
    (by
      intro p q c _ _ hp hq
      have e := hp.symm.trans hq
      simp only [Prod.mk.injEq, Nat.cast_inj] at e
      exact Prod.ext e.1 (Prod.ext e.2.1 e.2.2))
    (by
      intro s p hp hs
      have hp' := mem_product3.mp hp
      simp only [List.mem_range] at hp'
      have hin : InShape D H W ((p.1 : Int), (p.2.1 : Int), (p.2.2 : Int)) := by
        refine ⟨by positivity, ?_, by positivity, ?_, by positivity, ?_⟩ <;>
          simp only <;> omega
      have hset := setAt_spec hs hin (G ((p.1 : Int), (p.2.1 : Int), (p.2.2 : Int))
          (s.at_ (p.1 : Int) (p.2.1 : Int) (p.2.2 : Int)))
      refine ⟨hset.1, fun c hc => ⟨fun h => ?_, fun h => (hset.2 c hc).2 h⟩⟩
      rw [(hset.2 c hc).1 h, h]
      rfl)
    out ho
  refine ⟨key.1, fun c hc => ?_⟩
  obtain ⟨h1, h2, h3, h4, h5, h6⟩ := hc
  refine (key.2 c ⟨h1, h2, h3, h4, h5, h6⟩).1 (c.1.toNat, c.2.1.toNat, c.2.2.toNat)
    (mem_product3.mpr ⟨List.mem_range.mpr (by simp only; omega),
      List.mem_range.mpr (by simp only; omega), List.mem_range.mpr (by simp only; omega)⟩) ?_
  exact Prod.ext (by simp only; omega) (Prod.ext (by simp only; omega) (by simp only; omega))

end AlexNet

namespace AlexNet
namespace ConvolutionalLayerV2

open Tensor3D

variable {α : Type} [LinearOrderedCommRing α]

/-- The per-tile sums over the input-channel tiles add up to the full convolution sum. -/
theorem sum_tileConvSum (weights input : Tensor3D α) (N K S P Tn : Nat) (hTn : 1 ≤ Tn)
    (d row col : Int) :
    ((tileStarts N Tn).map (fun ti =>
      tileConvSum weights input K S P ti (min (ti + Tn) N - ti) d row col)).sum =
    convSum weights input N K S P d row col := by
  unfold tileConvSum convSum
  rw [sum_map_finset_sum]
  rw [Finset.sum_comm]
  refine Finset.sum_congr rfl (fun i _ => ?_)
  rw [sum_map_finset_sum]
  rw [Finset.sum_comm]
  refine Finset.sum_congr rfl (fun j _ => ?_)
  exact tileStarts_sum N Tn hTn (fun x =>
    weights.at_ d (x : Int) ((i * K + j : Nat) : Int) *
      input.padded (x : Int) ((S : Int) * row + i - P) ((S : Int) * col + j - P))

/-- The four tiling loops of `forward` add the full convolution sum to every output cell. -/
theorem tiles_adds (L : ConvolutionalLayerV2 α) (input : Tensor3D α) (H W : Int)
    (hTm : 1 ≤ L.Tm) (hTn : 1 ≤ L.Tn) (hTr : 1 ≤ L.Tr) (hTc : 1 ≤ L.Tc) :
    Adds (fun s : Tensor3D α => s.Shaped L.outputChannels H W) Tensor3D.view
      (InShape L.outputChannels H W)
      (fun output => (tileStarts L.outputChannels L.Tm).foldl (fun output to_ =>
        (tileStarts L.inputChannels L.Tn).foldl (fun output ti =>
          (tileStarts H.toNat L.Tr).foldl (fun output row =>
            (tileStarts W.toNat L.Tc).foldl
              (L.tileStep input to_ (min (to_ + L.Tm) L.outputChannels) ti
                (min (ti + L.Tn) L.inputChannels) row (min (row + L.Tr) H.toNat) W.toNat)
              output) output) output) output)
      (fun c => convSum L.weights input L.inputChannels L.kernelSize L.stride L.padding
        c.1 c.2.1 c.2.2) := by
  have hcol : ∀ to_ ∈ tileStarts L.outputChannels L.Tm, ∀ ti ∈ tileStarts L.inputChannels L.Tn,
      ∀ row ∈ tileStarts H.toNat L.Tr,
      Adds (fun s : Tensor3D α => s.Shaped L.outputChannels H W) Tensor3D.view
        (InShape L.outputChannels H W)
        (fun output => (tileStarts W.toNat L.Tc).foldl
          (L.tileStep input to_ (min (to_ + L.Tm) L.outputChannels) ti
            (min (ti + L.Tn) L.inputChannels) row (min (row + L.Tr) H.toNat) W.toNat) output)
        (fun c => if ((to_ : Int) ≤ c.1 ∧ c.1 < ((min (to_ + L.Tm) L.outputChannels : Nat) : Int)) ∧
            ((row : Int) ≤ c.2.1 ∧ c.2.1 < ((min (row + L.Tr) H.toNat : Nat) : Int)) then
          tileConvSum L.weights input L.kernelSize L.stride L.padding ti
            (min (ti + L.Tn) L.inputChannels - ti) c.1 c.2.1 c.2.2 else 0) := by
    intro to_ hto ti _ row hrow
    have hto' := tileStarts_lt hto
    have hrow' := tileStarts_lt hrow
    refine adds_congr (adds_foldl (tileStarts W.toNat L.Tc) (fun col hcol =>
      L.tileStep_adds input to_ (min (to_ + L.Tm) L.outputChannels) ti
        (min (ti + L.Tn) L.inputChannels) row (min (row + L.Tr) H.toNat) W.toNat col
        (H := H) (W := W) (by omega) (by omega) (by omega) (by omega) (by omega) (by omega)
        (by have := tileStarts_lt hcol; omega) (by have := tileStarts_lt hcol; omega)))
      (fun _ _ => rfl) (fun c hc => ?_)
    refine (tileStarts_sum_ite W.toNat L.Tc hTc c.2.2 hc.2.2.2.2.1
      (by have := hc.2.2.2.2.2; omega) _ _ _ (fun col => ?_)).symm
    constructor
    · rintro ⟨h1, h2, h3, h4, h5, h6⟩
      exact ⟨⟨⟨h1, h2⟩, h3, h4⟩, h5, h6⟩
    · rintro ⟨⟨⟨h1, h2⟩, h3, h4⟩, h5, h6⟩
      exact ⟨h1, h2, h3, h4, h5, h6⟩
  have hrow : ∀ to_ ∈ tileStarts L.outputChannels L.Tm, ∀ ti ∈ tileStarts L.inputChannels L.Tn,
      Adds (fun s : Tensor3D α => s.Shaped L.outputChannels H W) Tensor3D.view
        (InShape L.outputChannels H W)
        (fun output => (tileStarts H.toNat L.Tr).foldl (fun output row =>
          (tileStarts W.toNat L.Tc).foldl
            (L.tileStep input to_ (min (to_ + L.Tm) L.outputChannels) ti
              (min (ti + L.Tn) L.inputChannels) row (min (row + L.Tr) H.toNat) W.toNat)
            output) output)
        (fun c => if ((to_ : Int) ≤ c.1 ∧ c.1 < ((min (to_ + L.Tm) L.outputChannels : Nat) : Int))
          then tileConvSum L.weights input L.kernelSize L.stride L.padding ti
            (min (ti + L.Tn) L.inputChannels - ti) c.1 c.2.1 c.2.2 else 0) := by
    intro to_ hto ti hti
    refine adds_congr (adds_foldl (tileStarts H.toNat L.Tr) (fun row hrow =>
      hcol to_ hto ti hti row hrow)) (fun _ _ => rfl) (fun c hc => ?_)
    exact (tileStarts_sum_ite H.toNat L.Tr hTr c.2.1 hc.2.2.1
      (by have := hc.2.2.2.1; omega) _ _ _ (fun row => Iff.rfl)).symm
  have hti : ∀ to_ ∈ tileStarts L.outputChannels L.Tm,
      Adds (fun s : Tensor3D α => s.Shaped L.outputChannels H W) Tensor3D.view
        (InShape L.outputChannels H W)
        (fun output => (tileStarts L.inputChannels L.Tn).foldl (fun output ti =>
          (tileStarts H.toNat L.Tr).foldl (fun output row =>
            (tileStarts W.toNat L.Tc).foldl
              (L.tileStep input to_ (min (to_ + L.Tm) L.outputChannels) ti
                (min (ti + L.Tn) L.inputChannels) row (min (row + L.Tr) H.toNat) W.toNat)
              output) output) output)
        (fun c => if ((to_ : Int) ≤ c.1 ∧ c.1 < ((min (to_ + L.Tm) L.outputChannels : Nat) : Int))
          then convSum L.weights input L.inputChannels L.kernelSize L.stride L.padding
            c.1 c.2.1 c.2.2 else 0) := by
    intro to_ hto
    refine adds_congr (adds_foldl (tileStarts L.inputChannels L.Tn) (fun ti hti =>
      hrow to_ hto ti hti)) (fun _ _ => rfl) (fun c _ => ?_)
    dsimp only
    split
    · exact (sum_tileConvSum L.weights input L.inputChannels L.kernelSize L.stride L.padding
        L.Tn hTn c.1 c.2.1 c.2.2).symm
    · simp
  refine adds_congr (adds_foldl (tileStarts L.outputChannels L.Tm) (fun to_ hto =>
    hti to_ hto)) (fun _ _ => rfl) (fun c hc => ?_)
  have := tileStarts_sum_ite L.outputChannels L.Tm hTm c.1 hc.1 hc.2.1 True
    (fun to_ => (to_ : Int) ≤ c.1 ∧ c.1 < ((min (to_ + L.Tm) L.outputChannels : Nat) : Int))
    (convSum L.weights input L.inputChannels L.kernelSize L.stride L.padding c.1 c.2.1 c.2.2)
    (fun t => by simp)
  rw [if_pos trivial] at this
  exact this.symm

end ConvolutionalLayerV2
end AlexNet

namespace AlexNet
namespace ConvolutionalLayerV2

open Tensor3D

variable {α : Type} [LinearOrderedCommRing α]

/-- Specification of the tiled `forward`: it returns exactly when the element count is
non-negative, and then every cell of the result holds the specified value. -/
theorem tiled_forward_spec (L : ConvolutionalLayerV2 α) (input : Tensor3D α)
    (hTm : 1 ≤ L.Tm) (hTn : 1 ≤ L.Tn) (hTr : 1 ≤ L.Tr) (hTc : 1 ≤ L.Tc)
    (hnn : 0 ≤ (L.outputChannels : Int) *
      convOutDim input.height L.kernelSize L.stride L.padding *
      convOutDim input.width L.kernelSize L.stride L.padding) :
    ∃ t, L.forward input = some t ∧
      t.Shaped L.outputChannels (convOutDim input.height L.kernelSize L.stride L.padding)
        (convOutDim input.width L.kernelSize L.stride L.padding) ∧
      ∀ c, InShape L.outputChannels (convOutDim input.height L.kernelSize L.stride L.padding)
        (convOutDim input.width L.kernelSize L.stride L.padding) c →
        t.view c = convValue L.weights L.bias input L.inputChannels L.kernelSize L.stride
          L.padding c.1 c.2.1 c.2.2 := by
  obtain ⟨t0, ht0⟩ := new_isSome (0 : α) hnn
  have hs := (shaped_new ht0).1
  have h1 := foldl_cells (fun c _ => L.bias.getD c.1.toNat (0 : α)) L.outputChannels
    (convOutDim input.height L.kernelSize L.stride L.padding)
    (convOutDim input.width L.kernelSize L.stride L.padding) hs
  have h2 := L.tiles_adds input (convOutDim input.height L.kernelSize L.stride L.padding)
    (convOutDim input.width L.kernelSize L.stride L.padding) hTm hTn hTr hTc _ h1.1
  have h3 := foldl_cells (fun _ v => max (0 : α) v) L.outputChannels
    (convOutDim input.height L.kernelSize L.stride L.padding)
    (convOutDim input.width L.kernelSize L.stride L.padding) h2.1
  refine ⟨_, ?_, h3.1, fun c hc => ?_⟩
  · unfold forward getHeight getWidth
    simp only [ht0]
    rfl
  · rw [h3.2 c hc, h2.2 c hc, h1.2 c hc]
    rfl

theorem tiled_forward_none (L : ConvolutionalLayerV2 α) (input : Tensor3D α)
    (hneg : ¬ 0 ≤ (L.outputChannels : Int) *
      convOutDim input.height L.kernelSize L.stride L.padding *
      convOutDim input.width L.kernelSize L.stride L.padding) :
    L.forward input = none := by
  unfold forward getHeight getWidth Tensor3D.new
  simp only [if_neg hneg]

end ConvolutionalLayerV2
end AlexNet

namespace AlexNet

open Tensor3D

theorem inShape_of_inRange {α : Type} {t : Tensor3D α} {D H W : Int} (ht : t.Shaped D H W) {d h w : Int}
    (hr : t.InRange d h w) : InShape D H W (d, h, w) := by
  obtain ⟨h1, h2, h3, h4, h5, h6⟩ := hr
  rw [ht.1] at h2
  rw [ht.2.1] at h4
  rw [ht.2.2.1] at h6
  exact ⟨h1, h2, h3, h4, h5, h6⟩

variable {α : Type} [LinearOrderedCommRing α]

/-- C2. Every element of the result of `ConvolutionalLayer.forward` is
`max(0, bias[to] + Σ_{ti < N} Σ_{i < K} Σ_{j < K} weights(to, ti, i*K+j) * x(ti, S*row+i-P,
S*col+j-P))` with `x` the zero-padded input; `forward` returns a tensor exactly when the
element count of the output shape is non-negative. The stride is at least one (the source
divides by it). -/
theorem direct_forward_value (L : ConvolutionalLayer α) (input : Tensor3D α)
    (_hS : 1 ≤ L.stride) :
    ((L.forward input).isSome ↔ 0 ≤ (L.outputChannels : Int) *
      convOutDim input.height L.kernelSize L.stride L.padding *
      convOutDim input.width L.kernelSize L.stride L.padding) ∧
    ∀ t, L.forward input = some t → ∀ to_ row col : Int, t.InRange to_ row col →
      t.at_ to_ row col = max 0 (L.bias.getD to_.toNat 0 +
        ∑ ti ∈ Finset.range L.inputChannels, ∑ i ∈ Finset.range L.kernelSize,
          ∑ j ∈ Finset.range L.kernelSize,
            L.weights.at_ to_ ti ((i * L.kernelSize + j : Nat) : Int) *
              (if 0 ≤ (L.stride : Int) * row + i - L.padding ∧
                  (L.stride : Int) * row + i - L.padding < input.height ∧
                  0 ≤ (L.stride : Int) * col + j - L.padding ∧
                  (L.stride : Int) * col + j - L.padding < input.width then
                input.at_ ti ((L.stride : Int) * row + i - L.padding)
                  ((L.stride : Int) * col + j - L.padding)
               else 0)) := by
  by_cases hnn : 0 ≤ (L.outputChannels : Int) *
      convOutDim input.height L.kernelSize L.stride L.padding *
      convOutDim input.width L.kernelSize L.stride L.padding
  · obtain ⟨t1, e1, s1, v1⟩ := L.direct_forward_spec input hnn
    refine ⟨by rw [e1]; simpa using hnn, fun t e to_ row col hr => ?_⟩
    rw [e1] at e
    cases e
    exact v1 (to_, row, col) (inShape_of_inRange s1 hr)
  · have e1 := L.direct_forward_none input hnn
    refine ⟨by rw [e1]; simpa using hnn, fun t e => ?_⟩
    rw [e1] at e
    cases e

/-- Instance of `direct_forward_value`: the example layer returns a tensor on the example
input. -/
theorem direct_forward_value_witness : (Example.conv.forward Example.input).isSome = true :=
  (direct_forward_value Example.conv Example.input (by decide)).1.mpr (by decide)

end AlexNet

namespace AlexNet

open Tensor3D

variable {α : Type} [LinearOrderedCommRing α]

/-- The truncating quotient of the source is the floor of the specification whenever the
padded input is at least as large as the kernel. -/
theorem convOutDim_eq_floor (inDim : Int) (K S P : Nat) (h : (K : Int) ≤ inDim + 2 * P) :
    convOutDim inDim K S P = (inDim + 2 * (P : Int) - K) / S + 1 := by
  unfold convOutDim
  rw [Int.tdiv_eq_ediv (by omega) (by positivity)]

theorem convOutDim_pos (inDim : Int) (K S P : Nat) (h : (K : Int) ≤ inDim + 2 * P) :
    1 ≤ convOutDim inDim K S P := by
  unfold convOutDim
  have := Int.tdiv_nonneg (a := inDim + 2 * (P : Int) - K) (b := (S : Int)) (by omega)
    (by positivity)
  omega

/-- C3, at a concrete input. For kernel 4, stride 2, no padding and a `1 x 1` input the
source computes height `(1 - 4) / 2 + 1 = 0` by truncating division, whereas the floor of the
quotient gives `-1`: the returned height is not `floor((H + 2P - K) / S) + 1`. -/
theorem conv_forward_height_floor_counterexample :
    ¬ (∀ t, Example.wideConv.forward Example.pixel = some t →
      t.height = (Example.pixel.height + 2 * (Example.wideConv.padding : Int) -
        Example.wideConv.kernelSize) / Example.wideConv.stride + 1) := by
  intro h
  have e := h ⟨1, 0, 0, []⟩ rfl
  revert e
  decide

/-- C3, amended. For both convolution variants the returned tensor has depth
`outputChannels`, height `(H + 2P - K) / S + 1` and width `(W + 2P - K) / S + 1` with the
quotient truncated toward zero, and the buffer holds depth * height * width elements; a tensor
is returned whenever both extents are non-negative. When `H + 2P ≥ K` and `W + 2P ≥ K` the
truncated quotient is the floor of the quotient. -/
theorem conv_forward_shape (L1 : ConvolutionalLayer α) (L2 : ConvolutionalLayerV2 α)
    (input : Tensor3D α) (_hS1 : 1 ≤ L1.stride) (_hS2 : 1 ≤ L2.stride)
    (hTm : 1 ≤ L2.Tm) (hTn : 1 ≤ L2.Tn) (hTr : 1 ≤ L2.Tr) (hTc : 1 ≤ L2.Tc) :
    (∀ t, L1.forward input = some t →
      t.depth = L1.outputChannels ∧
      t.height = Int.tdiv (input.height + 2 * (L1.padding : Int) - L1.kernelSize) L1.stride + 1 ∧
      t.width = Int.tdiv (input.width + 2 * (L1.padding : Int) - L1.kernelSize) L1.stride + 1 ∧
      (t.data.length : Int) = t.depth * t.height * t.width) ∧
    (∀ t, L2.forward input = some t →
      t.depth = L2.outputChannels ∧
      t.height = Int.tdiv (input.height + 2 * (L2.padding : Int) - L2.kernelSize) L2.stride + 1 ∧
      t.width = Int.tdiv (input.width + 2 * (L2.padding : Int) - L2.kernelSize) L2.stride + 1 ∧
      (t.data.length : Int) = t.depth * t.height * t.width) ∧
    ((L1.kernelSize : Int) ≤ input.height + 2 * L1.padding →
      (L1.kernelSize : Int) ≤ input.width + 2 * L1.padding →
      ∃ t, L1.forward input = some t ∧
        t.height = (input.height + 2 * (L1.padding : Int) - L1.kernelSize) / L1.stride + 1 ∧
        t.width = (input.width + 2 * (L1.padding : Int) - L1.kernelSize) / L1.stride + 1) ∧
    ((L2.kernelSize : Int) ≤ input.height + 2 * L2.padding →
      (L2.kernelSize : Int) ≤ input.width + 2 * L2.padding →
      ∃ t, L2.forward input = some t ∧
        t.height = (input.height + 2 * (L2.padding : Int) - L2.kernelSize) / L2.stride + 1 ∧
        t.width = (input.width + 2 * (L2.padding : Int) - L2.kernelSize) / L2.stride + 1) := by
  refine ⟨fun t e => ?_, fun t e => ?_, fun hH hW => ?_, fun hH hW => ?_⟩
  · by_cases hnn : 0 ≤ (L1.outputChannels : Int) *
        convOutDim input.height L1.kernelSize L1.stride L1.padding *
        convOutDim input.width L1.kernelSize L1.stride L1.padding
    · obtain ⟨t1, e1, s1, _⟩ := L1.direct_forward_spec input hnn
      rw [e1] at e
      cases e
      refine ⟨s1.1, s1.2.1, s1.2.2.1, ?_⟩
      rw [s1.2.2.2, s1.1, s1.2.1, s1.2.2.1]
    · rw [L1.direct_forward_none input hnn] at e
      cases e
  · by_cases hnn : 0 ≤ (L2.outputChannels : Int) *
        convOutDim input.height L2.kernelSize L2.stride L2.padding *
        convOutDim input.width L2.kernelSize L2.stride L2.padding
    · obtain ⟨t1, e1, s1, _⟩ := L2.tiled_forward_spec input hTm hTn hTr hTc hnn
      rw [e1] at e
      cases e
      refine ⟨s1.1, s1.2.1, s1.2.2.1, ?_⟩
      rw [s1.2.2.2, s1.1, s1.2.1, s1.2.2.1]
    · rw [L2.tiled_forward_none input hnn] at e
      cases e
  · have h1 := convOutDim_pos input.height L1.kernelSize L1.stride L1.padding hH
    have h2 := convOutDim_pos input.width L1.kernelSize L1.stride L1.padding hW
    obtain ⟨t1, e1, s1, _⟩ := L1.direct_forward_spec input
      (mul_nonneg (mul_nonneg (by positivity) (by omega)) (by omega))
    exact ⟨t1, e1, s1.2.1.trans (convOutDim_eq_floor _ _ _ _ hH),
      s1.2.2.1.trans (convOutDim_eq_floor _ _ _ _ hW)⟩
  · have h1 := convOutDim_pos input.height L2.kernelSize L2.stride L2.padding hH
    have h2 := convOutDim_pos input.width L2.kernelSize L2.stride L2.padding hW
    obtain ⟨t1, e1, s1, _⟩ := L2.tiled_forward_spec input hTm hTn hTr hTc
      (mul_nonneg (mul_nonneg (by positivity) (by omega)) (by omega))
    exact ⟨t1, e1, s1.2.1.trans (convOutDim_eq_floor _ _ _ _ hH),
      s1.2.2.1.trans (convOutDim_eq_floor _ _ _ _ hW)⟩

/-- Instance of `conv_forward_shape` at the example layers. -/
theorem conv_forward_shape_witness :
    ∃ t, Example.convV2.forward Example.input = some t ∧
      t.height = (Example.input.height + 2 * (Example.convV2.padding : Int) -
        Example.convV2.kernelSize) / Example.convV2.stride + 1 ∧
      t.width = (Example.input.width + 2 * (Example.convV2.padding : Int) -
        Example.convV2.kernelSize) / Example.convV2.stride + 1 :=
  (conv_forward_shape Example.conv Example.convV2 Example.input (by decide) (by decide)
    (by decide) (by decide) (by decide) (by decide)).2.2.2 (by decide) (by decide)

end AlexNet

namespace AlexNet

open Tensor3D

section MaxFold

variable {ι α : Type} [LinearOrder α]

/-- A running maximum dominates its start value and every scanned value, and is one of them. -/
theorem foldl_max_spec (f : ι → α) (l : List ι) (init : α) :
    init ≤ l.foldl (fun m x => max m (f x)) init ∧
    (∀ x ∈ l, f x ≤ l.foldl (fun m x => max m (f x)) init) ∧
    (l.foldl (fun m x => max m (f x)) init = init ∨
      ∃ x ∈ l, l.foldl (fun m x => max m (f x)) init = f x) := by
  induction l generalizing init with
  | nil => exact ⟨le_refl _, fun x hx => absurd hx (List.not_mem_nil x), Or.inl rfl⟩
  | cons a l ih =>
    obtain ⟨h1, h2, h3⟩ := ih (max init (f a))
    refine ⟨le_trans (le_max_left _ _) h1, fun x hx => ?_, ?_⟩
    · rcases List.mem_cons.mp hx with rfl | hxl
      · exact le_trans (le_max_right _ _) h1
      · exact h2 x hxl
    · rcases h3 with h | ⟨x, hx, h⟩
      · rcases max_choice init (f a) with hm | hm
        · exact Or.inl (by rw [List.foldl_cons, h, hm])
        · exact Or.inr ⟨a, List.mem_cons_self a l, by rw [List.foldl_cons, h, hm]⟩
      · exact Or.inr ⟨x, List.mem_cons_of_mem a hx, h⟩

end MaxFold

namespace MaxPoolingLayer

variable {α : Type} [LinearOrderedCommRing α]

/-- The window scan returns the largest of `-FLT_MAX` and the window values. -/
theorem windowMax_spec (P : MaxPoolingLayer) (input : Tensor3D α) (c row col : Nat) :
    (-FLT_MAX ≤ P.windowMax input c row col) ∧
    (∀ i j, i < P.poolSize → j < P.poolSize →
      input.at_ c ((row : Int) * P.stride + i) ((col : Int) * P.stride + j) ≤
        P.windowMax input c row col) ∧
    (P.windowMax input c row col = -FLT_MAX ∨
      ∃ i j, i < P.poolSize ∧ j < P.poolSize ∧ P.windowMax input c row col =
        input.at_ c ((row : Int) * P.stride + i) ((col : Int) * P.stride + j)) := by
  have e : P.windowMax input c row col =
      (List.product (List.range P.poolSize) (List.range P.poolSize)).foldl
        (fun m (p : Nat × Nat) => max m
          (input.at_ c ((row : Int) * P.stride + p.1) ((col : Int) * P.stride + p.2)))
        (-FLT_MAX) := by
    unfold windowMax
    exact (foldl_product (fun m (i j : Nat) => max m
      (input.at_ c ((row : Int) * P.stride + i) ((col : Int) * P.stride + j))) _ _ _).symm
  rw [e]
  obtain ⟨h1, h2, h3⟩ := foldl_max_spec
    (fun p : Nat × Nat =>
      input.at_ c ((row : Int) * P.stride + p.1) ((col : Int) * P.stride + p.2))
    (List.product (List.range P.poolSize) (List.range P.poolSize)) (-FLT_MAX)
  refine ⟨h1, fun i j hi hj => h2 (i, j) (List.pair_mem_product.mpr
    ⟨List.mem_range.mpr hi, List.mem_range.mpr hj⟩), ?_⟩
  rcases h3 with h | ⟨p, hp, h⟩
  · exact Or.inl h
  · obtain ⟨i, j⟩ := p
    have hp' := List.pair_mem_product.mp hp
    exact Or.inr ⟨i, j, List.mem_range.mp hp'.1, List.mem_range.mp hp'.2, h⟩

theorem poolOutDim_pos (inDim : Int) (p S : Nat) (h : (p : Int) ≤ inDim) :
    1 ≤ poolOutDim inDim p S := by
  unfold poolOutDim
  have := Int.tdiv_nonneg (a := inDim - (p : Int)) (b := (S : Int)) (by omega) (by positivity)
  omega

theorem poolOutDim_eq_floor (inDim : Int) (p S : Nat) (h : (p : Int) ≤ inDim) :
    poolOutDim inDim p S = (inDim - (p : Int)) / S + 1 := by
  unfold poolOutDim
  rw [Int.tdiv_eq_ediv (by omega) (by positivity)]

/-- Specification of `MaxPoolingLayer.forward`. -/
theorem pool_forward_spec (P : MaxPoolingLayer) (input : Tensor3D α) (hD : 0 ≤ input.depth)
    (hnn : 0 ≤ input.depth * poolOutDim input.height P.poolSize P.stride *
      poolOutDim input.width P.poolSize P.stride) :
    ∃ t, P.forward input = some t ∧
      t.Shaped input.depth (poolOutDim input.height P.poolSize P.stride)
        (poolOutDim input.width P.poolSize P.stride) ∧
      ∀ c, InShape input.depth (poolOutDim input.height P.poolSize P.stride)
        (poolOutDim input.width P.poolSize P.stride) c →
        t.view c = P.windowMax input c.1.toNat c.2.1.toNat c.2.2.toNat := by
  obtain ⟨t0, ht0⟩ := new_isSome (0 : α) hnn
  have hs := (shaped_new ht0).1
  have hcast : ((input.depth.toNat : Nat) : Int) = input.depth := Int.toNat_of_nonneg hD
  rw [← hcast] at hs
  have h1 := foldl_cells (fun c _ => P.windowMax input c.1.toNat c.2.1.toNat c.2.2.toNat)
    input.depth.toNat (poolOutDim input.height P.poolSize P.stride)
    (poolOutDim input.width P.poolSize P.stride) hs
  rw [hcast] at h1
  refine ⟨_, ?_, h1.1, h1.2⟩
  unfold forward getDepth getHeight getWidth
  simp only [ht0]
  rfl

end MaxPoolingLayer

variable {α : Type} [LinearOrderedCommRing α]

/-- C4. For `poolSize ≥ 1`, `stride ≥ 1` and an input at least `poolSize` high and wide,
`MaxPoolingLayer.forward` returns a tensor of the input's depth and of height and width
`(inDim - poolSize) / stride + 1` whose element `(c, row, col)` is the maximum of the window
`input(c, row * stride + i, col * stride + j)`, `0 ≤ i, j < poolSize`: it dominates every
window value and, the scan starting from `-FLT_MAX`, it is one of the window values as soon as
one of them is at least `-FLT_MAX` (every finite `float` is). No padding and no activation
enter: a negative maximum is returned as it is. -/
theorem pool_forward_max (P : MaxPoolingLayer) (input : Tensor3D α)
    (_hp : 1 ≤ P.poolSize) (_hs : 1 ≤ P.stride) (hD : 0 ≤ input.depth)
    (hH : (P.poolSize : Int) ≤ input.height) (hW : (P.poolSize : Int) ≤ input.width) :
    ∃ t, P.forward input = some t ∧ t.depth = input.depth ∧
      t.height = (input.height - P.poolSize) / P.stride + 1 ∧
      t.width = (input.width - P.poolSize) / P.stride + 1 ∧
      ∀ c row col : Int, t.InRange c row col →
        (∀ i j : Nat, i < P.poolSize → j < P.poolSize →
          input.at_ c (row * P.stride + i) (col * P.stride + j) ≤ t.at_ c row col) ∧
        ((∃ i j : Nat, i < P.poolSize ∧ j < P.poolSize ∧
            -FLT_MAX ≤ input.at_ c (row * P.stride + i) (col * P.stride + j)) →
          ∃ i j : Nat, i < P.poolSize ∧ j < P.poolSize ∧
            t.at_ c row col = input.at_ c (row * P.stride + i) (col * P.stride + j)) := by
  have h1 := MaxPoolingLayer.poolOutDim_pos input.height P.poolSize P.stride hH
  have h2 := MaxPoolingLayer.poolOutDim_pos input.width P.poolSize P.stride hW
  obtain ⟨t, e, s, v⟩ := P.pool_forward_spec input hD
    (mul_nonneg (mul_nonneg hD (by omega)) (by omega))
  refine ⟨t, e, s.1, s.2.1.trans (MaxPoolingLayer.poolOutDim_eq_floor _ _ _ hH),
    s.2.2.1.trans (MaxPoolingLayer.poolOutDim_eq_floor _ _ _ hW), fun c row col hr => ?_⟩
  have hc := inShape_of_inRange s hr
  have hv := v (c, row, col) hc
  unfold Tensor3D.view at hv
  dsimp only at hv
  obtain ⟨_, w2, w3⟩ := P.windowMax_spec input c.toNat row.toNat col.toNat
  have ec : ((c.toNat : Nat) : Int) = c := Int.toNat_of_nonneg hc.1
  have er : ((row.toNat : Nat) : Int) = row := Int.toNat_of_nonneg hc.2.2.1
  have eo : ((col.toNat : Nat) : Int) = col := Int.toNat_of_nonneg hc.2.2.2.2.1
  rw [ec, er, eo] at w2 w3
  rw [hv]
  refine ⟨w2, ?_⟩
  rintro ⟨i, j, hi, hj, hfin⟩
  rcases w3 with h | h
  · refine ⟨i, j, hi, hj, le_antisymm ?_ (w2 i j hi hj)⟩
    rw [h]
    exact hfin
  · exact h

/-- Instance of `pool_forward_max`: pooling size 2, stride 2 on the `2 x 5 x 4` example. -/
theorem pool_forward_max_witness :
    ∃ t, ({ name := "pool", poolSize := 2, stride := 2 } : MaxPoolingLayer).forward
        Example.input = some t ∧ t.depth = 2 ∧ t.height = 2 ∧ t.width = 2 :=
  have h := pool_forward_max ({ name := "pool", poolSize := 2, stride := 2 } : MaxPoolingLayer)
    Example.input (by decide) (by decide) (by decide) (by decide) (by decide)
  h.imp (fun _ ht => ⟨ht.1, ht.2.1, ht.2.2.1, ht.2.2.2.1⟩)

end AlexNet

namespace AlexNet

open Tensor3D

section Flatten

variable {ι β : Type}

/-- A loop of `push_back`s appends the pushed values in iteration order. -/
theorem foldl_append_flatMap (l : List ι) (g : ι → List β) (init : List β) :
    l.foldl (fun acc x => acc ++ g x) init = init ++ l.flatMap g := by
  induction l generalizing init with
  | nil => simp
  | cons a l ih => rw [List.foldl_cons, ih, List.flatMap_cons, List.append_assoc]

theorem length_flatMap_uniform (l : List ι) (f : ι → List β) (m : Nat)
    (hlen : ∀ x, (f x).length = m) : (l.flatMap f).length = l.length * m := by
  induction l with
  | nil => simp
  | cons a l ih =>
    rw [List.flatMap_cons, List.length_append, ih, hlen, List.length_cons]
    ring

/-- Indexing a concatenation of blocks of equal length `m`: slot `i * m + j` is slot `j` of
block `i`. -/
theorem getElem?_flatMap_uniform (l : List ι) (f : ι → List β) (m : Nat)
    (hlen : ∀ x, (f x).length = m) (i j : Nat) (hi : i < l.length) (hj : j < m) :
    (l.flatMap f)[i * m + j]? = (f (l.get ⟨i, hi⟩))[j]? := by
  induction l generalizing i with
  | nil => simp at hi
  | cons a l ih =>
    rw [List.flatMap_cons]
    cases i with
    | zero =>
      rw [List.getElem?_append_left (by rw [hlen]; omega)]
      simp
    | succ i =>
      rw [List.getElem?_append_right (by rw [hlen]; nlinarith)]
      have e : (i + 1) * m + j - (f a).length = i * m + j := by
        rw [hlen]
        have : (i + 1) * m = i * m + m := by ring
        omega
      rw [e, ih i (by simpa using hi)]
      rfl

end Flatten

namespace FullyConnectedLayer

variable {α : Type} [LinearOrderedCommRing α]

/-- The flattening loops list the cells in `d`, `h`, `w` order. -/
theorem flatten_eq (input : Tensor3D α) :
    flatten input = (List.range input.depth.toNat).flatMap (fun (d : Nat) =>
      (List.range input.height.toNat).flatMap (fun (h : Nat) =>
        (List.range input.width.toNat).map (fun (w : Nat) =>
          input.at_ (d : Int) (h : Int) (w : Int)))) := by
  unfold flatten getDepth getHeight getWidth
  have inner : ∀ (d h : Nat) (acc : List α),
      (List.range input.width.toNat).foldl (fun flattenedInput (w : Nat) =>
        flattenedInput ++ [input.at_ (d : Int) (h : Int) (w : Int)]) acc =
      acc ++ (List.range input.width.toNat).map (fun (w : Nat) =>
          input.at_ (d : Int) (h : Int) (w : Int)) := by
    intro d h acc
    rw [foldl_append_flatMap (List.range input.width.toNat)
      (fun (w : Nat) => [input.at_ (d : Int) (h : Int) (w : Int)]) acc]
    congr 1
    induction (List.range input.width.toNat) with
    | nil => rfl
    | cons a l ih => rw [List.flatMap_cons, List.map_cons, ih]; rfl
  simp only [inner]
  have mid : ∀ (d : Nat) (acc : List α),
      (List.range input.height.toNat).foldl (fun flattenedInput (h : Nat) =>
        flattenedInput ++ (List.range input.width.toNat).map (fun (w : Nat) =>
          input.at_ (d : Int) (h : Int) (w : Int))) acc =
      acc ++ (List.range input.height.toNat).flatMap (fun (h : Nat) =>
        (List.range input.width.toNat).map (fun (w : Nat) =>
          input.at_ (d : Int) (h : Int) (w : Int))) := by
    intro d acc
    exact foldl_append_flatMap _ _ acc
  simp only [mid]
  rw [foldl_append_flatMap]
  simp

theorem flatten_length (input : Tensor3D α) :
    (flatten input).length = input.depth.toNat * (input.height.toNat * input.width.toNat) := by
  rw [flatten_eq, length_flatMap_uniform _ _ (input.height.toNat * input.width.toNat),
    List.length_range]
  intro d
  rw [length_flatMap_uniform _ _ input.width.toNat, List.length_range]
  intro h
  simp

theorem flatten_getD (input : Tensor3D α) (d h w : Nat) (hd : d < input.depth.toNat)
    (hh : h < input.height.toNat) (hw : w < input.width.toNat) :
    (flatten input).getD (d * (input.height.toNat * input.width.toNat) +
      (h * input.width.toNat + w)) 0 = input.at_ (d : Int) (h : Int) (w : Int) := by
  rw [flatten_eq, List.getD_eq_getElem?_getD,
    getElem?_flatMap_uniform _ _ (input.height.toNat * input.width.toNat) (fun d => by
      rw [length_flatMap_uniform _ _ input.width.toNat, List.length_range]
      intro h
      simp) d _ (by simpa using hd) (flat2_lt hh hw),
    getElem?_flatMap_uniform _ _ input.width.toNat (fun h => by simp) h w (by simpa using hh) hw]
  simp [hw]

end FullyConnectedLayer
end AlexNet

namespace AlexNet

open Tensor3D

theorem getD_set {α : Type} [Zero α] (l : List α) (i k : Nat) (x : α) (hi : i < l.length) :
    (l.set i x).getD k 0 = if k = i then x else l.getD k 0 := by
  by_cases e : k = i
  · subst e
    simp [List.getD_eq_getElem?_getD, List.getElem?_set, hi]
  · have e' : i ≠ k := fun h => e h.symm
    simp [List.getD_eq_getElem?_getD, List.getElem?_set, e, e']

namespace FullyConnectedLayer

variable {α : Type} [LinearOrderedCommRing α]

/-- The value stored for output unit `i`: bias plus dot product, rectified unless the layer
is named `fc8`. -/
theorem unitStep_spec (F : FullyConnectedLayer α) (v : List α) (n : Nat)
    (outputVec : List α) (hlen : outputVec.length = n) (i : Nat) (hi : i < n) :
    (F.unitStep v outputVec i).length = n ∧ ∀ k, k < n →
      (k = i → (F.unitStep v outputVec i).getD k 0 =
        if F.name ≠ "fc8" then
          max 0 (F.bias.getD i 0 +
            ∑ j ∈ Finset.range F.inputSize, (F.weights.getD i []).getD j 0 * v.getD j 0)
        else F.bias.getD i 0 +
            ∑ j ∈ Finset.range F.inputSize, (F.weights.getD i []).getD j 0 * v.getD j 0) ∧
      (k ≠ i → (F.unitStep v outputVec i).getD k 0 = outputVec.getD k 0) := by
  have h1 : (outputVec.set i (F.bias.getD i 0)).length = n := by simpa using hlen
  have h2 := foldl_cell_add (fun l : List α => l.length = n) (fun l k => l.getD k 0)
    (fun k => k < n)
    (fun outputVec j => outputVec.set i
      (outputVec.getD i 0 + (F.weights.getD i []).getD j 0 * v.getD j 0))
    i (fun j => (F.weights.getD i []).getD j 0 * v.getD j 0) (List.range F.inputSize)
    (fun s j _ hs => ⟨by simpa using hs, fun k _ => ⟨fun e => by
        dsimp only at hs ⊢
        rw [getD_set _ _ _ _ (by omega), if_pos e, e],
      fun e => by
        dsimp only at hs ⊢
        rw [getD_set _ _ _ _ (by omega), if_neg e]⟩⟩)
    (outputVec.set i (F.bias.getD i 0)) h1
  have e0 : (outputVec.set i (F.bias.getD i 0)).getD i 0 = F.bias.getD i 0 := by
    rw [getD_set _ _ _ _ (by omega), if_pos rfl]
  have hsum := (h2.2 i hi).1 rfl
  dsimp only at hsum
  rw [e0, sum_map_range] at hsum
  have hlen2 := h2.1
  have hfr : ∀ k, k < n → k ≠ i → ((List.range F.inputSize).foldl (fun outputVec j =>
      outputVec.set i (outputVec.getD i 0 + (F.weights.getD i []).getD j 0 * v.getD j 0))
      (outputVec.set i (F.bias.getD i 0))).getD k 0 =
      (outputVec.set i (F.bias.getD i 0)).getD k 0 := fun k hk e => (h2.2 k hk).2 e
  dsimp only at hlen2
  unfold unitStep
  dsimp only
  split
  · rename_i hname
    refine ⟨by simpa using hlen2, fun k hk => ⟨fun e => ?_, fun e => ?_⟩⟩
    · rw [getD_set _ _ _ _ (by rw [hlen2]; exact hi), if_pos e, hsum]
    · rw [getD_set _ _ _ _ (by rw [hlen2]; exact hi), if_neg e, hfr k hk e,
        getD_set _ _ _ _ (by omega), if_neg e]
  · rename_i hname
    refine ⟨hlen2, fun k hk => ⟨fun e => ?_, fun e => ?_⟩⟩
    · rw [e, hsum]
    · rw [hfr k hk e, getD_set _ _ _ _ (by omega), if_neg e]

/-- The output vector computed by the `i` loop. -/
theorem outputVec_spec (F : FullyConnectedLayer α) (v : List α) :
    ((List.range F.outputSize).foldl (F.unitStep v)
      (List.replicate F.outputSize 0)).length = F.outputSize ∧
    ∀ i, i < F.outputSize →
      ((List.range F.outputSize).foldl (F.unitStep v)
        (List.replicate F.outputSize 0)).getD i 0 =
        if F.name ≠ "fc8" then
          max 0 (F.bias.getD i 0 +
            ∑ j ∈ Finset.range F.inputSize, (F.weights.getD i []).getD j 0 * v.getD j 0)
        else F.bias.getD i 0 +
            ∑ j ∈ Finset.range F.inputSize, (F.weights.getD i []).getD j 0 * v.getD j 0 := by
  have key := foldl_footprint (fun l : List α => l.length = F.outputSize)
    (fun l k => l.getD k 0) (fun k => k < F.outputSize) (F.unitStep v)
    (fun i k => k = i)
    (fun i _ _ => if F.name ≠ "fc8" then
          max 0 (F.bias.getD i 0 +
            ∑ j ∈ Finset.range F.inputSize, (F.weights.getD i []).getD j 0 * v.getD j 0)
        else F.bias.getD i 0 +
            ∑ j ∈ Finset.range F.inputSize, (F.weights.getD i []).getD j 0 * v.getD j 0)
    (List.range F.outputSize) (List.nodup_range _)
    (fun x y c _ _ hx hy => hx.symm.trans hy)
    (fun s i hi hs => F.unitStep_spec v F.outputSize s hs i (List.mem_range.mp hi))
    (List.replicate F.outputSize 0) (by simp)
  exact ⟨key.1, fun i hi => (key.2 i hi).1 i (List.mem_range.mpr hi) rfl⟩

/-- Specification of `FullyConnectedLayer.forward`. -/
theorem fc_forward_spec (F : FullyConnectedLayer α) (input : Tensor3D α) :
    ∃ t, F.forward input = some t ∧ t.Shaped 1 1 F.outputSize ∧
      ∀ i, i < F.outputSize → t.at_ 0 0 (i : Int) =
        if F.name ≠ "fc8" then
          max 0 (F.bias.getD i 0 + ∑ j ∈ Finset.range F.inputSize,
            (F.weights.getD i []).getD j 0 * (flatten input).getD j 0)
        else F.bias.getD i 0 + ∑ j ∈ Finset.range F.inputSize,
            (F.weights.getD i []).getD j 0 * (flatten input).getD j 0 := by
  obtain ⟨t0, ht0⟩ := new_isSome (d := 1) (h := 1) (w := (F.outputSize : Int)) (0 : α)
    (by positivity)
  have hs := (shaped_new ht0).1
  obtain ⟨ov, hov⟩ : ∃ ov : List α, ov = (List.range F.outputSize).foldl
    (F.unitStep (flatten input)) (List.replicate F.outputSize 0) := ⟨_, rfl⟩
  have hsp := F.outputVec_spec (flatten input)
  rw [← hov] at hsp
  have key := foldl_range_footprint (fun s : Tensor3D α => s.Shaped 1 1 F.outputSize)
    Tensor3D.view (InShape 1 1 F.outputSize)
    (fun output (i : Nat) => output.setAt 0 0 (i : Int) (ov.getD i 0))
    F.outputSize (fun c => c.2.2) (fun _ => True) (fun c _ => ov.getD c.2.2.toNat 0)
    (by
      intro s i hi hs'
      have hin : InShape 1 1 (F.outputSize : Int) ((0 : Int), (0 : Int), (i : Int)) :=
        ⟨le_refl _, by norm_num, le_refl _, by norm_num, by positivity, by simpa using hi⟩
      have hset := setAt_spec hs' hin (ov.getD i 0)
      refine ⟨hset.1, fun c hc => ⟨fun h => ?_, fun h => (hset.2 c hc).2 (fun e => h ⟨?_, trivial⟩)⟩⟩
      · have hceq : c = ((0 : Int), (0 : Int), (i : Int)) :=
          Prod.ext (by have := hc.1; have := hc.2.1; simp only; omega)
            (Prod.ext (by have := hc.2.2.1; have := hc.2.2.2.1; simp only; omega) h.1)
        dsimp only at h ⊢
        rw [(hset.2 c hc).1 hceq, h.1, Int.toNat_ofNat]
      · rw [e])
    t0 hs
  refine ⟨_, ?_, key.1, fun i hi => ?_⟩
  · unfold forward
    simp only [ht0]
    rw [← hov]
  · have hin : InShape 1 1 (F.outputSize : Int) ((0 : Int), (0 : Int), (i : Int)) :=
      ⟨le_refl _, by norm_num, le_refl _, by norm_num, by positivity, by simpa using hi⟩
    have := (key.2 _ hin).1 ⟨by positivity, by simpa using hi, trivial⟩
    unfold Tensor3D.view at this
    dsimp only at this
    rw [this, Int.toNat_ofNat, hsp.2 i hi]

end FullyConnectedLayer

variable {α : Type} [LinearOrderedCommRing α]

/-- C5. For an input with exactly `inputSize` elements, `FullyConnectedLayer.forward` returns
a `1 x 1 x outputSize` tensor whose element `i` is `max(0, bias[i] + Σ_{j < inputSize}
weights[i][j] * v[j])` when the layer's name differs from `"fc8"` and the unactivated
`bias[i] + Σ_j weights[i][j] * v[j]` when it is `"fc8"`, where `v` has `inputSize` elements and
`v[d*H*W + h*W + w] = input(d, h, w)`. -/
theorem fc_forward_value (F : FullyConnectedLayer α) (input : Tensor3D α)
    (hD : 0 ≤ input.depth) (hH : 0 ≤ input.height) (hW : 0 ≤ input.width)
    (hsize : input.depth * input.height * input.width = F.inputSize) :
    ∃ v : List α, v.length = F.inputSize ∧
      (∀ d h w : Int, input.InRange d h w →
        v.getD (d * input.height * input.width + h * input.width + w).toNat 0 =
          input.at_ d h w) ∧
      ∃ t, F.forward input = some t ∧ t.depth = 1 ∧ t.height = 1 ∧ t.width = F.outputSize ∧
        (t.data.length : Int) = F.outputSize ∧
        ∀ i : Nat, i < F.outputSize → t.at_ 0 0 i =
          if F.name ≠ "fc8" then
            max 0 (F.bias.getD i 0 + ∑ j ∈ Finset.range F.inputSize,
              (F.weights.getD i []).getD j 0 * v.getD j 0)
          else F.bias.getD i 0 + ∑ j ∈ Finset.range F.inputSize,
              (F.weights.getD i []).getD j 0 * v.getD j 0 := by
  refine ⟨FullyConnectedLayer.flatten input, ?_, ?_, ?_⟩
  · rw [FullyConnectedLayer.flatten_length]
    have e : ((input.depth.toNat * (input.height.toNat * input.width.toNat) : Nat) : Int) =
        F.inputSize := by
      push_cast
      rw [Int.toNat_of_nonneg hD, Int.toNat_of_nonneg hH, Int.toNat_of_nonneg hW, ← hsize]
      ring
    exact_mod_cast e
  · intro d h w hr
    obtain ⟨h1, h2, h3, h4, h5, h6⟩ := hr
    have := FullyConnectedLayer.flatten_getD input d.toNat h.toNat w.toNat (by omega) (by omega)
      (by omega)
    rw [Int.toNat_of_nonneg h1, Int.toNat_of_nonneg h3, Int.toNat_of_nonneg h5] at this
    rw [← this]
    congr 1
    have e : ((d.toNat * (input.height.toNat * input.width.toNat) +
        (h.toNat * input.width.toNat + w.toNat) : Nat) : Int) =
        d * input.height * input.width + h * input.width + w := by
      push_cast
      rw [Int.toNat_of_nonneg h1, Int.toNat_of_nonneg h3, Int.toNat_of_nonneg h5,
        Int.toNat_of_nonneg hH, Int.toNat_of_nonneg hW]
      ring
    rw [← e, Int.toNat_ofNat]
  · obtain ⟨t, e, s, v⟩ := F.fc_forward_spec input
    refine ⟨t, e, s.1, s.2.1, s.2.2.1, ?_, v⟩
    rw [s.2.2.2]
    ring

/-- Instance of `fc_forward_value`: 40 inputs, 2 outputs, on the `2 x 5 x 4` example. -/
theorem fc_forward_value_witness :
    ∃ v : List Int, v.length = 40 ∧
      ∃ t, Example.fc.forward Example.input = some t ∧ t.depth = 1 ∧ t.height = 1 ∧
        t.width = 2 :=
  have h := fc_forward_value Example.fc Example.input (by decide) (by decide) (by decide)
    (by decide)
  h.imp (fun _ hv => ⟨hv.1, hv.2.2.imp (fun _ ht => ⟨ht.1, ht.2.1, ht.2.2.1, ht.2.2.2.1⟩)⟩)

end AlexNet

namespace AlexNet
namespace CNN

section Softmax

variable {α : Type} [LinearOrderedField α]

theorem foldl_add_eq_sum (l : List α) : l.foldl (fun sumExp p => sumExp + p) 0 = l.sum := by
  rw [List.sum_eq_foldl]

/-- The softmax stage divides positive terms by their sum: for any positive `exp` the
result has the length of the input, entries in `(0, 1]` and sum `1`. -/
theorem softmax_distribution (exp : α → α) (hexp : ∀ x, 0 < exp x) (xs : List α)
    (hne : xs ≠ []) :
    (softmax exp xs).length = xs.length ∧
    (∀ p ∈ softmax exp xs, 0 < p ∧ p ≤ 1) ∧
    (softmax exp xs).sum = 1 := by
  unfold softmax
  dsimp only
  rw [foldl_add_eq_sum]
  have hpos : ∀ p ∈ xs.map (fun x => exp (x - maxElement xs)), 0 < p := by
    intro p hp
    obtain ⟨x, _, rfl⟩ := List.mem_map.mp hp
    exact hexp _
  have hne' : xs.map (fun x => exp (x - maxElement xs)) ≠ [] := by
    simpa using hne
  have hS : 0 < (xs.map (fun x => exp (x - maxElement xs))).sum := List.sum_pos _ hpos hne'
  refine ⟨by simp, fun p hp => ?_, ?_⟩
  · obtain ⟨q, hq, rfl⟩ := List.mem_map.mp hp
    refine ⟨div_pos (hpos q hq) hS, (div_le_one hS).mpr ?_⟩
    exact List.single_le_sum (fun y hy => le_of_lt (hpos y hy)) q hq
  · have e : (fun p : α => p / (xs.map (fun x => exp (x - maxElement xs))).sum) =
        (fun p : α => p * ((xs.map (fun x => exp (x - maxElement xs))).sum)⁻¹) := by
      funext p
      rw [div_eq_mul_inv]
    rw [e, List.sum_map_mul_right]
    simp only [List.map_id']
    exact mul_inv_cancel₀ (ne_of_gt hS)

theorem maxElement_foldl_add (c : α) (xs : List α) (x : α) :
    (xs.map (fun y => y + c)).foldl (fun largest y => if largest < y then y else largest)
      (x + c) =
    xs.foldl (fun largest y => if largest < y then y else largest) x + c := by
  induction xs generalizing x with
  | nil => rfl
  | cons a xs ih =>
    rw [List.map_cons, List.foldl_cons, List.foldl_cons]
    by_cases h : x < a
    · rw [if_pos h, if_pos (by linarith), ih]
    · rw [if_neg h, if_neg (by linarith), ih]

/-- Adding a constant to every element adds it to the maximum. -/
theorem maxElement_map_add (c : α) (xs : List α) (hne : xs ≠ []) :
    maxElement (xs.map (fun y => y + c)) = maxElement xs + c := by
  cases xs with
  | nil => exact absurd rfl hne
  | cons a xs =>
    rw [List.map_cons]
    unfold maxElement
    exact maxElement_foldl_add c xs a

theorem softmax_shift (exp : α → α) (c : α) (xs : List α) (hne : xs ≠ []) :
    softmax exp (xs.map (fun y => y + c)) = softmax exp xs := by
  have hmap : (xs.map (fun y => y + c)).map (fun x => exp (x - (maxElement xs + c))) =
      xs.map (fun x => exp (x - maxElement xs)) := by
    rw [List.map_map]
    refine List.map_congr_left (fun x _ => ?_)
    simp only [Function.comp]
    congr 1
    ring
  unfold softmax
  dsimp only
  rw [maxElement_map_add c xs hne, hmap]

end Softmax

/-- C6. Over the reals, for every non-empty logit vector the softmax stage of `CNN::forward`
returns a vector of the same length whose entries are positive and at most 1 (in particular
non-negative) and whose sum is exactly 1. -/
theorem softmax_is_distribution (logits : List ℝ) (hne : logits ≠ []) :
    (softmax Real.exp logits).length = logits.length ∧
    (∀ p ∈ softmax Real.exp logits, 0 ≤ p ∧ 0 < p ∧ p ≤ 1) ∧
    (softmax Real.exp logits).sum = 1 := by
  obtain ⟨h1, h2, h3⟩ := softmax_distribution Real.exp Real.exp_pos logits hne
  exact ⟨h1, fun p hp => ⟨le_of_lt (h2 p hp).1, (h2 p hp).1, (h2 p hp).2⟩, h3⟩

/-- Instance of `softmax_is_distribution` at the logits `1, 2, 3`. -/
theorem softmax_is_distribution_witness :
    (softmax Real.exp [1, 2, 3]).length = 3 ∧ (softmax Real.exp [1, 2, 3]).sum = 1 :=
  have h := softmax_is_distribution [1, 2, 3] (by simp)
  ⟨h.1, h.2.2⟩

/-- C7. Over the reals, the softmax stage of `CNN::forward` is invariant under adding a
constant `c` to every logit: `softmax (x + c) = softmax x`, entry by entry. -/
theorem softmax_shift_invariant (logits : List ℝ) (c : ℝ) (hne : logits ≠ []) :
    softmax Real.exp (logits.map (fun x => x + c)) = softmax Real.exp logits ∧
    ∀ i : Nat, (softmax Real.exp (logits.map (fun x => x + c)))[i]? =
      (softmax Real.exp logits)[i]? := by
  have h := softmax_shift Real.exp c logits hne
  exact ⟨h, fun i => by rw [h]⟩

/-- Instance of `softmax_shift_invariant`: the logits `1, 2, 3` shifted by `10`. -/
theorem softmax_shift_invariant_witness :
    softmax Real.exp ([1, 2, 3].map (fun x => x + 10)) = softmax Real.exp [1, 2, 3] :=
  (softmax_shift_invariant [1, 2, 3] 10 (by simp)).1

end CNN
end AlexNet

namespace AlexNet
namespace CNN

section TopK

variable {α : Type} [LinearOrderedCommRing α]

theorem byProbabilityDesc_iff (a b : Nat × α) : byProbabilityDesc a b = true ↔ b.2 < a.2 := by
  unfold byProbabilityDesc
  simp

/-- One selection pass returns a best element and the others: nothing is lost and no
remaining element has a larger probability. -/
theorem extractBest_spec : ∀ (l : List (Nat × α)),
    (l = [] → extractBest byProbabilityDesc l = none) ∧
    (l ≠ [] → ∃ best rest, extractBest byProbabilityDesc l = some (best, rest) ∧
      (best :: rest).Perm l ∧ ∀ z ∈ rest, z.2 ≤ best.2) := by
  intro l
  induction l with
  | nil => exact ⟨fun _ => rfl, fun h => absurd rfl h⟩
  | cons x xs ih =>
    refine ⟨fun h => (by cases h), fun _ => ?_⟩
    by_cases hxs : xs = []
    · subst hxs
      exact ⟨x, [], rfl, List.Perm.refl _, fun z hz => absurd hz (List.not_mem_nil z)⟩
    · obtain ⟨y, ys, e, hperm, hbest⟩ := ih.2 hxs
      by_cases hc : byProbabilityDesc y x = true
      · refine ⟨y, x :: ys, ?_, ?_, ?_⟩
        · simp only [extractBest, e, hc, if_true]
        · exact (List.Perm.swap x y ys).trans (List.Perm.cons x hperm)
        · intro z hz
          rcases List.mem_cons.mp hz with rfl | hz'
          · exact le_of_lt ((byProbabilityDesc_iff y z).mp hc)
          · exact hbest z hz'
      · refine ⟨x, xs, ?_, List.Perm.refl _, ?_⟩
        · simp only [extractBest, e, hc]
          rfl
        · intro z hz
          have hyx : y.2 ≤ x.2 := by
            by_contra hlt
            exact hc ((byProbabilityDesc_iff y x).mpr (lt_of_not_le hlt))
          rcases List.mem_cons.mp (hperm.symm.subset hz) with rfl | hz'
          · exact hyx
          · exact le_trans (hbest z hz') hyx

/-- The partial sort permutes the sequence, puts `k` elements in non-increasing order of
probability first, and leaves no larger probability behind them. -/
theorem partialSort_spec : ∀ (k : Nat) (l : List (Nat × α)), k ≤ l.length →
    (partialSort byProbabilityDesc k l).Perm l ∧
    ((partialSort byProbabilityDesc k l).take k).Pairwise (fun a b => b.2 ≤ a.2) ∧
    ∀ a ∈ (partialSort byProbabilityDesc k l).take k,
      ∀ b ∈ (partialSort byProbabilityDesc k l).drop k, b.2 ≤ a.2 := by
  intro k
  induction k with
  | zero =>
    intro l _
    exact ⟨List.Perm.refl _, by simp, fun a ha => by simp at ha⟩
  | succ k ih =>
    intro l hl
    have hne : l ≠ [] := by
      intro h
      rw [h] at hl
      simp at hl
    obtain ⟨best, rest, e, hperm, hbest⟩ := (extractBest_spec l).2 hne
    have hlen : k ≤ rest.length := by
      have := hperm.length_eq
      simp only [List.length_cons] at this
      omega
    obtain ⟨p1, p2, p3⟩ := ih rest hlen
    have eps : partialSort byProbabilityDesc (k + 1) l =
        best :: partialSort byProbabilityDesc k rest := by
      simp only [partialSort, e]
    rw [eps]
    refine ⟨(List.Perm.cons best p1).trans hperm, ?_, ?_⟩
    · rw [List.take_succ_cons, List.pairwise_cons]
      exact ⟨fun b hb => hbest b (p1.subset (List.mem_of_mem_take hb)), p2⟩
    · intro a ha b hb
      rw [List.take_succ_cons] at ha
      rw [List.drop_succ_cons] at hb
      rcases List.mem_cons.mp ha with rfl | ha'
      · exact hbest b (p1.subset (List.mem_of_mem_drop hb))
      · exact p3 a ha' b hb

theorem foldl_push_eq_map {ι β : Type} (l : List ι) (f : ι → β) (init : List β) :
    l.foldl (fun acc x => acc ++ [f x]) init = init ++ l.map f := by
  induction l generalizing init with
  | nil => simp
  | cons a l ih => rw [List.foldl_cons, ih, List.map_cons, List.append_assoc]; rfl

/-- The pairs built by the first loop of `getTopKPredictions`. -/
theorem getTopKPredictions_eq (probabilities : List α) (k : Nat) :
    getTopKPredictions probabilities k =
      (partialSort byProbabilityDesc k
        ((List.range probabilities.length).map (fun i => (i, probabilities.getD i 0)))).take k := by
  unfold getTopKPredictions
  dsimp only
  rw [foldl_push_eq_map, List.nil_append]

end TopK

variable {α : Type} [LinearOrderedCommRing α]

/-- C8. For a probability vector of length `n` and `0 ≤ k ≤ n`, `getTopKPredictions`
returns exactly `k` pairs, in non-increasing order of probability. -/
theorem topK_length_sorted (probabilities : List α) (k : Nat)
    (hk : k ≤ probabilities.length) :
    (getTopKPredictions probabilities k).length = k ∧
    (getTopKPredictions probabilities k).Pairwise (fun a b => a.2 ≥ b.2) := by
  rw [getTopKPredictions_eq]
  have hlen : k ≤ ((List.range probabilities.length).map
      (fun i => (i, probabilities.getD i 0))).length := by simpa using hk
  obtain ⟨p1, p2, _⟩ := partialSort_spec k _ hlen
  refine ⟨?_, p2⟩
  rw [List.length_take, p1.length_eq]
  simpa using hk

/-- Instance of `topK_length_sorted`: the three best of six. -/
theorem topK_length_sorted_witness :
    (getTopKPredictions [(3 : Int), 5, 1, 5, 2, 9] 3).length = 3 ∧
    (getTopKPredictions [(3 : Int), 5, 1, 5, 2, 9] 3).Pairwise (fun a b => a.2 ≥ b.2) :=
  topK_length_sorted [(3 : Int), 5, 1, 5, 2, 9] 3 (by decide)

/-- C9. For a probability vector of length `n` and `0 ≤ k ≤ n`, the pairs returned by
`getTopKPredictions` are the `k` highest: every returned pair `(i, p)` has `i < n` and
`p = probabilities[i]`, the returned indices are pairwise distinct, every probability at a
non-returned index is at most every returned probability, and for `k = n` the result is a
permutation of all `n` (index, probability) pairs. -/
theorem topK_highest (probabilities : List α) (k : Nat) (hk : k ≤ probabilities.length) :
    (∀ p ∈ getTopKPredictions probabilities k,
      p.1 < probabilities.length ∧ probabilities[p.1]? = some p.2) ∧
    ((getTopKPredictions probabilities k).map Prod.fst).Nodup ∧
    (∀ j, j < probabilities.length →
      j ∉ (getTopKPredictions probabilities k).map Prod.fst →
      ∀ p ∈ getTopKPredictions probabilities k, probabilities.getD j 0 ≤ p.2) ∧
    (k = probabilities.length →
      (getTopKPredictions probabilities k).Perm
        ((List.range probabilities.length).map (fun i => (i, probabilities.getD i 0)))) := by
  rw [getTopKPredictions_eq]
  have hlen : k ≤ ((List.range probabilities.length).map
      (fun i => (i, probabilities.getD i 0))).length := by simpa using hk
  obtain ⟨p1, _, p3⟩ := partialSort_spec k _ hlen
  obtain ⟨ps, hps⟩ : ∃ ps, ps = partialSort byProbabilityDesc k
    ((List.range probabilities.length).map (fun i => (i, probabilities.getD i 0))) := ⟨_, rfl⟩
  rw [← hps] at p1 p3 ⊢
  have hmem : ∀ p ∈ ps, p.1 < probabilities.length ∧ p.2 = probabilities.getD p.1 0 := by
    intro p hp
    obtain ⟨i, hi, rfl⟩ := List.mem_map.mp (p1.subset hp)
    exact ⟨List.mem_range.mp hi, rfl⟩
  have hnd : (ps.map Prod.fst).Nodup := by
    have : (ps.map Prod.fst).Perm (List.range probabilities.length) := by
      have h := p1.map Prod.fst
      rw [List.map_map] at h
      have e : (Prod.fst ∘ fun i => (i, probabilities.getD i 0)) = (id : Nat → Nat) := rfl
      rw [e, List.map_id] at h
      exact h
    exact this.nodup_iff.mpr (List.nodup_range _)
  refine ⟨fun p hp => ?_, ?_, fun j hj hnot p hp => ?_, fun hkn => ?_⟩
  · have := hmem p (List.mem_of_mem_take hp)
    refine ⟨this.1, ?_⟩
    rw [this.2, List.getD_eq_getElem?_getD, List.getElem?_eq_getElem this.1]
    rfl
  · exact (List.Sublist.map Prod.fst (List.take_sublist k ps)).nodup hnd
  · have hin : (j, probabilities.getD j 0) ∈ ps :=
      p1.symm.subset (List.mem_map.mpr ⟨j, List.mem_range.mpr hj, rfl⟩)
    rw [← List.take_append_drop k ps] at hin
    rcases List.mem_append.mp hin with h | h
    · exact absurd (List.mem_map.mpr ⟨_, h, rfl⟩) hnot
    · exact p3 p hp _ h
  · have : ps.take k = ps := by
      apply List.take_of_length_le
      rw [p1.length_eq]
      simp [hkn]
    rw [this]
    exact p1

/-- Instance of `topK_highest`: the three best of six. -/
theorem topK_highest_witness :
    ((getTopKPredictions [(3 : Int), 5, 1, 5, 2, 9] 3).map Prod.fst).Nodup :=
  (topK_highest [(3 : Int), 5, 1, 5, 2, 9] 3 (by decide)).2.1

end CNN
end AlexNet

namespace AlexNet

open Tensor3D

variable {α : Type} [LinearOrderedCommRing α]

/-- Every layer variant returns a well-shaped tensor of the shape `outShape`. -/
theorem layer_forward_shaped (l : Layer α) (input : Tensor3D α)
    (hrun : l.Runs (input.depth, input.height, input.width)) :
    ∃ t, l.forward input = some t ∧
      t.Shaped (l.outShape (input.depth, input.height, input.width)).1
        (l.outShape (input.depth, input.height, input.width)).2.1
        (l.outShape (input.depth, input.height, input.width)).2.2 := by
  obtain ⟨h0, hnn, ht⟩ := hrun
  cases l with
  | conv l =>
    obtain ⟨t, e, s, _⟩ := l.direct_forward_spec input hnn
    exact ⟨t, e, s⟩
  | convV2 l =>
    obtain ⟨t, e, s, _⟩ := l.tiled_forward_spec input ht.1 ht.2.1 ht.2.2.1 ht.2.2.2 hnn
    exact ⟨t, e, s⟩
  | pool l =>
    obtain ⟨t, e, s, _⟩ := l.pool_forward_spec (α := α) input h0 hnn
    exact ⟨t, e, s⟩
  | fc l =>
    obtain ⟨t, e, s, _⟩ := l.fc_forward_spec input
    exact ⟨t, e, s⟩

/-- The layer loop returns the tensor of the final shape and records the successive shapes. -/
theorem runLayers_fold (layers : List (Layer α)) :
    ∀ (input : Tensor3D α) (shapes : List (Int × Int × Int)),
      AllRun layers (input.depth, input.height, input.width) →
      ∃ t, layers.foldl CNN.layerStep (some (input, shapes)) =
          some (t, shapes ++ shapeTrace layers (input.depth, input.height, input.width)) ∧
        (t.depth, t.height, t.width) =
          finalShape layers (input.depth, input.height, input.width) ∧
        (layers ≠ [] → (t.data.length : Int) = t.depth * t.height * t.width) := by
  induction layers with
  | nil =>
    intro input shapes _
    exact ⟨input, by simp [shapeTrace], rfl, fun h => absurd rfl h⟩
  | cons l ls ih =>
    intro input shapes hall
    obtain ⟨t1, e1, s1⟩ := layer_forward_shaped l input hall.1
    have hdims : (t1.depth, t1.height, t1.width) =
        l.outShape (input.depth, input.height, input.width) :=
      Prod.ext s1.1 (Prod.ext s1.2.1 s1.2.2.1)
    have hall' : AllRun ls (t1.depth, t1.height, t1.width) := by
      rw [hdims]
      exact hall.2
    obtain ⟨t, e, hfin, hlen⟩ := ih t1
      (shapes ++ [(t1.getDepth, t1.getHeight, t1.getWidth)]) hall'
    refine ⟨t, ?_, ?_, fun _ => ?_⟩
    · rw [List.foldl_cons]
      simp only [CNN.layerStep, e1]
      rw [e, hdims]
      simp only [shapeTrace, getDepth, getHeight, getWidth, List.append_assoc,
        List.singleton_append]
      rw [← hdims]
    · rw [hfin, hdims]
      rfl
    · by_cases hls : ls = []
      · subst hls
        simp only [List.foldl_nil, Option.some.injEq, Prod.mk.injEq] at e
        rw [← e.1, s1.2.2.2, s1.1, s1.2.1, s1.2.2.1]
      · exact hlen hls

theorem runLayers_spec (layers : List (Layer α)) (input : Tensor3D α)
    (hall : AllRun layers (input.depth, input.height, input.width)) :
    ∃ t, CNN.runLayers layers input =
        some (t, shapeTrace layers (input.depth, input.height, input.width)) ∧
      (t.depth, t.height, t.width) =
        finalShape layers (input.depth, input.height, input.width) ∧
      (layers ≠ [] → (t.data.length : Int) = t.depth * t.height * t.width) := by
  obtain ⟨t, e, h1, h2⟩ := runLayers_fold layers input [] hall
  exact ⟨t, by unfold CNN.runLayers; rw [e, List.nil_append], h1, h2⟩

end AlexNet

namespace AlexNet

open Tensor3D

section Shapes

variable {α : Type} [LinearOrderedCommRing α]

theorem new_shapeTrace :
    shapeTrace (CNN.new : CNN α).layers (3, 224, 224) =
      [(64, 55, 55), (64, 27, 27), (192, 27, 27), (192, 13, 13), (384, 13, 13), (256, 13, 13),
        (256, 13, 13), (256, 6, 6), (1, 1, 4096), (1, 1, 4096), (1, 1, 1000)] := by
  simp only [CNN.new, shapeTrace, Layer.outShape, ConvolutionalLayer.new,
    FullyConnectedLayer.new]
  decide

theorem new_allRun : AllRun (CNN.new : CNN α).layers (3, 224, 224) := by
  simp only [CNN.new, AllRun, Layer.Runs, Layer.outShape, ConvolutionalLayer.new,
    FullyConnectedLayer.new]
  decide

theorem new_finalShape :
    finalShape (CNN.new : CNN α).layers (3, 224, 224) = (1, 1, 1000) := by
  simp only [CNN.new, finalShape, Layer.outShape, ConvolutionalLayer.new,
    FullyConnectedLayer.new]
  decide

theorem new_take8_finalShape :
    finalShape ((CNN.new : CNN α).layers.take 8) (3, 224, 224) = (256, 6, 6) := by
  simp only [CNN.new, List.take, finalShape, Layer.outShape, ConvolutionalLayer.new]
  decide

theorem new_take8_allRun : AllRun ((CNN.new : CNN α).layers.take 8) (3, 224, 224) := by
  simp only [CNN.new, List.take, AllRun, Layer.Runs, Layer.outShape, ConvolutionalLayer.new]
  decide

end Shapes

/-- C10. The `CNN` constructor builds conv1, pool1, conv2, pool2, conv3, conv4, conv5, pool5,
fc6, fc7, fc8, and on an input of shape `3 x 224 x 224` the successive output shapes are
`64x55x55`, `64x27x27`, `192x27x27`, `192x13x13`, `384x13x13`, `256x13x13`, `256x13x13`,
`256x6x6`, `1x1x4096`, `1x1x4096`, `1x1x1000`; the pool5 output has exactly 9216 elements,
which is fc6's `inputSize`, and `forward` returns 1000 probabilities. -/
theorem cnn_shapes {α : Type} [LinearOrderedField α] (exp : α → α) (input : Tensor3D α)
    (hD : input.depth = 3) (hH : input.height = 224) (hW : input.width = 224) :
    (CNN.new : CNN α).layers.map Layer.getName =
      ["conv1", "pool1", "conv2", "pool2", "conv3", "conv4", "conv5", "pool5",
        "fc6", "fc7", "fc8"] ∧
    (∃ c1 p1 c2 p2 c3 c4 c5 p5 f6 f7 f8, (CNN.new : CNN α).layers =
      [Layer.conv c1, Layer.pool p1, Layer.conv c2, Layer.pool p2, Layer.conv c3,
        Layer.conv c4, Layer.conv c5, Layer.pool p5, Layer.fc f6, Layer.fc f7, Layer.fc f8]) ∧
    (∃ t, CNN.runLayers (CNN.new : CNN α).layers input =
      some (t, [(64, 55, 55), (64, 27, 27), (192, 27, 27), (192, 13, 13), (384, 13, 13),
        (256, 13, 13), (256, 13, 13), (256, 6, 6), (1, 1, 4096), (1, 1, 4096), (1, 1, 1000)]) ∧
      t.data.length = 1000) ∧
    (∃ t8 shapes, CNN.runLayers ((CNN.new : CNN α).layers.take 8) input = some (t8, shapes) ∧
      t8.data.length = 9216 ∧
      ∃ fc6, (CNN.new : CNN α).layers[8]? = some (Layer.fc fc6) ∧ fc6.name = "fc6" ∧
        fc6.inputSize = 9216) ∧
    ∃ probabilities, CNN.forward exp CNN.new input = some probabilities ∧
      probabilities.length = 1000 := by
  have hin : (input.depth, input.height, input.width) = ((3 : Int), (224 : Int), (224 : Int)) := by
    rw [hD, hH, hW]
  obtain ⟨t, e, hfin, hlen⟩ := runLayers_spec (CNN.new : CNN α).layers input
    (by rw [hin]; exact new_allRun)
  rw [hin, new_shapeTrace] at e
  rw [hin, new_finalShape] at hfin
  have hlen' : t.data.length = 1000 := by
    have h := hlen (by simp [CNN.new])
    simp only [Prod.mk.injEq] at hfin
    rw [hfin.1, hfin.2.1, hfin.2.2] at h
    omega
  obtain ⟨t8, e8, hfin8, hlen8⟩ := runLayers_spec ((CNN.new : CNN α).layers.take 8) input
    (by rw [hin]; exact new_take8_allRun)
  rw [hin, new_take8_finalShape] at hfin8
  refine ⟨rfl, ⟨_, _, _, _, _, _, _, _, _, _, _, rfl⟩, ⟨t, e, hlen'⟩,
    ⟨t8, _, e8, ?_, _, rfl, rfl, rfl⟩, ?_⟩
  · have h := hlen8 (by simp [CNN.new])
    simp only [Prod.mk.injEq] at hfin8
    rw [hfin8.1, hfin8.2.1, hfin8.2.2] at h
    omega
  · refine ⟨CNN.softmax exp t.getData, ?_, ?_⟩
    · unfold CNN.forward
      rw [e]
    · unfold CNN.softmax
      simp only [List.length_map, getData]
      exact hlen'

/-- Instance of `cnn_shapes`: the network on an all-zero `3 x 224 x 224` image over the
rationals (`exp` replaced by a stand-in, the shapes do not depend on it). -/
theorem cnn_shapes_witness :
    ∃ probabilities, CNN.forward (fun x : ℚ => x) CNN.new
        ⟨3, 224, 224, List.replicate 150528 0⟩ = some probabilities ∧
      probabilities.length = 1000 :=
  (cnn_shapes (fun x : ℚ => x) ⟨3, 224, 224, List.replicate 150528 0⟩ rfl rfl rfl).2.2.2.2

end AlexNet

namespace AlexNet

open Tensor3D

/-- Every slot of the buffer of a well-shaped tensor with positive height and width is the
slot of an in-range coordinate. -/
theorem slot_coords {D H W : Int} (hH : 0 < H) (hW : 0 < W) (k : Nat)
    (hk : (k : Int) < D * H * W) :
    ∃ c : Int × Int × Int, InShape D H W c ∧ c.1 * H * W + c.2.1 * W + c.2.2 = k := by
  have hHW : 0 < H * W := mul_pos hH hW
  have hr0 : 0 ≤ (k : Int) % (H * W) := Int.emod_nonneg _ (ne_of_gt hHW)
  have hr1 : (k : Int) % (H * W) < H * W := Int.emod_lt_of_pos _ hHW
  refine ⟨((k : Int) / (H * W), ((k : Int) % (H * W)) / W, ((k : Int) % (H * W)) % W),
    ⟨?_, ?_, ?_, ?_, ?_, ?_⟩, ?_⟩
  · exact Int.ediv_nonneg (by positivity) (le_of_lt hHW)
  · dsimp only
    rw [Int.ediv_lt_iff_lt_mul hHW]
    linarith
  · exact Int.ediv_nonneg hr0 (le_of_lt hW)
  · exact Int.ediv_lt_of_lt_mul hW hr1
  · exact Int.emod_nonneg _ (ne_of_gt hW)
  · exact Int.emod_lt_of_pos _ hW
  · dsimp only
    have e2 := Int.emod_add_ediv ((k : Int) % (H * W)) W
    have e3 := Int.emod_add_ediv (k : Int) (H * W)
    have e4 : (k : Int) / (H * W) * H * W + (k : Int) % (H * W) / W * W +
        (k : Int) % (H * W) % W =
        (k : Int) % (H * W) % W + W * ((k : Int) % (H * W) / W) +
          H * W * ((k : Int) / (H * W)) := by ring
    rw [e4, e2, e3]

/-- Two well-shaped tensors of the same shape that agree at every in-range coordinate are
equal, provided the height and width are positive. -/
theorem tensor_ext {α : Type} [Zero α] {t1 t2 : Tensor3D α} {D H W : Int}
    (s1 : t1.Shaped D H W) (s2 : t2.Shaped D H W) (hH : 0 < H) (hW : 0 < W)
    (hv : ∀ c, InShape D H W c → t1.view c = t2.view c) : t1 = t2 := by
  have hdata : t1.data = t2.data := by
    apply List.ext_getElem?
    intro k
    by_cases hk : k < t1.data.length
    · have hk2 : k < t2.data.length := by
        have := s1.2.2.2
        have := s2.2.2.2
        omega
      obtain ⟨c, hc, hidx⟩ := slot_coords (D := D) hH hW k (by have := s1.2.2.2; omega)
      have h := hv c hc
      unfold Tensor3D.view Tensor3D.at_ at h
      rw [index_eq s1, index_eq s2, hidx] at h
      simp only [Int.toNat_ofNat, Nat.cast_nonneg, if_true, List.getD_eq_getElem?_getD] at h
      rw [List.getElem?_eq_getElem hk, List.getElem?_eq_getElem hk2] at h ⊢
      simpa using h
    · have hk2 : ¬ k < t2.data.length := by
        have := s1.2.2.2
        have := s2.2.2.2
        omega
      rw [List.getElem?_eq_none (by omega), List.getElem?_eq_none (by omega)]
  cases t1
  cases t2
  obtain ⟨a1, a2, a3, _⟩ := s1
  obtain ⟨b1, b2, b3, _⟩ := s2
  simp only at a1 a2 a3 b1 b2 b3 hdata
  subst a1 a2 a3 hdata
  rw [b1, b2, b3]

theorem foldl_skip {σ ι : Type} (l : List ι) (s : σ) : l.foldl (fun s _ => s) s = s := by
  induction l with
  | nil => rfl
  | cons a l ih => rw [List.foldl_cons, ih]

theorem tileStarts_zero (T : Nat) : tileStarts 0 T = [] := rfl

/-- With exact arithmetic the tiled and the direct layer return the same tensor (or both
return none), for equal parameters and tile sizes of at least one. -/
theorem tiled_forward_eq {α : Type} [LinearOrderedCommRing α]
    (L1 : ConvolutionalLayer α) (L2 : ConvolutionalLayerV2 α) (input : Tensor3D α)
    (hN : L2.inputChannels = L1.inputChannels) (hM : L2.outputChannels = L1.outputChannels)
    (hK : L2.kernelSize = L1.kernelSize) (hS : L2.stride = L1.stride)
    (hP : L2.padding = L1.padding) (hw : L2.weights = L1.weights) (hb : L2.bias = L1.bias)
    (hTm : 1 ≤ L2.Tm) (hTn : 1 ≤ L2.Tn) (hTr : 1 ≤ L2.Tr) (hTc : 1 ≤ L2.Tc) :
    L2.forward input = L1.forward input := by
  by_cases hnn : 0 ≤ (L1.outputChannels : Int) *
      convOutDim input.height L1.kernelSize L1.stride L1.padding *
      convOutDim input.width L1.kernelSize L1.stride L1.padding
  · by_cases hH : 0 < convOutDim input.height L1.kernelSize L1.stride L1.padding
    · by_cases hW : 0 < convOutDim input.width L1.kernelSize L1.stride L1.padding
      · obtain ⟨t1, e1, s1, v1⟩ := L1.direct_forward_spec input hnn
        obtain ⟨t2, e2, s2, v2⟩ := L2.tiled_forward_spec input hTm hTn hTr hTc
          (by rw [hM, hK, hS, hP]; exact hnn)
        rw [hN, hM, hK, hS, hP, hw, hb] at v2
        rw [hM, hK, hS, hP] at s2
        rw [e1, e2, tensor_ext s2 s1 hH hW (fun c hc => (v2 c hc).trans (v1 c hc).symm)]
      · obtain ⟨t0, ht0⟩ := new_isSome (0 : α) hnn
        have hW0 : (convOutDim input.width L1.kernelSize L1.stride L1.padding).toNat = 0 := by
          omega
        unfold ConvolutionalLayerV2.forward ConvolutionalLayer.forward
        simp only [getHeight, getWidth, hM, hK, hS, hP, ht0, hW0, List.range_zero,
          List.foldl_nil, foldl_skip, tileStarts_zero]
    · obtain ⟨t0, ht0⟩ := new_isSome (0 : α) hnn
      have hH0 : (convOutDim input.height L1.kernelSize L1.stride L1.padding).toNat = 0 := by
        omega
      unfold ConvolutionalLayerV2.forward ConvolutionalLayer.forward
      simp only [getHeight, getWidth, hM, hK, hS, hP, ht0, hH0, List.range_zero,
        List.foldl_nil, foldl_skip, tileStarts_zero]
  · rw [L1.direct_forward_none input hnn,
      L2.tiled_forward_none input (by rw [hM, hK, hS, hP]; exact hnn)]

end AlexNet

namespace AlexNet

open Tensor3D

variable {α : Type} [LinearOrderedCommRing α]

/-- C1. With exact arithmetic, the tiled layer computes what the direct layer computes: for
equal parameters (stride at least one), any tile sizes `Tm, Tn, Tr, Tc ≥ 1` (dividing the
extents or not) and any input, `ConvolutionalLayerV2.forward` returns the tensor that
`ConvolutionalLayer.forward` returns. In particular, when the padded input is at least as
large as the kernel both return a tensor, of the same shape and with the same value at every
in-range `(channel, row, col)`. -/
theorem tiled_forward_eq_direct (L1 : ConvolutionalLayer α) (L2 : ConvolutionalLayerV2 α)
    (input : Tensor3D α)
    (hN : L2.inputChannels = L1.inputChannels) (hM : L2.outputChannels = L1.outputChannels)
    (hK : L2.kernelSize = L1.kernelSize) (hS : L2.stride = L1.stride)
    (hP : L2.padding = L1.padding) (hw : L2.weights = L1.weights) (hb : L2.bias = L1.bias)
    (_hS1 : 1 ≤ L1.stride)
    (hTm : 1 ≤ L2.Tm) (hTn : 1 ≤ L2.Tn) (hTr : 1 ≤ L2.Tr) (hTc : 1 ≤ L2.Tc) :
    L2.forward input = L1.forward input ∧
    ((L1.kernelSize : Int) ≤ input.height + 2 * L1.padding →
      (L1.kernelSize : Int) ≤ input.width + 2 * L1.padding →
      ∃ t1 t2, L1.forward input = some t1 ∧ L2.forward input = some t2 ∧
        t2.depth = t1.depth ∧ t2.height = t1.height ∧ t2.width = t1.width ∧
        ∀ d h w, t1.InRange d h w → t2.at_ d h w = t1.at_ d h w) := by
  have heq := tiled_forward_eq L1 L2 input hN hM hK hS hP hw hb hTm hTn hTr hTc
  refine ⟨heq, fun hH hW => ?_⟩
  have h1 := convOutDim_pos input.height L1.kernelSize L1.stride L1.padding hH
  have h2 := convOutDim_pos input.width L1.kernelSize L1.stride L1.padding hW
  obtain ⟨t1, e1, _, _⟩ := L1.direct_forward_spec input
    (mul_nonneg (mul_nonneg (by positivity) (by omega)) (by omega))
  exact ⟨t1, t1, e1, heq.trans e1, rfl, rfl, rfl, fun _ _ _ _ => rfl⟩

/-- Instance of `tiled_forward_eq_direct`: a 2-channel `5 x 4` input, 3 output channels,
kernel 3, stride 2, padding 1, and tile sizes 2, 1, 2, 1. -/
theorem tiled_forward_eq_direct_witness :
    Example.convV2.forward Example.input = Example.conv.forward Example.input :=
  (tiled_forward_eq_direct Example.conv Example.convV2 Example.input rfl rfl rfl rfl rfl rfl rfl
    (by decide) (by decide) (by decide) (by decide) (by decide)).1

end AlexNet

namespace AlexNet

open Tensor3D

/-- C16. For `depth, height, width ≥ 0` and every fill value `v` the constructor
`Tensor3D(depth, height, width, v)` returns a tensor whose getters are the arguments and whose
buffer has exactly `depth * height * width` elements, all equal to `v`; for every in-range
coordinate, `at(d, h, w)` reads and writes buffer slot `d * height * width + h * width + w`,
which lies inside the buffer. -/
theorem tensor_constructor_layout {α : Type} [Zero α] (depth height width : Int) (v : α)
    (hd : 0 ≤ depth) (hh : 0 ≤ height) (hw : 0 ≤ width) :
    ∃ t, Tensor3D.new depth height width v = some t ∧
      t.getDepth = depth ∧ t.getHeight = height ∧ t.getWidth = width ∧
      (t.getData.length : Int) = depth * height * width ∧
      (∀ x ∈ t.getData, x = v) ∧
      ∀ d h w : Int, t.InRange d h w →
        0 ≤ d * height * width + h * width + w ∧
        (d * height * width + h * width + w).toNat < t.getData.length ∧
        t.at_ d h w = t.getData.getD (d * height * width + h * width + w).toNat 0 ∧
        ∀ x, (t.setAt d h w x).getData =
            t.getData.set (d * height * width + h * width + w).toNat x ∧
          (t.setAt d h w x).at_ d h w = x := by
  obtain ⟨t, e⟩ := new_isSome v (mul_nonneg (mul_nonneg hd hh) hw)
  have hs := shaped_new e
  refine ⟨t, e, hs.1.1, hs.1.2.1, hs.1.2.2.1, hs.1.2.2.2, ?_, ?_⟩
  · intro x hx
    unfold getData at hx
    rw [hs.2] at hx
    exact List.eq_of_mem_replicate hx
  · intro d h w hr
    have hin := inShape_of_inRange hs.1 hr
    have hb := index_bounds hs.1 hin
    have hi := index_eq hs.1 d h w
    dsimp only at hb
    rw [hi] at hb
    refine ⟨hb.1, hb.2, ?_, fun x => ⟨?_, ?_⟩⟩
    · unfold at_ getData
      rw [hi, if_pos hb.1]
    · unfold setAt getData
      rw [hi, if_pos hb.1]
    · exact view_setAt_same hs.1 hin x

/-- Instance of `tensor_constructor_layout`: a `2 x 3 x 4` tensor filled with `7`. -/
theorem tensor_constructor_layout_witness :
    ∃ t, Tensor3D.new 2 3 4 (7 : Int) = some t ∧
      t.getDepth = 2 ∧ t.getHeight = 3 ∧ t.getWidth = 4 ∧
      (t.getData.length : Int) = 2 * 3 * 4 ∧ (∀ x ∈ t.getData, x = 7) := by
  obtain ⟨t, e, h1, h2, h3, h4, h5, _⟩ :=
    tensor_constructor_layout 2 3 4 (7 : Int) (by decide) (by decide) (by decide)
  exact ⟨t, e, h1, h2, h3, h4, h5⟩

end AlexNet

namespace AlexNet

open Tensor3D

/-- Every read of a tensor whose buffer holds zeros only is zero. -/
theorem at_zero_of_data {α : Type} [Zero α] (t : Tensor3D α) (hz : ∀ x ∈ t.getData, x = 0)
    (d h w : Int) : t.at_ d h w = 0 := by
  unfold at_
  split
  · rw [List.getD_eq_getElem?_getD]
    cases hk : t.data[(t.index d h w).toNat]? with
    | none => rfl
    | some x =>
      have hx : x ∈ t.data := List.getElem?_mem hk
      simpa using hz x hx
  · rfl

/-- With all-zero weights the convolution sum vanishes. -/
theorem convSum_zero_weights {α : Type} [LinearOrderedCommRing α] (weights input : Tensor3D α)
    (hz : ∀ x ∈ weights.getData, x = 0) (N K S P : Nat) (d row col : Int) :
    convSum weights input N K S P d row col = 0 := by
  unfold convSum
  simp only [at_zero_of_data weights hz, zero_mul, Finset.sum_const_zero]

/-- C20. The bias enters the tiled result exactly once, however many tiles there are: for a
tiled layer whose weights are all zero, tile sizes `Tm, Tn, Tr, Tc ≥ 1` and every input,
`forward` returns a tensor exactly when the output element count is non-negative, and
every in-range cell `(to, row, col)` of it holds `max(0, bias[to])`. -/
theorem tiled_zero_weights_bias_once {α : Type} [LinearOrderedCommRing α]
    (L : ConvolutionalLayerV2 α) (input : Tensor3D α)
    (hz : ∀ x ∈ L.weights.getData, x = 0)
    (hTm : 1 ≤ L.Tm) (hTn : 1 ≤ L.Tn) (hTr : 1 ≤ L.Tr) (hTc : 1 ≤ L.Tc) :
    ((L.forward input).isSome ↔ 0 ≤ (L.outputChannels : Int) *
      convOutDim input.height L.kernelSize L.stride L.padding *
      convOutDim input.width L.kernelSize L.stride L.padding) ∧
    ∀ t, L.forward input = some t → ∀ to_ row col : Int, t.InRange to_ row col →
      t.at_ to_ row col = max 0 (L.bias.getD to_.toNat 0) := by
  by_cases hnn : 0 ≤ (L.outputChannels : Int) *
      convOutDim input.height L.kernelSize L.stride L.padding *
      convOutDim input.width L.kernelSize L.stride L.padding
  · obtain ⟨t, e, hs, hv⟩ := L.tiled_forward_spec input hTm hTn hTr hTc hnn
    refine ⟨⟨fun _ => hnn, fun _ => by rw [e]; rfl⟩, ?_⟩
    intro t' e' to_ row col hr
    rw [e] at e'
    cases e'
    have := hv (to_, row, col) (inShape_of_inRange hs hr)
    unfold Tensor3D.view at this
    dsimp only at this
    rw [this]
    unfold convValue
    rw [convSum_zero_weights L.weights input hz, add_zero]
  · have e := L.tiled_forward_none input hnn
    refine ⟨⟨fun h => ?_, fun h => absurd h hnn⟩, ?_⟩
    · rw [e] at h
      cases h
    · intro t e'
      rw [e] at e'
      cases e'

/-- Instance of `tiled_zero_weights_bias_once`: a zero-weight layer with 3 output-channel
tiles of uneven size and 2 input-channel tiles. -/
theorem tiled_zero_weights_bias_once_witness :
    (Example.zeroConvV2.forward Example.input).isSome ∧
    ∀ t, Example.zeroConvV2.forward Example.input = some t →
      ∀ to_ row col : Int, t.InRange to_ row col →
        t.at_ to_ row col = max 0 (Example.zeroConvV2.bias.getD to_.toNat 0) :=
  ⟨(tiled_zero_weights_bias_once Example.zeroConvV2 Example.input
      (fun x hx => List.eq_of_mem_replicate hx) (by decide) (by decide) (by decide)
      (by decide)).1.mpr (by decide),
    (tiled_zero_weights_bias_once Example.zeroConvV2 Example.input
      (fun x hx => List.eq_of_mem_replicate hx) (by decide) (by decide) (by decide)
      (by decide)).2⟩

end AlexNet

namespace AlexNet

open Tensor3D

/-- Every cell of a pooling window lies inside the input. -/
theorem window_in_range (H : Int) (p S : Nat) (hp : (p : Int) ≤ H) (hS : 1 ≤ S) (row : Int)
    (h0 : 0 ≤ row) (hrow : row < poolOutDim H p S) (i : Nat) (hi : i < p) :
    0 ≤ row * S + i ∧ row * S + i < H := by
  rw [MaxPoolingLayer.poolOutDim_eq_floor H p S hp] at hrow
  have hS' : (0 : Int) < S := by exact_mod_cast hS
  have h1 : (H - p) / S * S ≤ H - p := Int.ediv_mul_le _ (ne_of_gt hS')
  have h2 : row * S ≤ (H - p) / S * S :=
    mul_le_mul_of_nonneg_right (by omega) (le_of_lt hS')
  have h3 : 0 ≤ row * (S : Int) := mul_nonneg h0 (le_of_lt hS')
  constructor <;> omega

namespace MaxPoolingLayer

variable {α : Type} [LinearOrderedCommRing α]

/-- The window scan reads the window cells of its channel only. -/
theorem windowMax_congr (P : MaxPoolingLayer) (input input2 : Tensor3D α) (c row col : Nat)
    (h : ∀ i j : Nat, i < P.poolSize → j < P.poolSize →
      input2.at_ c ((row : Int) * P.stride + i) ((col : Int) * P.stride + j) =
        input.at_ c ((row : Int) * P.stride + i) ((col : Int) * P.stride + j)) :
    P.windowMax input2 c row col = P.windowMax input c row col := by
  unfold windowMax
  apply List.foldl_ext
  intro a i hi
  apply List.foldl_ext
  intro b j hj
  dsimp only
  rw [h i j (List.mem_range.mp hi) (List.mem_range.mp hj)]

end MaxPoolingLayer

/-- C17. Max pooling (`poolSize ≥ 1`, `stride ≥ 1`, input at least as large as the window) of
an input in whose channel `c` the cell `(hs, ws)` holds `m`, strictly more than every other
cell of the channel (all cells in the range of finite floats, `-FLT_MAX` and above): every
output cell of channel `c` whose window contains `(hs, ws)` equals `m`, every other output
cell of channel `c` is strictly below `m`, and the outputs of channel `c` are the same for
every input that agrees with this one on channel `c`. -/
theorem pool_distinct_max {α : Type} [LinearOrderedCommRing α] (P : MaxPoolingLayer)
    (input : Tensor3D α) (c hs ws : Int) (m : α)
    (hp : 1 ≤ P.poolSize) (hS : 1 ≤ P.stride)
    (hH : (P.poolSize : Int) ≤ input.height) (hW : (P.poolSize : Int) ≤ input.width)
    (hc : 0 ≤ c ∧ c < input.depth)
    (hstar : 0 ≤ hs ∧ hs < input.height ∧ 0 ≤ ws ∧ ws < input.width)
    (hm : input.at_ c hs ws = m)
    (hlt : ∀ h w : Int, 0 ≤ h → h < input.height → 0 ≤ w → w < input.width →
      (h ≠ hs ∨ w ≠ ws) → input.at_ c h w < m)
    (hfin : ∀ h w : Int, 0 ≤ h → h < input.height → 0 ≤ w → w < input.width →
      -FLT_MAX ≤ input.at_ c h w) :
    ∃ t, P.forward input = some t ∧ t.depth = input.depth ∧
      t.height = (input.height - P.poolSize) / P.stride + 1 ∧
      t.width = (input.width - P.poolSize) / P.stride + 1 ∧
      (∀ row col : Int, t.InRange c row col →
        ((row * P.stride ≤ hs ∧ hs < row * P.stride + P.poolSize ∧
          col * P.stride ≤ ws ∧ ws < col * P.stride + P.poolSize) → t.at_ c row col = m) ∧
        (¬ (row * P.stride ≤ hs ∧ hs < row * P.stride + P.poolSize ∧
          col * P.stride ≤ ws ∧ ws < col * P.stride + P.poolSize) → t.at_ c row col < m)) ∧
      ∀ input2 : Tensor3D α, input2.depth = input.depth → input2.height = input.height →
        input2.width = input.width →
        (∀ h w : Int, 0 ≤ h → h < input.height → 0 ≤ w → w < input.width →
          input2.at_ c h w = input.at_ c h w) →
        ∃ t2, P.forward input2 = some t2 ∧
          ∀ row col : Int, t.InRange c row col → t2.at_ c row col = t.at_ c row col := by
  have hD : 0 ≤ input.depth := by omega
  have p1 := MaxPoolingLayer.poolOutDim_pos input.height P.poolSize P.stride hH
  have p2 := MaxPoolingLayer.poolOutDim_pos input.width P.poolSize P.stride hW
  have hnn : 0 ≤ input.depth * poolOutDim input.height P.poolSize P.stride *
      poolOutDim input.width P.poolSize P.stride :=
    mul_nonneg (mul_nonneg hD (by omega)) (by omega)
  obtain ⟨t, e, s, hv⟩ := P.pool_forward_spec input hD hnn
  -- the value of an output cell of channel `c`, in terms of the window scan
  have hcell : ∀ row col : Int, t.InRange c row col →
      t.at_ c row col = P.windowMax input c.toNat row.toNat col.toNat ∧
      0 ≤ row ∧ row < poolOutDim input.height P.poolSize P.stride ∧
      0 ≤ col ∧ col < poolOutDim input.width P.poolSize P.stride := by
    intro row col hr
    have hin := inShape_of_inRange s hr
    exact ⟨hv (c, row, col) hin, hin.2.2.1, hin.2.2.2.1, hin.2.2.2.2.1, hin.2.2.2.2.2⟩
  refine ⟨t, e, s.1, s.2.1.trans (MaxPoolingLayer.poolOutDim_eq_floor _ _ _ hH),
    s.2.2.1.trans (MaxPoolingLayer.poolOutDim_eq_floor _ _ _ hW), ?_, ?_⟩
  · intro row col hr
    obtain ⟨hval, hr0, hr1, hc0, hc1⟩ := hcell row col hr
    obtain ⟨_, w2, w3⟩ := P.windowMax_spec input c.toNat row.toNat col.toNat
    rw [← hval, Int.toNat_of_nonneg hc.1, Int.toNat_of_nonneg hr0,
      Int.toNat_of_nonneg hc0] at w2 w3
    have hwin : ∀ i j : Nat, i < P.poolSize → j < P.poolSize →
        (0 ≤ row * P.stride + i ∧ row * P.stride + i < input.height) ∧
        (0 ≤ col * P.stride + j ∧ col * P.stride + j < input.width) :=
      fun i j hi hj => ⟨window_in_range _ _ _ hH hS row hr0 hr1 i hi,
        window_in_range _ _ _ hW hS col hc0 hc1 j hj⟩
    constructor
    · intro hcont
      have hi : (hs - row * P.stride).toNat < P.poolSize := by omega
      have hj : (ws - col * P.stride).toNat < P.poolSize := by omega
      have hge := w2 _ _ hi hj
      have e1 : row * (P.stride : Int) + ((hs - row * P.stride).toNat : Nat) = hs := by omega
      have e2 : col * (P.stride : Int) + ((ws - col * P.stride).toNat : Nat) = ws := by omega
      rw [e1, e2, hm] at hge
      rcases w3 with h | ⟨i, j, hi', hj', h⟩
      · have := hfin hs ws hstar.1 hstar.2.1 hstar.2.2.1 hstar.2.2.2
        rw [hm] at this
        rw [h] at hge ⊢
        exact le_antisymm this hge
      · obtain ⟨⟨a1, a2⟩, ⟨a3, a4⟩⟩ := hwin i j hi' hj'
        by_cases hsame : row * (P.stride : Int) + i = hs ∧ col * (P.stride : Int) + j = ws
        · rw [h, hsame.1, hsame.2, hm]
        · have := hlt _ _ a1 a2 a3 a4 (by
            by_contra hcon
            push_neg at hcon
            exact hsame hcon)
          rw [← h] at this
          exact absurd hge (not_le.mpr this)
    · intro hncont
      have hother : ∀ i j : Nat, i < P.poolSize → j < P.poolSize →
          input.at_ c (row * P.stride + i) (col * P.stride + j) < m ∧
          -FLT_MAX ≤ input.at_ c (row * P.stride + i) (col * P.stride + j) := by
        intro i j hi hj
        obtain ⟨⟨a1, a2⟩, ⟨a3, a4⟩⟩ := hwin i j hi hj
        refine ⟨hlt _ _ a1 a2 a3 a4 ?_, hfin _ _ a1 a2 a3 a4⟩
        by_contra hcon
        push_neg at hcon
        apply hncont
        omega
      rcases w3 with h | ⟨i, j, hi', hj', h⟩
      · have := hother 0 0 (by omega) (by omega)
        rw [h]
        exact lt_of_le_of_lt this.2 this.1
      · rw [h]
        exact (hother i j hi' hj').1
  · intro input2 d2 h2 w2 hag
    have hnn2 : 0 ≤ input2.depth * poolOutDim input2.height P.poolSize P.stride *
        poolOutDim input2.width P.poolSize P.stride := by
      rw [d2, h2, w2]
      exact hnn
    obtain ⟨t2, e2, s2, hv2⟩ := P.pool_forward_spec input2 (by rw [d2]; exact hD) hnn2
    rw [d2, h2, w2] at s2 hv2
    refine ⟨t2, e2, fun row col hr => ?_⟩
    obtain ⟨hval, hr0, hr1, hc0, hc1⟩ := hcell row col hr
    have hin := inShape_of_inRange s hr
    have hval2 : t2.at_ c row col = P.windowMax input2 c.toNat row.toNat col.toNat :=
      hv2 (c, row, col) hin
    rw [hval, hval2]
    apply MaxPoolingLayer.windowMax_congr
    intro i j hi hj
    rw [Int.toNat_of_nonneg hc.1, Int.toNat_of_nonneg hr0, Int.toNat_of_nonneg hc0]
    obtain ⟨a1, a2⟩ := window_in_range _ _ _ hH hS row hr0 hr1 i hi
    obtain ⟨a3, a4⟩ := window_in_range _ _ _ hW hS col hc0 hc1 j hj
    exact hag _ _ a1 a2 a3 a4

/-- Instance of `pool_distinct_max`: 2 x 2 pooling with stride 2 of `Example.peak`, whose
channel 0 has its largest value 9 at `(1, 2)`, inside the window of output cell `(0, 1)`. -/
theorem pool_distinct_max_witness :
    ∃ t, ({ name := "pool", poolSize := 2, stride := 2 } : MaxPoolingLayer).forward
        Example.peak = some t ∧ t.at_ 0 0 1 = 9 ∧ t.at_ 0 0 0 < 9 := by
  obtain ⟨t, e, d1, d2, d3, hcells, _⟩ := pool_distinct_max
    { name := "pool", poolSize := 2, stride := 2 } Example.peak 0 1 2 9
    (by decide) (by decide) (by decide) (by decide) (by decide) (by decide) (by decide)
    (by
      intro h w h0 h1 w0 w1 hne
      change h < 4 at h1
      change w < 4 at w1
      interval_cases h <;> interval_cases w <;> first | decide | simp at hne)
    (by
      intro h w h0 h1 w0 w1
      change h < 4 at h1
      change w < 4 at w1
      have hF : -(FLT_MAX : Int) ≤ 0 := by
        unfold FLT_MAX
        norm_num
      have h0 : 0 ≤ Example.peak.at_ 0 h w := by
        interval_cases h <;> interval_cases w <;> decide
      exact le_trans hF h0)
  have hr : ∀ col : Int, 0 ≤ col → col < 2 → t.InRange 0 0 col := by
    intro col c0 c1
    unfold Tensor3D.InRange
    rw [d1, d2, d3]
    exact ⟨by decide, by decide, by decide, by decide, c0, c1⟩
  exact ⟨t, e, (hcells 0 1 (hr 1 (by decide) (by decide))).1 (by decide),
    (hcells 0 0 (hr 0 (by decide) (by decide))).2 (by decide)⟩

end AlexNet

namespace AlexNet

open Tensor3D

section Tiled

variable {α : Type} [LinearOrderedCommRing α]

/-- A layer of the tiled network returns what the corresponding layer of the direct
network returns. -/
theorem layer_forward_tiled {l1 l2 : Layer α} (h : Layer.TiledAs l1 l2) (input : Tensor3D α) :
    l2.forward input = l1.forward input := by
  cases l1 <;> cases l2 <;> unfold Layer.TiledAs at h <;> try exact h.elim
  · rename_i a b
    exact tiled_forward_eq a b input h.2.1 h.2.2.1 h.2.2.2.1 h.2.2.2.2.1 h.2.2.2.2.2.1
      h.2.2.2.2.2.2.1 h.2.2.2.2.2.2.2.1 (by omega) (by omega) (by omega) (by omega)
  · rw [h]
  · rw [h]

theorem layerStep_tiled {l1 l2 : Layer α} (h : Layer.TiledAs l1 l2)
    (st : Option (Tensor3D α × List (Int × Int × Int))) :
    CNN.layerStep st l2 = CNN.layerStep st l1 := by
  unfold CNN.layerStep
  cases st with
  | none => rfl
  | some p => simp only [layer_forward_tiled h]

/-- The layer loops of the two networks return the same tensor and shapes. -/
theorem runLayers_tiled {ls1 ls2 : List (Layer α)} (h : List.Forall₂ Layer.TiledAs ls1 ls2)
    (input : Tensor3D α) : CNN.runLayers ls2 input = CNN.runLayers ls1 input := by
  unfold CNN.runLayers
  generalize (some (input, []) : Option (Tensor3D α × List (Int × Int × Int))) = st
  induction h generalizing st with
  | nil => rfl
  | cons hab _ ih =>
    rw [List.foldl_cons, List.foldl_cons, layerStep_tiled hab]
    exact ih _

/-- The two constructors build corresponding layer sequences. -/
theorem new_tiledAs : List.Forall₂ Layer.TiledAs (CNN.new : CNN α).layers
    (CNN.newV2 : CNN α).layers := by
  unfold CNN.new CNN.newV2
  simp only [List.forall₂_cons, List.Forall₂.nil, Layer.TiledAs, ConvolutionalLayer.new,
    ConvolutionalLayerV2.new, and_self]

end Tiled

theorem outShape_sameArch {α : Type} {a b : Layer α} (h : Layer.SameArch a b) (s : Int × Int × Int) :
    b.outShape s = a.outShape s ∧ (a.Runs s → b.Runs s) := by
  cases a <;> cases b <;> unfold Layer.SameArch at h <;> try exact h.elim
  · rename_i a b
    have e : (Layer.conv b).outShape s = (Layer.conv a).outShape s := by
      simp only [Layer.outShape, h.2.2.1, h.2.2.2.1, h.2.2.2.2.1, h.2.2.2.2.2]
    refine ⟨e, fun hr => ?_⟩
    unfold Layer.Runs at hr ⊢
    rw [e]
    exact hr
  · rename_i a b
    have e : (Layer.convV2 b).outShape s = (Layer.convV2 a).outShape s := by
      simp only [Layer.outShape, h.2.2.1, h.2.2.2.1, h.2.2.2.2.1, h.2.2.2.2.2.1]
    refine ⟨e, fun hr => ?_⟩
    unfold Layer.Runs at hr ⊢
    rw [e]
    dsimp only at hr ⊢
    rw [h.2.2.2.2.2.2.1, h.2.2.2.2.2.2.2.1, h.2.2.2.2.2.2.2.2.1, h.2.2.2.2.2.2.2.2.2]
    exact hr
  · rw [h]
    exact ⟨rfl, id⟩
  · rename_i a b
    have e : (Layer.fc b).outShape s = (Layer.fc a).outShape s := by
      simp only [Layer.outShape, h.2.2]
    refine ⟨e, fun hr => ?_⟩
    unfold Layer.Runs at hr ⊢
    rw [e]
    exact hr

/-- Whether the layer loop returns, and with which shapes, depends on the architecture
only. -/
theorem allRun_sameArch {α : Type} {ls1 ls2 : List (Layer α)} (h : List.Forall₂ Layer.SameArch ls1 ls2) :
    ∀ s, AllRun ls1 s → AllRun ls2 s ∧ finalShape ls2 s = finalShape ls1 s := by
  induction h with
  | nil => exact fun s _ => ⟨trivial, rfl⟩
  | cons hab _ ih =>
    intro s hall
    have hs := outShape_sameArch hab s
    have := ih _ hall.2
    refine ⟨⟨hs.2 hall.1, ?_⟩, ?_⟩
    · rw [hs.1]
      exact this.1
    · simp only [finalShape]
      rw [hs.1]
      exact this.2

/-- C19. With exact arithmetic, a `CNNV2` whose layers carry the parameters of the layers of a
`CNN` (tiled convolutions with the default tile sizes `Tm = 64`, `Tn = 7`, `Tr = 16`,
`Tc = 16`) returns from `forward` what the `CNN` returns, for every input; for networks of the
constructors' architecture and an input of shape `3 x 224 x 224` both return the same vector
of 1000 probabilities, on which `getTopKPredictions` agrees for every `k`. -/
theorem cnnv2_forward_eq_cnn {α : Type} [LinearOrderedField α] (exp : α → α)
    (net1 net2 : CNN α) (input : Tensor3D α)
    (hpar : List.Forall₂ Layer.TiledAs net1.layers net2.layers) :
    CNN.forward exp net2 input = CNN.forward exp net1 input ∧
    (List.Forall₂ Layer.SameArch (CNN.new : CNN α).layers net1.layers →
      input.depth = 3 → input.height = 224 → input.width = 224 →
      ∃ p1 p2, CNN.forward exp net1 input = some p1 ∧ CNN.forward exp net2 input = some p2 ∧
        p2 = p1 ∧ p1.length = 1000 ∧
        ∀ k, CNN.getTopKPredictions p2 k = CNN.getTopKPredictions p1 k) := by
  have hfw : CNN.forward exp net2 input = CNN.forward exp net1 input := by
    unfold CNN.forward
    rw [runLayers_tiled hpar]
  refine ⟨hfw, fun harch hD hH hW => ?_⟩
  have hin : (input.depth, input.height, input.width) = ((3 : Int), (224 : Int), (224 : Int)) := by
    rw [hD, hH, hW]
  have hall := allRun_sameArch harch (3, 224, 224) new_allRun
  obtain ⟨t, e, hfin, hlen⟩ := runLayers_spec net1.layers input (by rw [hin]; exact hall.1)
  rw [hin, hall.2, new_finalShape] at hfin
  have hne : net1.layers ≠ [] := by
    intro h0
    rw [h0] at harch
    cases harch
  have hlen' : t.data.length = 1000 := by
    have h := hlen hne
    simp only [Prod.mk.injEq] at hfin
    rw [hfin.1, hfin.2.1, hfin.2.2] at h
    omega
  have e1 : CNN.forward exp net1 input = some (CNN.softmax exp t.getData) := by
    unfold CNN.forward
    rw [e]
  refine ⟨_, _, e1, hfw.trans e1, rfl, ?_, fun _ => rfl⟩
  unfold CNN.softmax
  simp only [List.length_map, getData]
  exact hlen'

/-- Instance of `cnnv2_forward_eq_cnn`: a two-layer network over the rationals with non-zero
parameters (`exp` replaced by a stand-in). -/
theorem cnnv2_forward_eq_cnn_witness :
    CNN.forward (fun x : ℚ => x) Example.netTiled Example.inputQ =
      CNN.forward (fun x : ℚ => x) Example.netDirect Example.inputQ :=
  (cnnv2_forward_eq_cnn (fun x : ℚ => x) Example.netDirect Example.netTiled Example.inputQ
    (List.Forall₂.cons ⟨rfl, rfl, rfl, rfl, rfl, rfl, rfl, rfl, rfl, rfl, rfl, rfl⟩
      (List.Forall₂.cons rfl List.Forall₂.nil))).1

end AlexNet

namespace AlexNet

open Tensor3D

section ZeroNet

variable {α : Type} [LinearOrderedCommRing α]

/-- A final fully-connected layer with zero weights and zero bias returns a zero buffer. -/
theorem fc_zero_data (F : FullyConnectedLayer α) (hname : F.name = "fc8")
    (hb : ∀ i, F.bias.getD i 0 = 0) (hw : ∀ i j, (F.weights.getD i []).getD j 0 = 0)
    (input : Tensor3D α) :
    ∃ t, F.forward input = some t ∧ t.getData = List.replicate F.outputSize 0 := by
  obtain ⟨t, e, hs, hv⟩ := F.fc_forward_spec input
  refine ⟨t, e, ?_⟩
  unfold getData
  rw [List.eq_replicate_iff]
  have hlen : t.data.length = F.outputSize := by
    have := hs.2.2.2
    omega
  refine ⟨hlen, fun b hb' => ?_⟩
  obtain ⟨i, hi, rfl⟩ := List.getElem_of_mem hb'
  have h1 := hv i (by omega)
  rw [if_neg (by rw [hname]; decide)] at h1
  simp only [hb, hw, zero_mul, Finset.sum_const_zero, add_zero] at h1
  unfold at_ index at h1
  rw [hs.2.1, hs.2.2.1] at h1
  simp only [zero_mul, zero_add, Nat.cast_nonneg, if_true, Int.toNat_ofNat] at h1
  rw [List.getD_eq_getElem?_getD, List.getElem?_eq_getElem hi] at h1
  exact h1

theorem getD_replicate_zero (n i : Nat) : (List.replicate n (0 : α)).getD i 0 = 0 := by
  rw [List.getD_eq_getElem?_getD]
  by_cases h : i < n
  · simp [List.getElem?_replicate, h]
  · simp [List.getElem?_replicate, h]

theorem getD_getD_replicate_zero (n m i j : Nat) :
    ((List.replicate n (List.replicate m (0 : α))).getD i []).getD j 0 = 0 := by
  have h : (List.replicate n (List.replicate m (0 : α))).getD i [] = List.replicate m 0 ∨
      (List.replicate n (List.replicate m (0 : α))).getD i [] = [] := by
    rw [List.getD_eq_getElem?_getD, List.getElem?_replicate]
    split
    · exact Or.inl rfl
    · exact Or.inr rfl
  rcases h with h | h
  · rw [h]
    exact getD_replicate_zero m j
  · rw [h]
    rfl

theorem maxElement_replicate (n : Nat) (a : α) :
    CNN.maxElement (List.replicate (n + 1) a) = a := by
  unfold CNN.maxElement
  rw [List.replicate_succ]
  dsimp only
  induction n with
  | zero => rfl
  | succ n ih =>
    rw [List.replicate_succ, List.foldl_cons, if_neg (lt_irrefl a)]
    exact ih

end ZeroNet

/-- Softmax of equal logits is the uniform distribution. -/
theorem softmax_replicate {α : Type} [LinearOrderedField α] (exp : α → α) (hexp : exp 0 ≠ 0)
    (n : Nat) (a : α) :
    CNN.softmax exp (List.replicate (n + 1) a) = List.replicate (n + 1) (1 / ((n : α) + 1)) := by
  unfold CNN.softmax
  rw [maxElement_replicate]
  simp only [List.map_replicate, sub_self, CNN.foldl_add_eq_sum, List.sum_replicate,
    nsmul_eq_mul]
  congr 1
  have hn : ((n + 1 : Nat) : α) ≠ 0 := by positivity
  push_cast at hn ⊢
  field_simp
  ring

/-- The first ten layers of the constructors' network return a tensor. -/
theorem new_take10_allRun {α : Type} [LinearOrderedCommRing α] :
    AllRun ((CNN.new : CNN α).layers.take 10) (3, 224, 224) := by
  simp only [CNN.new, List.take, AllRun, Layer.Runs, Layer.outShape, ConvolutionalLayer.new,
    FullyConnectedLayer.new]
  decide

/-- The layer loop of the zero-weight network built by `CNN::CNN()` ends with 1000 zero
logits. -/
theorem new_logits_zero {α : Type} [LinearOrderedCommRing α] (input : Tensor3D α)
    (hD : input.depth = 3) (hH : input.height = 224) (hW : input.width = 224) :
    ∃ t shapes, CNN.runLayers (CNN.new : CNN α).layers input = some (t, shapes) ∧
      t.getData = List.replicate 1000 0 := by
  have hin : (input.depth, input.height, input.width) = ((3 : Int), (224 : Int), (224 : Int)) := by
    rw [hD, hH, hW]
  obtain ⟨t10, e10, _, _⟩ := runLayers_spec ((CNN.new : CNN α).layers.take 10) input
    (by rw [hin]; exact new_take10_allRun)
  have hsplit : (CNN.new : CNN α).layers = (CNN.new : CNN α).layers.take 10 ++
      [Layer.fc (FullyConnectedLayer.new "fc8" 4096 1000)] := rfl
  obtain ⟨t, e, hdata⟩ := fc_zero_data (FullyConnectedLayer.new "fc8" 4096 1000 :
    FullyConnectedLayer α) rfl
    (fun i => getD_replicate_zero _ i)
    (fun i j => getD_getD_replicate_zero _ _ i j) t10
  generalize (CNN.new : CNN α).layers.take 10 = ten at e10 hsplit
  have key : CNN.runLayers (CNN.new : CNN α).layers input = some (t,
      shapeTrace ten (input.depth, input.height, input.width) ++
        [(t.getDepth, t.getHeight, t.getWidth)]) := by
    unfold CNN.runLayers at e10 ⊢
    rw [hsplit, List.foldl_append, e10]
    simp only [List.foldl_cons, List.foldl_nil, CNN.layerStep, Layer.forward, e]
  exact ⟨t, _, key, hdata⟩

/-- C11. The network left by the `CNN` constructor, and the one left by the `CNNV2`
constructor (all weights and biases zero), returns the uniform distribution for every input
of shape `3 x 224 x 224`: the layer loop ends with 1000 logits equal to 0 and `forward`
returns 1000 probabilities equal to `1 / 1000`. -/
theorem zero_network_uniform (input : Tensor3D ℝ)
    (hD : input.depth = 3) (hH : input.height = 224) (hW : input.width = 224) :
    ((∃ t shapes, CNN.runLayers (CNN.new : CNN ℝ).layers input = some (t, shapes) ∧
        t.getData = List.replicate 1000 0) ∧
      CNN.forward Real.exp CNN.new input = some (List.replicate 1000 (1 / 1000))) ∧
    ((∃ t shapes, CNN.runLayers (CNN.newV2 : CNN ℝ).layers input = some (t, shapes) ∧
        t.getData = List.replicate 1000 0) ∧
      CNN.forward Real.exp CNN.newV2 input = some (List.replicate 1000 (1 / 1000))) := by
  obtain ⟨t, shapes, e, hdata⟩ := new_logits_zero input hD hH hW
  have e2 := (runLayers_tiled (new_tiledAs (α := ℝ)) input).trans e
  have hsm : CNN.softmax Real.exp (List.replicate 1000 0) =
      List.replicate 1000 (1 / 1000 : ℝ) := by
    have := softmax_replicate Real.exp (Real.exp_ne_zero 0) 999 (0 : ℝ)
    norm_num at this ⊢
    exact this
  refine ⟨⟨⟨t, shapes, e, hdata⟩, ?_⟩, ⟨⟨t, shapes, e2, hdata⟩, ?_⟩⟩
  · unfold CNN.forward
    rw [e]
    dsimp only
    rw [hdata, hsm]
  · unfold CNN.forward
    rw [e2]
    dsimp only
    rw [hdata, hsm]

/-- Instance of `zero_network_uniform`: the all-ones image. -/
theorem zero_network_uniform_witness :
    CNN.forward Real.exp CNN.new ⟨3, 224, 224, List.replicate 150528 1⟩ =
      some (List.replicate 1000 (1 / 1000)) :=
  (zero_network_uniform ⟨3, 224, 224, List.replicate 150528 1⟩ rfl rfl rfl).1.2

end AlexNet

namespace AlexNet

section Load

variable {α : Type} [Zero α]

/-- The layer loop of `loadWeights`, from an arbitrary state. -/
theorem loadWeights_fold (fs : FileSystem α) (basePath : String) :
    ∀ (ls : List (Layer α)) (b : Bool) (done : List (Layer α)) (log : List (String × String)),
      ls.foldl (CNN.loadStep fs basePath) (b, done, log) =
        (b && ls.all (fun l => l.isMaxPooling ||
            (l.loadWeights fs (basePath ++ "/" ++ l.getName ++ "_combined.bin")).1),
          done ++ ls.map (fun l => if l.isMaxPooling then l else
            (l.loadWeights fs (basePath ++ "/" ++ l.getName ++ "_combined.bin")).2),
          log ++ (ls.filter (fun l => !l.isMaxPooling)).map (fun l =>
            (l.getName, basePath ++ "/" ++ l.getName ++ "_combined.bin"))) := by
  intro ls
  induction ls with
  | nil => intro b done log; simp
  | cons l ls ih =>
    intro b done log
    rw [List.foldl_cons]
    cases hp : l.isMaxPooling with
    | true =>
      have hstep : CNN.loadStep fs basePath (b, done, log) l = (b, done ++ [l], log) := by
        unfold CNN.loadStep
        simp only [hp, if_true]
      rw [hstep, ih]
      simp [hp]
    | false =>
      have hstep : CNN.loadStep fs basePath (b, done, log) l =
          (b && (l.loadWeights fs (basePath ++ "/" ++ l.getName ++ "_combined.bin")).1,
            done ++ [(l.loadWeights fs (basePath ++ "/" ++ l.getName ++ "_combined.bin")).2],
            log ++ [(l.getName, basePath ++ "/" ++ l.getName ++ "_combined.bin")]) := by
        unfold CNN.loadStep
        simp only [hp, Bool.false_eq_true, if_false]
        cases (l.loadWeights fs (basePath ++ "/" ++ l.getName ++ "_combined.bin")).1 <;>
          cases b <;> rfl
      rw [hstep, ih]
      simp [hp, Bool.and_assoc]

end Load

/-- C12. With the file system a map from paths to optional contents, `CNN::loadWeights` (and
`CNNV2::loadWeights`, the same loop) calls `loadWeights` exactly once on every layer that is
not a pooling layer, in layer order, with the path
`basePath + "/" + layerName + "_combined.bin"`, and on no pooling layer; it goes on after a
failed load, leaving every layer as its own `loadWeights` leaves it, and returns `true`
exactly when each of these loads returned `true`. -/
theorem cnn_loadWeights_spec {α : Type} [Zero α] (net : CNN α) (fs : FileSystem α)
    (basePath : String) :
    (net.loadWeights fs basePath).2.2 =
      (net.layers.filter (fun l => !l.isMaxPooling)).map (fun l =>
        (l.getName, basePath ++ "/" ++ l.getName ++ "_combined.bin")) ∧
    (net.loadWeights fs basePath).2.1.layers =
      net.layers.map (fun l => if l.isMaxPooling then l else
        (l.loadWeights fs (basePath ++ "/" ++ l.getName ++ "_combined.bin")).2) ∧
    ((net.loadWeights fs basePath).1 = true ↔
      ∀ l ∈ net.layers, l.isMaxPooling = false →
        (l.loadWeights fs (basePath ++ "/" ++ l.getName ++ "_combined.bin")).1 = true) := by
  unfold CNN.loadWeights
  dsimp only
  rw [loadWeights_fold]
  refine ⟨by simp, by simp, ?_⟩
  simp only [Bool.true_and, List.all_eq_true, Bool.or_eq_true]
  constructor
  · intro h l hl hp
    rcases h l hl with h1 | h1
    · rw [hp] at h1
      cases h1
    · exact h1
  · intro h l hl
    cases hp : l.isMaxPooling with
    | true => exact Or.inl rfl
    | false => exact Or.inr (h l hl hp)

/-- C13. For each parameterized layer kind and every file system: whenever `loadWeights`
returns `false`, the layer (its weights and bias in particular) is what it was before the
call; a missing file makes each of the three return `false`. -/
theorem loadWeights_failure_keeps_parameters {α : Type} [Zero α] (L1 : ConvolutionalLayer α)
    (L2 : ConvolutionalLayerV2 α) (F : FullyConnectedLayer α) (fs : FileSystem α)
    (filename : String) :
    ((L1.loadWeights fs filename).1 = false →
      (L1.loadWeights fs filename).2.weights = L1.weights ∧
      (L1.loadWeights fs filename).2.bias = L1.bias) ∧
    ((L2.loadWeights fs filename).1 = false →
      (L2.loadWeights fs filename).2.weights = L2.weights ∧
      (L2.loadWeights fs filename).2.bias = L2.bias) ∧
    ((F.loadWeights fs filename).1 = false →
      (F.loadWeights fs filename).2.weights = F.weights ∧
      (F.loadWeights fs filename).2.bias = F.bias) ∧
    (fs.contents filename = none →
      (L1.loadWeights fs filename).1 = false ∧ (L2.loadWeights fs filename).1 = false ∧
      (F.loadWeights fs filename).1 = false) := by
  refine ⟨?_, ?_, ?_, ?_⟩
  · unfold ConvolutionalLayer.loadWeights
    cases fs.contents filename with
    | none => exact fun _ => ⟨rfl, rfl⟩
    | some contents =>
      intro h
      cases h
  · unfold ConvolutionalLayerV2.loadWeights
    cases fs.contents filename with
    | none => exact fun _ => ⟨rfl, rfl⟩
    | some contents =>
      dsimp only
      split
      · exact fun _ => ⟨rfl, rfl⟩
      · intro h
        cases h
  · unfold FullyConnectedLayer.loadWeights
    cases fs.contents filename with
    | none => exact fun _ => ⟨rfl, rfl⟩
    | some contents =>
      intro h
      cases h
  · intro h
    unfold ConvolutionalLayer.loadWeights ConvolutionalLayerV2.loadWeights
      FullyConnectedLayer.loadWeights
    rw [h]
    exact ⟨rfl, rfl, rfl⟩

/-- C14. The size check is missing from two of the three layer kinds: on a weight file
that exists but holds 56 values where the layer expects `3 * 2 * 3 * 3 + 3 = 57`, the tiled
layer's `loadWeights` returns `false`, but `ConvolutionalLayer::loadWeights` returns `true`,
and so does `FullyConnectedLayer::loadWeights` (which expects `2 * 40 + 2 = 82` values); both
return `true` for every file that can be opened, whatever its size. -/
theorem loadWeights_size_mismatch_undetected :
    Example.shortFiles.contents "conv_combined.bin" =
      some ((List.range 56).map (fun i => ((i : Nat) : Int) - 20)) ∧
    (Example.convV2.loadWeights Example.shortFiles "conv_combined.bin").1 = false ∧
    (Example.conv.loadWeights Example.shortFiles "conv_combined.bin").1 = true ∧
    (Example.fc.loadWeights Example.shortFiles "fc7_combined.bin").1 = true ∧
    (∀ (L : ConvolutionalLayer Int) (F : FullyConnectedLayer Int) (fs : FileSystem Int)
        (filename : String) (contents : List Int), fs.contents filename = some contents →
      (L.loadWeights fs filename).1 = true ∧ (F.loadWeights fs filename).1 = true) := by
  refine ⟨rfl, by decide, rfl, rfl, ?_⟩
  intro L F fs filename contents h
  unfold ConvolutionalLayer.loadWeights FullyConnectedLayer.loadWeights
  rw [h]
  exact ⟨rfl, rfl⟩

end AlexNet

namespace AlexNet

open Tensor3D

/-- A read of `n` values from a good stream that holds at least `n` values fills a buffer
of `n` values with the next `n` values of the file. -/
theorem read_exact {α : Type} (f buffer : List α) (n : Nat) (hn : n ≤ f.length)
    (hb : buffer.length = n) :
    IFStream.read { rest := f, good := true } buffer (n * sizeofFloat) =
      (f.take n, { rest := f.drop n, good := true }) := by
  unfold IFStream.read
  have e : n * sizeofFloat / sizeofFloat = n := Nat.mul_div_cancel n (by decide)
  simp only [e, if_true, hn]
  rw [List.drop_eq_nil_of_le (by omega), List.append_nil]

section LoadLayer

variable {α : Type} [Zero α]

theorem getD_take_zero (l : List α) (n i : Nat) (hi : i < n) :
    (l.take n).getD i 0 = l.getD i 0 := by
  simp only [List.getD_eq_getElem?_getD, List.getElem?_take, hi, if_true]

theorem getD_take_drop_zero (l : List α) (m n i : Nat) (hi : i < n) :
    ((l.drop m).take n).getD i 0 = l.getD (m + i) 0 := by
  simp only [List.getD_eq_getElem?_getD, List.getElem?_take, hi, if_true, List.getElem?_drop]

/-- The copy loops of `loadWeights` store `weightsData[to * N * K * K + ti * K * K + k]` at
`weights.at(to, ti, k)`. -/
theorem loadWeights_loop (M N K : Nat) (weightsData : List α) {w : Tensor3D α}
    (hw : w.Shaped (M : Int) (N : Int) ((K * K : Nat) : Int)) :
    ((List.range M).foldl (fun weights (to_ : Nat) =>
      (List.range N).foldl (fun weights (ti : Nat) =>
        (List.range (K * K)).foldl (fun weights (k : Nat) =>
          weights.setAt (to_ : Int) (ti : Int) (k : Int)
            (weightsData.getD (to_ * N * K * K + ti * K * K + k) 0))
          weights) weights) w).Shaped (M : Int) (N : Int) ((K * K : Nat) : Int) ∧
    ∀ to_ ti k : Nat, to_ < M → ti < N → k < K * K →
      ((List.range M).foldl (fun weights (to_ : Nat) =>
        (List.range N).foldl (fun weights (ti : Nat) =>
          (List.range (K * K)).foldl (fun weights (k : Nat) =>
            weights.setAt (to_ : Int) (ti : Int) (k : Int)
              (weightsData.getD (to_ * N * K * K + ti * K * K + k) 0))
            weights) weights) w).at_ (to_ : Int) (ti : Int) (k : Int) =
        weightsData.getD (to_ * N * K * K + ti * K * K + k) 0 := by
  have h := foldl_cells (fun c _ => weightsData.getD
    (c.1.toNat * N * K * K + c.2.1.toNat * K * K + c.2.2.toNat) 0) M (N : Int)
    ((K * K : Nat) : Int) hw
  refine ⟨h.1, fun to_ ti k h1 h2 h3 => ?_⟩
  exact h.2 ((to_ : Int), (ti : Int), (k : Int))
    ⟨by simp, by simpa using h1, by simp, by simpa using h2, by simp,
      by simp only; exact_mod_cast h3⟩

theorem flat_weight_lt {M N K to_ ti k : Nat} (h1 : to_ < M) (h2 : ti < N) (h3 : k < K * K) :
    to_ * N * K * K + ti * K * K + k < M * N * K * K := by
  have := @flat3_lt M N (K * K) to_ ti k h1 h2 h3
  have e1 : to_ * N * (K * K) + ti * (K * K) + k = to_ * N * K * K + ti * K * K + k := by ring
  have e2 : M * N * (K * K) = M * N * K * K := by ring
  omega

/-- Effect of `ConvolutionalLayer::loadWeights` on a file of exactly the expected size. -/
theorem conv_loadWeights_spec (L : ConvolutionalLayer α) (fs : FileSystem α)
    (filename : String) (f : List α)
    (hw : L.weights.Shaped (L.outputChannels : Int) (L.inputChannels : Int)
      ((L.kernelSize * L.kernelSize : Nat) : Int))
    (hb : L.bias.length = L.outputChannels)
    (hf : fs.contents filename = some f)
    (hlen : f.length = L.outputChannels * L.inputChannels * L.kernelSize * L.kernelSize +
      L.outputChannels) :
    (L.loadWeights fs filename).1 = true ∧
    (∀ to_ ti k : Nat, to_ < L.outputChannels → ti < L.inputChannels →
      k < L.kernelSize * L.kernelSize →
      (L.loadWeights fs filename).2.weights.at_ (to_ : Int) (ti : Int) (k : Int) =
        f.getD (to_ * L.inputChannels * L.kernelSize * L.kernelSize +
          ti * L.kernelSize * L.kernelSize + k) 0) ∧
    (∀ to_ : Nat, to_ < L.outputChannels →
      (L.loadWeights fs filename).2.bias.getD to_ 0 =
        f.getD (L.outputChannels * L.inputChannels * L.kernelSize * L.kernelSize + to_) 0) := by
  have hr1 := read_exact f (List.replicate
    (L.outputChannels * L.inputChannels * L.kernelSize * L.kernelSize) (0 : α))
    (L.outputChannels * L.inputChannels * L.kernelSize * L.kernelSize) (by omega)
    (List.length_replicate _ _)
  have hr2 := read_exact (f.drop (L.outputChannels * L.inputChannels * L.kernelSize *
    L.kernelSize)) L.bias L.outputChannels (by rw [List.length_drop]; omega) hb
  have hloop := loadWeights_loop L.outputChannels L.inputChannels L.kernelSize
    (f.take (L.outputChannels * L.inputChannels * L.kernelSize * L.kernelSize)) hw
  unfold ConvolutionalLayer.loadWeights
  rw [hf]
  dsimp only
  rw [hr1]
  dsimp only
  rw [hr2]
  refine ⟨rfl, fun to_ ti k h1 h2 h3 => ?_, fun to_ h1 => ?_⟩
  · rw [hloop.2 to_ ti k h1 h2 h3]
    exact getD_take_zero _ _ _ (flat_weight_lt h1 h2 h3)
  · exact getD_take_drop_zero _ _ _ _ h1

/-- Effect of `ConvolutionalLayerV2::loadWeights` on a file of exactly the expected size. -/
theorem convV2_loadWeights_spec (L : ConvolutionalLayerV2 α) (fs : FileSystem α)
    (filename : String) (f : List α)
    (hw : L.weights.Shaped (L.outputChannels : Int) (L.inputChannels : Int)
      ((L.kernelSize * L.kernelSize : Nat) : Int))
    (hb : L.bias.length = L.outputChannels)
    (hf : fs.contents filename = some f)
    (hlen : f.length = L.outputChannels * L.inputChannels * L.kernelSize * L.kernelSize +
      L.outputChannels) :
    (L.loadWeights fs filename).1 = true ∧
    (∀ to_ ti k : Nat, to_ < L.outputChannels → ti < L.inputChannels →
      k < L.kernelSize * L.kernelSize →
      (L.loadWeights fs filename).2.weights.at_ (to_ : Int) (ti : Int) (k : Int) =
        f.getD (to_ * L.inputChannels * L.kernelSize * L.kernelSize +
          ti * L.kernelSize * L.kernelSize + k) 0) ∧
    (∀ to_ : Nat, to_ < L.outputChannels →
      (L.loadWeights fs filename).2.bias.getD to_ 0 =
        f.getD (L.outputChannels * L.inputChannels * L.kernelSize * L.kernelSize + to_) 0) := by
  have hr1 := read_exact f (List.replicate
    (L.outputChannels * L.inputChannels * L.kernelSize * L.kernelSize) (0 : α))
    (L.outputChannels * L.inputChannels * L.kernelSize * L.kernelSize) (by omega)
    (List.length_replicate _ _)
  have hr2 := read_exact (f.drop (L.outputChannels * L.inputChannels * L.kernelSize *
    L.kernelSize)) L.bias L.outputChannels (by rw [List.length_drop]; omega) hb
  have hloop := loadWeights_loop L.outputChannels L.inputChannels L.kernelSize
    (f.take (L.outputChannels * L.inputChannels * L.kernelSize * L.kernelSize)) hw
  have hsize : ¬ f.length * sizeofFloat ≠
      L.outputChannels * L.inputChannels * L.kernelSize * L.kernelSize * sizeofFloat +
        L.outputChannels * sizeofFloat := by
    rw [hlen, Nat.add_mul]
    exact fun h => h rfl
  unfold ConvolutionalLayerV2.loadWeights
  rw [hf]
  dsimp only
  rw [if_neg hsize, hr1]
  dsimp only
  rw [hr2]
  refine ⟨rfl, fun to_ ti k h1 h2 h3 => ?_, fun to_ h1 => ?_⟩
  · rw [hloop.2 to_ ti k h1 h2 h3]
    exact getD_take_zero _ _ _ (flat_weight_lt h1 h2 h3)
  · exact getD_take_drop_zero _ _ _ _ h1

end LoadLayer

end AlexNet

namespace AlexNet

open Tensor3D

theorem getD_set_default {β : Type} (l : List β) (i k : Nat) (x d : β) (hi : i < l.length) :
    (l.set i x).getD k d = if k = i then x else l.getD k d := by
  by_cases e : k = i
  · subst e
    simp [List.getD_eq_getElem?_getD, List.getElem?_set, hi]
  · have e' : i ≠ k := fun h => e h.symm
    simp [List.getD_eq_getElem?_getD, List.getElem?_set, e, e']

section LoadFc

variable {α : Type} [Zero α]

/-- The copy loops of `FullyConnectedLayer::loadWeights` store `weightsData[i * n + j]` at
`weights[i][j]`. -/
theorem fc_loadWeights_loop (m n : Nat) (weightsData : List α) (w : List (List α))
    (hlen : w.length = m) (hrows : ∀ i, i < m → (w.getD i []).length = n) :
    ∀ i j, i < m → j < n →
      (((List.range m).foldl (fun weights (i : Nat) =>
        (List.range n).foldl (fun weights (j : Nat) =>
          weights.set i ((weights.getD i []).set j (weightsData.getD (i * n + j) 0)))
          weights) w).getD i []).getD j 0 = weightsData.getD (i * n + j) 0 := by
  have e := foldl_product (fun (weights : List (List α)) (i j : Nat) =>
    weights.set i ((weights.getD i []).set j (weightsData.getD (i * n + j) 0)))
    (List.range m) (List.range n) w
  rw [← e]
  have key := foldl_footprint
    (fun s : List (List α) => s.length = m ∧ ∀ i, i < m → (s.getD i []).length = n)
    (fun s (c : Nat × Nat) => (s.getD c.1 []).getD c.2 0)
    (fun c : Nat × Nat => c.1 < m ∧ c.2 < n)
    (fun weights (p : Nat × Nat) =>
      weights.set p.1 ((weights.getD p.1 []).set p.2 (weightsData.getD (p.1 * n + p.2) 0)))
    (fun p c => c = p) (fun p _ _ => weightsData.getD (p.1 * n + p.2) 0)
    (List.product (List.range m) (List.range n))
    (List.Nodup.product (List.nodup_range _) (List.nodup_range _))
    (fun x y c _ _ hx hy => hx.symm.trans hy)
    (by
      intro s x hx hs
      have hxm := List.pair_mem_product.mp (show (x.1, x.2) ∈ _ from hx)
      have h1 : x.1 < m := List.mem_range.mp hxm.1
      have h2 : x.2 < n := List.mem_range.mp hxm.2
      have h1' : x.1 < s.length := by rw [hs.1]; exact h1
      refine ⟨⟨by rw [List.length_set]; exact hs.1, fun i hi => ?_⟩, fun c hc => ⟨?_, ?_⟩⟩
      · rw [getD_set_default _ _ _ _ _ h1']
        split
        · rw [List.length_set]
          exact hs.2 _ h1
        · exact hs.2 i hi
      · intro ec
        subst ec
        dsimp only
        rw [getD_set_default _ _ _ _ _ h1', if_pos rfl,
          getD_set_default _ _ _ _ _ (by rw [hs.2 _ h1]; exact h2), if_pos rfl]
      · intro ec
        dsimp only
        rw [getD_set_default _ _ _ _ _ h1']
        split
        · rename_i e1
          have e2 : c.2 ≠ x.2 := fun e2 => ec (Prod.ext e1 e2)
          rw [getD_set_default _ _ _ _ _ (by rw [hs.2 _ h1]; exact h2), if_neg e2, e1]
        · rfl)
    w ⟨hlen, hrows⟩
  intro i j hi hj
  exact (key.2 (i, j) ⟨hi, hj⟩).1 (i, j)
    (List.pair_mem_product.mpr ⟨List.mem_range.mpr hi, List.mem_range.mpr hj⟩) rfl

/-- Effect of `FullyConnectedLayer::loadWeights` on a file of exactly the expected size. -/
theorem fc_loadWeights_spec (F : FullyConnectedLayer α) (fs : FileSystem α)
    (filename : String) (f : List α)
    (hw : F.weights.length = F.outputSize)
    (hrows : ∀ i, i < F.outputSize → (F.weights.getD i []).length = F.inputSize)
    (hb : F.bias.length = F.outputSize)
    (hf : fs.contents filename = some f)
    (hlen : f.length = F.outputSize * F.inputSize + F.outputSize) :
    (F.loadWeights fs filename).1 = true ∧
    (∀ i j : Nat, i < F.outputSize → j < F.inputSize →
      ((F.loadWeights fs filename).2.weights.getD i []).getD j 0 =
        f.getD (i * F.inputSize + j) 0) ∧
    (∀ i : Nat, i < F.outputSize →
      (F.loadWeights fs filename).2.bias.getD i 0 =
        f.getD (F.outputSize * F.inputSize + i) 0) := by
  have hr1 := read_exact f (List.replicate (F.outputSize * F.inputSize) (0 : α))
    (F.outputSize * F.inputSize) (by omega) (List.length_replicate _ _)
  have hr2 := read_exact (f.drop (F.outputSize * F.inputSize)) F.bias F.outputSize
    (by rw [List.length_drop]; omega) hb
  have hloop := fc_loadWeights_loop F.outputSize F.inputSize
    (f.take (F.outputSize * F.inputSize)) F.weights hw hrows
  unfold FullyConnectedLayer.loadWeights
  rw [hf]
  dsimp only
  rw [hr1]
  dsimp only
  rw [hr2]
  refine ⟨rfl, fun i j h1 h2 => ?_, fun i h1 => ?_⟩
  · rw [hloop i j h1 h2]
    exact getD_take_zero _ _ _ (flat2_lt h1 h2)
  · exact getD_take_drop_zero _ _ _ _ h1

end LoadFc

/-- C15. Round trip at the element level. For a convolution layer of either variant (weight
tensor of shape `M x N x K*K`, bias of length `M`) and a weight file `f` of exactly
`M * N * K * K + M` values, `loadWeights` returns `true` and afterwards
`weights(to, ti, k) = f[to * N * K * K + ti * K * K + k]` and `bias[to] = f[M * N * K * K + to]`;
for a fully-connected layer (`outputSize` rows of `inputSize` weights) and a file of exactly
`outputSize * inputSize + outputSize` values, `weights[i][j] = f[i * inputSize + j]` and
`bias[i] = f[outputSize * inputSize + i]`. A file that lists a layer's parameters in this
layout therefore reloads to the same parameter values. -/
theorem loadWeights_round_trip {α : Type} [Zero α] :
    (∀ (L : ConvolutionalLayer α) (fs : FileSystem α) (filename : String) (f : List α),
      L.weights.Shaped (L.outputChannels : Int) (L.inputChannels : Int)
        ((L.kernelSize * L.kernelSize : Nat) : Int) →
      L.bias.length = L.outputChannels →
      fs.contents filename = some f →
      f.length = L.outputChannels * L.inputChannels * L.kernelSize * L.kernelSize +
        L.outputChannels →
      (L.loadWeights fs filename).1 = true ∧
      (∀ to_ ti k : Nat, to_ < L.outputChannels → ti < L.inputChannels →
        k < L.kernelSize * L.kernelSize →
        (L.loadWeights fs filename).2.weights.at_ (to_ : Int) (ti : Int) (k : Int) =
          f.getD (to_ * L.inputChannels * L.kernelSize * L.kernelSize +
            ti * L.kernelSize * L.kernelSize + k) 0) ∧
      (∀ to_ : Nat, to_ < L.outputChannels →
        (L.loadWeights fs filename).2.bias.getD to_ 0 =
          f.getD (L.outputChannels * L.inputChannels * L.kernelSize * L.kernelSize + to_) 0)) ∧
    (∀ (L : ConvolutionalLayerV2 α) (fs : FileSystem α) (filename : String) (f : List α),
      L.weights.Shaped (L.outputChannels : Int) (L.inputChannels : Int)
        ((L.kernelSize * L.kernelSize : Nat) : Int) →
      L.bias.length = L.outputChannels →
      fs.contents filename = some f →
      f.length = L.outputChannels * L.inputChannels * L.kernelSize * L.kernelSize +
        L.outputChannels →
      (L.loadWeights fs filename).1 = true ∧
      (∀ to_ ti k : Nat, to_ < L.outputChannels → ti < L.inputChannels →
        k < L.kernelSize * L.kernelSize →
        (L.loadWeights fs filename).2.weights.at_ (to_ : Int) (ti : Int) (k : Int) =
          f.getD (to_ * L.inputChannels * L.kernelSize * L.kernelSize +
            ti * L.kernelSize * L.kernelSize + k) 0) ∧
      (∀ to_ : Nat, to_ < L.outputChannels →
        (L.loadWeights fs filename).2.bias.getD to_ 0 =
          f.getD (L.outputChannels * L.inputChannels * L.kernelSize * L.kernelSize + to_) 0)) ∧
    (∀ (F : FullyConnectedLayer α) (fs : FileSystem α) (filename : String) (f : List α),
      F.weights.length = F.outputSize →
      (∀ i, i < F.outputSize → (F.weights.getD i []).length = F.inputSize) →
      F.bias.length = F.outputSize →
      fs.contents filename = some f →
      f.length = F.outputSize * F.inputSize + F.outputSize →
      (F.loadWeights fs filename).1 = true ∧
      (∀ i j : Nat, i < F.outputSize → j < F.inputSize →
        ((F.loadWeights fs filename).2.weights.getD i []).getD j 0 =
          f.getD (i * F.inputSize + j) 0) ∧
      (∀ i : Nat, i < F.outputSize →
        (F.loadWeights fs filename).2.bias.getD i 0 =
          f.getD (F.outputSize * F.inputSize + i) 0)) :=
  ⟨fun L fs filename f hw hb hf hlen => conv_loadWeights_spec L fs filename f hw hb hf hlen,
    fun L fs filename f hw hb hf hlen => convV2_loadWeights_spec L fs filename f hw hb hf hlen,
    fun F fs filename f hw hrows hb hf hlen =>
      fc_loadWeights_spec F fs filename f hw hrows hb hf hlen⟩

/-- Instance of `loadWeights_round_trip`: the layers `Example.conv` and `Example.convV2`
loading the 57 values of `weights/conv_combined.bin`. -/
theorem loadWeights_round_trip_witness :
    ((Example.conv.loadWeights Example.weightFiles "weights/conv_combined.bin").1 = true ∧
      ∀ to_ : Nat, to_ < 3 →
        (Example.conv.loadWeights Example.weightFiles "weights/conv_combined.bin").2.bias.getD
          to_ 0 = ((List.range 57).map (fun i => ((i : Nat) : Int) - 20)).getD (54 + to_) 0) ∧
    (Example.convV2.loadWeights Example.weightFiles "weights/conv_combined.bin").1 = true := by
  have h1 := (loadWeights_round_trip (α := Int)).1 Example.conv Example.weightFiles
    "weights/conv_combined.bin" ((List.range 57).map (fun i => ((i : Nat) : Int) - 20))
    ⟨rfl, rfl, rfl, by decide⟩ (by decide) (by decide) (by decide)
  have h2 := (loadWeights_round_trip (α := Int)).2.1 Example.convV2 Example.weightFiles
    "weights/conv_combined.bin" ((List.range 57).map (fun i => ((i : Nat) : Int) - 20))
    ⟨rfl, rfl, rfl, by decide⟩ (by decide) (by decide) (by decide)
  exact ⟨⟨h1.1, h1.2.2⟩, h2.1⟩

end AlexNet

namespace AlexNet

/-! ## Loop lemmas for the accelerator -/

section Batched

variable {σ : Type}

theorem foldl_batchedFrom (f : σ → Nat → σ) (n T : Nat) (hT : 1 ≤ T) :
    ∀ fuel t (s : σ), n ≤ t + fuel →
      (tileStartsFrom n T fuel t).foldl (fun s base =>
        (List.range (if base + T ≤ n then T else n - base)).foldl
          (fun s off => f s (base + off)) s) s =
      (List.range' t (n - t)).foldl f s := by
  intro fuel
  induction fuel with
  | zero =>
    intro t s ht
    have e : n - t = 0 := by omega
    rw [e]
    rfl
  | succ fuel ih =>
    intro t s ht
    unfold tileStartsFrom
    by_cases htn : t < n
    · rw [if_pos htn, List.foldl_cons, ih (t + T) _ (by omega), ← foldl_range']
      by_cases hfull : t + T ≤ n
      · rw [if_pos hfull, ← List.foldl_append]
        congr 1
        have := List.range'_append_1 t T (n - (t + T))
        rw [this]
        congr 1
        omega
      · rw [if_neg hfull]
        have e : n - (t + T) = 0 := by omega
        rw [e]
        rfl
    · rw [if_neg htn]
      have e : n - t = 0 := by omega
      rw [e]
      rfl

/-- A loop that advances in batches of `T` and runs the body for the offsets of each batch
(the last batch cut at `n`) is the plain loop `for (x = 0; x < n; x++)`. -/
theorem foldl_batched (f : σ → Nat → σ) (n T : Nat) (hT : 1 ≤ T) (s : σ) :
    (tileStarts n T).foldl (fun s base =>
      (List.range (if base + T ≤ n then T else n - base)).foldl
        (fun s off => f s (base + off)) s) s = (List.range n).foldl f s := by
  unfold tileStarts
  rw [foldl_batchedFrom f n T hT n 0 s (by omega), List.range_eq_range']
  rfl

end Batched

/-- The tiles `t * T, ..., t * T + bound - 1` of the steps `t < ceil(n / T)` cover
`0, ..., n - 1` once. -/
theorem sum_steps {α : Type} [AddCommMonoid α] (n T : Nat) (hT : 1 ≤ T) (f : Nat → α) :
    ∑ t ∈ Finset.range ((n + T - 1) / T),
      ∑ y ∈ Finset.range (if n - t * T < T then n - t * T else T), f (t * T + y) =
    ∑ x ∈ Finset.range n, f x := by
  have key : ∀ k, ∑ t ∈ Finset.range k,
      ∑ y ∈ Finset.range (if n - t * T < T then n - t * T else T), f (t * T + y) =
      ∑ x ∈ Finset.range (min n (k * T)), f x := by
    intro k
    induction k with
    | zero => simp
    | succ k ih =>
      rw [Finset.sum_range_succ, ih]
      have hm : min n ((k + 1) * T) =
          min n (k * T) + (if n - k * T < T then n - k * T else T) := by
        rw [Nat.add_mul, Nat.one_mul]
        split <;> omega
      rw [hm, Finset.sum_range_add]
      congr 1
      by_cases hk : k * T ≤ n
      · rw [Nat.min_eq_right hk]
      · have e : (if n - k * T < T then n - k * T else T) = 0 := by
          split <;> omega
        rw [e]
        simp
  rw [key]
  congr 2
  apply Nat.min_eq_left
  have h1 := Nat.div_add_mod (n + T - 1) T
  have h2 := Nat.mod_lt (n + T - 1) (show T > 0 by omega)
  have h3 : (n + T - 1) / T * T = T * ((n + T - 1) / T) := Nat.mul_comm _ _
  omega

/-- Every position below `n` lies in the tile of step `x / T`, which is one of the
`ceil(n / T)` steps. -/
theorem step_of_lt (n T x : Nat) (hT : 1 ≤ T) (hx : x < n) :
    x / T < (n + T - 1) / T ∧ x % T < (if n - x / T * T < T then n - x / T * T else T) ∧
    x / T * T + x % T = x := by
  have h1 := Nat.div_add_mod x T
  have h2 := Nat.mod_lt x (show T > 0 by omega)
  have h3 : x / T * T = T * (x / T) := Nat.mul_comm _ _
  refine ⟨?_, ?_, by omega⟩
  · rw [Nat.div_lt_iff_lt_mul (by omega)]
    have h4 := Nat.div_add_mod (n + T - 1) T
    have h5 := Nat.mod_lt (n + T - 1) (show T > 0 by omega)
    have h6 : (n + T - 1) / T * T = T * ((n + T - 1) / T) := Nat.mul_comm _ _
    omega
  · split <;> omega

section Boxes

variable {α : Type} [Zero α]

theorem set_getD_self (l : List α) (i : Nat) : l.set i (l.getD i 0) = l := by
  apply List.ext_getElem?
  intro k
  rw [List.getElem?_set]
  split
  · rename_i e
    subst e
    split
    · rename_i h
      rw [List.getD_eq_getElem?_getD, List.getElem?_eq_getElem h]
      rfl
    · rename_i h
      exact (List.getElem?_eq_none (by omega)).symm
  · rfl

/-- A loop nest over a box of a row-major three-dimensional array that updates each element
of the box once: the elements of the box are transformed, the others are left alone. -/
theorem foldl_at3_update (D1 D2 D3 a b c oi oj ok : Nat) (ha : a + oi ≤ D1) (hb : b + oj ≤ D2)
    (hc : c + ok ≤ D3) (G : Nat → Nat → Nat → α → α) (buf : List α)
    (hlen : D1 * D2 * D3 ≤ buf.length) :
    ((List.range a).foldl (fun s i => (List.range b).foldl (fun s j =>
      (List.range c).foldl (fun s k =>
        s.set (Accelerator.at3 D2 D3 (i + oi) (j + oj) (k + ok))
          (G i j k (s.getD (Accelerator.at3 D2 D3 (i + oi) (j + oj) (k + ok)) 0))) s) s)
      buf).length = buf.length ∧
    (∀ i j k, i < a → j < b → k < c →
      ((List.range a).foldl (fun s i => (List.range b).foldl (fun s j =>
        (List.range c).foldl (fun s k =>
          s.set (Accelerator.at3 D2 D3 (i + oi) (j + oj) (k + ok))
            (G i j k (s.getD (Accelerator.at3 D2 D3 (i + oi) (j + oj) (k + ok)) 0))) s) s)
        buf).getD (Accelerator.at3 D2 D3 (i + oi) (j + oj) (k + ok)) 0 =
        G i j k (buf.getD (Accelerator.at3 D2 D3 (i + oi) (j + oj) (k + ok)) 0)) ∧
    (∀ x, (∀ i j k, i < a → j < b → k < c →
        Accelerator.at3 D2 D3 (i + oi) (j + oj) (k + ok) ≠ x) →
      ((List.range a).foldl (fun s i => (List.range b).foldl (fun s j =>
        (List.range c).foldl (fun s k =>
          s.set (Accelerator.at3 D2 D3 (i + oi) (j + oj) (k + ok))
            (G i j k (s.getD (Accelerator.at3 D2 D3 (i + oi) (j + oj) (k + ok)) 0))) s) s)
        buf).getD x 0 = buf.getD x 0) := by
  have e := foldl_product3 (fun (s : List α) (i j k : Nat) =>
    s.set (Accelerator.at3 D2 D3 (i + oi) (j + oj) (k + ok))
      (G i j k (s.getD (Accelerator.at3 D2 D3 (i + oi) (j + oj) (k + ok)) 0)))
    (List.range a) (List.range b) (List.range c) buf
  rw [← e]
  have key := foldl_footprint (fun s : List α => s.length = buf.length)
    (fun s x => s.getD x 0) (fun _ => True)
    (fun (s : List α) (p : Nat × Nat × Nat) =>
      s.set (Accelerator.at3 D2 D3 (p.1 + oi) (p.2.1 + oj) (p.2.2 + ok))
        (G p.1 p.2.1 p.2.2
          (s.getD (Accelerator.at3 D2 D3 (p.1 + oi) (p.2.1 + oj) (p.2.2 + ok)) 0)))
    (fun p x => x = Accelerator.at3 D2 D3 (p.1 + oi) (p.2.1 + oj) (p.2.2 + ok))
    (fun p _ v => G p.1 p.2.1 p.2.2 v)
    (List.product (List.range a) (List.product (List.range b) (List.range c)))
    (nodup_product3 (List.nodup_range _) (List.nodup_range _) (List.nodup_range _))
    (by
      intro p q x hp hq h1 h2
      have hp' := mem_product3.mp hp
      have hq' := mem_product3.mp hq
      have hpb := List.mem_range.mp hp'.2.1
      have hpc := List.mem_range.mp hp'.2.2
      have hqb := List.mem_range.mp hq'.2.1
      have hqc := List.mem_range.mp hq'.2.2
      have := flat3_inj (B := D2) (C := D3) (by omega) (by omega) (by omega) (by omega)
        (h1.symm.trans h2)
      exact Prod.ext (by omega) (Prod.ext (by omega) (by omega)))
    (by
      intro s p hp hs
      have hp' := mem_product3.mp hp
      have hpa := List.mem_range.mp hp'.1
      have hpb := List.mem_range.mp hp'.2.1
      have hpc := List.mem_range.mp hp'.2.2
      have hlt : Accelerator.at3 D2 D3 (p.1 + oi) (p.2.1 + oj) (p.2.2 + ok) < s.length := by
        have := @flat3_lt D1 D2 D3 (p.1 + oi) (p.2.1 + oj) (p.2.2 + ok) (by omega) (by omega)
          (by omega)
        unfold Accelerator.at3
        omega
      refine ⟨by dsimp only; rw [List.length_set]; exact hs, fun x _ => ⟨fun ex => ?_, fun ex => ?_⟩⟩
      · dsimp only
        rw [getD_set _ _ _ _ hlt, if_pos ex, ex]
      · dsimp only
        rw [getD_set _ _ _ _ hlt, if_neg ex])
    buf rfl
  refine ⟨key.1, fun i j k hi hj hk => ?_, fun x hx => ?_⟩
  · exact (key.2 _ trivial).1 (i, j, k) (mem_product3.mpr
      ⟨List.mem_range.mpr hi, List.mem_range.mpr hj, List.mem_range.mpr hk⟩) rfl
  · refine (key.2 x trivial).2 (fun p hp hq => ?_)
    have hp' := mem_product3.mp hp
    exact hx p.1 p.2.1 p.2.2 (List.mem_range.mp hp'.1) (List.mem_range.mp hp'.2.1)
      (List.mem_range.mp hp'.2.2) hq.symm

end Boxes

end AlexNet

namespace AlexNet
namespace Accelerator

variable {α : Type} [LinearOrderedCommRing α]

theorem limit_le (offset T n : Nat) : (if offset + T > n then n - offset else T) ≤ T := by
  split <;> omega

theorem limit_add_le (offset T n : Nat) (h : offset ≤ n) :
    (if offset + T > n then n - offset else T) + offset ≤ n := by
  split <;> omega

/-- After `load_bias` the first `m_limit` elements of the bias buffer are the biases of the
output channels from `m_offset` on. -/
theorem load_bias_spec (bias_ddr bias_buffer : List α) (m_offset M : Nat)
    (hlen : bias_buffer.length = TM) :
    (load_bias bias_ddr bias_buffer m_offset M).length = TM ∧
    ∀ m, m < (if m_offset + TM > M then M - m_offset else TM) →
      (load_bias bias_ddr bias_buffer m_offset M).getD m 0 = bias_ddr.getD (m + m_offset) 0 := by
  have h1 := foldl_set_spec (fun m : Nat => m) (fun _ => (0 : α)) (List.range TM)
    (List.nodup_range _) (fun x _ y _ e => e) bias_buffer
    (fun x hx => by rw [hlen]; exact List.mem_range.mp hx)
  have hle := limit_le m_offset TM M
  have h1len : ((List.range TM).foldl (fun b (m : Nat) => b.set m (0 : α))
      bias_buffer).length = TM := h1.1.trans hlen
  have h2 := foldl_set_spec (fun m : Nat => m) (fun m => bias_ddr.getD (m + m_offset) (0 : α))
    (List.range (if m_offset + TM > M then M - m_offset else TM))
    (List.nodup_range _) (fun x _ y _ e => e)
    ((List.range TM).foldl (fun b (m : Nat) => b.set m (0 : α)) bias_buffer)
    (fun x hx => by
      have := List.mem_range.mp hx
      show x < _
      rw [h1len]
      omega)
  unfold load_bias
  exact ⟨h2.1.trans h1len, fun m hm => h2.2.1 m (List.mem_range.mpr hm)⟩

/-- After `init_output_buffer` every element of the output buffer holds the bias of its
channel, or zero from `tm_bound` on. -/
theorem init_output_buffer_spec (output_buffer bias_buffer : List α) (tm_bound : Nat)
    (hlen : output_buffer.length = TM * TR * TC) :
    (init_output_buffer output_buffer bias_buffer tm_bound).length = TM * TR * TC ∧
    ∀ too trr tcc, too < TM → trr < TR → tcc < TC →
      (init_output_buffer output_buffer bias_buffer tm_bound).getD (at3 TR TC too trr tcc) 0 =
        if too < tm_bound then bias_buffer.getD too 0 else 0 := by
  have h := foldl_at3_update TM TR TC TM TR TC 0 0 0 (le_refl _) (le_refl _) (le_refl _)
    (fun too _ _ _ => if too < tm_bound then bias_buffer.getD too 0 else 0) output_buffer
    (by rw [hlen])
  exact ⟨h.1.trans hlen, h.2.1⟩

/-- The guarded assignment of `apply_relu` stores `max(0, x)`. -/
theorem relu_step_eq (s : List α) (idx : Nat) :
    (if s.getD idx 0 < 0 then s.set idx 0 else s) = s.set idx (max 0 (s.getD idx 0)) := by
  split
  · rename_i h
    rw [max_eq_left (le_of_lt h)]
  · rename_i h
    rw [max_eq_right (not_lt.mp h), set_getD_self]

/-- After `apply_relu` the elements of the tile are rectified; the others are unchanged. -/
theorem apply_relu_spec (buffer : List α) (tm tr tc : Nat) (htm : tm ≤ TM) (htr : tr ≤ TR)
    (htc : tc ≤ TC) (hlen : buffer.length = TM * TR * TC) :
    (apply_relu buffer tm tr tc).length = TM * TR * TC ∧
    ∀ too trr tcc, too < tm → trr < tr → tcc < tc →
      (apply_relu buffer tm tr tc).getD (at3 TR TC too trr tcc) 0 =
        max 0 (buffer.getD (at3 TR TC too trr tcc) 0) := by
  have h := foldl_at3_update TM TR TC tm tr tc 0 0 0 htm htr htc
    (fun _ _ _ v => max 0 v) buffer (by rw [hlen])
  unfold apply_relu
  simp only [relu_step_eq]
  exact ⟨h.1.trans hlen, h.2.1⟩

end Accelerator
end AlexNet

namespace AlexNet
namespace Accelerator

variable {α : Type} [LinearOrderedCommRing α]

/-- After `load_weight_tile` the weight buffer holds, for the output channels and input
channels of the tile and every kernel position, the weight from the weight memory. -/
theorem load_weight_tile_spec (weights_ddr weight_buffer : List α) (m_offset n_offset M N K : Nat)
    (hK : K * K ≤ MAX_KERNEL_SIZE * MAX_KERNEL_SIZE)
    (hlen : weight_buffer.length = TM * TN * (MAX_KERNEL_SIZE * MAX_KERNEL_SIZE)) :
    (load_weight_tile weights_ddr weight_buffer m_offset n_offset M N K).length =
      TM * TN * (MAX_KERNEL_SIZE * MAX_KERNEL_SIZE) ∧
    ∀ m n k, m < (if m_offset + TM > M then M - m_offset else TM) →
      n < (if n_offset + TN > N then N - n_offset else TN) → k < K * K →
      (load_weight_tile weights_ddr weight_buffer m_offset n_offset M N K).getD
        (at3 TN (MAX_KERNEL_SIZE * MAX_KERNEL_SIZE) m n k) 0 =
        weights_ddr.getD ((m + m_offset) * N * (K * K) + (n + n_offset) * (K * K) + k) 0 := by
  have h1 := foldl_at3_update TM TN (MAX_KERNEL_SIZE * MAX_KERNEL_SIZE) TM TN
    (MAX_KERNEL_SIZE * MAX_KERNEL_SIZE) 0 0 0 (le_refl _) (le_refl _) (le_refl _)
    (fun _ _ _ _ => (0 : α)) weight_buffer (by rw [hlen])
  have h1len : ((List.range TM).foldl (fun weight_buffer (m : Nat) =>
      (List.range TN).foldl (fun weight_buffer (n : Nat) =>
        (List.range (MAX_KERNEL_SIZE * MAX_KERNEL_SIZE)).foldl (fun weight_buffer (k : Nat) =>
          weight_buffer.set (at3 TN (MAX_KERNEL_SIZE * MAX_KERNEL_SIZE) m n k) (0 : α))
          weight_buffer) weight_buffer) weight_buffer).length =
      TM * TN * (MAX_KERNEL_SIZE * MAX_KERNEL_SIZE) := h1.1.trans hlen
  have h2 := foldl_at3_update TM TN (MAX_KERNEL_SIZE * MAX_KERNEL_SIZE)
    (if m_offset + TM > M then M - m_offset else TM)
    (if n_offset + TN > N then N - n_offset else TN) (K * K) 0 0 0
    (limit_le _ _ _) (limit_le _ _ _) hK
    (fun m n k _ =>
      weights_ddr.getD ((m + m_offset) * N * (K * K) + (n + n_offset) * (K * K) + k) 0)
    _ (le_of_eq h1len.symm)
  have hb : ∀ (m n : Nat) (s : List α),
      (tileStarts (K * K) 4).foldl (fun weight_buffer (k_base : Nat) =>
        (List.range (if k_base + 4 ≤ K * K then 4 else K * K - k_base)).foldl
          (fun weight_buffer (k_offset : Nat) =>
            weight_buffer.set
              (at3 TN (MAX_KERNEL_SIZE * MAX_KERNEL_SIZE) m n (k_base + k_offset))
              (weights_ddr.getD ((m + m_offset) * N * (K * K) + (n + n_offset) * (K * K) +
                (k_base + k_offset)) 0))
          weight_buffer) s =
      (List.range (K * K)).foldl (fun weight_buffer (k : Nat) =>
        weight_buffer.set (at3 TN (MAX_KERNEL_SIZE * MAX_KERNEL_SIZE) m n k)
          (weights_ddr.getD ((m + m_offset) * N * (K * K) + (n + n_offset) * (K * K) + k) 0))
        s := fun m n s =>
    foldl_batched (fun (wb : List α) (k : Nat) =>
      wb.set (at3 TN (MAX_KERNEL_SIZE * MAX_KERNEL_SIZE) m n k)
        (weights_ddr.getD ((m + m_offset) * N * (K * K) + (n + n_offset) * (K * K) + k) 0))
      (K * K) 4 (by decide) s
  unfold load_weight_tile
  simp only [hb]
  exact ⟨h2.1.trans h1len, h2.2.1⟩

/-- The row buffer filled by `load_row`: the zero-padded input row. -/
theorem load_row_spec (input_ddr : List α) (n n_offset h h_offset w_offset H W S P : Nat) :
    ∀ w, w < INPUT_TILE_WIDTH →
      ((List.range INPUT_TILE_WIDTH).foldl (fun row_buffer (w : Nat) =>
        if 0 ≤ (h : Int) + (h_offset : Int) * S - P ∧ (h : Int) + (h_offset : Int) * S - P < H ∧
            0 ≤ (w : Int) + (w_offset : Int) * S - P ∧
            (w : Int) + (w_offset : Int) * S - P < W then
          row_buffer.set w (input_ddr.getD (((n + n_offset : Nat) : Int) * H * W +
            ((h : Int) + (h_offset : Int) * S - P) * W +
            ((w : Int) + (w_offset : Int) * S - P)).toNat 0)
        else row_buffer.set w 0) (List.replicate INPUT_TILE_WIDTH (0 : α))).getD w 0 =
      ddrPadded input_ddr H W (n + n_offset) ((h : Int) + (h_offset : Int) * S - P)
        ((w : Int) + (w_offset : Int) * S - P) := by
  have e : (fun (row_buffer : List α) (w : Nat) =>
      if 0 ≤ (h : Int) + (h_offset : Int) * S - P ∧ (h : Int) + (h_offset : Int) * S - P < H ∧
          0 ≤ (w : Int) + (w_offset : Int) * S - P ∧
          (w : Int) + (w_offset : Int) * S - P < W then
        row_buffer.set w (input_ddr.getD (((n + n_offset : Nat) : Int) * H * W +
          ((h : Int) + (h_offset : Int) * S - P) * W +
          ((w : Int) + (w_offset : Int) * S - P)).toNat 0)
      else row_buffer.set w 0) =
      (fun (row_buffer : List α) (w : Nat) => row_buffer.set w
        (ddrPadded input_ddr H W (n + n_offset) ((h : Int) + (h_offset : Int) * S - P)
          ((w : Int) + (w_offset : Int) * S - P))) := by
    funext row_buffer w
    unfold ddrPadded
    split <;> rfl
  rw [e]
  have h1 := foldl_set_spec (fun w : Nat => w)
    (fun w : Nat => ddrPadded input_ddr H W (n + n_offset)
      ((h : Int) + (h_offset : Int) * S - P) ((w : Int) + (w_offset : Int) * S - P))
    (List.range INPUT_TILE_WIDTH) (List.nodup_range _) (fun x _ y _ e => e)
    (List.replicate INPUT_TILE_WIDTH (0 : α))
    (fun x hx => by rw [List.length_replicate]; exact List.mem_range.mp hx)
  exact fun w hw => h1.2.1 w (List.mem_range.mpr hw)

/-- After `load_input_tile` the input buffer holds, for the input channels of the tile, the
zero-padded input window that starts at row `h_offset * S - P`, column `w_offset * S - P`. -/
theorem load_input_tile_spec (input_ddr input_buffer : List α)
    (n_offset h_offset w_offset N H W S P : Nat)
    (hlen : input_buffer.length = TN * INPUT_TILE_HEIGHT * INPUT_TILE_WIDTH) :
    (load_input_tile input_ddr input_buffer n_offset h_offset w_offset N H W S P).length =
      TN * INPUT_TILE_HEIGHT * INPUT_TILE_WIDTH ∧
    ∀ n h w, n < (if n_offset + TN > N then N - n_offset else TN) → h < INPUT_TILE_HEIGHT →
      w < INPUT_TILE_WIDTH →
      (load_input_tile input_ddr input_buffer n_offset h_offset w_offset N H W S P).getD
        (at3 INPUT_TILE_HEIGHT INPUT_TILE_WIDTH n h w) 0 =
        ddrPadded input_ddr H W (n + n_offset) ((h : Int) + (h_offset : Int) * S - P)
          ((w : Int) + (w_offset : Int) * S - P) := by
  have h1 := foldl_at3_update TN INPUT_TILE_HEIGHT INPUT_TILE_WIDTH TN INPUT_TILE_HEIGHT
    INPUT_TILE_WIDTH 0 0 0 (le_refl _) (le_refl _) (le_refl _)
    (fun _ _ _ _ => (0 : α)) input_buffer (by rw [hlen])
  have h1len : ((List.range TN).foldl (fun input_buffer (n : Nat) =>
      (List.range INPUT_TILE_HEIGHT).foldl (fun input_buffer (h : Nat) =>
        (List.range INPUT_TILE_WIDTH).foldl (fun input_buffer (w : Nat) =>
          input_buffer.set (at3 INPUT_TILE_HEIGHT INPUT_TILE_WIDTH n h w) (0 : α))
          input_buffer) input_buffer) input_buffer).length =
      TN * INPUT_TILE_HEIGHT * INPUT_TILE_WIDTH := h1.1.trans hlen
  have h2 := foldl_at3_update TN INPUT_TILE_HEIGHT INPUT_TILE_WIDTH
    (if n_offset + TN > N then N - n_offset else TN) INPUT_TILE_HEIGHT INPUT_TILE_WIDTH 0 0 0
    (limit_le _ _ _) (le_refl _) (le_refl _)
    (fun n h w _ => ((List.range INPUT_TILE_WIDTH).foldl (fun row_buffer (w : Nat) =>
        if 0 ≤ (h : Int) + (h_offset : Int) * S - P ∧ (h : Int) + (h_offset : Int) * S - P < H ∧
            0 ≤ (w : Int) + (w_offset : Int) * S - P ∧
            (w : Int) + (w_offset : Int) * S - P < W then
          row_buffer.set w (input_ddr.getD (((n + n_offset : Nat) : Int) * H * W +
            ((h : Int) + (h_offset : Int) * S - P) * W +
            ((w : Int) + (w_offset : Int) * S - P)).toNat 0)
        else row_buffer.set w 0) (List.replicate INPUT_TILE_WIDTH (0 : α))).getD w 0)
    _ (le_of_eq h1len.symm)
  refine ⟨h2.1.trans h1len, fun n h w hn hh hw => ?_⟩
  rw [← load_row_spec input_ddr n n_offset h h_offset w_offset H W S P w hw]
  exact h2.2.1 n h w hn hh hw

/-- After `store_output_tile` the output memory holds the tile at the cells
`(m_offset + m, h_offset + r, w_offset + c)`; every other element is unchanged. -/
theorem store_output_tile_spec (output_ddr output_buffer : List α)
    (m_offset h_offset w_offset M R C : Nat) (hm : m_offset ≤ M) (hr : h_offset ≤ R)
    (hc : w_offset ≤ C) (hlen : M * R * C ≤ output_ddr.length) :
    (store_output_tile output_ddr output_buffer m_offset h_offset w_offset M R C).length =
      output_ddr.length ∧
    (∀ m r c, m < (if m_offset + TM > M then M - m_offset else TM) →
      r < (if h_offset + TR > R then R - h_offset else TR) →
      c < (if w_offset + TC > C then C - w_offset else TC) →
      (store_output_tile output_ddr output_buffer m_offset h_offset w_offset M R C).getD
        (at3 R C (m + m_offset) (r + h_offset) (c + w_offset)) 0 =
        output_buffer.getD (at3 TR TC m r c) 0) ∧
    (∀ x, (∀ m r c, m < (if m_offset + TM > M then M - m_offset else TM) →
        r < (if h_offset + TR > R then R - h_offset else TR) →
        c < (if w_offset + TC > C then C - w_offset else TC) →
        at3 R C (m + m_offset) (r + h_offset) (c + w_offset) ≠ x) →
      (store_output_tile output_ddr output_buffer m_offset h_offset w_offset M R C).getD x 0 =
        output_ddr.getD x 0) := by
  have hrow : ∀ m r c, c < (if w_offset + TC > C then C - w_offset else TC) →
      ((List.range (if w_offset + TC > C then C - w_offset else TC)).foldl
        (fun row_buffer (c : Nat) =>
          row_buffer.set c (output_buffer.getD (at3 TR TC m r c) 0))
        (List.replicate TC (0 : α))).getD c 0 = output_buffer.getD (at3 TR TC m r c) 0 := by
    intro m r c hc'
    have h1 := foldl_set_spec (fun c : Nat => c)
      (fun c : Nat => output_buffer.getD (at3 TR TC m r c) 0)
      (List.range (if w_offset + TC > C then C - w_offset else TC)) (List.nodup_range _)
      (fun x _ y _ e => e) (List.replicate TC (0 : α))
      (fun x hx => by
        rw [List.length_replicate]
        have := List.mem_range.mp hx
        have := limit_le w_offset TC C
        show x < TC
        omega)
    exact h1.2.1 c (List.mem_range.mpr hc')
  have h2 := foldl_at3_update M R C
    (if m_offset + TM > M then M - m_offset else TM)
    (if h_offset + TR > R then R - h_offset else TR)
    (if w_offset + TC > C then C - w_offset else TC) m_offset h_offset w_offset
    (limit_add_le _ _ _ hm) (limit_add_le _ _ _ hr) (limit_add_le _ _ _ hc)
    (fun m r c _ => ((List.range (if w_offset + TC > C then C - w_offset else TC)).foldl
        (fun row_buffer (c : Nat) =>
          row_buffer.set c (output_buffer.getD (at3 TR TC m r c) 0))
        (List.replicate TC (0 : α))).getD c 0)
    output_ddr hlen
  refine ⟨h2.1, fun m r c hm' hr' hc' => ?_, h2.2.2⟩
  rw [← hrow m r c hc']
  exact h2.2.1 m r c hm' hr' hc'

end Accelerator
end AlexNet

namespace AlexNet
namespace Accelerator

variable {α : Type} [LinearOrderedCommRing α]

theorem at3_lt {D1 D2 D3 i j k : Nat} (hi : i < D1) (hj : j < D2) (hk : k < D3) :
    at3 D2 D3 i j k < D1 * D2 * D3 := flat3_lt hi hj hk

theorem at3_inj {D2 D3 i j k i' j' k' : Nat} (hj : j < D2) (hk : k < D3) (hj' : j' < D2)
    (hk' : k' < D3) (e : at3 D2 D3 i j k = at3 D2 D3 i' j' k') : i = i' ∧ j = j' ∧ k = k' :=
  flat3_inj hj hk hj' hk' e

/-- One accumulation `buffer[o] += v`. -/
theorem set_add_adds (o : Nat) (v : α) (len : Nat) (ho : o < len) :
    Adds (fun b : List α => b.length = len) (fun b k => b.getD k 0) (fun k => k < len)
      (fun b => b.set o (b.getD o 0 + v)) (fun k => if k = o then v else 0) := by
  intro b hb
  refine ⟨by dsimp only; rw [List.length_set]; exact hb, fun k _ => ?_⟩
  dsimp only
  rw [getD_set _ _ _ _ (by rw [hb]; exact ho)]
  split
  · rename_i e
    rw [e]
  · rw [add_zero]

/-- Accumulation performed by `compute_tile`: one product per kernel position, tile row,
tile column, output channel and input channel. -/
theorem compute_tile_adds (input_buffer weight_buffer : List α) (K S tm tn tr tc : Nat)
    (htm : tm ≤ TM) (htr : tr ≤ TR) (htc : tc ≤ TC) :
    Adds (fun b : List α => b.length = TM * TR * TC) (fun b k => b.getD k 0)
      (fun k => k < TM * TR * TC)
      (fun ob => compute_tile input_buffer weight_buffer ob K S tm tn tr tc)
      (fun k => ((List.range K).map (fun i => ((List.range K).map (fun j =>
        ((List.range tr).map (fun trr => ((List.range tc).map (fun tcc =>
        ((tileStarts tm 2).map (fun base =>
        ((List.range tn).map (fun tii =>
        ((List.range (if base + 2 ≤ tm then 2 else tm - base)).map (fun off =>
          if k = at3 TR TC (base + off) trr tcc then
            weight_buffer.getD
              (at3 TN (MAX_KERNEL_SIZE * MAX_KERNEL_SIZE) (base + off) tii (i * K + j)) 0 *
            input_buffer.getD
              (at3 INPUT_TILE_HEIGHT INPUT_TILE_WIDTH tii (trr * S + i) (tcc * S + j)) 0
          else 0)).sum)).sum)).sum)).sum)).sum)).sum)).sum) := by
  refine adds_congr (adds_foldl (List.range K) (fun i _ =>
    adds_foldl (List.range K) (fun j _ =>
      adds_foldl (List.range tr) (fun trr htrr =>
        adds_foldl (List.range tc) (fun tcc htcc =>
          adds_foldl (tileStarts tm 2) (fun base hbase =>
            adds_foldl (List.range tn) (fun tii _ =>
              adds_foldl (List.range (if base + 2 ≤ tm then 2 else tm - base))
                (fun off hoff =>
                  set_add_adds (at3 TR TC (base + off) trr tcc)
                    (weight_buffer.getD
                      (at3 TN (MAX_KERNEL_SIZE * MAX_KERNEL_SIZE) (base + off) tii
                        (i * K + j)) 0 *
                    input_buffer.getD
                      (at3 INPUT_TILE_HEIGHT INPUT_TILE_WIDTH tii (trr * S + i)
                        (tcc * S + j)) 0)
                    (TM * TR * TC) (by
                      have h1 := tileStarts_lt hbase
                      have h2 := List.mem_range.mp hoff
                      have h3 := List.mem_range.mp htrr
                      have h4 := List.mem_range.mp htcc
                      refine at3_lt ?_ (by omega) (by omega)
                      split at h2 <;> omega)))))))))
    (fun b _ => rfl) (fun _ _ => rfl)

theorem sum_map_zero {ι : Type} (l : List ι) (g : ι → α) (h : ∀ x ∈ l, g x = 0) :
    (l.map g).sum = 0 := by
  induction l with
  | nil => rfl
  | cons a l ih =>
    rw [List.map_cons, List.sum_cons, h a (List.mem_cons_self a l),
      ih (fun x hx => h x (List.mem_cons_of_mem a hx)), add_zero]

end Accelerator
end AlexNet

namespace AlexNet
namespace Accelerator

variable {α : Type} [LinearOrderedCommRing α]

/-- Collapse of the indicator sums of `compute_tile` at one element of the tile. -/
theorem sum_compute_collapse (K tr tc tm tn : Nat) (htr : tr ≤ TR) (htc : tc ≤ TC)
    (F : Nat → Nat → Nat → Nat → Nat → Nat → α) (x0 trr0 tcc0 : Nat)
    (hx : x0 < tm) (htrr0 : trr0 < tr) (htcc0 : tcc0 < tc) :
    ((List.range K).map (fun i => ((List.range K).map (fun j =>
      ((List.range tr).map (fun trr => ((List.range tc).map (fun tcc =>
      ((tileStarts tm 2).map (fun base =>
      ((List.range tn).map (fun tii =>
      ((List.range (if base + 2 ≤ tm then 2 else tm - base)).map (fun off =>
        if at3 TR TC x0 trr0 tcc0 = at3 TR TC (base + off) trr tcc then
          F i j trr tcc (base + off) tii
        else 0)).sum)).sum)).sum)).sum)).sum)).sum)).sum =
    ∑ i ∈ Finset.range K, ∑ j ∈ Finset.range K, ∑ tii ∈ Finset.range tn,
      F i j trr0 tcc0 x0 tii := by
  rw [Tensor3D.sum_map_range]
  refine Finset.sum_congr rfl (fun i _ => ?_)
  rw [Tensor3D.sum_map_range]
  refine Finset.sum_congr rfl (fun j _ => ?_)
  rw [sum_range_single tr trr0 htrr0, sum_range_single tc tcc0 htcc0]
  · have e : (fun base => ((List.range tn).map (fun tii =>
        ((List.range (if base + 2 ≤ tm then 2 else tm - base)).map (fun off =>
          if at3 TR TC x0 trr0 tcc0 = at3 TR TC (base + off) trr0 tcc0 then
            F i j trr0 tcc0 (base + off) tii
          else 0)).sum)).sum) =
        (fun base => ∑ y ∈ Finset.range (min (base + 2) tm - base),
          (fun x => ∑ tii ∈ Finset.range tn, if x0 = x then F i j trr0 tcc0 x tii else 0)
            (base + y)) := by
      funext base
      simp only [Tensor3D.sum_map_range]
      rw [Finset.sum_comm]
      have hl : (if base + 2 ≤ tm then 2 else tm - base) = min (base + 2) tm - base := by
        split <;> omega
      rw [hl]
      refine Finset.sum_congr rfl (fun y _ => Finset.sum_congr rfl (fun tii _ => ?_))
      by_cases hxy : x0 = base + y
      · rw [if_pos hxy, if_pos (by rw [hxy])]
      · rw [if_neg hxy, if_neg (fun h => hxy (at3_inj (by omega) (by omega) (by omega)
          (by omega) h).1)]
    rw [e, tileStarts_sum tm 2 (by decide)
      (fun x => ∑ tii ∈ Finset.range tn, if x0 = x then F i j trr0 tcc0 x tii else 0)]
    rw [Finset.sum_eq_single_of_mem x0 (Finset.mem_range.mpr hx)
      (fun x _ hne => Finset.sum_eq_zero (fun tii _ => if_neg (Ne.symm hne)))]
    simp
  · intro tcc htcc hne
    refine sum_map_zero _ _ (fun base _ => sum_range_zero _ _ (fun tii _ =>
      sum_range_zero _ _ (fun off _ => if_neg (fun h => hne ?_))))
    exact (at3_inj (by omega) (by omega) (by omega) (by omega) h).2.2.symm
  · intro trr htrr hne
    refine sum_range_zero _ _ (fun tcc htcc => sum_map_zero _ _ (fun base _ =>
      sum_range_zero _ _ (fun tii _ => sum_range_zero _ _ (fun off _ =>
        if_neg (fun h => hne ?_)))))
    exact (at3_inj (by omega) (by omega) (by omega) (by omega) h).2.1.symm

/-- Effect of `compute_tile` at one element of the tile: the sum over the kernel positions
and the input channels of the tile of weight times input is added. -/
theorem compute_tile_cell (input_buffer weight_buffer output_buffer : List α)
    (K S tm tn tr tc : Nat) (htm : tm ≤ TM) (htr : tr ≤ TR) (htc : tc ≤ TC)
    (hlen : output_buffer.length = TM * TR * TC) :
    (compute_tile input_buffer weight_buffer output_buffer K S tm tn tr tc).length =
      TM * TR * TC ∧
    ∀ x0 trr0 tcc0, x0 < tm → trr0 < tr → tcc0 < tc →
      (compute_tile input_buffer weight_buffer output_buffer K S tm tn tr tc).getD
        (at3 TR TC x0 trr0 tcc0) 0 =
      output_buffer.getD (at3 TR TC x0 trr0 tcc0) 0 +
        ∑ i ∈ Finset.range K, ∑ j ∈ Finset.range K, ∑ tii ∈ Finset.range tn,
          weight_buffer.getD (at3 TN (MAX_KERNEL_SIZE * MAX_KERNEL_SIZE) x0 tii (i * K + j)) 0 *
          input_buffer.getD
            (at3 INPUT_TILE_HEIGHT INPUT_TILE_WIDTH tii (trr0 * S + i) (tcc0 * S + j)) 0 := by
  have h := compute_tile_adds input_buffer weight_buffer K S tm tn tr tc htm htr htc
    output_buffer hlen
  refine ⟨h.1, fun x0 trr0 tcc0 hx htrr0 htcc0 => ?_⟩
  have hk : at3 TR TC x0 trr0 tcc0 < TM * TR * TC :=
    at3_lt (by omega) (by omega) (by omega)
  have h2 := h.2 _ hk
  dsimp only at h2
  rw [h2]
  congr 1
  exact sum_compute_collapse K tr tc tm tn htr htc
    (fun i j trr tcc too tii =>
      weight_buffer.getD (at3 TN (MAX_KERNEL_SIZE * MAX_KERNEL_SIZE) too tii (i * K + j)) 0 *
      input_buffer.getD
        (at3 INPUT_TILE_HEIGHT INPUT_TILE_WIDTH tii (trr * S + i) (tcc * S + j)) 0)
    x0 trr0 tcc0 hx htrr0 htcc0

end Accelerator
end AlexNet

namespace AlexNet
namespace Accelerator

variable {α : Type} [LinearOrderedCommRing α]

/-- The two ways the source clamps a tile at the end of a dimension agree. -/
theorem bound_eq (n o T : Nat) (hT : 0 < T) :
    (if n - o < T then n - o else T) = (if o + T > n then n - o else T) := by
  split <;> split <;> omega

theorem tile_input_lt (trr S i K : Nat) (htrr : trr < TR) (hS : S ≤ MAX_STRIDE)
    (hi : i < K) (hK : K ≤ MAX_KERNEL_SIZE) : trr * S + i < INPUT_TILE_HEIGHT := by
  have h1 : trr * S ≤ 6 * 2 := Nat.mul_le_mul (by unfold TR at htrr; omega)
    (by unfold MAX_STRIDE at hS; omega)
  unfold INPUT_TILE_HEIGHT TR MAX_STRIDE MAX_KERNEL_SIZE
  unfold MAX_KERNEL_SIZE at hK
  omega

theorem kernel_area_le (K : Nat) (hK : K ≤ MAX_KERNEL_SIZE) :
    K * K ≤ MAX_KERNEL_SIZE * MAX_KERNEL_SIZE := Nat.mul_le_mul hK hK

theorem kernel_index_lt (i j K : Nat) (hi : i < K) (hj : j < K) : i * K + j < K * K :=
  flat2_lt hi hj

/-- The part of the convolution sum of cell `(oc, oh, ow)` contributed by the input
channels `n_offset, ..., n_offset + tn - 1`. -/
theorem tnStep_spec (input_ddr weights_ddr : List α) (N M input_H input_W K S P : Nat)
    (m_offset r_offset c_offset tm_bound tr_bound tc_bound : Nat) (mem : Memory α) (tn : Nat)
    (hK : K ≤ MAX_KERNEL_SIZE) (hS : S ≤ MAX_STRIDE)
    (htm : tm_bound = (if m_offset + TM > M then M - m_offset else TM))
    (htr : tr_bound ≤ TR) (htc : tc_bound ≤ TC) (hmem : mem.Sized) :
    (tnStep input_ddr weights_ddr N M input_H input_W K S P m_offset r_offset c_offset
      tm_bound tr_bound tc_bound mem tn).Sized ∧
    (tnStep input_ddr weights_ddr N M input_H input_W K S P m_offset r_offset c_offset
      tm_bound tr_bound tc_bound mem tn).bias_buffer = mem.bias_buffer ∧
    (tnStep input_ddr weights_ddr N M input_H input_W K S P m_offset r_offset c_offset
      tm_bound tr_bound tc_bound mem tn).output_ddr = mem.output_ddr ∧
    ∀ x trr tcc, x < tm_bound → trr < tr_bound → tcc < tc_bound →
      (tnStep input_ddr weights_ddr N M input_H input_W K S P m_offset r_offset c_offset
        tm_bound tr_bound tc_bound mem tn).output_buffer.getD (at3 TR TC x trr tcc) 0 =
      mem.output_buffer.getD (at3 TR TC x trr tcc) 0 +
        ∑ i ∈ Finset.range K, ∑ j ∈ Finset.range K,
          ∑ tii ∈ Finset.range (if N - tn * TN < TN then N - tn * TN else TN),
            weights_ddr.getD ((x + m_offset) * N * (K * K) + (tn * TN + tii) * (K * K) +
              (i * K + j)) 0 *
            ddrPadded input_ddr input_H input_W (tn * TN + tii)
              (((trr + r_offset : Nat) : Int) * S + i - P)
              (((tcc + c_offset : Nat) : Int) * S + j - P) := by
  obtain ⟨s1, s2, s3, s4⟩ := hmem
  have hw := load_weight_tile_spec weights_ddr mem.weight_buffer m_offset (tn * TN) M N K
    (kernel_area_le K hK) s2
  have hi := load_input_tile_spec input_ddr mem.input_buffer (tn * TN) r_offset c_offset N
    input_H input_W S P s1
  have htm' : tm_bound ≤ TM := by
    rw [htm]
    exact limit_le _ _ _
  have hc := compute_tile_cell
    (load_input_tile input_ddr mem.input_buffer (tn * TN) r_offset c_offset N input_H input_W
      S P)
    (load_weight_tile weights_ddr mem.weight_buffer m_offset (tn * TN) M N K)
    mem.output_buffer K S tm_bound (if N - tn * TN < TN then N - tn * TN else TN) tr_bound
    tc_bound htm' htr htc s3
  refine ⟨⟨hi.1, hw.1, hc.1, s4⟩, rfl, rfl, fun x trr tcc hx htrr htcc => ?_⟩
  have hcell := hc.2 x trr tcc hx htrr htcc
  unfold tnStep
  dsimp only
  rw [hcell]
  congr 1
  refine Finset.sum_congr rfl (fun i hi' => Finset.sum_congr rfl (fun j hj' =>
    Finset.sum_congr rfl (fun tii htii => ?_)))
  have hi'' := Finset.mem_range.mp hi'
  have hj'' := Finset.mem_range.mp hj'
  have htii' := Finset.mem_range.mp htii
  rw [bound_eq N (tn * TN) TN (by decide)] at htii'
  rw [hw.2 x tii (i * K + j) (by rw [← htm]; exact hx) htii' (kernel_index_lt i j K hi'' hj''),
    hi.2 tii (trr * S + i) (tcc * S + j) htii'
      (tile_input_lt trr S i K (by omega) hS hi'' hK)
      (tile_input_lt tcc S j K (by unfold TR; unfold TC at htc; omega) hS hj'' hK)]
  have e1 : tii + tn * TN = tn * TN + tii := Nat.add_comm _ _
  have e2 : ((trr * S + i : Nat) : Int) + (r_offset : Int) * S - P =
      ((trr + r_offset : Nat) : Int) * S + i - P := by
    push_cast
    ring
  have e3 : ((tcc * S + j : Nat) : Int) + (c_offset : Int) * S - P =
      ((tcc + c_offset : Nat) : Int) * S + j - P := by
    push_cast
    ring
  rw [e1, e2, e3]

end Accelerator
end AlexNet

namespace AlexNet
namespace Accelerator

variable {α : Type} [LinearOrderedCommRing α]

/-- Regrouping of the sum accumulated over the input-channel tiles. -/
theorem sum_tiles_regroup (N K : Nat) (g : Nat → Nat → Nat → α) :
    ∑ tn ∈ Finset.range ((N + TN - 1) / TN), ∑ i ∈ Finset.range K, ∑ j ∈ Finset.range K,
      ∑ tii ∈ Finset.range (if N - tn * TN < TN then N - tn * TN else TN),
        g (tn * TN + tii) i j =
    ∑ ic ∈ Finset.range N, ∑ kh ∈ Finset.range K, ∑ kw ∈ Finset.range K, g ic kh kw := by
  have e1 : ∀ tn, ∑ i ∈ Finset.range K, ∑ j ∈ Finset.range K,
      ∑ tii ∈ Finset.range (if N - tn * TN < TN then N - tn * TN else TN),
        g (tn * TN + tii) i j =
      ∑ tii ∈ Finset.range (if N - tn * TN < TN then N - tn * TN else TN),
        (fun ic => ∑ i ∈ Finset.range K, ∑ j ∈ Finset.range K, g ic i j) (tn * TN + tii) := by
    intro tn
    exact (Finset.sum_congr rfl (fun i _ => Finset.sum_comm)).trans Finset.sum_comm
  simp only [e1]
  exact sum_steps N TN (by decide)
    (fun ic => ∑ i ∈ Finset.range K, ∑ j ∈ Finset.range K, g ic i j)

/-- After `tn_loop` every element of the tile has gained the whole convolution sum of its
cell. -/
theorem tn_loop_spec (input_ddr weights_ddr : List α) (N M input_H input_W K S P : Nat)
    (m_offset r_offset c_offset tm_bound tr_bound tc_bound : Nat) (mem : Memory α)
    (hK : K ≤ MAX_KERNEL_SIZE) (hS : S ≤ MAX_STRIDE)
    (htm : tm_bound = (if m_offset + TM > M then M - m_offset else TM))
    (htr : tr_bound ≤ TR) (htc : tc_bound ≤ TC) (hmem : mem.Sized) :
    ((List.range ((N + TN - 1) / TN)).foldl
      (tnStep input_ddr weights_ddr N M input_H input_W K S P m_offset r_offset c_offset
        tm_bound tr_bound tc_bound) mem).Sized ∧
    ((List.range ((N + TN - 1) / TN)).foldl
      (tnStep input_ddr weights_ddr N M input_H input_W K S P m_offset r_offset c_offset
        tm_bound tr_bound tc_bound) mem).bias_buffer = mem.bias_buffer ∧
    ((List.range ((N + TN - 1) / TN)).foldl
      (tnStep input_ddr weights_ddr N M input_H input_W K S P m_offset r_offset c_offset
        tm_bound tr_bound tc_bound) mem).output_ddr = mem.output_ddr ∧
    ∀ x trr tcc, x < tm_bound → trr < tr_bound → tcc < tc_bound →
      ((List.range ((N + TN - 1) / TN)).foldl
        (tnStep input_ddr weights_ddr N M input_H input_W K S P m_offset r_offset c_offset
          tm_bound tr_bound tc_bound) mem).output_buffer.getD (at3 TR TC x trr tcc) 0 =
      mem.output_buffer.getD (at3 TR TC x trr tcc) 0 +
        ∑ ic ∈ Finset.range N, ∑ kh ∈ Finset.range K, ∑ kw ∈ Finset.range K,
          weights_ddr.getD ((x + m_offset) * N * K * K + ic * K * K + kh * K + kw) 0 *
            ddrPadded input_ddr input_H input_W ic
              (((trr + r_offset : Nat) : Int) * S + kh - P)
              (((tcc + c_offset : Nat) : Int) * S + kw - P) := by
  have key := foldl_additive
    (fun m : Memory α => m.Sized ∧ m.bias_buffer = mem.bias_buffer ∧
      m.output_ddr = mem.output_ddr)
    (fun m (c : Nat × Nat × Nat) => m.output_buffer.getD (at3 TR TC c.1 c.2.1 c.2.2) 0)
    (fun c : Nat × Nat × Nat => c.1 < tm_bound ∧ c.2.1 < tr_bound ∧ c.2.2 < tc_bound)
    (tnStep input_ddr weights_ddr N M input_H input_W K S P m_offset r_offset c_offset
      tm_bound tr_bound tc_bound)
    (fun tn c => ∑ i ∈ Finset.range K, ∑ j ∈ Finset.range K,
      ∑ tii ∈ Finset.range (if N - tn * TN < TN then N - tn * TN else TN),
        weights_ddr.getD ((c.1 + m_offset) * N * (K * K) + (tn * TN + tii) * (K * K) +
          (i * K + j)) 0 *
        ddrPadded input_ddr input_H input_W (tn * TN + tii)
          (((c.2.1 + r_offset : Nat) : Int) * S + i - P)
          (((c.2.2 + c_offset : Nat) : Int) * S + j - P))
    (List.range ((N + TN - 1) / TN))
    (by
      intro s tn _ hs
      have h := tnStep_spec input_ddr weights_ddr N M input_H input_W K S P m_offset
        r_offset c_offset tm_bound tr_bound tc_bound s tn hK hS htm htr htc hs.1
      exact ⟨⟨h.1, h.2.1.trans hs.2.1, h.2.2.1.trans hs.2.2⟩,
        fun c hc => h.2.2.2 c.1 c.2.1 c.2.2 hc.1 hc.2.1 hc.2.2⟩)
    mem ⟨hmem, rfl, rfl⟩
  refine ⟨key.1.1, key.1.2.1, key.1.2.2, fun x trr tcc hx htrr htcc => ?_⟩
  have h := key.2 (x, trr, tcc) ⟨hx, htrr, htcc⟩
  dsimp only at h
  rw [h, Tensor3D.sum_map_range]
  congr 1
  rw [sum_tiles_regroup N K (fun ic kh kw =>
    weights_ddr.getD ((x + m_offset) * N * (K * K) + ic * (K * K) + (kh * K + kw)) 0 *
      ddrPadded input_ddr input_H input_W ic
        (((trr + r_offset : Nat) : Int) * S + kh - P)
        (((tcc + c_offset : Nat) : Int) * S + kw - P))]
  refine Finset.sum_congr rfl (fun ic _ => Finset.sum_congr rfl (fun kh _ =>
    Finset.sum_congr rfl (fun kw _ => ?_)))
  have e : (x + m_offset) * N * (K * K) + ic * (K * K) + (kh * K + kw) =
      (x + m_offset) * N * K * K + ic * K * K + kh * K + kw := by ring
  rw [e]

end Accelerator
end AlexNet

namespace AlexNet
namespace Accelerator

variable {α : Type} [LinearOrderedCommRing α]

/-- `apply_relu` followed by `store_output_tile`: the cells of the tile receive the
rectified values of the output buffer, the other elements of the output memory stay. -/
theorem relu_store_spec (output_ddr output_buffer : List α)
    (m_offset h_offset w_offset M R C tm tr tc : Nat) (hm : m_offset ≤ M) (hr : h_offset ≤ R)
    (hc : w_offset ≤ C) (hddr : M * R * C ≤ output_ddr.length)
    (hlen : output_buffer.length = TM * TR * TC)
    (htm : tm = (if m_offset + TM > M then M - m_offset else TM))
    (htr : tr = (if h_offset + TR > R then R - h_offset else TR))
    (htc : tc = (if w_offset + TC > C then C - w_offset else TC)) :
    (apply_relu output_buffer tm tr tc).length = TM * TR * TC ∧
    (store_output_tile output_ddr (apply_relu output_buffer tm tr tc) m_offset h_offset
      w_offset M R C).length = output_ddr.length ∧
    (∀ x trr tcc, x < tm → trr < tr → tcc < tc →
      (store_output_tile output_ddr (apply_relu output_buffer tm tr tc) m_offset h_offset
        w_offset M R C).getD (at3 R C (x + m_offset) (trr + h_offset) (tcc + w_offset)) 0 =
        max 0 (output_buffer.getD (at3 TR TC x trr tcc) 0)) ∧
    (∀ k, (∀ x trr tcc, x < tm → trr < tr → tcc < tc →
        at3 R C (x + m_offset) (trr + h_offset) (tcc + w_offset) ≠ k) →
      (store_output_tile output_ddr (apply_relu output_buffer tm tr tc) m_offset h_offset
        w_offset M R C).getD k 0 = output_ddr.getD k 0) := by
  have h1 := apply_relu_spec output_buffer tm tr tc (by rw [htm]; exact limit_le _ _ _)
    (by rw [htr]; exact limit_le _ _ _) (by rw [htc]; exact limit_le _ _ _) hlen
  have h2 := store_output_tile_spec output_ddr (apply_relu output_buffer tm tr tc) m_offset
    h_offset w_offset M R C hm hr hc hddr
  rw [← htm, ← htr, ← htc] at h2
  refine ⟨h1.1, h2.1, fun x trr tcc hx htrr htcc => ?_, h2.2.2⟩
  rw [h2.2.1 x trr tcc hx htrr htcc, h1.2 x trr tcc hx htrr htcc]

/-- One iteration of `tc_loop` stores the reference value in every cell of its tile and
leaves the rest of the output memory alone. -/
theorem tcStep_spec (input_ddr weights_ddr bias_ddr : List α)
    (N M input_H input_W output_H output_W K S P : Nat)
    (m_offset tm_bound r_offset tr_bound : Nat) (mem : Memory α) (tc : Nat)
    (hK : K ≤ MAX_KERNEL_SIZE) (hS : S ≤ MAX_STRIDE)
    (hm : m_offset ≤ M) (hr : r_offset ≤ output_H) (hc : tc * TC ≤ output_W)
    (htm : tm_bound = (if m_offset + TM > M then M - m_offset else TM))
    (htr : tr_bound = (if r_offset + TR > output_H then output_H - r_offset else TR))
    (hmem : mem.Sized) (hddr : M * output_H * output_W ≤ mem.output_ddr.length)
    (hbias : ∀ x, x < tm_bound → mem.bias_buffer.getD x 0 = bias_ddr.getD (x + m_offset) 0) :
    (tcStep input_ddr weights_ddr N M input_H input_W output_H output_W K S P
      ((N + TN - 1) / TN) m_offset tm_bound r_offset tr_bound mem tc).Sized ∧
    (tcStep input_ddr weights_ddr N M input_H input_W output_H output_W K S P
      ((N + TN - 1) / TN) m_offset tm_bound r_offset tr_bound mem tc).bias_buffer =
      mem.bias_buffer ∧
    (tcStep input_ddr weights_ddr N M input_H input_W output_H output_W K S P
      ((N + TN - 1) / TN) m_offset tm_bound r_offset tr_bound mem tc).output_ddr.length =
      mem.output_ddr.length ∧
    (∀ x trr tcc, x < tm_bound → trr < tr_bound →
      tcc < (if output_W - tc * TC < TC then output_W - tc * TC else TC) →
      (tcStep input_ddr weights_ddr N M input_H input_W output_H output_W K S P
        ((N + TN - 1) / TN) m_offset tm_bound r_offset tr_bound mem tc).output_ddr.getD
        (at3 output_H output_W (x + m_offset) (trr + r_offset) (tcc + tc * TC)) 0 =
        refValue input_ddr weights_ddr bias_ddr N input_H input_W K S P (x + m_offset)
          (trr + r_offset) (tcc + tc * TC)) ∧
    (∀ k, (∀ x trr tcc, x < tm_bound → trr < tr_bound →
        tcc < (if output_W - tc * TC < TC then output_W - tc * TC else TC) →
        at3 output_H output_W (x + m_offset) (trr + r_offset) (tcc + tc * TC) ≠ k) →
      (tcStep input_ddr weights_ddr N M input_H input_W output_H output_W K S P
        ((N + TN - 1) / TN) m_offset tm_bound r_offset tr_bound mem tc).output_ddr.getD k 0 =
        mem.output_ddr.getD k 0) := by
  obtain ⟨s1, s2, s3, s4⟩ := hmem
  have htc := bound_eq output_W (tc * TC) TC (by decide)
  have hinit := init_output_buffer_spec mem.output_buffer mem.bias_buffer tm_bound s3
  have htm' : tm_bound ≤ TM := by rw [htm]; exact limit_le _ _ _
  have htr' : tr_bound ≤ TR := by rw [htr]; exact limit_le _ _ _
  have htc' : (if output_W - tc * TC < TC then output_W - tc * TC else TC) ≤ TC := by
    rw [htc]
    exact limit_le _ _ _
  have hmem1 : Memory.Sized
      { mem with output_buffer := init_output_buffer mem.output_buffer mem.bias_buffer tm_bound } := by
    unfold Memory.Sized
    dsimp only
    refine And.intro s1 (And.intro s2 (And.intro ?_ s4))
    exact hinit.1
  have hloop := tn_loop_spec input_ddr weights_ddr N M input_H input_W K S P m_offset
    r_offset (tc * TC) tm_bound tr_bound
    (if output_W - tc * TC < TC then output_W - tc * TC else TC)
    { mem with output_buffer := init_output_buffer mem.output_buffer mem.bias_buffer tm_bound }
    hK hS htm htr' htc' hmem1
  have hrs := relu_store_spec mem.output_ddr
    ((List.range ((N + TN - 1) / TN)).foldl
      (tnStep input_ddr weights_ddr N M input_H input_W K S P m_offset r_offset (tc * TC)
        tm_bound tr_bound (if output_W - tc * TC < TC then output_W - tc * TC else TC))
      { mem with output_buffer := init_output_buffer mem.output_buffer mem.bias_buffer tm_bound }).output_buffer
    m_offset r_offset (tc * TC) M output_H output_W tm_bound tr_bound
    (if output_W - tc * TC < TC then output_W - tc * TC else TC) hm hr hc hddr
    hloop.1.2.2.1 htm htr htc
  unfold tcStep
  dsimp only
  rw [hloop.2.2.1]
  refine ⟨⟨hloop.1.1, hloop.1.2.1, hrs.1, hloop.1.2.2.2⟩, hloop.2.1, hrs.2.1,
    fun x trr tcc hx htrr htcc => ?_, hrs.2.2.2⟩
  rw [hrs.2.2.1 x trr tcc hx htrr htcc, hloop.2.2.2 x trr tcc hx htrr htcc]
  dsimp only
  rw [hinit.2 x trr tcc (by omega) (by omega) (by omega), if_pos hx, hbias x hx]
  rfl

end Accelerator
end AlexNet

namespace AlexNet
namespace Accelerator

variable {α : Type} [LinearOrderedCommRing α]

theorem step_offset_lt (t n T : Nat) (hT : 0 < T) (h : t < (n + T - 1) / T) : t * T < n := by
  have h1 : (t + 1) * T ≤ n + T - 1 := (Nat.le_div_iff_mul_le hT).mp h
  rw [Nat.add_mul, Nat.one_mul] at h1
  omega

/-- A position of the tile of step `t`, as an offset into the tile. -/
theorem div_tile (x T t n : Nat) (hT : 0 < T) (hx : x < n) (h : x / T = t) :
    x - t * T < (if t * T + T > n then n - t * T else T) ∧ x - t * T + t * T = x := by
  have h1 := Nat.div_add_mod x T
  have h2 := Nat.mod_lt x hT
  have h3 : t * T = T * (x / T) := by rw [h, Nat.mul_comm]
  constructor
  · split <;> omega
  · omega

/-- An offset into the tile of step `t` is a position of that tile. -/
theorem tile_div (y T t n : Nat) (hT : 0 < T)
    (hy : y < (if t * T + T > n then n - t * T else T)) :
    (y + t * T) / T = t ∧ y + t * T < n := by
  have hyT : y < T := lt_of_lt_of_le hy (limit_le _ _ _)
  constructor
  · rw [Nat.add_mul_div_right _ _ hT, Nat.div_eq_of_lt hyT, Nat.zero_add]
  · split at hy <;> omega

/-- One iteration of `tc_loop`, on output cells: the cells of tile `(tm, tr, tc)` receive
the reference value, the others are unchanged. -/
theorem tcStep_cells (input_ddr weights_ddr bias_ddr : List α)
    (N M input_H input_W output_H output_W K S P : Nat) (tm tr : Nat) (mem : Memory α) (tc : Nat)
    (hK : K ≤ MAX_KERNEL_SIZE) (hS : S ≤ MAX_STRIDE)
    (htm : tm < (M + TM - 1) / TM) (htr : tr < (output_H + TR - 1) / TR)
    (htc : tc < (output_W + TC - 1) / TC)
    (hmem : mem.Ready bias_ddr M output_H output_W (tm * TM)
      (if M - tm * TM < TM then M - tm * TM else TM)) :
    (tcStep input_ddr weights_ddr N M input_H input_W output_H output_W K S P
      ((N + TN - 1) / TN) (tm * TM) (if M - tm * TM < TM then M - tm * TM else TM) (tr * TR)
      (if output_H - tr * TR < TR then output_H - tr * TR else TR) mem tc).Ready bias_ddr M
        output_H output_W (tm * TM) (if M - tm * TM < TM then M - tm * TM else TM) ∧
    ∀ c, InOutput M output_H output_W c →
      ((((c.2.2 / TC : Nat) : Int) = (tc : Int) ∧ (c.1 / TM = tm ∧ c.2.1 / TR = tr)) →
        (tcStep input_ddr weights_ddr N M input_H input_W output_H output_W K S P
          ((N + TN - 1) / TN) (tm * TM) (if M - tm * TM < TM then M - tm * TM else TM) (tr * TR)
          (if output_H - tr * TR < TR then output_H - tr * TR else TR) mem tc).cell
            output_H output_W c =
          refValue input_ddr weights_ddr bias_ddr N input_H input_W K S P c.1 c.2.1 c.2.2) ∧
      (¬ (((c.2.2 / TC : Nat) : Int) = (tc : Int) ∧ (c.1 / TM = tm ∧ c.2.1 / TR = tr)) →
        (tcStep input_ddr weights_ddr N M input_H input_W output_H output_W K S P
          ((N + TN - 1) / TN) (tm * TM) (if M - tm * TM < TM then M - tm * TM else TM) (tr * TR)
          (if output_H - tr * TR < TR then output_H - tr * TR else TR) mem tc).cell
            output_H output_W c = mem.cell output_H output_W c) := by
  have hTM : 0 < TM := by decide
  have hTR : 0 < TR := by decide
  have hTC : 0 < TC := by decide
  have om := step_offset_lt tm M TM hTM htm
  have or_ := step_offset_lt tr output_H TR hTR htr
  have oc := step_offset_lt tc output_W TC hTC htc
  have bm := bound_eq M (tm * TM) TM hTM
  have br := bound_eq output_H (tr * TR) TR hTR
  have bc := bound_eq output_W (tc * TC) TC hTC
  have h := tcStep_spec input_ddr weights_ddr bias_ddr N M input_H input_W output_H output_W
    K S P (tm * TM) (if M - tm * TM < TM then M - tm * TM else TM) (tr * TR)
    (if output_H - tr * TR < TR then output_H - tr * TR else TR) mem tc hK hS
    (le_of_lt om) (le_of_lt or_) (le_of_lt oc) bm br hmem.1 hmem.2.1 hmem.2.2
  refine ⟨⟨h.1, by rw [h.2.2.1]; exact hmem.2.1, by rw [h.2.1]; exact hmem.2.2⟩,
    fun c hc => ⟨fun hin => ?_, fun hout => ?_⟩⟩
  · have e3 : c.2.2 / TC = tc := by exact_mod_cast hin.1
    have d1 := div_tile c.1 TM tm M hTM hc.1 hin.2.1
    have d2 := div_tile c.2.1 TR tr output_H hTR hc.2.1 hin.2.2
    have d3 := div_tile c.2.2 TC tc output_W hTC hc.2.2 e3
    rw [← bm] at d1
    rw [← br] at d2
    rw [← bc] at d3
    have := h.2.2.2.1 (c.1 - tm * TM) (c.2.1 - tr * TR) (c.2.2 - tc * TC) d1.1 d2.1 d3.1
    rw [d1.2, d2.2, d3.2] at this
    exact this
  · refine h.2.2.2.2 _ (fun x trr tcc hx htrr htcc e => hout ?_)
    rw [bm] at hx
    rw [br] at htrr
    rw [bc] at htcc
    have t1 := tile_div x TM tm M hTM hx
    have t2 := tile_div trr TR tr output_H hTR htrr
    have t3 := tile_div tcc TC tc output_W hTC htcc
    have := at3_inj t2.2 t3.2 hc.2.1 hc.2.2 e
    rw [← this.1, ← this.2.1, ← this.2.2]
    exact ⟨by exact_mod_cast t3.1, t1.1, t2.1⟩

end Accelerator
end AlexNet

namespace AlexNet
namespace Accelerator

variable {α : Type} [LinearOrderedCommRing α]

/-- One iteration of `tr_loop`, on output cells. -/
theorem trStep_cells (input_ddr weights_ddr bias_ddr : List α)
    (N M input_H input_W output_H output_W K S P : Nat) (tm : Nat) (mem : Memory α) (tr : Nat)
    (hK : K ≤ MAX_KERNEL_SIZE) (hS : S ≤ MAX_STRIDE)
    (htm : tm < (M + TM - 1) / TM) (htr : tr < (output_H + TR - 1) / TR)
    (hmem : mem.Ready bias_ddr M output_H output_W (tm * TM)
      (if M - tm * TM < TM then M - tm * TM else TM)) :
    (trStep input_ddr weights_ddr N M input_H input_W output_H output_W K S P
      ((N + TN - 1) / TN) ((output_W + TC - 1) / TC) (tm * TM)
      (if M - tm * TM < TM then M - tm * TM else TM) mem tr).Ready bias_ddr M
        output_H output_W (tm * TM) (if M - tm * TM < TM then M - tm * TM else TM) ∧
    ∀ c, InOutput M output_H output_W c →
      ((((c.2.1 / TR : Nat) : Int) = (tr : Int) ∧ c.1 / TM = tm) →
        (trStep input_ddr weights_ddr N M input_H input_W output_H output_W K S P
          ((N + TN - 1) / TN) ((output_W + TC - 1) / TC) (tm * TM)
          (if M - tm * TM < TM then M - tm * TM else TM) mem tr).cell output_H output_W c =
          refValue input_ddr weights_ddr bias_ddr N input_H input_W K S P c.1 c.2.1 c.2.2) ∧
      (¬ (((c.2.1 / TR : Nat) : Int) = (tr : Int) ∧ c.1 / TM = tm) →
        (trStep input_ddr weights_ddr N M input_H input_W output_H output_W K S P
          ((N + TN - 1) / TN) ((output_W + TC - 1) / TC) (tm * TM)
          (if M - tm * TM < TM then M - tm * TM else TM) mem tr).cell output_H output_W c =
          mem.cell output_H output_W c) := by
  have key := foldl_range_footprint
    (Memory.Ready bias_ddr M output_H output_W (tm * TM)
      (if M - tm * TM < TM then M - tm * TM else TM))
    (Memory.cell output_H output_W) (InOutput M output_H output_W)
    (tcStep input_ddr weights_ddr N M input_H input_W output_H output_W K S P
      ((N + TN - 1) / TN) (tm * TM) (if M - tm * TM < TM then M - tm * TM else TM) (tr * TR)
      (if output_H - tr * TR < TR then output_H - tr * TR else TR))
    ((output_W + TC - 1) / TC) (fun c => ((c.2.2 / TC : Nat) : Int))
    (fun c => c.1 / TM = tm ∧ c.2.1 / TR = tr)
    (fun c _ => refValue input_ddr weights_ddr bias_ddr N input_H input_W K S P c.1 c.2.1 c.2.2)
    (fun s tc htc hs => tcStep_cells input_ddr weights_ddr bias_ddr N M input_H input_W
      output_H output_W K S P tm tr s tc hK hS htm htr htc hs)
    mem hmem
  refine ⟨key.1, fun c hc => ⟨fun hin => ?_, fun hout => ?_⟩⟩
  · have e2 : c.2.1 / TR = tr := by exact_mod_cast hin.1
    refine (key.2 c hc).1 ⟨by positivity, ?_, hin.2, e2⟩
    dsimp only
    exact_mod_cast (step_of_lt output_W TC c.2.2 (by decide) hc.2.2).1
  · refine (key.2 c hc).2 (fun h => hout ⟨?_, h.2.2.1⟩)
    exact_mod_cast h.2.2.2

/-- One iteration of `tm_loop`, on output cells. -/
theorem tmStep_cells (input_ddr weights_ddr bias_ddr : List α)
    (N M input_H input_W output_H output_W K S P : Nat) (mem : Memory α) (tm : Nat)
    (hK : K ≤ MAX_KERNEL_SIZE) (hS : S ≤ MAX_STRIDE)
    (htm : tm < (M + TM - 1) / TM)
    (hmem : mem.Sized ∧ M * output_H * output_W ≤ mem.output_ddr.length) :
    ((tmStep input_ddr weights_ddr bias_ddr N M input_H input_W output_H output_W K S P
      ((N + TN - 1) / TN) ((output_H + TR - 1) / TR) ((output_W + TC - 1) / TC) mem tm).Sized ∧
      M * output_H * output_W ≤
        (tmStep input_ddr weights_ddr bias_ddr N M input_H input_W output_H output_W K S P
          ((N + TN - 1) / TN) ((output_H + TR - 1) / TR) ((output_W + TC - 1) / TC)
          mem tm).output_ddr.length) ∧
    ∀ c, InOutput M output_H output_W c →
      ((((c.1 / TM : Nat) : Int) = (tm : Int) ∧ True) →
        (tmStep input_ddr weights_ddr bias_ddr N M input_H input_W output_H output_W K S P
          ((N + TN - 1) / TN) ((output_H + TR - 1) / TR) ((output_W + TC - 1) / TC)
          mem tm).cell output_H output_W c =
          refValue input_ddr weights_ddr bias_ddr N input_H input_W K S P c.1 c.2.1 c.2.2) ∧
      (¬ (((c.1 / TM : Nat) : Int) = (tm : Int) ∧ True) →
        (tmStep input_ddr weights_ddr bias_ddr N M input_H input_W output_H output_W K S P
          ((N + TN - 1) / TN) ((output_H + TR - 1) / TR) ((output_W + TC - 1) / TC)
          mem tm).cell output_H output_W c = mem.cell output_H output_W c) := by
  have hb := load_bias_spec bias_ddr mem.bias_buffer (tm * TM) M hmem.1.2.2.2
  have hready : Memory.Ready bias_ddr M output_H output_W (tm * TM)
      (if M - tm * TM < TM then M - tm * TM else TM)
      { mem with bias_buffer := load_bias bias_ddr mem.bias_buffer (tm * TM) M } := by
    unfold Memory.Ready Memory.Sized
    dsimp only
    refine ⟨⟨hmem.1.1, hmem.1.2.1, hmem.1.2.2.1, hb.1⟩, hmem.2, fun x hx => ?_⟩
    rw [bound_eq M (tm * TM) TM (by decide)] at hx
    exact hb.2 x hx
  have key := foldl_range_footprint
    (Memory.Ready bias_ddr M output_H output_W (tm * TM)
      (if M - tm * TM < TM then M - tm * TM else TM))
    (Memory.cell output_H output_W) (InOutput M output_H output_W)
    (trStep input_ddr weights_ddr N M input_H input_W output_H output_W K S P
      ((N + TN - 1) / TN) ((output_W + TC - 1) / TC) (tm * TM)
      (if M - tm * TM < TM then M - tm * TM else TM))
    ((output_H + TR - 1) / TR) (fun c => ((c.2.1 / TR : Nat) : Int))
    (fun c => c.1 / TM = tm)
    (fun c _ => refValue input_ddr weights_ddr bias_ddr N input_H input_W K S P c.1 c.2.1 c.2.2)
    (fun s tr htr hs => trStep_cells input_ddr weights_ddr bias_ddr N M input_H input_W
      output_H output_W K S P tm s tr hK hS htm htr hs)
    _ hready
  refine ⟨⟨key.1.1, key.1.2.1⟩, fun c hc => ⟨fun hin => ?_, fun hout => ?_⟩⟩
  · have e1 : c.1 / TM = tm := by exact_mod_cast hin.1
    refine (key.2 c hc).1 ⟨by positivity, ?_, e1⟩
    dsimp only
    exact_mod_cast (step_of_lt output_H TR c.2.1 (by decide) hc.2.1).1
  · refine ((key.2 c hc).2 (fun h => hout ⟨?_, trivial⟩)).trans rfl
    exact_mod_cast h.2.2

/-- The general tiled path stores the reference value in every output cell. -/
theorem tiled_path_cells (input_ddr weights_ddr bias_ddr : List α)
    (N M input_H input_W output_H output_W K S P : Nat) (mem : Memory α)
    (hK : K ≤ MAX_KERNEL_SIZE) (hS : S ≤ MAX_STRIDE)
    (hmem : mem.Sized) (hddr : M * output_H * output_W ≤ mem.output_ddr.length) :
    ∀ c, InOutput M output_H output_W c →
      ((List.range ((M + TM - 1) / TM)).foldl
        (tmStep input_ddr weights_ddr bias_ddr N M input_H input_W output_H output_W K S P
          ((N + TN - 1) / TN) ((output_H + TR - 1) / TR) ((output_W + TC - 1) / TC))
        mem).cell output_H output_W c =
        refValue input_ddr weights_ddr bias_ddr N input_H input_W K S P c.1 c.2.1 c.2.2 := by
  have key := foldl_range_footprint
    (fun m : Memory α => m.Sized ∧ M * output_H * output_W ≤ m.output_ddr.length)
    (Memory.cell output_H output_W) (InOutput M output_H output_W)
    (tmStep input_ddr weights_ddr bias_ddr N M input_H input_W output_H output_W K S P
      ((N + TN - 1) / TN) ((output_H + TR - 1) / TR) ((output_W + TC - 1) / TC))
    ((M + TM - 1) / TM) (fun c => ((c.1 / TM : Nat) : Int)) (fun _ => True)
    (fun c _ => refValue input_ddr weights_ddr bias_ddr N input_H input_W K S P c.1 c.2.1 c.2.2)
    (fun s tm htm hs => tmStep_cells input_ddr weights_ddr bias_ddr N M input_H input_W
      output_H output_W K S P s tm hK hS htm hs)
    mem ⟨hmem, hddr⟩
  intro c hc
  refine (key.2 c hc).1 ⟨by positivity, ?_, trivial⟩
  dsimp only
  exact_mod_cast (step_of_lt M TM c.1 (by decide) hc.1).1

end Accelerator
end AlexNet

namespace AlexNet
namespace Accelerator

variable {α : Type} [LinearOrderedCommRing α]

theorem limit_zero (T n : Nat) (h : n ≤ T) : (if 0 + T > n then n - 0 else T) = n := by
  split <;> omega

/-- The single-tile path stores the reference value in every output cell. -/
theorem single_path_cells (input_ddr weights_ddr bias_ddr : List α)
    (N M input_H input_W output_H output_W K S P : Nat) (mem : Memory α)
    (hK : K ≤ MAX_KERNEL_SIZE) (hS : S ≤ MAX_STRIDE)
    (hN : N ≤ TN) (hM : M ≤ TM) (hR : output_H ≤ TR) (hC : output_W ≤ TC)
    (hmem : mem.Sized) (hddr : M * output_H * output_W ≤ mem.output_ddr.length) :
    ∀ c, InOutput M output_H output_W c →
      (store_output_tile mem.output_ddr
        (apply_relu
          (compute_tile
            (load_input_tile input_ddr mem.input_buffer 0 0 0 N input_H input_W S P)
            (load_weight_tile weights_ddr mem.weight_buffer 0 0 M N K)
            (init_output_buffer mem.output_buffer (load_bias bias_ddr mem.bias_buffer 0 M) M)
            K S M N output_H output_W)
          M output_H output_W)
        0 0 0 M output_H output_W).getD (at3 output_H output_W c.1 c.2.1 c.2.2) 0 =
        refValue input_ddr weights_ddr bias_ddr N input_H input_W K S P c.1 c.2.1 c.2.2 := by
  obtain ⟨s1, s2, s3, s4⟩ := hmem
  have lM := limit_zero TM M hM
  have lN := limit_zero TN N hN
  have lR := limit_zero TR output_H hR
  have lC := limit_zero TC output_W hC
  have hb := load_bias_spec bias_ddr mem.bias_buffer 0 M s4
  have hw := load_weight_tile_spec weights_ddr mem.weight_buffer 0 0 M N K
    (kernel_area_le K hK) s2
  have hi := load_input_tile_spec input_ddr mem.input_buffer 0 0 0 N input_H input_W S P s1
  have hinit := init_output_buffer_spec mem.output_buffer
    (load_bias bias_ddr mem.bias_buffer 0 M) M s3
  have hc := compute_tile_cell
    (load_input_tile input_ddr mem.input_buffer 0 0 0 N input_H input_W S P)
    (load_weight_tile weights_ddr mem.weight_buffer 0 0 M N K)
    (init_output_buffer mem.output_buffer (load_bias bias_ddr mem.bias_buffer 0 M) M)
    K S M N output_H output_W hM hR hC hinit.1
  have hrs := relu_store_spec mem.output_ddr
    (compute_tile
      (load_input_tile input_ddr mem.input_buffer 0 0 0 N input_H input_W S P)
      (load_weight_tile weights_ddr mem.weight_buffer 0 0 M N K)
      (init_output_buffer mem.output_buffer (load_bias bias_ddr mem.bias_buffer 0 M) M)
      K S M N output_H output_W)
    0 0 0 M output_H output_W M output_H output_W (Nat.zero_le _) (Nat.zero_le _)
    (Nat.zero_le _) hddr hc.1 lM.symm lR.symm lC.symm
  rw [lM] at hb hw
  rw [lN] at hw hi
  intro c hcell
  obtain ⟨h1, h2, h3⟩ := hcell
  have := hrs.2.2.1 c.1 c.2.1 c.2.2 h1 h2 h3
  rw [Nat.add_zero, Nat.add_zero, Nat.add_zero] at this
  rw [this, hc.2 c.1 c.2.1 c.2.2 h1 h2 h3,
    hinit.2 c.1 c.2.1 c.2.2 (by omega) (by omega) (by omega), if_pos h1, hb.2 c.1 h1]
  unfold refValue
  rw [Nat.add_zero]
  congr 2
  refine ((Finset.sum_congr rfl (fun i _ => Finset.sum_comm)).trans Finset.sum_comm).trans ?_
  refine Finset.sum_congr rfl (fun ic hic => Finset.sum_congr rfl (fun kh hkh =>
    Finset.sum_congr rfl (fun kw hkw => ?_)))
  have hic' := Finset.mem_range.mp hic
  have hkh' := Finset.mem_range.mp hkh
  have hkw' := Finset.mem_range.mp hkw
  rw [hw.2 c.1 ic (kh * K + kw) h1 hic' (kernel_index_lt kh kw K hkh' hkw'),
    hi.2 ic (c.2.1 * S + kh) (c.2.2 * S + kw) hic'
      (tile_input_lt c.2.1 S kh K (by omega) hS hkh' hK)
      (tile_input_lt c.2.2 S kw K (by unfold TR; unfold TC at hC; omega) hS hkw' hK)]
  have e1 : (c.1 + 0) * N * (K * K) + (ic + 0) * (K * K) + (kh * K + kw) =
      c.1 * N * K * K + ic * K * K + kh * K + kw := by
    rw [Nat.add_zero, Nat.add_zero]
    ring
  have e2 : ((c.2.1 * S + kh : Nat) : Int) + ((0 : Nat) : Int) * S - P =
      (c.2.1 : Int) * S + kh - P := by
    push_cast
    ring
  have e3 : ((c.2.2 * S + kw : Nat) : Int) + ((0 : Nat) : Int) * S - P =
      (c.2.2 : Int) * S + kw - P := by
    push_cast
    ring
  rw [e1, e2, e3, Nat.add_zero]

end Accelerator
end AlexNet

namespace AlexNet
namespace Accelerator

variable {α : Type} [LinearOrderedCommRing α]

/-- One kernel tap of `conv2d_reference`: `output[out_idx]` gains input times weight, the
input read as zero outside the image. -/
theorem reference_tap_spec (input weights : List α) (N H W K S P oc oh ow out_idx ic kh : Nat)
    (L : Nat) (hidx : out_idx < L) (s : List α) (kw : Nat) (hs : s.length = L) :
    (conv2d_reference_tap input weights N H W K S P oc oh ow out_idx ic kh s kw).length = L ∧
    ∀ k, True →
      (k = out_idx →
        (conv2d_reference_tap input weights N H W K S P oc oh ow out_idx ic kh s kw).getD k 0 =
          s.getD k 0 + ddrPadded input H W ic ((oh : Int) * S + kh - P) ((ow : Int) * S + kw - P) *
            weights.getD (oc * N * K * K + ic * K * K + kh * K + kw) 0) ∧
      (k ≠ out_idx →
        (conv2d_reference_tap input weights N H W K S P oc oh ow out_idx ic kh s kw).getD k 0 =
          s.getD k 0) := by
  unfold conv2d_reference_tap ddrPadded
  dsimp only
  by_cases hin : 0 ≤ (oh : Int) * S + kh - P ∧ (oh : Int) * S + kh - P < H ∧
      0 ≤ (ow : Int) * S + kw - P ∧ (ow : Int) * S + kw - P < W
  · have hnot : ¬ ((oh : Int) * S + kh - P < 0 ∨ (oh : Int) * S + kh - P ≥ H ∨
        (ow : Int) * S + kw - P < 0 ∨ (ow : Int) * S + kw - P ≥ W) := by omega
    rw [if_neg hnot, if_pos hin]
    refine ⟨by rw [List.length_set]; exact hs, fun k _ => ⟨fun e => ?_, fun e => ?_⟩⟩
    · rw [getD_set _ _ _ _ (by rw [hs]; exact hidx), if_pos e, e]
    · rw [getD_set _ _ _ _ (by rw [hs]; exact hidx), if_neg e]
  · have hyes : (oh : Int) * S + kh - P < 0 ∨ (oh : Int) * S + kh - P ≥ H ∨
        (ow : Int) * S + kw - P < 0 ∨ (ow : Int) * S + kw - P ≥ W := by omega
    rw [if_pos hyes, if_neg hin]
    exact ⟨hs, fun k _ => ⟨fun _ => by rw [zero_mul, add_zero], fun _ => rfl⟩⟩

/-- One iteration of the `ow` loop of `conv2d_reference` stores the reference value of the
cell and leaves the other elements alone. -/
theorem reference_cell_spec (input weights bias : List α) (N H W R C K S P oc oh : Nat)
    (L : Nat) (s : List α) (ow : Nat) (hidx : oc * R * C + oh * C + ow < L)
    (hs : s.length = L) :
    (conv2d_reference_cell input weights bias N H W R C K S P oc oh s ow).length = L ∧
    (conv2d_reference_cell input weights bias N H W R C K S P oc oh s ow).getD
      (oc * R * C + oh * C + ow) 0 = refValue input weights bias N H W K S P oc oh ow ∧
    ∀ k, k ≠ oc * R * C + oh * C + ow →
      (conv2d_reference_cell input weights bias N H W R C K S P oc oh s ow).getD k 0 =
        s.getD k 0 := by
  have hkw : ∀ ic kh, _ := fun ic kh =>
    foldl_cell_add (fun s : List α => s.length = L) (fun s k => s.getD k 0) (fun _ => True)
      (conv2d_reference_tap input weights N H W K S P oc oh ow (oc * R * C + oh * C + ow) ic kh)
      (oc * R * C + oh * C + ow)
      (fun (kw : Nat) => ddrPadded input H W ic ((oh : Int) * S + kh - P) ((ow : Int) * S + kw - P) *
        weights.getD (oc * N * K * K + ic * K * K + kh * K + kw) 0)
      (List.range K)
      (fun s kw _ hs => reference_tap_spec input weights N H W K S P oc oh ow _ ic kh L hidx
        s kw hs)
  have hkh : ∀ ic, _ := fun ic =>
    foldl_cell_add (fun s : List α => s.length = L) (fun s k => s.getD k 0) (fun _ => True)
      (fun s kh => (List.range K).foldl
        (conv2d_reference_tap input weights N H W K S P oc oh ow (oc * R * C + oh * C + ow)
          ic kh) s)
      (oc * R * C + oh * C + ow)
      (fun (kh : Nat) => ((List.range K).map (fun (kw : Nat) =>
        ddrPadded input H W ic ((oh : Int) * S + kh - P) ((ow : Int) * S + kw - P) *
          weights.getD (oc * N * K * K + ic * K * K + kh * K + kw) 0)).sum)
      (List.range K) (fun s kh _ hs => hkw ic kh s hs)
  have hset : (s.set (oc * R * C + oh * C + ow) (bias.getD oc 0)).length = L := by
    rw [List.length_set]
    exact hs
  have hic := foldl_cell_add (fun s : List α => s.length = L) (fun s k => s.getD k 0)
    (fun _ => True)
    (fun s ic => (List.range K).foldl (fun s kh => (List.range K).foldl
      (conv2d_reference_tap input weights N H W K S P oc oh ow (oc * R * C + oh * C + ow)
        ic kh) s) s)
    (oc * R * C + oh * C + ow)
    (fun ic => ((List.range K).map (fun (kh : Nat) => ((List.range K).map (fun (kw : Nat) =>
      ddrPadded input H W ic ((oh : Int) * S + kh - P) ((ow : Int) * S + kw - P) *
        weights.getD (oc * N * K * K + ic * K * K + kh * K + kw) 0)).sum)).sum)
    (List.range N) (fun s ic _ hs => hkh ic s hs)
    (s.set (oc * R * C + oh * C + ow) (bias.getD oc 0)) hset
  unfold conv2d_reference_cell
  dsimp only
  rw [relu_step_eq]
  have hlen := hic.1
  dsimp only at hlen
  refine ⟨by rw [List.length_set]; exact hlen, ?_, fun k hk => ?_⟩
  · rw [getD_set _ _ _ _ (by rw [hlen]; exact hidx), if_pos rfl]
    have h1 := (hic.2 _ trivial).1 rfl
    dsimp only at h1
    rw [h1, getD_set _ _ _ _ (by rw [hs]; exact hidx), if_pos rfl]
    unfold refValue
    simp only [Tensor3D.sum_map_range]
    congr 2
    refine Finset.sum_congr rfl (fun ic _ => Finset.sum_congr rfl (fun kh _ =>
      Finset.sum_congr rfl (fun kw _ => mul_comm _ _)))
  · rw [getD_set _ _ _ _ (by rw [hlen]; exact hidx), if_neg hk]
    have h1 := (hic.2 k trivial).2 hk
    dsimp only at h1
    rw [h1, getD_set _ _ _ _ (by rw [hs]; exact hidx), if_neg hk]

end Accelerator
end AlexNet

namespace AlexNet
namespace Accelerator

variable {α : Type} [LinearOrderedCommRing α]

/-- `conv2d_reference` stores the reference value in every output cell. -/
theorem conv2d_reference_cells (input weights bias output : List α)
    (N H W M R C K S P : Nat) (hlen : M * R * C ≤ output.length) :
    ∀ c, InOutput M R C c →
      (conv2d_reference input weights bias output N H W M R C K S P).getD
        (at3 R C c.1 c.2.1 c.2.2) 0 = refValue input weights bias N H W K S P c.1 c.2.1 c.2.2 := by
  have e := foldl_product3 (fun (s : List α) (oc oh ow : Nat) =>
    conv2d_reference_cell input weights bias N H W R C K S P oc oh s ow)
    (List.range M) (List.range R) (List.range C) (List.replicate output.length (0 : α))
  have key := foldl_footprint (fun s : List α => s.length = output.length)
    (fun s k => s.getD k 0) (fun _ => True)
    (fun (s : List α) (p : Nat × Nat × Nat) =>
      conv2d_reference_cell input weights bias N H W R C K S P p.1 p.2.1 s p.2.2)
    (fun p k => k = at3 R C p.1 p.2.1 p.2.2)
    (fun p _ _ => refValue input weights bias N H W K S P p.1 p.2.1 p.2.2)
    (List.product (List.range M) (List.product (List.range R) (List.range C)))
    (nodup_product3 (List.nodup_range _) (List.nodup_range _) (List.nodup_range _))
    (by
      intro p q k hp hq h1 h2
      have hp' := mem_product3.mp hp
      have hq' := mem_product3.mp hq
      have := at3_inj (List.mem_range.mp hp'.2.1) (List.mem_range.mp hp'.2.2)
        (List.mem_range.mp hq'.2.1) (List.mem_range.mp hq'.2.2) (h1.symm.trans h2)
      exact Prod.ext this.1 (Prod.ext this.2.1 this.2.2))
    (by
      intro s p hp hs
      have hp' := mem_product3.mp hp
      have hidx : p.1 * R * C + p.2.1 * C + p.2.2 < output.length :=
        lt_of_lt_of_le (flat3_lt (List.mem_range.mp hp'.1) (List.mem_range.mp hp'.2.1)
          (List.mem_range.mp hp'.2.2)) hlen
      have h := reference_cell_spec input weights bias N H W R C K S P p.1 p.2.1
        output.length s p.2.2 hidx hs
      refine ⟨h.1, fun k _ => ⟨fun ek => ?_, fun ek => h.2.2 k ek⟩⟩
      dsimp only
      rw [ek]
      exact h.2.1)
    (List.replicate output.length (0 : α)) (List.length_replicate _ _)
  intro c hc
  unfold conv2d_reference
  dsimp only
  have e' : (List.range M).foldl (fun output (oc : Nat) =>
      (List.range R).foldl (fun output (oh : Nat) =>
        (List.range C).foldl
          (conv2d_reference_cell input weights bias N H W R C K S P oc oh) output) output)
      (List.replicate output.length (0 : α)) =
      (List.product (List.range M) (List.product (List.range R) (List.range C))).foldl
        (fun (s : List α) (p : Nat × Nat × Nat) =>
          conv2d_reference_cell input weights bias N H W R C K S P p.1 p.2.1 s p.2.2)
        (List.replicate output.length (0 : α)) := e.symm
  rw [e']
  exact (key.2 _ trivial).1 c (mem_product3.mpr ⟨List.mem_range.mpr hc.1,
    List.mem_range.mpr hc.2.1, List.mem_range.mpr hc.2.2⟩) rfl

/-- Every index below `M * R * C` is the offset of an output cell. -/
theorem idx_cell (M R C idx : Nat) (h : idx < M * R * C) :
    ∃ c, InOutput M R C c ∧ at3 R C c.1 c.2.1 c.2.2 = idx := by
  have hRC : 0 < R * C := by
    rcases Nat.eq_zero_or_pos (R * C) with h0 | h0
    · rw [Nat.mul_assoc, h0, Nat.mul_zero] at h
      exact absurd h (Nat.not_lt_zero _)
    · exact h0
  have hC : 0 < C := Nat.pos_of_ne_zero (fun h0 => by rw [h0, Nat.mul_zero] at hRC; exact absurd hRC (Nat.lt_irrefl 0))
  have h1 : idx / (R * C) < M := by
    rw [Nat.div_lt_iff_lt_mul hRC, ← Nat.mul_assoc]
    exact h
  have h2 : idx % (R * C) / C < R := by
    rw [Nat.div_lt_iff_lt_mul hC]
    exact Nat.mod_lt _ hRC
  have h3 : idx % (R * C) % C < C := Nat.mod_lt _ hC
  refine ⟨(idx / (R * C), idx % (R * C) / C, idx % (R * C) % C), ⟨h1, h2, h3⟩, ?_⟩
  unfold at3
  dsimp only
  have e1 := Nat.div_add_mod' idx (R * C)
  have e2 := Nat.div_add_mod' (idx % (R * C)) C
  rw [Nat.mul_assoc]
  omega

end Accelerator
end AlexNet

namespace AlexNet
namespace Accelerator

/-- C18. With `data_t` arithmetic exact, for every layer configuration with
`kernel_size ≤ MAX_KERNEL_SIZE` (5) and `stride ≤ MAX_STRIDE` (2) (any padding, channel
counts and dimensions, whatever the local buffers and the output memory hold at the start),
both on the single-tile path (`N ≤ TN`, `M ≤ TM`, `output_H ≤ TR`, `output_W ≤ TC`) and on the
general tiled path: the elements `0, ..., M * output_H * output_W - 1` of `output_ddr` after
`fashion_mnist_cnn_accelerator` are the elements `conv2d_reference` computes, and the
element of cell `(oc, oh, ow)` is the bias plus the zero-padded convolution sum, rectified. -/
theorem accelerator_matches_reference {α : Type} [LinearOrderedCommRing α]
    (input_ddr weights_ddr bias_ddr : List α) (layer_config : LayerConfig) (layer_idx : Int)
    (mem : Memory α) (output : List α)
    (hK : layer_config.kernel_size ≤ MAX_KERNEL_SIZE)
    (hS : layer_config.stride ≤ MAX_STRIDE)
    (hmem : mem.Sized)
    (hddr : layer_config.output_channels * layer_config.output_height *
      layer_config.output_width ≤ mem.output_ddr.length)
    (hout : layer_config.output_channels * layer_config.output_height *
      layer_config.output_width ≤ output.length) :
    (∀ idx, idx < layer_config.output_channels * layer_config.output_height *
        layer_config.output_width →
      (fashion_mnist_cnn_accelerator input_ddr weights_ddr bias_ddr layer_config layer_idx
        mem).getD idx 0 =
      (conv2d_reference input_ddr weights_ddr bias_ddr output layer_config.input_channels
        layer_config.input_height layer_config.input_width layer_config.output_channels
        layer_config.output_height layer_config.output_width layer_config.kernel_size
        layer_config.stride layer_config.padding).getD idx 0) ∧
    ∀ oc oh ow, oc < layer_config.output_channels → oh < layer_config.output_height →
      ow < layer_config.output_width →
      (fashion_mnist_cnn_accelerator input_ddr weights_ddr bias_ddr layer_config layer_idx
        mem).getD (oc * layer_config.output_height * layer_config.output_width +
          oh * layer_config.output_width + ow) 0 =
      max 0 (bias_ddr.getD oc 0 +
        ∑ ic ∈ Finset.range layer_config.input_channels,
          ∑ kh ∈ Finset.range layer_config.kernel_size,
            ∑ kw ∈ Finset.range layer_config.kernel_size,
              weights_ddr.getD (oc * layer_config.input_channels * layer_config.kernel_size *
                  layer_config.kernel_size + ic * layer_config.kernel_size *
                  layer_config.kernel_size + kh * layer_config.kernel_size + kw) 0 *
                ddrPadded input_ddr layer_config.input_height layer_config.input_width ic
                  ((oh : Int) * layer_config.stride + kh - layer_config.padding)
                  ((ow : Int) * layer_config.stride + kw - layer_config.padding)) := by
  have hacc : ∀ c, InOutput layer_config.output_channels layer_config.output_height
      layer_config.output_width c →
      (fashion_mnist_cnn_accelerator input_ddr weights_ddr bias_ddr layer_config layer_idx
        mem).getD (at3 layer_config.output_height layer_config.output_width c.1 c.2.1 c.2.2) 0 =
      refValue input_ddr weights_ddr bias_ddr layer_config.input_channels
        layer_config.input_height layer_config.input_width layer_config.kernel_size
        layer_config.stride layer_config.padding c.1 c.2.1 c.2.2 := by
    intro c hc
    unfold fashion_mnist_cnn_accelerator
    dsimp only
    split
    · rename_i hsingle
      exact single_path_cells input_ddr weights_ddr bias_ddr _ _ _ _ _ _ _ _ _ mem hK hS
        hsingle.1 hsingle.2.1 hsingle.2.2.1 hsingle.2.2.2 hmem hddr c hc
    · exact tiled_path_cells input_ddr weights_ddr bias_ddr _ _ _ _ _ _ _ _ _ mem hK hS
        hmem hddr c hc
  have href := conv2d_reference_cells input_ddr weights_ddr bias_ddr output
    layer_config.input_channels layer_config.input_height layer_config.input_width
    layer_config.output_channels layer_config.output_height layer_config.output_width
    layer_config.kernel_size layer_config.stride layer_config.padding hout
  constructor
  · intro idx hidx
    obtain ⟨c, hc, e⟩ := idx_cell _ _ _ idx hidx
    rw [← e, hacc c hc, href c hc]
  · intro oc oh ow h1 h2 h3
    exact hacc (oc, oh, ow) ⟨h1, h2, h3⟩

/-- Instance of `accelerator_matches_reference`: the configuration of the test
(`2 x 7 x 7` to `4 x 5 x 5`, kernel 3), which fits one tile, and a configuration that takes
the tiled path (`5 x 9 x 9` to `9 x 5 x 8`, kernel 2, stride 2, padding 1), with buffers and
output memory that start out holding the value 7. -/
theorem accelerator_matches_reference_witness :
    (∀ idx, idx < 4 * 5 * 5 →
      (fashion_mnist_cnn_accelerator (Example.testData 98 5) (Example.testData 72 7)
        (Example.testData 4 2) Example.testConfig 0 (Example.dirtyMemory 100)).getD idx 0 =
      (conv2d_reference (Example.testData 98 5) (Example.testData 72 7) (Example.testData 4 2)
        (List.replicate 100 9) 2 7 7 4 5 5 3 1 0).getD idx 0) ∧
    (∀ idx, idx < 9 * 5 * 8 →
      (fashion_mnist_cnn_accelerator (Example.testData 405 5) (Example.testData 180 7)
        (Example.testData 9 2) Example.tiledConfig 0 (Example.dirtyMemory 360)).getD idx 0 =
      (conv2d_reference (Example.testData 405 5) (Example.testData 180 7)
        (Example.testData 9 2) (List.replicate 360 9) 5 9 9 9 5 8 2 2 1).getD idx 0) :=
  ⟨(accelerator_matches_reference (Example.testData 98 5) (Example.testData 72 7)
      (Example.testData 4 2) Example.testConfig 0 (Example.dirtyMemory 100)
      (List.replicate 100 9) (by decide) (by decide)
      ⟨List.length_replicate _ _, List.length_replicate _ _, List.length_replicate _ _,
        List.length_replicate _ _⟩
      (le_of_eq (List.length_replicate _ _).symm)
      (le_of_eq (List.length_replicate _ _).symm)).1,
    (accelerator_matches_reference (Example.testData 405 5) (Example.testData 180 7)
      (Example.testData 9 2) Example.tiledConfig 0 (Example.dirtyMemory 360)
      (List.replicate 360 9) (by decide) (by decide)
      ⟨List.length_replicate _ _, List.length_replicate _ _, List.length_replicate _ _,
        List.length_replicate _ _⟩
      (le_of_eq (List.length_replicate _ _).symm)
      (le_of_eq (List.length_replicate _ _).symm)).1⟩

end Accelerator
end AlexNet

namespace AlexNet

open Tensor3D

/-- C30. For every tensor of shape `D x H x W` (buffer length `D * H * W`) and every in-range
coordinate `(d, h, w)`: the slot index used by `at` is `d * H * W + h * W + w`, it lies in
`[0, D * H * W)`, and another in-range coordinate with the same slot is the same coordinate;
hence after writing `x` through `at(d, h, w)`, `at(d, h, w)` reads `x`, every other in-range
coordinate reads what it read before, and the shape and the buffer length are unchanged. -/
theorem tensor_write_frame {α : Type} [Zero α] (t : Tensor3D α) (D H W : Int)
    (ht : t.Shaped D H W) (d h w : Int) (hr : t.InRange d h w) (x : α) :
    (t.index d h w = d * H * W + h * W + w ∧ 0 ≤ t.index d h w ∧ t.index d h w < D * H * W ∧
      (t.index d h w).toNat < t.getData.length) ∧
    (∀ d2 h2 w2, t.InRange d2 h2 w2 → t.index d2 h2 w2 = t.index d h w →
      d2 = d ∧ h2 = h ∧ w2 = w) ∧
    (t.setAt d h w x).at_ d h w = x ∧
    (∀ d2 h2 w2, t.InRange d2 h2 w2 → ¬ (d2 = d ∧ h2 = h ∧ w2 = w) →
      (t.setAt d h w x).at_ d2 h2 w2 = t.at_ d2 h2 w2) ∧
    ((t.setAt d h w x).getDepth = D ∧ (t.setAt d h w x).getHeight = H ∧
      (t.setAt d h w x).getWidth = W ∧
      ((t.setAt d h w x).getData.length : Int) = D * H * W ∧
      (t.setAt d h w x).getData.length = t.getData.length) := by
  have hc : InShape D H W (d, h, w) := inShape_of_inRange ht hr
  have hb := index_bounds ht hc
  have hs := setAt_spec ht hc x
  have hs1 : (t.setAt d h w x).Shaped D H W := shaped_setAt ht d h w x
  obtain ⟨_, c2, c3, c4, c5, c6⟩ := id hc
  refine ⟨⟨index_eq ht d h w, hb.1, ?_, hb.2⟩, ?_, ?_, ?_, ?_⟩
  · rw [index_eq ht]
    exact flat_lt c2 c3 c4 c5 c6
  · intro d2 h2 w2 hr2 e
    obtain ⟨_, _, e3, e4, e5, e6⟩ := inShape_of_inRange ht hr2
    rw [index_eq ht, index_eq ht] at e
    exact flat_inj e3 e4 e5 e6 c3 c4 c5 c6 e
  · exact (hs.2 (d, h, w) hc).1 rfl
  · intro d2 h2 w2 hr2 hne
    refine (hs.2 (d2, h2, w2) (inShape_of_inRange ht hr2)).2 (fun e => hne ?_)
    cases e
    exact ⟨rfl, rfl, rfl⟩
  · refine ⟨hs1.1, hs1.2.1, hs1.2.2.1, hs1.2.2.2, ?_⟩
    have h2 := ht.2.2.2
    have h3 := hs1.2.2.2
    unfold getData
    omega

/-- Instance of `tensor_write_frame`: writing `42` at `(1, 3, 2)` of the `2 x 5 x 4` example
tensor. -/
theorem tensor_write_frame_witness :
    (Example.input.setAt 1 3 2 42).at_ 1 3 2 = 42 ∧
    (∀ d2 h2 w2, Example.input.InRange d2 h2 w2 → ¬ (d2 = 1 ∧ h2 = 3 ∧ w2 = 2) →
      (Example.input.setAt 1 3 2 42).at_ d2 h2 w2 = Example.input.at_ d2 h2 w2) :=
  ⟨(tensor_write_frame Example.input 2 5 4 ⟨rfl, rfl, rfl, by decide⟩ 1 3 2
      (by unfold Tensor3D.InRange; decide) 42).2.2.1,
   (tensor_write_frame Example.input 2 5 4 ⟨rfl, rfl, rfl, by decide⟩ 1 3 2
      (by unfold Tensor3D.InRange; decide) 42).2.2.2.1⟩

end AlexNet

namespace AlexNet

open Tensor3D

namespace ConvolutionalLayerV2

variable {α : Type} [LinearOrderedCommRing α]

/-- The input buffer after `loadInputTile`, for a buffer at least as long as the patch: the
patch slots hold the zero-padded input, the length is unchanged. -/
theorem loadInputTile_cells (L : ConvolutionalLayerV2 α) (input : Tensor3D α)
    (b : TileBuffers α) (tiStart tiEnd rowStart rowEnd colStart colEnd : Nat)
    (hlen : (tiEnd - tiStart) * b.tileInputHeight * b.tileInputWidth ≤ b.inputBuffer.length) :
    (L.loadInputTile input b tiStart tiEnd rowStart rowEnd colStart colEnd).inputBuffer.length =
      b.inputBuffer.length ∧
    ∀ x h w, x < tiEnd - tiStart → h < b.tileInputHeight → w < b.tileInputWidth →
      (L.loadInputTile input b tiStart tiEnd rowStart rowEnd colStart colEnd).inputBuffer.getD
        (x * b.tileInputHeight * b.tileInputWidth + h * b.tileInputWidth + w) 0 =
      input.padded ((tiStart + x : Nat) : Int) ((rowStart : Int) * L.stride + h - L.padding)
          ((colStart : Int) * L.stride + w - L.padding) := by
  have e : (L.loadInputTile input b tiStart tiEnd rowStart rowEnd colStart colEnd).inputBuffer =
      (List.product (List.range (tiEnd - tiStart)) (List.product (List.range b.tileInputHeight)
        (List.range b.tileInputWidth))).foldl (fun ib p =>
          ib.set (p.1 * b.tileInputHeight * b.tileInputWidth + p.2.1 * b.tileInputWidth + p.2.2)
            (input.padded ((tiStart + p.1 : Nat) : Int)
              ((rowStart : Int) * L.stride + p.2.1 - L.padding)
              ((colStart : Int) * L.stride + p.2.2 - L.padding))) b.inputBuffer := by
    unfold loadInputTile
    simp only [foldl_range']
    rw [← foldl_product3 (fun ib x h w =>
      L.loadInputCell input b tiStart rowStart colStart ib (tiStart + x) h w)]
    simp only [loadInputCell_eq]
  rw [e]
  have key := foldl_set_spec
    (fun p : Nat × Nat × Nat =>
      p.1 * b.tileInputHeight * b.tileInputWidth + p.2.1 * b.tileInputWidth + p.2.2)
    (fun p : Nat × Nat × Nat => input.padded ((tiStart + p.1 : Nat) : Int)
              ((rowStart : Int) * L.stride + p.2.1 - L.padding)
              ((colStart : Int) * L.stride + p.2.2 - L.padding))
    (List.product (List.range (tiEnd - tiStart)) (List.product (List.range b.tileInputHeight)
        (List.range b.tileInputWidth)))
    (nodup_product3 (List.nodup_range _) (List.nodup_range _) (List.nodup_range _))
    (by
      intro p hp q hq e
      have hp2 := mem_product3.mp hp
      have hq2 := mem_product3.mp hq
      simp only [List.mem_range] at hp2 hq2
      have := flat3_inj hp2.2.1 hp2.2.2 hq2.2.1 hq2.2.2 e
      exact Prod.ext this.1 (Prod.ext this.2.1 this.2.2))
    b.inputBuffer
    (by
      intro p hp
      have hp2 := mem_product3.mp hp
      simp only [List.mem_range] at hp2
      exact lt_of_lt_of_le (flat3_lt hp2.1 hp2.2.1 hp2.2.2) hlen)
  refine ⟨key.1, fun x h w hx hh hw => ?_⟩
  exact key.2.1 (x, h, w) (mem_product3.mpr ⟨List.mem_range.mpr hx, List.mem_range.mpr hh,
    List.mem_range.mpr hw⟩)

/-- `loadInputTile` assigns elements of the input buffer only. -/
theorem loadInputTile_frame (L : ConvolutionalLayerV2 α) (input : Tensor3D α)
    (b : TileBuffers α) (tiStart tiEnd rowStart rowEnd colStart colEnd : Nat) :
    (L.loadInputTile input b tiStart tiEnd rowStart rowEnd colStart colEnd).weightBuffer =
      b.weightBuffer ∧
    (L.loadInputTile input b tiStart tiEnd rowStart rowEnd colStart colEnd).outputBuffer =
      b.outputBuffer ∧
    (L.loadInputTile input b tiStart tiEnd rowStart rowEnd colStart colEnd).tileInputHeight =
      b.tileInputHeight ∧
    (L.loadInputTile input b tiStart tiEnd rowStart rowEnd colStart colEnd).tileInputWidth =
      b.tileInputWidth :=
  ⟨rfl, rfl, rfl, rfl⟩

end ConvolutionalLayerV2

/-- C24. After `loadInputTile` for a tile starting at input channel `tiStart`, output row
`rowStart` and output column `colStart`, with an input buffer long enough for the patch:
for every `tii` in `[tiStart, tiEnd)`, `h < tileInputHeight`, `w < tileInputWidth` the slot
`(tii - tiStart) * tileInputHeight * tileInputWidth + h * tileInputWidth + w` lies inside the
buffer and holds `input(tii, rowStart * S + h - P, colStart * S + w - P)` when that row and
column lie inside the input, and `0` otherwise; the buffer length and the other buffers are
unchanged. -/
theorem loadInputTile_stages_patch {α : Type} [LinearOrderedCommRing α]
    (L : ConvolutionalLayerV2 α) (input : Tensor3D α) (buffers : TileBuffers α)
    (tiStart tiEnd rowStart rowEnd colStart colEnd : Nat)
    (hlen : (tiEnd - tiStart) * buffers.tileInputHeight * buffers.tileInputWidth ≤
      buffers.inputBuffer.length) :
    (∀ tii h w : Nat, tiStart ≤ tii → tii < tiEnd → h < buffers.tileInputHeight →
      w < buffers.tileInputWidth →
      (tii - tiStart) * buffers.tileInputHeight * buffers.tileInputWidth +
        h * buffers.tileInputWidth + w < buffers.inputBuffer.length ∧
      (L.loadInputTile input buffers tiStart tiEnd rowStart rowEnd colStart
        colEnd).inputBuffer.getD
        ((tii - tiStart) * buffers.tileInputHeight * buffers.tileInputWidth +
          h * buffers.tileInputWidth + w) 0 =
      if 0 ≤ (rowStart : Int) * L.stride + h - L.padding ∧
          (rowStart : Int) * L.stride + h - L.padding < input.getHeight ∧
          0 ≤ (colStart : Int) * L.stride + w - L.padding ∧
          (colStart : Int) * L.stride + w - L.padding < input.getWidth then
        input.at_ (tii : Int) ((rowStart : Int) * L.stride + h - L.padding)
          ((colStart : Int) * L.stride + w - L.padding)
      else 0) ∧
    (L.loadInputTile input buffers tiStart tiEnd rowStart rowEnd colStart
      colEnd).inputBuffer.length = buffers.inputBuffer.length ∧
    (L.loadInputTile input buffers tiStart tiEnd rowStart rowEnd colStart
      colEnd).weightBuffer = buffers.weightBuffer ∧
    (L.loadInputTile input buffers tiStart tiEnd rowStart rowEnd colStart
      colEnd).outputBuffer = buffers.outputBuffer := by
  have key := L.loadInputTile_cells input buffers tiStart tiEnd rowStart rowEnd colStart colEnd
    hlen
  refine ⟨fun tii h w h1 h2 hh hw => ⟨?_, ?_⟩, key.1, rfl, rfl⟩
  · exact lt_of_lt_of_le (flat3_lt (show tii - tiStart < tiEnd - tiStart by omega) hh hw) hlen
  · have := key.2 (tii - tiStart) h w (by omega) hh hw
    rw [this, show tiStart + (tii - tiStart) = tii by omega]
    rfl

/-- Instance of `loadInputTile_stages_patch`: the tile of input channel 1 at output row 1 and
output column 2 of the `2 x 5 x 4` example input (stride 2, padding 1), whose `5 x 3` patch
overlaps the padding on the right. -/
theorem loadInputTile_stages_patch_witness :
    (Example.convV2.loadInputTile Example.input Example.buffers 1 2 1 3 2 3).inputBuffer =
      [-3, 0, 0, 3, 0, 0, -2, 0, 0, 4, 0, 0, 0, 0, 0] ∧
    (∀ tii h w : Nat, 1 ≤ tii → tii < 2 → h < 5 → w < 3 →
      (tii - 1) * 5 * 3 + h * 3 + w < 15 ∧
      (Example.convV2.loadInputTile Example.input Example.buffers 1 2 1 3 2 3).inputBuffer.getD
        ((tii - 1) * 5 * 3 + h * 3 + w) 0 =
      if 0 ≤ ((1 : Nat) : Int) * (2 : Nat) + h - (1 : Nat) ∧
          ((1 : Nat) : Int) * (2 : Nat) + h - (1 : Nat) < 5 ∧
          0 ≤ ((2 : Nat) : Int) * (2 : Nat) + w - (1 : Nat) ∧
          ((2 : Nat) : Int) * (2 : Nat) + w - (1 : Nat) < 4 then
        Example.input.at_ (tii : Int) (((1 : Nat) : Int) * (2 : Nat) + h - (1 : Nat))
          (((2 : Nat) : Int) * (2 : Nat) + w - (1 : Nat))
      else 0) :=
  ⟨by decide,
   (loadInputTile_stages_patch Example.convV2 Example.input Example.buffers 1 2 1 3 2 3
      (by decide)).1⟩

end AlexNet

namespace AlexNet

open Tensor3D

/-- C25. `accumulateOutputTile` adds and never overwrites. For every output tensor of shape
`D x H x W` and every tile lying inside it (`toEnd ≤ D`, `rowStart + tileRows ≤ H`,
`colStart + tileCols ≤ W`): after the call, `output(too, rowStart + trr, colStart + tcc)` is
its previous value plus `outputBuffer[(too - toStart) * tileRows * tileCols + trr * tileCols +
tcc]` for every `too` in `[toStart, toEnd)`, `trr < tileRows`, `tcc < tileCols`; every
in-range element outside the tile's channel, row or column range is unchanged, and so is the
shape. -/
theorem accumulateOutputTile_adds {α : Type} [LinearOrderedCommRing α]
    (output : Tensor3D α) (buffers : TileBuffers α)
    (toStart toEnd rowStart rowEnd colStart colEnd : Nat) (D H W : Int)
    (ho : output.Shaped D H W) (hD : (toEnd : Int) ≤ D)
    (hH : ((rowStart + buffers.tileRows : Nat) : Int) ≤ H)
    (hW : ((colStart + buffers.tileCols : Nat) : Int) ≤ W) :
    (∀ too trr tcc : Nat, toStart ≤ too → too < toEnd → trr < buffers.tileRows →
      tcc < buffers.tileCols →
      (ConvolutionalLayerV2.accumulateOutputTile output buffers toStart toEnd rowStart rowEnd
        colStart colEnd).at_ (too : Int) ((rowStart + trr : Nat) : Int)
          ((colStart + tcc : Nat) : Int) =
      output.at_ (too : Int) ((rowStart + trr : Nat) : Int) ((colStart + tcc : Nat) : Int) +
        buffers.outputBuffer.getD ((too - toStart) * buffers.tileRows * buffers.tileCols +
          trr * buffers.tileCols + tcc) 0) ∧
    (∀ d h w : Int, output.InRange d h w →
      ¬ ((toStart : Int) ≤ d ∧ d < toEnd ∧ (rowStart : Int) ≤ h ∧
        h < ((rowStart + buffers.tileRows : Nat) : Int) ∧ (colStart : Int) ≤ w ∧
        w < ((colStart + buffers.tileCols : Nat) : Int)) →
      (ConvolutionalLayerV2.accumulateOutputTile output buffers toStart toEnd rowStart rowEnd
        colStart colEnd).at_ d h w = output.at_ d h w) ∧
    (ConvolutionalLayerV2.accumulateOutputTile output buffers toStart toEnd rowStart rowEnd
      colStart colEnd).Shaped D H W := by
  by_cases hle : toStart ≤ toEnd
  · have key := ConvolutionalLayerV2.accumulateOutputTile_spec buffers toStart toEnd rowStart
      rowEnd colStart colEnd ho (by rw [Nat.add_sub_cancel' hle]; exact hD) hH hW
    refine ⟨fun too trr tcc h1 h2 h3 h4 => ?_, fun d h w hr hout => ?_, key.1⟩
    · have hc : InShape D H W ((too : Int), ((rowStart + trr : Nat) : Int),
          ((colStart + tcc : Nat) : Int)) := by
        unfold InShape
        dsimp only
        push_cast at hH hW ⊢
        omega
      have := (key.2 _ hc).1 (too - toStart) trr tcc (by omega) h3 h4
        (by rw [Nat.add_sub_cancel' h1])
      exact this
    · have hc : InShape D H W (d, h, w) := inShape_of_inRange ho hr
      refine (key.2 _ hc).2 (fun x trr tcc hx htrr htcc e => hout ?_)
      cases e
      push_cast
      omega
  · have e : ConvolutionalLayerV2.accumulateOutputTile output buffers toStart toEnd rowStart
        rowEnd colStart colEnd = output := by
      unfold ConvolutionalLayerV2.accumulateOutputTile
      rw [show toEnd - toStart = 0 by omega]
      rfl
    rw [e]
    exact ⟨fun too _ _ h1 h2 _ _ => absurd (lt_of_le_of_lt h1 h2) (by omega),
      fun _ _ _ _ _ => rfl, ho⟩

/-- Instance of `accumulateOutputTile_adds`: a tile of 2 channels, 2 rows and 1 column added
into a `3 x 3 x 2` tensor at channel 1, row 1, column 1. -/
theorem accumulateOutputTile_adds_witness :
    (ConvolutionalLayerV2.accumulateOutputTile Example.output Example.buffers 1 3 1 3 1 2).data =
      [-4, 0, 4, -1, 3, -2, 2, -3, 1, 0, 0, 3, -1, 3, -2, 2, -3, 8] ∧
    Example.output.data = [-4, 0, 4, -1, 3, -2, 2, -3, 1, -4, 0, 4, -1, 3, -2, 2, -3, 1] ∧
    (∀ d h w : Int, Example.output.InRange d h w →
      ¬ (((1 : Nat) : Int) ≤ d ∧ d < ((3 : Nat) : Int) ∧ ((1 : Nat) : Int) ≤ h ∧
        h < ((1 + Example.buffers.tileRows : Nat) : Int) ∧ ((1 : Nat) : Int) ≤ w ∧
        w < ((1 + Example.buffers.tileCols : Nat) : Int)) →
      (ConvolutionalLayerV2.accumulateOutputTile Example.output Example.buffers 1 3 1 3 1
        2).at_ d h w = Example.output.at_ d h w) :=
  ⟨by decide, by decide,
   (accumulateOutputTile_adds Example.output Example.buffers 1 3 1 3 1 2 3 3 2
      ⟨rfl, rfl, rfl, by decide⟩ (by decide) (by decide) (by decide)).2.1⟩

end AlexNet

namespace AlexNet

/-- The values of `t` in `for (t = start; t < n; t += T)`: the numbers `start + k * T` below
`n`, provided the fuel covers the distance to `n`. -/
theorem mem_tileStartsFrom (n T : Nat) (hT : 1 ≤ T) :
    ∀ fuel t, n ≤ t + fuel → ∀ s, s ∈ tileStartsFrom n T fuel t ↔ s < n ∧ ∃ k, s = t + k * T := by
  intro fuel
  induction fuel with
  | zero =>
    intro t hn s
    simp only [tileStartsFrom, List.not_mem_nil, false_iff, not_and, not_exists]
    intro hs k e
    have := Nat.zero_le (k * T)
    omega
  | succ fuel ih =>
    intro t hn s
    unfold tileStartsFrom
    by_cases ht : t < n
    · rw [if_pos ht, List.mem_cons, ih (t + T) (by omega) s]
      constructor
      · rintro (e | ⟨h1, k, e⟩)
        · exact ⟨by omega, 0, by omega⟩
        · exact ⟨h1, k + 1, by rw [e, Nat.add_mul]; omega⟩
      · rintro ⟨h1, k, e⟩
        cases k with
        | zero => left; omega
        | succ k => right; exact ⟨h1, k, by rw [e, Nat.add_mul]; omega⟩
    · rw [if_neg ht]
      simp only [List.not_mem_nil, false_iff, not_and, not_exists]
      intro hs k e
      have := Nat.zero_le (k * T)
      omega

/-- The tile starts of `for (t = 0; t < n; t += T)` are the multiples of `T` below `n`. -/
theorem mem_tileStarts (n T : Nat) (hT : 1 ≤ T) (s : Nat) :
    s ∈ tileStarts n T ↔ s < n ∧ ∃ k, s = k * T := by
  unfold tileStarts
  rw [mem_tileStartsFrom n T hT n 0 (by omega)]
  simp only [Nat.zero_add]

/-- The loop visits its values in increasing order. -/
theorem tileStartsFrom_pairwise (n T : Nat) (hT : 1 ≤ T) :
    ∀ fuel t, n ≤ t + fuel → (tileStartsFrom n T fuel t).Pairwise (fun a b => a < b) := by
  intro fuel
  induction fuel with
  | zero => intro t _; exact List.Pairwise.nil
  | succ fuel ih =>
    intro t hn
    unfold tileStartsFrom
    by_cases ht : t < n
    · rw [if_pos ht]
      refine List.Pairwise.cons (fun s hs => ?_) (ih (t + T) (by omega))
      obtain ⟨_, k, e⟩ := (mem_tileStartsFrom n T hT fuel (t + T) (by omega) s).mp hs
      have := Nat.zero_le (k * T)
      omega
    · rw [if_neg ht]
      exact List.Pairwise.nil

/-- Two multiples of `T` whose tiles of width `T` share an element are equal. -/
theorem tile_start_unique {T a b x : Nat} (ha : a ≤ x) (hxa : x < a + T) (hb : b ≤ x)
    (hxb : x < b + T) (ka : ∃ k, a = k * T) (kb : ∃ k, b = k * T) : a = b := by
  obtain ⟨k1, e1⟩ := ka
  obtain ⟨k2, e2⟩ := kb
  subst e1 e2
  have h1 : k1 < k2 + 1 := by
    apply Nat.lt_of_mul_lt_mul_right (a := T)
    rw [Nat.add_mul]
    omega
  have h2 : k2 < k1 + 1 := by
    apply Nat.lt_of_mul_lt_mul_right (a := T)
    rw [Nat.add_mul]
    omega
  have : k1 = k2 := by omega
  rw [this]

/-- Every index below `n` lies in exactly one tile `[t, min (t + T) n)`. -/
theorem tile_of_index (n T : Nat) (hT : 1 ≤ T) (x : Nat) (hx : x < n) :
    ∃! t, t ∈ tileStarts n T ∧ t ≤ x ∧ x < min (t + T) n := by
  have hdm := Nat.div_add_mod x T
  have hml := Nat.mod_lt x (show T > 0 by omega)
  have hc : x / T * T = T * (x / T) := Nat.mul_comm _ _
  refine ⟨x / T * T, ⟨(mem_tileStarts n T hT _).mpr ⟨by omega, x / T, rfl⟩, by omega,
    by rw [lt_min_iff]; omega⟩, ?_⟩
  rintro t ⟨ht, h1, h2⟩
  rw [lt_min_iff] at h2
  exact tile_start_unique h1 h2.1 (by omega) (by omega) ((mem_tileStarts n T hT t).mp ht).2
    ⟨x / T, rfl⟩

/-- C22. Tile boundary clamping partitions each dimension. For every extent `n` and tile size
`T ≥ 1` the tiling loop `for (t = 0; t < n; t += T)` of `ConvolutionalLayerV2.forward` visits
exactly the multiples of `T` below `n`, in increasing order; each range `[t, min (t + T) n)`
is non-empty, has at most `T` elements and stays below `n`; two ranges that share an index
are the same range; the union of the ranges is `[0, n)`. Hence every (output channel, input
channel, row, column) index belongs to exactly one tile. -/
theorem tile_ranges_partition (n T : Nat) (hT : 1 ≤ T) :
    (∀ t, t ∈ tileStarts n T ↔ t < n ∧ ∃ k, t = k * T) ∧
    (tileStarts n T).Pairwise (fun a b => a < b) ∧
    (∀ t ∈ tileStarts n T, t < min (t + T) n ∧ min (t + T) n - t ≤ T ∧ min (t + T) n ≤ n) ∧
    (∀ t1 ∈ tileStarts n T, ∀ t2 ∈ tileStarts n T, ∀ x, t1 ≤ x → x < min (t1 + T) n →
      t2 ≤ x → x < min (t2 + T) n → t1 = t2) ∧
    (∀ x, x < n ↔ ∃ t ∈ tileStarts n T, t ≤ x ∧ x < min (t + T) n) ∧
    (∀ M N H W Tm Tn Tr Tc : Nat, 1 ≤ Tm → 1 ≤ Tn → 1 ≤ Tr → 1 ≤ Tc →
      ∀ to_ ti row col : Nat, to_ < M → ti < N → row < H → col < W →
      ∃! tile : Nat × Nat × Nat × Nat,
        (tile.1 ∈ tileStarts M Tm ∧ tile.1 ≤ to_ ∧ to_ < min (tile.1 + Tm) M) ∧
        (tile.2.1 ∈ tileStarts N Tn ∧ tile.2.1 ≤ ti ∧ ti < min (tile.2.1 + Tn) N) ∧
        (tile.2.2.1 ∈ tileStarts H Tr ∧ tile.2.2.1 ≤ row ∧ row < min (tile.2.2.1 + Tr) H) ∧
        (tile.2.2.2 ∈ tileStarts W Tc ∧ tile.2.2.2 ≤ col ∧ col < min (tile.2.2.2 + Tc) W)) := by
  refine ⟨mem_tileStarts n T hT, ?_, ?_, ?_, ?_, ?_⟩
  · unfold tileStarts
    exact tileStartsFrom_pairwise n T hT n 0 (by omega)
  · intro t ht
    have := ((mem_tileStarts n T hT t).mp ht).1
    refine ⟨by rw [lt_min_iff]; omega, ?_, min_le_right _ _⟩
    have := min_le_left (t + T) n
    omega
  · intro t1 h1 t2 h2 x a1 b1 a2 b2
    rw [lt_min_iff] at b1 b2
    exact tile_start_unique a1 b1.1 a2 b2.1 ((mem_tileStarts n T hT t1).mp h1).2
      ((mem_tileStarts n T hT t2).mp h2).2
  · intro x
    constructor
    · intro hx
      obtain ⟨t, ht, _⟩ := tile_of_index n T hT x hx
      exact ⟨t, ht.1, ht.2⟩
    · rintro ⟨t, _, _, h2⟩
      exact lt_of_lt_of_le h2 (min_le_right _ _)
  · intro M N H W Tm Tn Tr Tc hTm hTn hTr hTc to_ ti row col h1 h2 h3 h4
    obtain ⟨a, ha, ua⟩ := tile_of_index M Tm hTm to_ h1
    obtain ⟨b, hb, ub⟩ := tile_of_index N Tn hTn ti h2
    obtain ⟨c, hc, uc⟩ := tile_of_index H Tr hTr row h3
    obtain ⟨d, hd, ud⟩ := tile_of_index W Tc hTc col h4
    refine ⟨(a, b, c, d), ⟨ha, hb, hc, hd⟩, ?_⟩
    rintro ⟨a2, b2, c2, d2⟩ ⟨ga, gb, gc, gd⟩
    rw [ua a2 ga, ub b2 gb, uc c2 gc, ud d2 gd]

/-- Instance of `tile_ranges_partition`: an extent of 10 in tiles of 3, the last tile clamped
to one element. -/
theorem tile_ranges_partition_witness :
    tileStarts 10 3 = [0, 3, 6, 9] ∧
    (∀ t ∈ tileStarts 10 3, t < min (t + 3) 10 ∧ min (t + 3) 10 - t ≤ 3 ∧ min (t + 3) 10 ≤ 10) ∧
    (∀ x, x < 10 ↔ ∃ t ∈ tileStarts 10 3, t ≤ x ∧ x < min (t + 3) 10) :=
  ⟨by decide, (tile_ranges_partition 10 3 (by decide)).2.2.1,
    (tile_ranges_partition 10 3 (by decide)).2.2.2.2.1⟩

end AlexNet

namespace AlexNet

open Tensor3D

/-- Every in-range cell of the tiled layer's result is the rectified total of the bias and
the partial sums of all input-channel tiles. -/
theorem tiled_forward_tile_sums {α : Type} [LinearOrderedCommRing α]
    (L : ConvolutionalLayerV2 α) (input : Tensor3D α)
    (hTm : 1 ≤ L.Tm) (hTn : 1 ≤ L.Tn) (hTr : 1 ≤ L.Tr) (hTc : 1 ≤ L.Tc)
    (hnn : 0 ≤ (L.outputChannels : Int) *
      convOutDim input.height L.kernelSize L.stride L.padding *
      convOutDim input.width L.kernelSize L.stride L.padding) :
    ∃ t, L.forward input = some t ∧ ∀ to_ row col : Int, t.InRange to_ row col →
      t.at_ to_ row col = max 0 (L.bias.getD to_.toNat 0 +
        ((tileStarts L.inputChannels L.Tn).map (fun ti =>
          tileConvSum L.weights input L.kernelSize L.stride L.padding ti
            (min (ti + L.Tn) L.inputChannels - ti) to_ row col)).sum) := by
  obtain ⟨t, e, hs, hv⟩ := L.tiled_forward_spec input hTm hTn hTr hTc hnn
  refine ⟨t, e, fun to_ row col hr => ?_⟩
  have := hv (to_, row, col) (inShape_of_inRange hs hr)
  unfold Tensor3D.view convValue at this
  dsimp only at this
  rw [this, ConvolutionalLayerV2.sum_tileConvSum L.weights input L.inputChannels L.kernelSize L.stride L.padding
    L.Tn hTn]

/-- C21. ReLU is applied to the complete sum, not to each tile's partial sum. The layer with
`N = 2`, `M = 1`, `K = 1`, `S = 1`, `P = 0`, `Tn = 1`, bias `0` and weights `(2, -1)` splits
the `2 x 1 x 1` input of ones into two input-channel tiles; `processTile` leaves the partial
sums `2` and `-1` in the output buffers of the two tiles, the second one negative; `forward`
returns the single value `1 = max(0, 2 - 1)`, not `max(0, 2) + max(0, -1) = 2`. In general
every in-range cell of the result of `ConvolutionalLayerV2.forward` is
`max(0, bias + sum over the input-channel tiles of the tile's partial sum)`. -/
theorem relu_after_all_tiles (α : Type) [LinearOrderedCommRing α] :
    tileStarts Example.reluV2.inputChannels Example.reluV2.Tn = [0, 1] ∧
    (Example.reluTile 0).outputBuffer = [2] ∧
    (Example.reluTile 1).outputBuffer = [-1] ∧
    (Example.reluTile 1).out 0 < 0 ∧
    (Example.reluV2.forward Example.ones).map
      (fun t => (t.getDepth, t.getHeight, t.getWidth, t.getData)) = some (1, 1, 1, [1]) ∧
    (∀ t, Example.reluV2.forward Example.ones = some t →
      t.at_ 0 0 0 = max 0 (Example.reluV2.bias.getD 0 0 +
        ((Example.reluTile 0).out 0 + (Example.reluTile 1).out 0)) ∧
      t.at_ 0 0 0 ≠ Example.reluV2.bias.getD 0 0 +
        (max 0 ((Example.reluTile 0).out 0) + max 0 ((Example.reluTile 1).out 0))) ∧
    (∀ (L : ConvolutionalLayerV2 α) (input : Tensor3D α),
      1 ≤ L.Tm → 1 ≤ L.Tn → 1 ≤ L.Tr → 1 ≤ L.Tc →
      0 ≤ (L.outputChannels : Int) * convOutDim input.height L.kernelSize L.stride L.padding *
        convOutDim input.width L.kernelSize L.stride L.padding →
      ∃ t, L.forward input = some t ∧ ∀ to_ row col : Int, t.InRange to_ row col →
        t.at_ to_ row col = max 0 (L.bias.getD to_.toNat 0 +
          ((tileStarts L.inputChannels L.Tn).map (fun ti =>
            tileConvSum L.weights input L.kernelSize L.stride L.padding ti
              (min (ti + L.Tn) L.inputChannels - ti) to_ row col)).sum)) := by
  refine ⟨by decide, by decide, by decide, by decide, by decide, ?_, ?_⟩
  · intro t e
    have h : (Example.reluV2.forward Example.ones).map
        (fun t => (t.getDepth, t.getHeight, t.getWidth, t.getData)) = some (1, 1, 1, [1]) := by
      decide
    rw [e] at h
    obtain ⟨d, hh, w, data⟩ := t
    simp only [Option.map_some', Option.some.injEq, Prod.mk.injEq, getDepth, getHeight,
      getWidth, getData] at h
    obtain ⟨rfl, rfl, rfl, rfl⟩ := h
    exact ⟨by decide, by decide⟩
  · intro L input hTm hTn hTr hTc hnn
    exact tiled_forward_tile_sums L input hTm hTn hTr hTc hnn

end AlexNet

namespace AlexNet

open Tensor3D

/-- Layers of the same architecture have the same name. -/
theorem sameArch_getName {α : Type} {a b : Layer α} (h : Layer.SameArch a b) :
    b.getName = a.getName := by
  cases a <;> cases b <;> unfold Layer.SameArch at h <;> try exact h.elim
  · exact h.1
  · exact h.1
  · rw [h]
  · exact h.1

/-- Every layer has its own architecture. -/
theorem sameArch_refl {α : Type} (a : Layer α) : Layer.SameArch a a := by
  cases a <;> unfold Layer.SameArch
  · exact ⟨rfl, rfl, rfl, rfl, rfl, rfl⟩
  · exact ⟨rfl, rfl, rfl, rfl, rfl, rfl, rfl, rfl, rfl, rfl⟩
  · rfl
  · exact ⟨rfl, rfl, rfl⟩

/-- Every layer sequence has its own architecture. -/
theorem sameArch_refl_list {α : Type} (ls : List (Layer α)) :
    List.Forall₂ Layer.SameArch ls ls := by
  induction ls with
  | nil => exact List.Forall₂.nil
  | cons a ls ih => exact List.Forall₂.cons (sameArch_refl a) ih

/-- Layer sequences of the same architecture have the same names. -/
theorem sameArch_names {α : Type} {ls1 ls2 : List (Layer α)}
    (h : List.Forall₂ Layer.SameArch ls1 ls2) :
    ls2.map Layer.getName = ls1.map Layer.getName := by
  induction h with
  | nil => rfl
  | cons hab _ ih => rw [List.map_cons, List.map_cons, sameArch_getName hab, ih]

/-- A layer of the architecture of a fully-connected layer is fully connected. -/
theorem sameArch_fc {α : Type} {a : Layer α} {F : FullyConnectedLayer α}
    (h : Layer.SameArch a (Layer.fc F)) : ∃ F0, a = Layer.fc F0 ∧ F.name = F0.name := by
  cases a <;> unfold Layer.SameArch at h <;> try exact h.elim
  exact ⟨_, rfl, h.1⟩

/-- The element of the first sequence that corresponds to an element of the second. -/
theorem forall₂_getElem? {β γ : Type} {R : β → γ → Prop} {l1 : List β} {l2 : List γ}
    (h : List.Forall₂ R l1 l2) :
    ∀ (i : Nat) (b : γ), l2[i]? = some b → ∃ a, l1[i]? = some a ∧ R a b := by
  induction h with
  | nil => intro i b hb; simp at hb
  | cons hab _ ih =>
    intro i b hb
    cases i with
    | zero =>
      simp only [List.getElem?_cons_zero, Option.some.injEq] at hb
      subst hb
      exact ⟨_, List.getElem?_cons_zero, hab⟩
    | succ i =>
      simp only [List.getElem?_cons_succ] at hb ⊢
      exact ih i b hb

/-- The fully-connected layers built by `CNN::CNN()` are `fc6`, `fc7`, `fc8` at positions
8, 9, 10. -/
theorem new_fc_positions {α : Type} [LinearOrderedCommRing α] (i : Nat)
    (F0 : FullyConnectedLayer α) (h : (CNN.new : CNN α).layers[i]? = some (Layer.fc F0)) :
    (i = 10 ∧ F0.name = "fc8") ∨ (i ≠ 10 ∧ F0.name ≠ "fc8") := by
  unfold CNN.new at h
  rcases i with _ | _ | _ | _ | _ | _ | _ | _ | _ | _ | _ | i <;>
    simp only [List.getElem?_cons_zero, List.getElem?_cons_succ, Option.some.injEq,
      List.getElem?_nil] at h <;> cases h
  · right; exact ⟨by decide, by show (_ : String) ≠ _; unfold FullyConnectedLayer.new; dsimp only; decide⟩
  · right; exact ⟨by decide, by show (_ : String) ≠ _; unfold FullyConnectedLayer.new; dsimp only; decide⟩
  · left; exact ⟨rfl, rfl⟩

/-- The fully-connected layers built by `CNNV2::CNNV2()` are `fc6`, `fc7`, `fc8` at positions
8, 9, 10. -/
theorem newV2_fc_positions {α : Type} [LinearOrderedCommRing α] (i : Nat)
    (F0 : FullyConnectedLayer α) (h : (CNN.newV2 : CNN α).layers[i]? = some (Layer.fc F0)) :
    (i = 10 ∧ F0.name = "fc8") ∨ (i ≠ 10 ∧ F0.name ≠ "fc8") := by
  unfold CNN.newV2 at h
  rcases i with _ | _ | _ | _ | _ | _ | _ | _ | _ | _ | _ | i <;>
    simp only [List.getElem?_cons_zero, List.getElem?_cons_succ, Option.some.injEq,
      List.getElem?_nil] at h <;> cases h
  · right; exact ⟨by decide, by show (_ : String) ≠ _; unfold FullyConnectedLayer.new; dsimp only; decide⟩
  · right; exact ⟨by decide, by show (_ : String) ≠ _; unfold FullyConnectedLayer.new; dsimp only; decide⟩
  · left; exact ⟨rfl, rfl⟩

/-- C29. In every network with the layer sequence built by the `CNN` constructor or by the
`CNNV2` constructor (whatever parameters were loaded), the layer names are `conv1, pool1,
conv2, pool2, conv3, conv4, conv5, pool5, fc6, fc7, fc8`: exactly one layer is named `fc8`
and it is the last one. Hence for every fully-connected layer of the network and every
input, `forward` returns a `1 x 1 x outputSize` tensor; for the last layer every element is
`bias[k] + Σ_j weights[k][j] * x[j]` without rectification, and for every other
fully-connected layer (`fc6`, `fc7`) every element is the rectified value and is `≥ 0`. -/
theorem fc8_only_terminal {α : Type} [LinearOrderedCommRing α] (net : CNN α)
    (harch : List.Forall₂ Layer.SameArch (CNN.new : CNN α).layers net.layers ∨
      List.Forall₂ Layer.SameArch (CNN.newV2 : CNN α).layers net.layers) :
    net.layers.map Layer.getName = ["conv1", "pool1", "conv2", "pool2", "conv3", "conv4",
      "conv5", "pool5", "fc6", "fc7", "fc8"] ∧
    (net.layers.map Layer.getName).count "fc8" = 1 ∧
    (net.layers.map Layer.getName).getLast? = some "fc8" ∧
    ∀ (i : Nat) (F : FullyConnectedLayer α) (input : Tensor3D α),
      net.layers[i]? = some (Layer.fc F) →
      ∃ t, (Layer.fc F).forward input = some t ∧ t.Shaped 1 1 F.outputSize ∧
        (i + 1 = net.layers.length → F.name = "fc8" ∧ ∀ k, k < F.outputSize →
          t.at_ 0 0 (k : Int) = F.bias.getD k 0 + ∑ j ∈ Finset.range F.inputSize,
            (F.weights.getD k []).getD j 0 * (FullyConnectedLayer.flatten input).getD j 0) ∧
        (i + 1 ≠ net.layers.length → F.name ≠ "fc8" ∧ ∀ k, k < F.outputSize →
          0 ≤ t.at_ 0 0 (k : Int) ∧
          t.at_ 0 0 (k : Int) = max 0 (F.bias.getD k 0 + ∑ j ∈ Finset.range F.inputSize,
            (F.weights.getD k []).getD j 0 * (FullyConnectedLayer.flatten input).getD j 0)) := by
  have hnames : net.layers.map Layer.getName = ["conv1", "pool1", "conv2", "pool2", "conv3",
      "conv4", "conv5", "pool5", "fc6", "fc7", "fc8"] := by
    rcases harch with h | h
    · rw [sameArch_names h]; rfl
    · rw [sameArch_names h]; rfl
  have hlen : net.layers.length = 11 := by
    rcases harch with h | h
    · rw [← h.length_eq]; rfl
    · rw [← h.length_eq]; rfl
  have hpos : ∀ (i : Nat) (F : FullyConnectedLayer α), net.layers[i]? = some (Layer.fc F) →
      (i = 10 ∧ F.name = "fc8") ∨ (i ≠ 10 ∧ F.name ≠ "fc8") := by
    intro i F hi
    rcases harch with h | h
    · obtain ⟨a, ha, hab⟩ := forall₂_getElem? h i _ hi
      obtain ⟨F0, rfl, hn⟩ := sameArch_fc hab
      rw [hn]
      exact new_fc_positions i F0 ha
    · obtain ⟨a, ha, hab⟩ := forall₂_getElem? h i _ hi
      obtain ⟨F0, rfl, hn⟩ := sameArch_fc hab
      rw [hn]
      exact newV2_fc_positions i F0 ha
  refine ⟨hnames, by rw [hnames]; decide, by rw [hnames]; rfl, ?_⟩
  intro i F input hi
  obtain ⟨t, e, hs, hv⟩ := F.fc_forward_spec input
  refine ⟨t, e, hs, fun hlast => ?_, fun hnot => ?_⟩
  · rcases hpos i F hi with ⟨_, hn⟩ | ⟨h10, _⟩
    · refine ⟨hn, fun k hk => ?_⟩
      rw [hv k hk, if_neg (by rw [hn]; exact fun h => h rfl)]
    · omega
  · rcases hpos i F hi with ⟨h10, _⟩ | ⟨_, hn⟩
    · omega
    · refine ⟨hn, fun k hk => ?_⟩
      rw [hv k hk, if_pos hn]
      exact ⟨le_max_left _ _, rfl⟩

/-- Instance of `fc8_only_terminal`: the network as built by the `CNN` constructor. -/
theorem fc8_only_terminal_witness :
    ((CNN.new : CNN Int).layers.map Layer.getName).count "fc8" = 1 ∧
    ((CNN.new : CNN Int).layers.map Layer.getName).getLast? = some "fc8" ∧
    ∀ (i : Nat) (F : FullyConnectedLayer Int) (input : Tensor3D Int),
      (CNN.new : CNN Int).layers[i]? = some (Layer.fc F) →
      ∃ t, (Layer.fc F).forward input = some t ∧ t.Shaped 1 1 F.outputSize ∧
        (i + 1 = (CNN.new : CNN Int).layers.length → F.name = "fc8" ∧ ∀ k, k < F.outputSize →
          t.at_ 0 0 (k : Int) = F.bias.getD k 0 + ∑ j ∈ Finset.range F.inputSize,
            (F.weights.getD k []).getD j 0 * (FullyConnectedLayer.flatten input).getD j 0) ∧
        (i + 1 ≠ (CNN.new : CNN Int).layers.length → F.name ≠ "fc8" ∧ ∀ k, k < F.outputSize →
          0 ≤ t.at_ 0 0 (k : Int) ∧
          t.at_ 0 0 (k : Int) = max 0 (F.bias.getD k 0 + ∑ j ∈ Finset.range F.inputSize,
            (F.weights.getD k []).getD j 0 * (FullyConnectedLayer.flatten input).getD j 0)) :=
  (fc8_only_terminal (CNN.new : CNN Int) (Or.inl (sameArch_refl_list _))).2

end AlexNet

namespace AlexNet

/-- Two loops whose bodies agree on the states of an invariant compute the same state. -/
theorem foldl_congr_inv {σ ι : Type} (Inv : σ → Prop) (f g : σ → ι → σ) (l : List ι)
    (h : ∀ s x, x ∈ l → Inv s → f s x = g s x ∧ Inv (g s x)) :
    ∀ s, Inv s → l.foldl f s = l.foldl g s ∧ Inv (l.foldl g s) := by
  induction l with
  | nil => exact fun s hs => ⟨rfl, hs⟩
  | cons a l ih =>
    intro s hs
    have ha := h s a (List.mem_cons_self a l) hs
    rw [List.foldl_cons, List.foldl_cons, ha.1]
    exact ih (fun s x hx => h s x (List.mem_cons_of_mem a hx)) _ ha.2

namespace ConvolutionalLayerV2

variable {α : Type} [LinearOrderedCommRing α]

/-- One multiply-accumulate changes the contents of the output buffer only. -/
theorem tileMac_frame (L : ConvolutionalLayerV2 α) (tiStart toStart : Nat)
    (b0 b : TileBuffers α) (i j trr tcc too tii : Nat) (hb : TileBuffers.Frame b0 b) :
    TileBuffers.Frame b0 (L.tileMac tiStart toStart b i j trr tcc too tii) := by
  obtain ⟨h1, h2, h3, h4, h5, h6, h7, h8, h9⟩ := hb
  refine ⟨h1, h2, h3, h4, h5, h6, h7, h8, ?_⟩
  unfold tileMac
  simp only [List.length_set]
  exact h9

/-- Inside its guard the macro `PROCESS_TII` is one multiply-accumulate. -/
theorem processTii_eq_tileMac (L : ConvolutionalLayerV2 α) (b0 b : TileBuffers α)
    (i j trr tcc tiStart tiEnd toStart x y : Nat) (hy : y < tiEnd - tiStart)
    (hb : TileBuffers.Frame b0 b) :
    L.processTii i j trr tcc tiStart tiEnd (x * b0.tiSize * L.kernelSize * L.kernelSize)
      (x * b0.tileRows * b0.tileCols + trr * b0.tileCols + tcc) b y =
    L.tileMac tiStart toStart b i j trr tcc (toStart + x) (tiStart + y) := by
  obtain ⟨_, _, h3, h4, _, _, h7, _, _⟩ := hb
  unfold processTii tileMac
  rw [if_pos (by omega)]
  simp only [Nat.add_sub_cancel_left, h3, h4, h7]

/-- The unrolled `computeTileUnitTii` is the plain loop over the input channels of the
tile. -/
theorem computeTileUnitTii_loop (L : ConvolutionalLayerV2 α) (b0 b : TileBuffers α)
    (i j trr tcc tiStart tiEnd toStart x : Nat) (hTn : tiEnd - tiStart ≤ L.Tn)
    (hb : TileBuffers.Frame b0 b) :
    L.computeTileUnitTii b i j trr tcc tiStart tiEnd (toStart + x) toStart =
      (List.range (tiEnd - tiStart)).foldl (fun b y =>
        L.tileMac tiStart toStart b i j trr tcc (toStart + x) (tiStart + y)) b ∧
    TileBuffers.Frame b0 ((List.range (tiEnd - tiStart)).foldl (fun b y =>
        L.tileMac tiStart toStart b i j trr tcc (toStart + x) (tiStart + y)) b) := by
  rw [computeTileUnitTii_eq L b i j trr tcc tiStart tiEnd (toStart + x) toStart hTn]
  simp only [Nat.add_sub_cancel_left]
  rw [hb.2.2.2.2.2.2.1, hb.2.2.1, hb.2.2.2.1]
  exact foldl_congr_inv (TileBuffers.Frame b0) _ _ _
    (fun s y hy hs => ⟨L.processTii_eq_tileMac b0 s i j trr tcc tiStart tiEnd toStart x y
      (List.mem_range.mp hy) hs, L.tileMac_frame tiStart toStart b0 s i j trr tcc _ _ hs⟩) b hb

/-- The unrolled `computeTileUnitToo` is the plain double loop over the output and input
channels of the tile. -/
theorem computeTileUnitToo_loop (L : ConvolutionalLayerV2 α) (b0 b : TileBuffers α)
    (i j trr tcc tiStart tiEnd toStart toEnd : Nat) (hTn : tiEnd - tiStart ≤ L.Tn)
    (hTm : toEnd - toStart ≤ L.Tm) (hb : TileBuffers.Frame b0 b) :
    L.computeTileUnitToo b i j trr tcc tiStart tiEnd toStart toEnd =
      (List.range (toEnd - toStart)).foldl (fun b x =>
        (List.range (tiEnd - tiStart)).foldl (fun b y =>
          L.tileMac tiStart toStart b i j trr tcc (toStart + x) (tiStart + y)) b) b ∧
    TileBuffers.Frame b0 ((List.range (toEnd - toStart)).foldl (fun b x =>
        (List.range (tiEnd - tiStart)).foldl (fun b y =>
          L.tileMac tiStart toStart b i j trr tcc (toStart + x) (tiStart + y)) b) b) := by
  rw [computeTileUnitToo_eq L b i j trr tcc tiStart tiEnd toStart toEnd hTm]
  refine foldl_congr_inv (TileBuffers.Frame b0) _ _ _ (fun s x hx hs => ?_) b hb
  have hx2 := List.mem_range.mp hx
  unfold processToo
  rw [if_pos (by omega)]
  exact L.computeTileUnitTii_loop b0 s i j trr tcc tiStart tiEnd toStart x hTn hs

/-- The tile computation with its unrolled macros is the ordinary six-fold loop nest. -/
theorem processTile_eq_loops (L : ConvolutionalLayerV2 α) (b : TileBuffers α)
    (tiStart tiEnd toStart toEnd : Nat) (hTn : tiEnd - tiStart ≤ L.Tn)
    (hTm : toEnd - toStart ≤ L.Tm) :
    L.processTile b tiStart tiEnd toStart toEnd =
      L.processTileLoops b tiStart tiEnd toStart toEnd := by
  have hb : TileBuffers.Frame b b := ⟨rfl, rfl, rfl, rfl, rfl, rfl, rfl, rfl, rfl⟩
  unfold processTile processTileLoops
  simp only [foldl_range']
  refine (foldl_congr_inv (TileBuffers.Frame b) _ _ _ (fun s i _ hs => ?_) b hb).1
  refine foldl_congr_inv (TileBuffers.Frame b) _ _ _ (fun s j _ hs => ?_) s hs
  refine foldl_congr_inv (TileBuffers.Frame b) _ _ _ (fun s trr _ hs => ?_) s hs
  refine foldl_congr_inv (TileBuffers.Frame b) _ _ _ (fun s tcc _ hs => ?_) s hs
  exact L.computeTileUnitToo_loop b s i j trr tcc tiStart tiEnd toStart toEnd hTn hTm hs

end ConvolutionalLayerV2
end AlexNet

namespace AlexNet

/-- C26. The hand-unrolled macros equal ordinary nested loops. For every tile with
`toEnd - toStart ≤ Tm` and `tiEnd - tiStart ≤ Tn` (widths below, equal to or above the unroll
factors 4 and 7), `processTile` returns the buffers that the plain loop nest in the order
`i, j, trr, tcc, too, tii` returns, which performs
`outputBuffer[out(too, trr, tcc)] += weightBuffer[w(too, tii, i, j)] *
inputBuffer[in(tii, trr * S + i, tcc * S + j)]` once for each `i, j < K`, `trr < tileRows`,
`tcc < tileCols`, `too` in `[toStart, toEnd)`, `tii` in `[tiStart, tiEnd)` and nothing else.
So, for an output buffer of `(toEnd - toStart) * tileRows * tileCols` elements, only the
contents of the output buffer change and each tile output cell gains the sum over `i`, `j`,
`tii` of those products. -/
theorem processTile_unrolled_eq_loops {α : Type} [LinearOrderedCommRing α]
    (L : ConvolutionalLayerV2 α) (buffers : TileBuffers α) (tiStart tiEnd toStart toEnd : Nat)
    (hTm : toEnd - toStart ≤ L.Tm) (hTn : tiEnd - tiStart ≤ L.Tn) :
    L.processTile buffers tiStart tiEnd toStart toEnd =
      L.processTileLoops buffers tiStart tiEnd toStart toEnd ∧
    (buffers.outputBuffer.length = (toEnd - toStart) * buffers.tileRows * buffers.tileCols →
      TileBuffers.Frame buffers (L.processTile buffers tiStart tiEnd toStart toEnd) ∧
      ∀ too trr tcc : Nat, toStart ≤ too → too < toEnd → trr < buffers.tileRows →
        tcc < buffers.tileCols →
        (L.processTile buffers tiStart tiEnd toStart toEnd).outputBuffer.getD
          ((too - toStart) * buffers.tileRows * buffers.tileCols +
            trr * buffers.tileCols + tcc) 0 =
        buffers.outputBuffer.getD ((too - toStart) * buffers.tileRows * buffers.tileCols +
            trr * buffers.tileCols + tcc) 0 +
          ∑ i ∈ Finset.range L.kernelSize, ∑ j ∈ Finset.range L.kernelSize,
            ∑ y ∈ Finset.range (tiEnd - tiStart),
              buffers.weightBuffer.getD
                ((too - toStart) * buffers.tiSize * L.kernelSize * L.kernelSize +
                  y * L.kernelSize * L.kernelSize + i * L.kernelSize + j) 0 *
              buffers.inputBuffer.getD
                (y * buffers.tileInputHeight * buffers.tileInputWidth +
                  (trr * L.stride + i) * buffers.tileInputWidth + (tcc * L.stride + j)) 0) := by
  refine ⟨L.processTile_eq_loops buffers tiStart tiEnd toStart toEnd hTn hTm, fun hlen => ?_⟩
  have hP := L.processTile_adds buffers tiStart tiEnd toStart toEnd hTn hTm hlen buffers
    ⟨rfl, rfl, rfl, rfl, rfl, rfl, rfl, rfl, rfl⟩
  refine ⟨hP.1, fun too trr tcc h1 h2 htrr htcc => ?_⟩
  have hx : too - toStart < toEnd - toStart := by omega
  have hk : (too - toStart) * buffers.tileRows * buffers.tileCols + trr * buffers.tileCols +
      tcc < buffers.outputBuffer.length := by
    rw [hlen]
    exact flat3_lt hx htrr htcc
  have hval := hP.2 _ hk
  unfold TileBuffers.out at hval
  rw [hval]
  dsimp only
  rw [sum_tile_collapse _ _ _ _ _ _ (too - toStart) trr tcc hx htrr htcc]

/-- Instance of `processTile_unrolled_eq_loops`: a tile of 5 output channels and 9 input
channels, both wider than the unrolled part of the macros. -/
theorem processTile_unrolled_eq_loops_witness :
    Example.wideV2.processTile Example.wideBuffers 0 9 0 5 =
      Example.wideV2.processTileLoops Example.wideBuffers 0 9 0 5 ∧
    (Example.wideV2.processTile Example.wideBuffers 0 9 0 5).outputBuffer.getD
        ((3 - 0) * Example.wideBuffers.tileRows * Example.wideBuffers.tileCols +
          0 * Example.wideBuffers.tileCols + 0) 0 =
      Example.wideBuffers.outputBuffer.getD
        ((3 - 0) * Example.wideBuffers.tileRows * Example.wideBuffers.tileCols +
          0 * Example.wideBuffers.tileCols + 0) 0 +
        ∑ i ∈ Finset.range Example.wideV2.kernelSize,
          ∑ j ∈ Finset.range Example.wideV2.kernelSize, ∑ y ∈ Finset.range (9 - 0),
            Example.wideBuffers.weightBuffer.getD
              ((3 - 0) * Example.wideBuffers.tiSize * Example.wideV2.kernelSize *
                  Example.wideV2.kernelSize +
                y * Example.wideV2.kernelSize * Example.wideV2.kernelSize +
                i * Example.wideV2.kernelSize + j) 0 *
            Example.wideBuffers.inputBuffer.getD
              (y * Example.wideBuffers.tileInputHeight * Example.wideBuffers.tileInputWidth +
                (0 * Example.wideV2.stride + i) * Example.wideBuffers.tileInputWidth +
                (0 * Example.wideV2.stride + j)) 0 :=
  ⟨(processTile_unrolled_eq_loops Example.wideV2 Example.wideBuffers 0 9 0 5 (by decide)
      (by decide)).1,
   ((processTile_unrolled_eq_loops Example.wideV2 Example.wideBuffers 0 9 0 5 (by decide)
      (by decide)).2 (by decide)).2 3 0 0 (by decide) (by decide) (by decide) (by decide)⟩

end AlexNet

namespace AlexNet

/-- A checked loop whose body never fails on the states of an invariant returns the state
of the unchecked loop. -/
theorem foldlM_eq_some {σ ι : Type} (Inv : σ → Prop) (g : σ → ι → Option σ) (f : σ → ι → σ)
    (l : List ι) (h : ∀ s x, x ∈ l → Inv s → g s x = some (f s x) ∧ Inv (f s x)) :
    ∀ s, Inv s → l.foldlM g s = some (l.foldl f s) ∧ Inv (l.foldl f s) := by
  induction l with
  | nil => exact fun s hs => ⟨rfl, hs⟩
  | cons a l ih =>
    intro s hs
    have ha := h s a (List.mem_cons_self a l) hs
    rw [List.foldlM_cons, ha.1, List.foldl_cons]
    exact ih (fun s x hx => h s x (List.mem_cons_of_mem a hx)) _ ha.2

namespace Tensor3D

variable {α : Type}

/-- Writing through `at` keeps the declared dimensions. -/
theorem dims_setAt {t : Tensor3D α} {D H W : Int} (ht : t.Dims D H W) (d h w : Int) (v : α) :
    (t.setAt d h w v).Dims D H W := by
  unfold setAt
  split
  · exact ht
  · exact ht

/-- A checked read at coordinates inside the declared dimensions succeeds. -/
theorem atChecked_some [Zero α] {t : Tensor3D α} {D H W : Int} (ht : t.Dims D H W)
    {d h w : Int} (hd0 : 0 ≤ d) (hd : d < D) (hh0 : 0 ≤ h) (hh : h < H) (hw0 : 0 ≤ w)
    (hw : w < W) : t.atChecked d h w = some (t.at_ d h w) := by
  unfold atChecked
  rw [if_pos]
  rw [ht.1, ht.2.1, ht.2.2]
  exact ⟨hd0, hd, hh0, hh, hw0, hw⟩

/-- A checked write at coordinates inside the declared dimensions succeeds. -/
theorem setAtChecked_some {t : Tensor3D α} {D H W : Int} (ht : t.Dims D H W)
    {d h w : Int} (hd0 : 0 ≤ d) (hd : d < D) (hh0 : 0 ≤ h) (hh : h < H) (hw0 : 0 ≤ w)
    (hw : w < W) (v : α) : t.setAtChecked d h w v = some (t.setAt d h w v) := by
  unfold setAtChecked
  rw [if_pos]
  rw [ht.1, ht.2.1, ht.2.2]
  exact ⟨hd0, hd, hh0, hh, hw0, hw⟩

/-- A freshly constructed tensor has the requested dimensions. -/
theorem dims_new {d h w : Int} {v : α} {t : Tensor3D α} (e : Tensor3D.new d h w v = some t) :
    t.Dims d h w := by
  have := (shaped_new e).1
  exact ⟨this.1, this.2.1, this.2.2.1⟩

end Tensor3D

namespace ConvolutionalLayer

open Tensor3D

variable {α : Type} [LinearOrderedCommRing α]

/-- Inside the output shape, with the weights of the constructor's shape and an input of
`inputChannels` channels, the checked multiply-accumulate succeeds. -/
theorem macStepChecked_some (L : ConvolutionalLayer α) (input : Tensor3D α)
    (hw : L.weights.Dims L.outputChannels L.inputChannels
      ((L.kernelSize * L.kernelSize : Nat) : Int))
    (hin : input.depth = L.inputChannels) {H W : Int} {output : Tensor3D α}
    (ho : output.Dims L.outputChannels H W) (row col to_ ti i j : Nat)
    (hrow : (row : Int) < H) (hcol : (col : Int) < W) (hto : to_ < L.outputChannels)
    (hti : ti < L.inputChannels) (hi : i < L.kernelSize) (hj : j < L.kernelSize) :
    L.macStepChecked input row col to_ ti i output j =
      some (L.macStep input row col to_ ti i output j) ∧
    (L.macStep input row col to_ ti i output j).Dims L.outputChannels H W := by
  unfold macStepChecked macStep
  dsimp only
  split
  · rename_i hg
    unfold getHeight getWidth at hg
    have hk : i * L.kernelSize + j < L.kernelSize * L.kernelSize := flat2_lt hi hj
    rw [atChecked_some hw (by positivity) (by exact_mod_cast hto) (by positivity)
        (by exact_mod_cast hti) (by positivity) (by exact_mod_cast hk),
      atChecked_some (D := input.depth) (H := input.height) (W := input.width) ⟨rfl, rfl, rfl⟩
        (by positivity) (by rw [hin]; exact_mod_cast hti) hg.1 hg.2.1 hg.2.2.1 hg.2.2.2,
      atChecked_some ho (by positivity) (by exact_mod_cast hto) (by positivity) hrow
        (by positivity) hcol]
    simp only [Option.bind_eq_bind, Option.some_bind]
    exact ⟨setAtChecked_some ho (by positivity) (by exact_mod_cast hto) (by positivity) hrow
      (by positivity) hcol _, dims_setAt ho _ _ _ _⟩
  · exact ⟨rfl, ho⟩

/-- Inside the output shape the checked `to_`-loop body succeeds. -/
theorem cellStepChecked_some (L : ConvolutionalLayer α) (input : Tensor3D α)
    (hw : L.weights.Dims L.outputChannels L.inputChannels
      ((L.kernelSize * L.kernelSize : Nat) : Int))
    (hin : input.depth = L.inputChannels) {H W : Int} {output : Tensor3D α}
    (ho : output.Dims L.outputChannels H W) (row col to_ : Nat)
    (hrow : (row : Int) < H) (hcol : (col : Int) < W) (hto : to_ < L.outputChannels) :
    L.cellStepChecked input row col output to_ = some (L.cellStep input row col output to_) ∧
    (L.cellStep input row col output to_).Dims L.outputChannels H W := by
  have hto2 : ((to_ : Nat) : Int) < L.outputChannels := by exact_mod_cast hto
  have h0 : ∀ n : Nat, (0 : Int) ≤ n := fun n => by positivity
  unfold cellStepChecked cellStep
  rw [setAtChecked_some ho (h0 _) hto2 (h0 _) hrow (h0 _) hcol]
  have ho1 := dims_setAt ho (to_ : Int) (row : Int) (col : Int) (L.bias.getD to_ 0)
  have hloop := foldlM_eq_some (fun s : Tensor3D α => s.Dims L.outputChannels H W)
    (fun output ti => (List.range L.kernelSize).foldlM (fun output i =>
      (List.range L.kernelSize).foldlM (fun output j =>
        L.macStepChecked input row col to_ ti i output j) output) output)
    (fun output ti => (List.range L.kernelSize).foldl (fun output i =>
      (List.range L.kernelSize).foldl (fun output j =>
        L.macStep input row col to_ ti i output j) output) output)
    (List.range L.inputChannels)
    (fun s ti hti hs => foldlM_eq_some (fun s : Tensor3D α => s.Dims L.outputChannels H W)
        _ _ _
      (fun s i hi hs => foldlM_eq_some (fun s : Tensor3D α => s.Dims L.outputChannels H W)
          _ _ _
        (fun s j hj hs => L.macStepChecked_some input hw hin hs row col to_ ti i j hrow hcol
          hto (List.mem_range.mp hti) (List.mem_range.mp hi) (List.mem_range.mp hj)) s hs)
      s hs)
    _ ho1
  simp only [Option.bind_eq_bind, Option.some_bind]
  rw [hloop.1]
  simp only [Option.some_bind]
  rw [atChecked_some hloop.2 (h0 _) hto2 (h0 _) hrow (h0 _) hcol]
  simp only [Option.some_bind]
  exact ⟨setAtChecked_some hloop.2 (h0 _) hto2 (h0 _) hrow (h0 _) hcol _,
    dims_setAt hloop.2 _ _ _ _⟩

/-- With the weights of the constructor's shape and an input of `inputChannels` channels,
the checked loop nest of `forward` returns what `forward` returns. -/
theorem conv_forwardChecked_eq (L : ConvolutionalLayer α) (input : Tensor3D α)
    (hw : L.weights.Dims L.outputChannels L.inputChannels
      ((L.kernelSize * L.kernelSize : Nat) : Int))
    (hin : input.depth = L.inputChannels) :
    L.forwardChecked input = L.forward input := by
  unfold forwardChecked forward
  dsimp only
  cases e : Tensor3D.new (L.outputChannels : Int)
      (convOutDim input.getHeight L.kernelSize L.stride L.padding)
      (convOutDim input.getWidth L.kernelSize L.stride L.padding) (0 : α) with
  | none => rfl
  | some output =>
    dsimp only
    exact (foldlM_eq_some (fun s : Tensor3D α => s.Dims L.outputChannels
        (convOutDim input.getHeight L.kernelSize L.stride L.padding)
        (convOutDim input.getWidth L.kernelSize L.stride L.padding)) _ _ _
      (fun s row hrow hs => foldlM_eq_some (fun s : Tensor3D α => s.Dims L.outputChannels
          (convOutDim input.getHeight L.kernelSize L.stride L.padding)
          (convOutDim input.getWidth L.kernelSize L.stride L.padding)) _ _ _
        (fun s col hcol hs => foldlM_eq_some (fun s : Tensor3D α => s.Dims L.outputChannels
            (convOutDim input.getHeight L.kernelSize L.stride L.padding)
            (convOutDim input.getWidth L.kernelSize L.stride L.padding)) _ _ _
          (fun s to_ hto hs => L.cellStepChecked_some input hw hin hs row col to_
            (by have := List.mem_range.mp hrow; omega)
            (by have := List.mem_range.mp hcol; omega) (List.mem_range.mp hto)) s hs)
        s hs) output (dims_new e)).1

end ConvolutionalLayer
end AlexNet

namespace AlexNet

open Tensor3D

/-- C28. For every `ConvolutionalLayer` with `K ≥ 1`, `S ≥ 1`, `P ≥ 0`, whose weight tensor
has the shape `outputChannels x inputChannels x K * K` the constructor gives it, and every
input whose depth is `inputChannels` and whose height and width satisfy `H + 2P ≥ K` and
`W + 2P ≥ K`: `forward` returns a tensor, and the loop nest run with every access to the
input, weight and output tensors tested against the declared shapes returns the same tensor,
so no access is out of range. In particular the weight column `i * K + j` is below `K * K`,
the input is read only at channel `ti < depth` and at a row and column inside the input, and
the output only at `to < outputChannels`, `row < outputHeight`, `col < outputWidth`. -/
theorem conv_forward_accesses_in_range {α : Type} [LinearOrderedCommRing α]
    (L : ConvolutionalLayer α) (input : Tensor3D α)
    (_hK : 1 ≤ L.kernelSize) (_hS : 1 ≤ L.stride)
    (hw : L.weights.Dims L.outputChannels L.inputChannels
      ((L.kernelSize * L.kernelSize : Nat) : Int))
    (hin : input.getDepth = L.inputChannels)
    (hH : (L.kernelSize : Int) ≤ input.getHeight + 2 * L.padding)
    (hW : (L.kernelSize : Int) ≤ input.getWidth + 2 * L.padding) :
    (∃ t, L.forward input = some t ∧ L.forwardChecked input = some t ∧
      t.getDepth = L.outputChannels ∧
      t.getHeight = convOutDim input.getHeight L.kernelSize L.stride L.padding ∧
      t.getWidth = convOutDim input.getWidth L.kernelSize L.stride L.padding) ∧
    (∀ (output : Tensor3D α) (row col to_ ti i j : Nat),
      output.Dims L.outputChannels (convOutDim input.getHeight L.kernelSize L.stride L.padding)
        (convOutDim input.getWidth L.kernelSize L.stride L.padding) →
      (row : Int) < convOutDim input.getHeight L.kernelSize L.stride L.padding →
      (col : Int) < convOutDim input.getWidth L.kernelSize L.stride L.padding →
      to_ < L.outputChannels → ti < L.inputChannels → i < L.kernelSize → j < L.kernelSize →
      i * L.kernelSize + j < L.kernelSize * L.kernelSize ∧
      L.macStepChecked input row col to_ ti i output j =
        some (L.macStep input row col to_ ti i output j)) := by
  unfold getDepth getHeight getWidth at *
  have h1 := convOutDim_pos input.height L.kernelSize L.stride L.padding hH
  have h2 := convOutDim_pos input.width L.kernelSize L.stride L.padding hW
  obtain ⟨t, e, hs, _⟩ := L.direct_forward_spec input
    (mul_nonneg (mul_nonneg (by positivity) (by omega)) (by omega))
  refine ⟨⟨t, e, ?_, hs.1, hs.2.1, hs.2.2.1⟩, ?_⟩
  · rw [L.conv_forwardChecked_eq input hw hin]
    exact e
  · intro output row col to_ ti i j ho hrow hcol hto hti hi hj
    exact ⟨flat2_lt hi hj,
      (L.macStepChecked_some input hw hin ho row col to_ ti i j hrow hcol hto hti hi hj).1⟩

/-- Instance of `conv_forward_accesses_in_range`: the example layer (kernel 3, stride 2,
padding 1) on the `2 x 5 x 4` example input. -/
theorem conv_forward_accesses_in_range_witness :
    ∃ t, Example.conv.forward Example.input = some t ∧
      Example.conv.forwardChecked Example.input = some t ∧
      t.getDepth = 3 ∧ t.getHeight = 3 ∧ t.getWidth = 2 :=
  (conv_forward_accesses_in_range Example.conv Example.input (by decide) (by decide)
    ⟨rfl, rfl, rfl⟩ rfl (by decide) (by decide)).1

end AlexNet

namespace AlexNet

open Tensor3D

namespace MaxPoolingLayer

variable {α : Type} [LinearOrderedCommRing α]

/-- For an output position of an input at least as large as the window, the checked window
scan succeeds. -/
theorem windowMaxChecked_some (P : MaxPoolingLayer) (input : Tensor3D α)
    (hS : 1 ≤ P.stride) (hH : (P.poolSize : Int) ≤ input.height)
    (hW : (P.poolSize : Int) ≤ input.width) (c row col : Nat) (hc : (c : Int) < input.depth)
    (hrow : (row : Int) < poolOutDim input.height P.poolSize P.stride)
    (hcol : (col : Int) < poolOutDim input.width P.poolSize P.stride) :
    P.windowMaxChecked input c row col = some (P.windowMax input c row col) := by
  unfold windowMaxChecked windowMax
  refine (foldlM_eq_some (fun _ : α => True) _ _ _ (fun s i hi _ => ⟨?_, trivial⟩) _ trivial).1
  refine (foldlM_eq_some (fun _ : α => True) _ _ _ (fun s j hj _ => ⟨?_, trivial⟩) _ trivial).1
  have h1 := window_in_range input.height P.poolSize P.stride hH hS row (by positivity) hrow i
    (List.mem_range.mp hi)
  have h2 := window_in_range input.width P.poolSize P.stride hW hS col (by positivity) hcol j
    (List.mem_range.mp hj)
  dsimp only
  rw [atChecked_some (D := input.depth) (H := input.height) (W := input.width) ⟨rfl, rfl, rfl⟩
    (by positivity) hc h1.1 h1.2 h2.1 h2.2]
  rfl

/-- For an input at least as large as the window, the checked loop nest of `forward`
returns what `forward` returns. -/
theorem pool_forwardChecked_eq (P : MaxPoolingLayer) (input : Tensor3D α)
    (hS : 1 ≤ P.stride) (hH : (P.poolSize : Int) ≤ input.height)
    (hW : (P.poolSize : Int) ≤ input.width) :
    P.forwardChecked input = P.forward input := by
  unfold forwardChecked forward
  dsimp only
  cases e : Tensor3D.new input.getDepth (poolOutDim input.getHeight P.poolSize P.stride)
      (poolOutDim input.getWidth P.poolSize P.stride) (0 : α) with
  | none => rfl
  | some output =>
    dsimp only
    refine (foldlM_eq_some (fun s : Tensor3D α => s.Dims input.getDepth
        (poolOutDim input.getHeight P.poolSize P.stride)
        (poolOutDim input.getWidth P.poolSize P.stride)) _ _ _
      (fun s c hc hs => foldlM_eq_some (fun s : Tensor3D α => s.Dims input.getDepth
          (poolOutDim input.getHeight P.poolSize P.stride)
          (poolOutDim input.getWidth P.poolSize P.stride)) _ _ _
        (fun s row hrow hs => foldlM_eq_some (fun s : Tensor3D α => s.Dims input.getDepth
            (poolOutDim input.getHeight P.poolSize P.stride)
            (poolOutDim input.getWidth P.poolSize P.stride)) _ _ _
          (fun s col hcol hs => ?_) s hs) s hs) output (dims_new e)).1
    have hc2 : (c : Int) < input.depth := by
      have := List.mem_range.mp hc
      unfold getDepth at this
      omega
    have hrow2 : (row : Int) < poolOutDim input.height P.poolSize P.stride := by
      have := List.mem_range.mp hrow
      unfold getHeight at this
      omega
    have hcol2 : (col : Int) < poolOutDim input.width P.poolSize P.stride := by
      have := List.mem_range.mp hcol
      unfold getWidth at this
      omega
    dsimp only
    rw [P.windowMaxChecked_some input hS hH hW c row col hc2 hrow2 hcol2]
    simp only [Option.bind_eq_bind, Option.some_bind]
    exact ⟨setAtChecked_some hs (by positivity) hc2 (by positivity) hrow2 (by positivity)
      hcol2 _, dims_setAt hs _ _ _ _⟩

end MaxPoolingLayer

/-- C27. For every `MaxPoolingLayer` with `poolSize ≥ 1` and `stride ≥ 1` and every input of
height `inH ≥ poolSize` and width `inW ≥ poolSize`: the output height and width computed by
`forward` are `floor((inDim - poolSize) / stride) + 1 ≥ 1`; the last window ends inside the
input, `(outH - 1) * stride + poolSize - 1 ≤ inH - 1` and likewise for the width; the loop
nest run with every tensor access tested against the declared shape returns what `forward`
returns, so no access is out of range; and for an input of non-negative depth `forward`
returns a tensor of these dimensions. -/
theorem pool_forward_accesses_in_range {α : Type} [LinearOrderedCommRing α]
    (P : MaxPoolingLayer) (input : Tensor3D α) (hp : 1 ≤ P.poolSize) (hS : 1 ≤ P.stride)
    (hH : (P.poolSize : Int) ≤ input.getHeight) (hW : (P.poolSize : Int) ≤ input.getWidth) :
    (poolOutDim input.getHeight P.poolSize P.stride =
        (input.getHeight - P.poolSize) / P.stride + 1 ∧
      1 ≤ poolOutDim input.getHeight P.poolSize P.stride ∧
      (poolOutDim input.getHeight P.poolSize P.stride - 1) * P.stride + P.poolSize - 1 ≤
        input.getHeight - 1) ∧
    (poolOutDim input.getWidth P.poolSize P.stride =
        (input.getWidth - P.poolSize) / P.stride + 1 ∧
      1 ≤ poolOutDim input.getWidth P.poolSize P.stride ∧
      (poolOutDim input.getWidth P.poolSize P.stride - 1) * P.stride + P.poolSize - 1 ≤
        input.getWidth - 1) ∧
    P.forwardChecked input = P.forward input ∧
    (0 ≤ input.getDepth → ∃ t, P.forward input = some t ∧ P.forwardChecked input = some t ∧
      t.getDepth = input.getDepth ∧
      t.getHeight = poolOutDim input.getHeight P.poolSize P.stride ∧
      t.getWidth = poolOutDim input.getWidth P.poolSize P.stride) := by
  unfold getDepth getHeight getWidth at *
  have a1 := MaxPoolingLayer.poolOutDim_eq_floor input.height P.poolSize P.stride hH
  have a2 := MaxPoolingLayer.poolOutDim_pos input.height P.poolSize P.stride hH
  have b1 := MaxPoolingLayer.poolOutDim_eq_floor input.width P.poolSize P.stride hW
  have b2 := MaxPoolingLayer.poolOutDim_pos input.width P.poolSize P.stride hW
  have a3 := window_in_range input.height P.poolSize P.stride hH hS
    (poolOutDim input.height P.poolSize P.stride - 1) (by omega) (by omega) (P.poolSize - 1)
    (by omega)
  have b3 := window_in_range input.width P.poolSize P.stride hW hS
    (poolOutDim input.width P.poolSize P.stride - 1) (by omega) (by omega) (P.poolSize - 1)
    (by omega)
  have hcast : ((P.poolSize - 1 : Nat) : Int) = (P.poolSize : Int) - 1 := by omega
  rw [hcast] at a3 b3
  have heq := P.pool_forwardChecked_eq input hS hH hW
  refine ⟨⟨a1, a2, by omega⟩, ⟨b1, b2, by omega⟩, heq, fun hD => ?_⟩
  obtain ⟨t, e, hs, _⟩ := P.pool_forward_spec input hD
    (mul_nonneg (mul_nonneg hD (by omega)) (by omega))
  exact ⟨t, e, by rw [heq]; exact e, hs.1, hs.2.1, hs.2.2.1⟩

/-- Instance of `pool_forward_accesses_in_range`: window 3 and stride 2 on the `2 x 4 x 4`
example input, which leaves one row and one column unused. -/
theorem pool_forward_accesses_in_range_witness :
    Example.pool.forwardChecked Example.peak = Example.pool.forward Example.peak ∧
    ∃ t, Example.pool.forward Example.peak = some t ∧
      Example.pool.forwardChecked Example.peak = some t ∧
      t.getDepth = 2 ∧ t.getHeight = 1 ∧ t.getWidth = 1 :=
  ⟨(pool_forward_accesses_in_range Example.pool Example.peak (by decide) (by decide)
      (by decide) (by decide)).2.2.1,
   (pool_forward_accesses_in_range Example.pool Example.peak (by decide) (by decide)
      (by decide) (by decide)).2.2.2 (by decide)⟩

end AlexNet

namespace AlexNet

/-- A checked read below the length returns the element. -/
theorem getElem?_eq_some_getD {α : Type} [Zero α] (l : List α) (i : Nat) (h : i < l.length) :
    l[i]? = some (l.getD i 0) := by
  rw [List.getD_eq_getElem?_getD, List.getElem?_eq_getElem h]
  rfl

/-- The sizes given by the constructor `TileBuffers(tm, tn, tr, tc, k, s)`, spelled out. -/
theorem sizedAs_iff {α : Type} [Zero α] (b : TileBuffers α) (tm tn tr tc k s : Nat) :
    b.SizedAs tm tn tr tc k s ↔
      b.tileRows = tr ∧ b.tileCols = tc ∧ b.tiSize = tn ∧ b.toSize = tm ∧
      b.tileInputHeight = tr * s + k - s ∧ b.tileInputWidth = tc * s + k - s ∧
      b.inputBuffer.length = tn * (tr * s + k - s) * (tc * s + k - s) ∧
      b.weightBuffer.length = tm * tn * k * k ∧ b.outputBuffer.length = tm * tr * tc := by
  unfold TileBuffers.SizedAs TileBuffers.new
  simp only [List.length_replicate]

/-- A kernel tap of an output position of the tile lies inside the staged patch. -/
theorem patch_index_lt {tr s k trr i : Nat} (htrr : trr < tr) (hi : i < k) :
    trr * s + i < tr * s + k - s := by
  have h1 : (trr + 1) * s ≤ tr * s := Nat.mul_le_mul_right _ htrr
  have h2 : (trr + 1) * s = trr * s + s := by ring
  omega

namespace ConvolutionalLayerV2

variable {α : Type} [LinearOrderedCommRing α]

/-- The staging-buffer slots touched by one multiply-accumulate of the tile are inside the
buffers. -/
theorem tile_slots_lt (L : ConvolutionalLayerV2 α) {tm tn tr tc : Nat} {b : TileBuffers α}
    (hb : b.SizedAs tm tn tr tc L.kernelSize L.stride) {i j trr tcc x y : Nat}
    (hi : i < L.kernelSize) (hj : j < L.kernelSize) (htrr : trr < tr) (htcc : tcc < tc)
    (hx : x < tm) (hy : y < tn) :
    y * b.tileInputHeight * b.tileInputWidth + (trr * L.stride + i) * b.tileInputWidth +
        (tcc * L.stride + j) < b.inputBuffer.length ∧
    x * b.tiSize * L.kernelSize * L.kernelSize + y * L.kernelSize * L.kernelSize +
        i * L.kernelSize + j < b.weightBuffer.length ∧
    x * b.tileRows * b.tileCols + trr * b.tileCols + tcc < b.outputBuffer.length := by
  obtain ⟨h1, h2, h3, _, h5, h6, h7, h8, h9⟩ := (sizedAs_iff b _ _ _ _ _ _).mp hb
  rw [h1, h2, h3, h5, h6, h7, h8, h9]
  exact ⟨flat3_lt hy (patch_index_lt htrr hi) (patch_index_lt htcc hj),
    flat4_lt hx hy hi hj, flat3_lt hx htrr htcc⟩

/-- The macro `PROCESS_TII` keeps the buffer sizes. -/
theorem processTii_sizedAs (L : ConvolutionalLayerV2 α) {tm tn tr tc : Nat}
    {b : TileBuffers α} (hb : b.SizedAs tm tn tr tc L.kernelSize L.stride)
    (i j trr tcc tiStart tiEnd base outIdx y : Nat) :
    (L.processTii i j trr tcc tiStart tiEnd base outIdx b y).SizedAs tm tn tr tc
      L.kernelSize L.stride := by
  unfold processTii
  split
  · rw [sizedAs_iff] at hb ⊢
    simp only [List.length_set]
    exact hb
  · exact hb

/-- On buffers of the constructor's sizes the checked macro `PROCESS_TII` succeeds. -/
theorem processTiiChecked_some (L : ConvolutionalLayerV2 α) {tm tn tr tc : Nat}
    {be b : TileBuffers α} (hbe : be.SizedAs tm tn tr tc L.kernelSize L.stride)
    (hb : b.SizedAs tm tn tr tc L.kernelSize L.stride)
    (i j trr tcc tiStart tiEnd x y : Nat)
    (hi : i < L.kernelSize) (hj : j < L.kernelSize) (htrr : trr < tr) (htcc : tcc < tc)
    (hx : x < tm) (hn : tiEnd - tiStart ≤ tn) :
    L.processTiiChecked i j trr tcc tiStart tiEnd
        (x * be.tiSize * L.kernelSize * L.kernelSize)
        (x * be.tileRows * be.tileCols + trr * be.tileCols + tcc) b y =
      some (L.processTii i j trr tcc tiStart tiEnd
        (x * be.tiSize * L.kernelSize * L.kernelSize)
        (x * be.tileRows * be.tileCols + trr * be.tileCols + tcc) b y) ∧
    (L.processTii i j trr tcc tiStart tiEnd
        (x * be.tiSize * L.kernelSize * L.kernelSize)
        (x * be.tileRows * be.tileCols + trr * be.tileCols + tcc) b y).SizedAs tm tn tr tc
      L.kernelSize L.stride := by
  refine ⟨?_, L.processTii_sizedAs hb _ _ _ _ _ _ _ _ _⟩
  unfold processTiiChecked processTii
  split
  · rename_i hg
    have hy : y < tn := by omega
    have hs := L.tile_slots_lt hb hi hj htrr htcc hx hy
    obtain ⟨e1, e2, e3, _⟩ := (sizedAs_iff be _ _ _ _ _ _).mp hbe
    obtain ⟨f1, f2, f3, _⟩ := (sizedAs_iff b _ _ _ _ _ _).mp hb
    rw [f1, f2, f3] at hs
    rw [e1, e2, e3]
    simp only [Nat.add_sub_cancel_left]
    rw [getElem?_eq_some_getD _ _ hs.2.1, getElem?_eq_some_getD _ _ hs.1,
      getElem?_eq_some_getD _ _ hs.2.2]
    rfl
  · rfl

/-- On buffers of the constructor's sizes the checked `computeTileUnitTii` succeeds. -/
theorem computeTileUnitTiiChecked_some (L : ConvolutionalLayerV2 α) {tm tn tr tc : Nat}
    {b : TileBuffers α} (hb : b.SizedAs tm tn tr tc L.kernelSize L.stride)
    (i j trr tcc tiStart tiEnd toStart x : Nat)
    (hi : i < L.kernelSize) (hj : j < L.kernelSize) (htrr : trr < tr) (htcc : tcc < tc)
    (hx : x < tm) (hn : tiEnd - tiStart ≤ tn) :
    L.computeTileUnitTiiChecked b i j trr tcc tiStart tiEnd (toStart + x) toStart =
      some (L.computeTileUnitTii b i j trr tcc tiStart tiEnd (toStart + x) toStart) ∧
    (L.computeTileUnitTii b i j trr tcc tiStart tiEnd (toStart + x) toStart).SizedAs
      tm tn tr tc L.kernelSize L.stride := by
  have hstep : ∀ (s : TileBuffers α) (y : Nat), s.SizedAs tm tn tr tc L.kernelSize L.stride →
      L.processTiiChecked i j trr tcc tiStart tiEnd
          (x * b.tiSize * L.kernelSize * L.kernelSize)
          (x * b.tileRows * b.tileCols + trr * b.tileCols + tcc) s y =
        some (L.processTii i j trr tcc tiStart tiEnd
          (x * b.tiSize * L.kernelSize * L.kernelSize)
          (x * b.tileRows * b.tileCols + trr * b.tileCols + tcc) s y) ∧
      (L.processTii i j trr tcc tiStart tiEnd
          (x * b.tiSize * L.kernelSize * L.kernelSize)
          (x * b.tileRows * b.tileCols + trr * b.tileCols + tcc) s y).SizedAs tm tn tr tc
        L.kernelSize L.stride :=
    fun s y hs => L.processTiiChecked_some hb hs i j trr tcc tiStart tiEnd x y hi hj htrr htcc
      hx hn
  unfold computeTileUnitTiiChecked computeTileUnitTii
  simp only [Nat.add_sub_cancel_left, Option.bind_eq_bind]
  have s0 := hstep b 0 hb
  have s1 := hstep _ 1 s0.2
  have s2 := hstep _ 2 s1.2
  have s3 := hstep _ 3 s2.2
  have s4 := hstep _ 4 s3.2
  have s5 := hstep _ 5 s4.2
  have s6 := hstep _ 6 s5.2
  rw [s0.1, Option.some_bind, s1.1, Option.some_bind, s2.1, Option.some_bind, s3.1,
    Option.some_bind, s4.1, Option.some_bind, s5.1, Option.some_bind, s6.1, Option.some_bind]
  exact foldlM_eq_some (fun s : TileBuffers α => s.SizedAs tm tn tr tc L.kernelSize L.stride)
    _ _ _ (fun s y _ hs => hstep s y hs) _ s6.2

/-- On buffers of the constructor's sizes the checked macro `PROCESS_TOO` succeeds. -/
theorem processTooChecked_some (L : ConvolutionalLayerV2 α) {tm tn tr tc : Nat}
    {b : TileBuffers α} (hb : b.SizedAs tm tn tr tc L.kernelSize L.stride)
    (i j trr tcc tiStart tiEnd toStart toEnd x : Nat)
    (hi : i < L.kernelSize) (hj : j < L.kernelSize) (htrr : trr < tr) (htcc : tcc < tc)
    (hm : toEnd - toStart ≤ tm) (hn : tiEnd - tiStart ≤ tn) :
    L.processTooChecked i j trr tcc tiStart tiEnd toStart toEnd b x =
      some (L.processToo i j trr tcc tiStart tiEnd toStart toEnd b x) ∧
    (L.processToo i j trr tcc tiStart tiEnd toStart toEnd b x).SizedAs tm tn tr tc
      L.kernelSize L.stride := by
  unfold processTooChecked processToo
  split
  · exact L.computeTileUnitTiiChecked_some hb i j trr tcc tiStart tiEnd toStart x hi hj htrr
      htcc (by omega) hn
  · exact ⟨rfl, hb⟩

/-- On buffers of the constructor's sizes the checked `computeTileUnitToo` succeeds. -/
theorem computeTileUnitTooChecked_some (L : ConvolutionalLayerV2 α) {tm tn tr tc : Nat}
    {b : TileBuffers α} (hb : b.SizedAs tm tn tr tc L.kernelSize L.stride)
    (i j trr tcc tiStart tiEnd toStart toEnd : Nat)
    (hi : i < L.kernelSize) (hj : j < L.kernelSize) (htrr : trr < tr) (htcc : tcc < tc)
    (hm : toEnd - toStart ≤ tm) (hn : tiEnd - tiStart ≤ tn) :
    L.computeTileUnitTooChecked b i j trr tcc tiStart tiEnd toStart toEnd =
      some (L.computeTileUnitToo b i j trr tcc tiStart tiEnd toStart toEnd) ∧
    (L.computeTileUnitToo b i j trr tcc tiStart tiEnd toStart toEnd).SizedAs tm tn tr tc
      L.kernelSize L.stride := by
  have hstep : ∀ (s : TileBuffers α) (x : Nat), s.SizedAs tm tn tr tc L.kernelSize L.stride →
      L.processTooChecked i j trr tcc tiStart tiEnd toStart toEnd s x =
        some (L.processToo i j trr tcc tiStart tiEnd toStart toEnd s x) ∧
      (L.processToo i j trr tcc tiStart tiEnd toStart toEnd s x).SizedAs tm tn tr tc
        L.kernelSize L.stride :=
    fun s x hs => L.processTooChecked_some hs i j trr tcc tiStart tiEnd toStart toEnd x hi hj
      htrr htcc hm hn
  unfold computeTileUnitTooChecked computeTileUnitToo
  simp only [Option.bind_eq_bind]
  have s0 := hstep b 0 hb
  have s1 := hstep _ 1 s0.2
  have s2 := hstep _ 2 s1.2
  have s3 := hstep _ 3 s2.2
  rw [s0.1, Option.some_bind, s1.1, Option.some_bind, s2.1, Option.some_bind, s3.1,
    Option.some_bind]
  exact foldlM_eq_some (fun s : TileBuffers α => s.SizedAs tm tn tr tc L.kernelSize L.stride)
    _ _ _ (fun s x _ hs => hstep s x hs) _ s3.2

/-- On buffers of the constructor's sizes the checked `processTile` returns the buffers of
`processTile`. -/
theorem processTileChecked_some (L : ConvolutionalLayerV2 α) {tm tn tr tc : Nat}
    {b : TileBuffers α} (hb : b.SizedAs tm tn tr tc L.kernelSize L.stride)
    (tiStart tiEnd toStart toEnd : Nat)
    (hm : toEnd - toStart ≤ tm) (hn : tiEnd - tiStart ≤ tn) :
    L.processTileChecked b tiStart tiEnd toStart toEnd =
      some (L.processTile b tiStart tiEnd toStart toEnd) := by
  obtain ⟨h1, h2, _⟩ := (sizedAs_iff b _ _ _ _ _ _).mp hb
  unfold processTileChecked processTile
  rw [h1, h2]
  exact (foldlM_eq_some
    (fun s : TileBuffers α => s.SizedAs tm tn tr tc L.kernelSize L.stride) _ _ _
    (fun s i hi hs => foldlM_eq_some
      (fun s : TileBuffers α => s.SizedAs tm tn tr tc L.kernelSize L.stride) _ _ _
      (fun s j hj hs => foldlM_eq_some
        (fun s : TileBuffers α => s.SizedAs tm tn tr tc L.kernelSize L.stride) _ _ _
        (fun s trr htrr hs => foldlM_eq_some
          (fun s : TileBuffers α => s.SizedAs tm tn tr tc L.kernelSize L.stride) _ _ _
          (fun s tcc htcc hs => L.computeTileUnitTooChecked_some hs i j trr tcc tiStart tiEnd
            toStart toEnd (List.mem_range.mp hi) (List.mem_range.mp hj)
            (List.mem_range.mp htrr) (List.mem_range.mp htcc) hm hn) s hs) s hs) s hs)
    b hb).1

end ConvolutionalLayerV2
end AlexNet

namespace AlexNet

/-- C23. For every tile with `tileRows, tileCols, tiSize, toSize ≥ 1`, `K ≥ 1`, `S ≥ 1`: the
buffers built by `TileBuffers(toSize, tiSize, tileRows, tileCols, K, S)` stage an input patch
of `S * (tileRows - 1) + K` rows and `S * (tileCols - 1) + K` columns and hold
`tiSize * rows * columns`, `toSize * tiSize * K * K` and `toSize * tileRows * tileCols`
elements. On buffers of these sizes, for a tile of at most `toSize` output and `tiSize`
input channels, every index used by `processTile` / `computeTileUnitTii` is in range: the
input index `(tii - tiStart) * tileInputHeight * tileInputWidth + (trr * S + i) *
tileInputWidth + (tcc * S + j)` is below the input buffer size, the weight index is below
`toSize * tiSize * K * K` and the output index is below `toSize * tileRows * tileCols`; and
`processTile` run with every buffer access tested returns the buffers of `processTile`. -/
theorem tile_indices_in_range {α : Type} [LinearOrderedCommRing α]
    (L : ConvolutionalLayerV2 α) (toSize tiSize tileRows tileCols : Nat)
    (_htm : 1 ≤ toSize) (_htn : 1 ≤ tiSize) (htr : 1 ≤ tileRows) (htc : 1 ≤ tileCols)
    (_hK : 1 ≤ L.kernelSize) (_hS : 1 ≤ L.stride) :
    ((TileBuffers.new toSize tiSize tileRows tileCols L.kernelSize L.stride :
        TileBuffers α).tileInputHeight = L.stride * (tileRows - 1) + L.kernelSize ∧
      (TileBuffers.new toSize tiSize tileRows tileCols L.kernelSize L.stride :
        TileBuffers α).tileInputWidth = L.stride * (tileCols - 1) + L.kernelSize ∧
      (TileBuffers.new toSize tiSize tileRows tileCols L.kernelSize L.stride :
        TileBuffers α).inputBuffer.length =
        tiSize * (L.stride * (tileRows - 1) + L.kernelSize) *
          (L.stride * (tileCols - 1) + L.kernelSize) ∧
      (TileBuffers.new toSize tiSize tileRows tileCols L.kernelSize L.stride :
        TileBuffers α).weightBuffer.length = toSize * tiSize * L.kernelSize * L.kernelSize ∧
      (TileBuffers.new toSize tiSize tileRows tileCols L.kernelSize L.stride :
        TileBuffers α).outputBuffer.length = toSize * tileRows * tileCols) ∧
    ∀ (buffers : TileBuffers α) (tiStart tiEnd toStart toEnd : Nat),
      buffers.SizedAs toSize tiSize tileRows tileCols L.kernelSize L.stride →
      toEnd - toStart ≤ toSize → tiEnd - tiStart ≤ tiSize →
      (∀ i j trr tcc too tii : Nat, i < L.kernelSize → j < L.kernelSize →
        trr < buffers.tileRows → tcc < buffers.tileCols → toStart ≤ too → too < toEnd →
        tiStart ≤ tii → tii < tiEnd →
        (tii - tiStart) * buffers.tileInputHeight * buffers.tileInputWidth +
            (trr * L.stride + i) * buffers.tileInputWidth + (tcc * L.stride + j) <
          buffers.inputBuffer.length ∧
        (too - toStart) * buffers.tiSize * L.kernelSize * L.kernelSize +
            (tii - tiStart) * L.kernelSize * L.kernelSize + i * L.kernelSize + j <
          toSize * tiSize * L.kernelSize * L.kernelSize ∧
        (too - toStart) * buffers.tileRows * buffers.tileCols + trr * buffers.tileCols + tcc <
          toSize * tileRows * tileCols) ∧
      L.processTileChecked buffers tiStart tiEnd toStart toEnd =
        some (L.processTile buffers tiStart tiEnd toStart toEnd) := by
  have e1 : tileRows * L.stride + L.kernelSize - L.stride =
      L.stride * (tileRows - 1) + L.kernelSize := by
    obtain ⟨r, rfl⟩ : ∃ r, tileRows = r + 1 := ⟨tileRows - 1, by omega⟩
    rw [Nat.add_sub_cancel, Nat.add_mul, Nat.one_mul, Nat.mul_comm]
    omega
  have e2 : tileCols * L.stride + L.kernelSize - L.stride =
      L.stride * (tileCols - 1) + L.kernelSize := by
    obtain ⟨r, rfl⟩ : ∃ r, tileCols = r + 1 := ⟨tileCols - 1, by omega⟩
    rw [Nat.add_sub_cancel, Nat.add_mul, Nat.one_mul, Nat.mul_comm]
    omega
  refine ⟨?_, ?_⟩
  · refine ⟨?_, ?_, ?_, ?_, ?_⟩ <;>
      simp only [TileBuffers.new, List.length_replicate, e1, e2]
  · intro buffers tiStart tiEnd toStart toEnd hb hm hn
    refine ⟨?_, L.processTileChecked_some hb tiStart tiEnd toStart toEnd hm hn⟩
    intro i j trr tcc too tii hi hj htrr htcc h1 h2 h3 h4
    obtain ⟨f1, f2, _, _, _, _, _, f8, f9⟩ := (sizedAs_iff buffers _ _ _ _ _ _).mp hb
    have := L.tile_slots_lt hb hi hj (x := too - toStart) (y := tii - tiStart)
      (by rw [← f1]; exact htrr) (by rw [← f2]; exact htcc) (by omega) (by omega)
    rw [f8, f9] at this
    exact this

/-- Instance of `tile_indices_in_range`: a tile of 2 output channels, 1 input channel,
2 rows and 1 column with kernel 3 and stride 2, whose patch has `2 * 1 + 3 = 5` rows and
`2 * 0 + 3 = 3` columns. -/
theorem tile_indices_in_range_witness :
    ((TileBuffers.new 2 1 2 1 3 2 : TileBuffers Int).tileInputHeight = 5 ∧
      (TileBuffers.new 2 1 2 1 3 2 : TileBuffers Int).tileInputWidth = 3 ∧
      (TileBuffers.new 2 1 2 1 3 2 : TileBuffers Int).inputBuffer.length = 15 ∧
      (TileBuffers.new 2 1 2 1 3 2 : TileBuffers Int).weightBuffer.length = 18 ∧
      (TileBuffers.new 2 1 2 1 3 2 : TileBuffers Int).outputBuffer.length = 4) ∧
    Example.convV2.processTileChecked Example.buffers 1 2 0 2 =
      some (Example.convV2.processTile Example.buffers 1 2 0 2) :=
  ⟨(tile_indices_in_range Example.convV2 2 1 2 1 (by decide) (by decide) (by decide)
      (by decide) (by decide) (by decide)).1,
   ((tile_indices_in_range Example.convV2 2 1 2 1 (by decide) (by decide) (by decide)
      (by decide) (by decide) (by decide)).2 Example.buffers 1 2 0 2
      (by unfold TileBuffers.SizedAs; decide) (by decide) (by decide)).2⟩

end AlexNet

namespace AlexNet
namespace Accelerator

variable {α : Type} [LinearOrderedCommRing α]

/-- An element of the output buffer outside the tile is not changed by `compute_tile`. -/
theorem compute_tile_outside (input_buffer weight_buffer output_buffer : List α)
    (K S tm tn tr tc : Nat) (htm : tm ≤ TM) (htr : tr ≤ TR) (htc : tc ≤ TC)
    (hlen : output_buffer.length = TM * TR * TC) (k : Nat) (hk : k < TM * TR * TC)
    (hout : ∀ too trr tcc, too < tm → trr < tr → tcc < tc → k ≠ at3 TR TC too trr tcc) :
    (compute_tile input_buffer weight_buffer output_buffer K S tm tn tr tc).getD k 0 =
      output_buffer.getD k 0 := by
  have h := (compute_tile_adds input_buffer weight_buffer K S tm tn tr tc htm htr htc
    output_buffer hlen).2 k hk
  dsimp only at h
  rw [h]
  have hz : ∀ (y : α), y = 0 → output_buffer.getD k 0 + y = output_buffer.getD k 0 := by
    intro y hy
    rw [hy, add_zero]
  apply hz
  refine sum_range_zero _ _ (fun i _ => sum_range_zero _ _ (fun j _ =>
    sum_range_zero _ _ (fun trr htrr => sum_range_zero _ _ (fun tcc htcc =>
      sum_map_zero _ _ (fun base hbase => sum_range_zero _ _ (fun tii _ =>
        sum_range_zero _ _ (fun off hoff => if_neg (hout _ _ _ ?_ htrr htcc)))))))) 
  have h1 := tileStarts_lt hbase
  split at hoff <;> omega

end Accelerator
end AlexNet

namespace AlexNet
namespace Accelerator

/-- C31. With exact arithmetic, for all bounds `tm_bound ≤ TM` (even or odd),
`tn_bound ≤ TN`, `tr_bound ≤ TR`, `tc_bound ≤ TC`, `1 ≤ kernel_size ≤ 5`, `1 ≤ stride ≤ 2`
and an output buffer of `TM * TR * TC` elements: `compute_tile` adds to
`output_buffer[too][trr][tcc]` the sum over `i, j < kernel_size` and `tii < tn_bound` of
`weight_buffer[too][tii][i * kernel_size + j] * input_buffer[tii][trr * stride + i][tcc *
stride + j]` for every `too < tm_bound`, `trr < tr_bound`, `tcc < tc_bound`, the three
subscripts of each operand lying inside the declared array bounds, and leaves every other
entry of the output buffer unchanged. -/
theorem compute_tile_spec {α : Type} [LinearOrderedCommRing α]
    (input_buffer weight_buffer output_buffer : List α)
    (kernel_size stride tm_bound tn_bound tr_bound tc_bound : Nat)
    (htm : tm_bound ≤ TM) (htn : tn_bound ≤ TN) (htr : tr_bound ≤ TR) (htc : tc_bound ≤ TC)
    (_hK1 : 1 ≤ kernel_size) (hK : kernel_size ≤ MAX_KERNEL_SIZE)
    (_hS1 : 1 ≤ stride) (hS : stride ≤ MAX_STRIDE)
    (hlen : output_buffer.length = TM * TR * TC) :
    (compute_tile input_buffer weight_buffer output_buffer kernel_size stride tm_bound tn_bound
      tr_bound tc_bound).length = TM * TR * TC ∧
    (∀ too trr tcc, too < tm_bound → trr < tr_bound → tcc < tc_bound →
      (compute_tile input_buffer weight_buffer output_buffer kernel_size stride tm_bound
        tn_bound tr_bound tc_bound).getD (at3 TR TC too trr tcc) 0 =
      output_buffer.getD (at3 TR TC too trr tcc) 0 +
        ∑ i ∈ Finset.range kernel_size, ∑ j ∈ Finset.range kernel_size,
          ∑ tii ∈ Finset.range tn_bound,
            weight_buffer.getD (at3 TN (MAX_KERNEL_SIZE * MAX_KERNEL_SIZE) too tii
              (i * kernel_size + j)) 0 *
            input_buffer.getD (at3 INPUT_TILE_HEIGHT INPUT_TILE_WIDTH tii (trr * stride + i)
              (tcc * stride + j)) 0) ∧
    (∀ too trr tcc, too < TM → trr < TR → tcc < TC →
      ¬ (too < tm_bound ∧ trr < tr_bound ∧ tcc < tc_bound) →
      (compute_tile input_buffer weight_buffer output_buffer kernel_size stride tm_bound
        tn_bound tr_bound tc_bound).getD (at3 TR TC too trr tcc) 0 =
      output_buffer.getD (at3 TR TC too trr tcc) 0) ∧
    (∀ i j too tii trr tcc, i < kernel_size → j < kernel_size → too < tm_bound →
      tii < tn_bound → trr < tr_bound → tcc < tc_bound →
      (too < TM ∧ tii < TN ∧ i * kernel_size + j < MAX_KERNEL_SIZE * MAX_KERNEL_SIZE) ∧
      (trr * stride + i < INPUT_TILE_HEIGHT ∧ tcc * stride + j < INPUT_TILE_WIDTH) ∧
      (trr < TR ∧ tcc < TC)) := by
  have hc := compute_tile_cell input_buffer weight_buffer output_buffer kernel_size stride
    tm_bound tn_bound tr_bound tc_bound htm htr htc hlen
  refine ⟨hc.1, hc.2, ?_, ?_⟩
  · intro too trr tcc h1 h2 h3 hnot
    refine compute_tile_outside input_buffer weight_buffer output_buffer kernel_size stride
      tm_bound tn_bound tr_bound tc_bound htm htr htc hlen _ (at3_lt h1 h2 h3) ?_
    intro a b c ha hb hc2 e
    have := at3_inj h2 h3 (lt_of_lt_of_le hb htr) (lt_of_lt_of_le hc2 htc) e
    exact hnot ⟨by omega, by omega, by omega⟩
  · intro i j too tii trr tcc hi hj htoo htii htrr htcc
    refine ⟨⟨by omega, by omega, ?_⟩, ⟨?_, ?_⟩, by omega, by omega⟩
    · exact lt_of_lt_of_le (kernel_index_lt i j kernel_size hi hj) (kernel_area_le _ hK)
    · exact tile_input_lt trr stride i kernel_size (by omega) hS hi hK
    · have h1 : tcc * stride ≤ 6 * 2 := Nat.mul_le_mul (by unfold TC at htc; omega)
        (by unfold MAX_STRIDE at hS; omega)
      unfold INPUT_TILE_WIDTH TC MAX_STRIDE MAX_KERNEL_SIZE
      unfold MAX_KERNEL_SIZE at hK
      omega

/-- Instance of `compute_tile_spec`: the case of the test `testComputeTile`, `tm = 4`,
`tn = 3`, `tr = tc = 5`, kernel 3, stride 1, on a zeroed output buffer, at the cell
`(1, 2, 3)`. -/
theorem compute_tile_spec_witness :
    (compute_tile (Example.testData (4 * 17 * 17) 5) (Example.testData (8 * 4 * 25) 7)
      (List.replicate (8 * 7 * 7) 0) 3 1 4 3 5 5).getD (at3 TR TC 1 2 3) 0 =
    (List.replicate (8 * 7 * 7) (0 : Int)).getD (at3 TR TC 1 2 3) 0 +
      ∑ i ∈ Finset.range 3, ∑ j ∈ Finset.range 3, ∑ tii ∈ Finset.range 3,
        (Example.testData (8 * 4 * 25) 7).getD (at3 TN (MAX_KERNEL_SIZE * MAX_KERNEL_SIZE)
          1 tii (i * 3 + j)) 0 *
        (Example.testData (4 * 17 * 17) 5).getD (at3 INPUT_TILE_HEIGHT INPUT_TILE_WIDTH tii
          (2 * 1 + i) (3 * 1 + j)) 0 :=
  (compute_tile_spec (Example.testData (4 * 17 * 17) 5) (Example.testData (8 * 4 * 25) 7)
    (List.replicate (8 * 7 * 7) 0) 3 1 4 3 5 5 (by decide) (by decide) (by decide)
    (by decide) (by decide) (by decide) (by decide) (by decide)
    (List.length_replicate _ _)).2.1 1 2 3 (by decide) (by decide) (by decide)

end Accelerator
end AlexNet

namespace AlexNet

open Tensor3D

namespace FullyConnectedLayer

variable {α : Type} [LinearOrderedCommRing α]

/-- For a well-shaped tensor with non-negative dimensions the flattening loops reproduce the
buffer: the flattened input is the tensor's data in storage order. -/
theorem flatten_eq_data (input : Tensor3D α) (D H W : Int) (hs : input.Shaped D H W)
    (hD : 0 ≤ D) (hH : 0 ≤ H) (hW : 0 ≤ W) : flatten input = input.getData := by
  obtain ⟨e1, e2, e3, e4⟩ := hs
  have hlen : (flatten input).length = input.data.length := by
    rw [flatten_length, e1, e2, e3]
    have : ((D.toNat * (H.toNat * W.toNat) : Nat) : Int) = D * H * W := by
      push_cast
      rw [Int.toNat_of_nonneg hD, Int.toNat_of_nonneg hH, Int.toNat_of_nonneg hW]
      ring
    omega
  unfold getData
  apply List.ext_getElem?
  intro k
  by_cases hk : k < input.data.length
  · have hHW : 0 < H ∧ 0 < W := by
      constructor
      · rcases lt_or_eq_of_le hH with h | h
        · exact h
        · have : (input.data.length : Int) = 0 := by rw [e4, ← h]; ring
          omega
      · rcases lt_or_eq_of_le hW with h | h
        · exact h
        · have : (input.data.length : Int) = 0 := by rw [e4, ← h]; ring
          omega
    obtain ⟨c, hc, hidx⟩ := slot_coords (D := D) hHW.1 hHW.2 k (by omega)
    obtain ⟨c1, c2, c3, c4, c5, c6⟩ := hc
    have hd : c.1.toNat < input.depth.toNat := by rw [e1]; omega
    have hh : c.2.1.toNat < input.height.toNat := by rw [e2]; omega
    have hw : c.2.2.toNat < input.width.toNat := by rw [e3]; omega
    have key := flatten_getD input c.1.toNat c.2.1.toNat c.2.2.toNat hd hh hw
    have hslot : c.1.toNat * (input.height.toNat * input.width.toNat) +
        (c.2.1.toNat * input.width.toNat + c.2.2.toNat) = k := by
      have : ((c.1.toNat * (input.height.toNat * input.width.toNat) +
          (c.2.1.toNat * input.width.toNat + c.2.2.toNat) : Nat) : Int) = k := by
        push_cast
        rw [e2, e3, Int.toNat_of_nonneg c1, Int.toNat_of_nonneg c3, Int.toNat_of_nonneg c5,
          Int.toNat_of_nonneg hH, Int.toNat_of_nonneg hW, ← hidx]
        ring
      omega
    rw [hslot, Int.toNat_of_nonneg c1, Int.toNat_of_nonneg c3, Int.toNat_of_nonneg c5] at key
    unfold at_ at key
    have hix : input.index c.1 c.2.1 c.2.2 = k := by
      unfold index
      rw [e2, e3]
      exact hidx
    rw [hix] at key
    simp only [Nat.cast_nonneg, if_true, Int.toNat_ofNat, List.getD_eq_getElem?_getD] at key
    rw [List.getElem?_eq_getElem hk, List.getElem?_eq_getElem (by omega)] at key ⊢
    simpa using key
  · rw [List.getElem?_eq_none (by omega), List.getElem?_eq_none (by omega)]

/-- The output vector depends on the first `inputSize` elements of the flattened input
only. -/
theorem outputVec_congr (F : FullyConnectedLayer α) (v1 v2 : List α)
    (h : ∀ j, j < F.inputSize → v1.getD j 0 = v2.getD j 0) :
    (List.range F.outputSize).foldl (F.unitStep v1) (List.replicate F.outputSize 0) =
      (List.range F.outputSize).foldl (F.unitStep v2) (List.replicate F.outputSize 0) := by
  have s1 := F.outputVec_spec v1
  have s2 := F.outputVec_spec v2
  apply List.ext_getElem?
  intro i
  by_cases hi : i < F.outputSize
  · have a1 := s1.2 i hi
    have a2 := s2.2 i hi
    have hsum : ∑ j ∈ Finset.range F.inputSize, (F.weights.getD i []).getD j 0 * v1.getD j 0 =
        ∑ j ∈ Finset.range F.inputSize, (F.weights.getD i []).getD j 0 * v2.getD j 0 :=
      Finset.sum_congr rfl (fun j hj => by rw [h j (Finset.mem_range.mp hj)])
    rw [hsum, ← a2] at a1
    simp only [List.getD_eq_getElem?_getD] at a1
    rw [List.getElem?_eq_getElem (by omega), List.getElem?_eq_getElem (by omega)] at a1 ⊢
    simpa using a1
  · rw [List.getElem?_eq_none (by omega), List.getElem?_eq_none (by omega)]

/-- Inputs whose flattened forms agree on the first `inputSize` elements give the same
result. -/
theorem forward_congr (F : FullyConnectedLayer α) (a b : Tensor3D α)
    (h : ∀ j, j < F.inputSize → (flatten a).getD j 0 = (flatten b).getD j 0) :
    F.forward a = F.forward b := by
  unfold forward
  dsimp only
  rw [F.outputVec_congr (flatten a) (flatten b) h]

end FullyConnectedLayer

/-- C32. `FullyConnectedLayer.forward` depends only on the first `inputSize` elements of the
input's buffer: for every two well-shaped input tensors, of any non-negative dimensions,
that each hold at least `inputSize` elements and agree on the first `inputSize` elements in
storage order, `forward` returns the same tensor, of shape `1 x 1 x outputSize`; no
condition relates the input shapes to `inputSize`, and the elements after the first
`inputSize` do not matter. -/
theorem fc_forward_prefix_only {α : Type} [LinearOrderedCommRing α]
    (F : FullyConnectedLayer α) (a b : Tensor3D α) (Da Ha Wa Db Hb Wb : Int)
    (ha : a.Shaped Da Ha Wa) (hb : b.Shaped Db Hb Wb)
    (ha0 : 0 ≤ Da ∧ 0 ≤ Ha ∧ 0 ≤ Wa) (hb0 : 0 ≤ Db ∧ 0 ≤ Hb ∧ 0 ≤ Wb)
    (_hla : F.inputSize ≤ a.getData.length) (_hlb : F.inputSize ≤ b.getData.length)
    (hagree : ∀ j, j < F.inputSize → a.getData.getD j 0 = b.getData.getD j 0) :
    F.forward a = F.forward b ∧
    ∃ t, F.forward a = some t ∧ F.forward b = some t ∧
      t.getDepth = 1 ∧ t.getHeight = 1 ∧ t.getWidth = F.outputSize := by
  have e : F.forward a = F.forward b := by
    apply F.forward_congr
    intro j hj
    rw [FullyConnectedLayer.flatten_eq_data a Da Ha Wa ha ha0.1 ha0.2.1 ha0.2.2,
      FullyConnectedLayer.flatten_eq_data b Db Hb Wb hb hb0.1 hb0.2.1 hb0.2.2]
    exact hagree j hj
  obtain ⟨t, ht, hs, _⟩ := F.fc_forward_spec a
  exact ⟨e, t, ht, e ▸ ht, hs.1, hs.2.1, hs.2.2.1⟩

/-- Instance of `fc_forward_prefix_only`: the `2 x 5 x 4` example input and the flat
`1 x 1 x 43` tensor holding the same 40 values followed by three more, given to a layer of
40 inputs. -/
theorem fc_forward_prefix_only_witness :
    Example.fc.forward Example.input = Example.fc.forward
      { depth := 1, height := 1, width := 43, data := Example.input.data ++ [7, 8, 9] } :=
  (fc_forward_prefix_only Example.fc Example.input
    { depth := 1, height := 1, width := 43, data := Example.input.data ++ [7, 8, 9] }
    2 5 4 1 1 43 ⟨rfl, rfl, rfl, by decide⟩ ⟨rfl, rfl, rfl, by decide⟩
    (by decide) (by decide) (by decide) (by decide) (by decide)).1

end AlexNet

namespace AlexNet
namespace CNN

section Order

variable {α : Type} [LinearOrderedField α]

/-- Entry `i` of the softmax stage: `exp (x_i - max) / Σ_k exp (x_k - max)`. -/
theorem softmax_getD (exp : α → α) (xs : List α) (i : Nat) (hi : i < xs.length) :
    (softmax exp xs).getD i 0 = exp (xs.getD i 0 - maxElement xs) /
      (xs.map (fun x => exp (x - maxElement xs))).sum := by
  unfold softmax
  dsimp only
  rw [foldl_add_eq_sum]
  simp only [List.getD_eq_getElem?_getD, List.getElem?_map, List.getElem?_eq_getElem hi,
    Option.map_some', Option.getD_some]

/-- For a positive, strictly increasing `exp` the softmax stage preserves and reflects the
order of the logits. -/
theorem softmax_le_iff (exp : α → α) (hexp : ∀ x, 0 < exp x)
    (hmono : ∀ a b, exp a ≤ exp b ↔ a ≤ b) (xs : List α) (i j : Nat) (hi : i < xs.length)
    (hj : j < xs.length) :
    (softmax exp xs).getD i 0 ≤ (softmax exp xs).getD j 0 ↔ xs.getD i 0 ≤ xs.getD j 0 := by
  have hne : xs.map (fun x => exp (x - maxElement xs)) ≠ [] := by
    intro h
    rw [List.map_eq_nil_iff] at h
    rw [h] at hi
    exact absurd hi (by simp)
  have hS : 0 < (xs.map (fun x => exp (x - maxElement xs))).sum :=
    List.sum_pos _ (fun p hp => by
      obtain ⟨x, _, rfl⟩ := List.mem_map.mp hp
      exact hexp _) hne
  rw [softmax_getD exp xs i hi, softmax_getD exp xs j hj, div_le_div_iff_of_pos_right hS, hmono]
  constructor <;> intro h <;> linarith

end Order

section Top

variable {α : Type} [LinearOrderedCommRing α]

/-- The single pair returned by `getTopKPredictions(probabilities, 1)` carries an index of a
largest probability. -/
theorem top1_spec (p : List α) (hne : p ≠ []) :
    ∃ i, i < p.length ∧ getTopKPredictions p 1 = [(i, p.getD i 0)] ∧
      ∀ k, k < p.length → p.getD k 0 ≤ p.getD i 0 := by
  rw [getTopKPredictions_eq]
  obtain ⟨l, hl⟩ : ∃ l, l = (List.range p.length).map (fun i => (i, p.getD i 0)) := ⟨_, rfl⟩
  rw [← hl]
  have hlne : l ≠ [] := by
    intro h
    have := congrArg List.length h
    rw [hl] at this
    simp at this
    exact hne this
  obtain ⟨best, rest, e, hperm, hbest⟩ := (extractBest_spec l).2 hlne
  have hmem : best ∈ l := hperm.subset (List.mem_cons_self _ _)
  rw [hl] at hmem
  obtain ⟨i, hi, rfl⟩ := List.mem_map.mp hmem
  refine ⟨i, List.mem_range.mp hi, ?_, fun k hk => ?_⟩
  · simp only [partialSort, e, List.take_succ_cons, List.take_zero]
  · have hk2 : (k, p.getD k 0) ∈ l := by
      rw [hl]
      exact List.mem_map.mpr ⟨k, List.mem_range.mpr hk, rfl⟩
    rcases List.mem_cons.mp (hperm.symm.subset hk2) with h | h
    · rw [show p.getD k 0 = (k, p.getD k 0).2 from rfl, h]
    · exact hbest _ h

end Top

/-- C33. Over the reals, the softmax stage of `CNN::forward` preserves order: for every
non-empty logit vector and indices `i`, `j`, `p_i ≤ p_j` if and only if
`logit_i ≤ logit_j`. Consequently `getTopKPredictions(forward(x), 1)` returns one pair
`(i, p_i)` whose index `i` is an index of a maximal logit; `forward(x)` is the softmax of the
buffer of the tensor the layer loop ends with. -/
theorem softmax_preserves_order (logits : List ℝ) (hne : logits ≠ []) :
    (∀ i j, i < logits.length → j < logits.length →
      ((softmax Real.exp logits).getD i 0 ≤ (softmax Real.exp logits).getD j 0 ↔
        logits.getD i 0 ≤ logits.getD j 0)) ∧
    (∃ i, i < logits.length ∧
      getTopKPredictions (softmax Real.exp logits) 1 =
        [(i, (softmax Real.exp logits).getD i 0)] ∧
      ∀ k, k < logits.length → logits.getD k 0 ≤ logits.getD i 0) ∧
    (∀ (net : CNN ℝ) (input current : Tensor3D ℝ) (shapes : List (Int × Int × Int)),
      runLayers net.layers input = some (current, shapes) → current.getData = logits →
      CNN.forward Real.exp net input = some (softmax Real.exp logits)) := by
  have hlen := (softmax_distribution Real.exp Real.exp_pos logits hne).1
  have hord : ∀ i j, i < logits.length → j < logits.length →
      ((softmax Real.exp logits).getD i 0 ≤ (softmax Real.exp logits).getD j 0 ↔
        logits.getD i 0 ≤ logits.getD j 0) :=
    fun i j hi hj => softmax_le_iff Real.exp Real.exp_pos (fun a b => Real.exp_le_exp)
      logits i j hi hj
  refine ⟨hord, ?_, ?_⟩
  · have hpne : softmax Real.exp logits ≠ [] := by
      intro h
      rw [h] at hlen
      exact hne (List.length_eq_zero.mp hlen.symm)
    obtain ⟨i, hi, e, hmax⟩ := top1_spec (softmax Real.exp logits) hpne
    rw [hlen] at hi
    exact ⟨i, hi, e, fun k hk => (hord k i hk hi).mp (hmax k (by rw [hlen]; exact hk))⟩
  · intro net input current shapes hrun hdata
    unfold CNN.forward
    rw [hrun]
    dsimp only
    rw [hdata]

/-- Instance of `softmax_preserves_order` at the logits `1, 3, 2`, indices 0 and 1. -/
theorem softmax_preserves_order_witness :
    (softmax Real.exp [1, 3, 2]).getD 0 0 ≤ (softmax Real.exp [1, 3, 2]).getD 1 0 ↔
      ([1, 3, 2] : List ℝ).getD 0 0 ≤ ([1, 3, 2] : List ℝ).getD 1 0 :=
  (softmax_preserves_order [1, 3, 2] (by simp)).1 0 1 (by decide) (by decide)

end CNN
end AlexNet

namespace AlexNet

/-- A loop over a pair of independent state components is the pair of the two loops. -/
theorem foldl_pair {σ τ ι : Type} (f : σ → ι → σ) (g : τ → ι → τ) (l : List ι) (a : σ) (b : τ) :
    l.foldl (fun (s : σ × τ) x => (f s.1 x, g s.2 x)) (a, b) = (l.foldl f a, l.foldl g b) := by
  induction l generalizing a b with
  | nil => rfl
  | cons x l ih => rw [List.foldl_cons, List.foldl_cons, List.foldl_cons, ih]

/-- Lists of the same length with the same elements are equal. -/
theorem list_ext_getD {α : Type} [Zero α] (l1 l2 : List α) (h : l1.length = l2.length)
    (hv : ∀ k, k < l1.length → l1.getD k 0 = l2.getD k 0) : l1 = l2 := by
  apply List.ext_getElem?
  intro k
  by_cases hk : k < l1.length
  · have := hv k hk
    simp only [List.getD_eq_getElem?_getD] at this
    rw [List.getElem?_eq_getElem hk, List.getElem?_eq_getElem (by omega)] at this ⊢
    simpa using this
  · rw [List.getElem?_eq_none (by omega), List.getElem?_eq_none (by omega)]

namespace FashionMnist

/-- The source index read in iteration `i` of `flatten_minimal`. -/
theorem src_eq (i : Nat) :
    get_3d_index (i % CONV2_FILTERS) (i / CONV2_FILTERS / P2_SIZE) (i / CONV2_FILTERS % P2_SIZE)
      P2_SIZE P2_SIZE = i % 64 * 49 + i / 64 / 7 * 7 + i / 64 % 7 := by
  unfold get_3d_index CONV2_FILTERS P2_SIZE
  omega

/-- The source indices stay inside the pooled array. -/
theorem src_lt (i : Nat) (hi : i < 3136) : i % 64 * 49 + i / 64 / 7 * 7 + i / 64 % 7 < 3136 := by
  omega

/-- Different iterations read different source indices. -/
theorem src_inj (i j : Nat) (hi : i < 3136) (hj : j < 3136)
    (e : i % 64 * 49 + i / 64 / 7 * 7 + i / 64 % 7 = j % 64 * 49 + j / 64 / 7 * 7 + j / 64 % 7) :
    i = j := by
  omega

/-- Every source index is read by some iteration. -/
theorem src_surj (x : Nat) (hx : x < 3136) :
    ∃ i, i < 3136 ∧ i % 64 * 49 + i / 64 / 7 * 7 + i / 64 % 7 = x :=
  ⟨x % 49 * 64 + x / 49, by omega, by omega⟩

/-- The source indices in iteration order form a permutation of `0, ..., 3135`. -/
theorem src_perm :
    ((List.range 3136).map (fun i => i % 64 * 49 + i / 64 / 7 * 7 + i / 64 % 7)).Perm
      (List.range 3136) := by
  have hnd : ((List.range 3136).map
      (fun i => i % 64 * 49 + i / 64 / 7 * 7 + i / 64 % 7)).Nodup :=
    List.Nodup.map_on (fun i hi j hj e =>
      src_inj i j (List.mem_range.mp hi) (List.mem_range.mp hj) e) (List.nodup_range _)
  refine (List.perm_ext_iff_of_nodup hnd (List.nodup_range _)).mpr (fun x => ?_)
  rw [List.mem_map, List.mem_range]
  constructor
  · rintro ⟨i, hi, rfl⟩
    exact src_lt i (List.mem_range.mp hi)
  · intro hx
    obtain ⟨i, hi, e⟩ := src_surj x hx
    exact ⟨i, List.mem_range.mpr hi, e⟩

variable {α : Type} [Zero α]

/-- The loop of `flatten_minimal` as a sequence of assignments `output[i] = input[src i]`. -/
theorem flatten_minimal_eq (output input : List α) :
    flatten_minimal output input = (List.range 3136).foldl (fun b i =>
      b.set i (input.getD (i % 64 * 49 + i / 64 / 7 * 7 + i / 64 % 7) 0)) output := by
  unfold flatten_minimal
  simp only [src_eq]
  rfl

/-- After `flatten_minimal` the whole output array is the re-ordered input. -/
theorem flatten_minimal_map (output input : List α) (hout : output.length = 3136) :
    flatten_minimal output input =
      (List.range 3136).map (fun i =>
        input.getD (i % 64 * 49 + i / 64 / 7 * 7 + i / 64 % 7) 0) := by
  rw [flatten_minimal_eq]
  have key := foldl_set_spec (fun i : Nat => i)
    (fun i : Nat => input.getD (i % 64 * 49 + i / 64 / 7 * 7 + i / 64 % 7) 0)
    (List.range 3136) (List.nodup_range _) (fun x _ y _ e => e) output
    (fun x hx => by rw [hout]; exact List.mem_range.mp hx)
  have hlen := key.1
  have hval := key.2.1
  dsimp only at hlen hval
  refine list_ext_getD _ _ (by rw [hlen, hout]; simp) (fun k hk => ?_)
  rw [hlen, hout] at hk
  rw [hval k (List.mem_range.mpr hk)]
  simp only [List.getD_eq_getElem?_getD, List.getElem?_map,
    List.getElem?_eq_getElem (show k < (List.range 3136).length by simpa using hk),
    List.getElem_range, Option.map_some', Option.getD_some]

/-- The checked loop succeeds, returns the array of `flatten_minimal` and records the source
indices in iteration order. -/
theorem flatten_minimalChecked_eq (output input : List α) :
    flatten_minimalChecked output input = some (flatten_minimal output input,
      (List.range 3136).map (fun i => i % 64 * 49 + i / 64 / 7 * 7 + i / 64 % 7)) := by
  unfold flatten_minimalChecked
  have h := foldlM_eq_some (fun _ : List α × List Nat => True)
    (fun (state : List α × List Nat) (i : Nat) =>
      if i < FC1_WEIGHTS_H ∧
          get_3d_index (i % CONV2_FILTERS) (i / CONV2_FILTERS / P2_SIZE)
            (i / CONV2_FILTERS % P2_SIZE) P2_SIZE P2_SIZE < CONV2_FILTERS * P2_SIZE * P2_SIZE then
        some (state.1.set i (input.getD (get_3d_index (i % CONV2_FILTERS)
          (i / CONV2_FILTERS / P2_SIZE) (i / CONV2_FILTERS % P2_SIZE) P2_SIZE P2_SIZE) 0),
          state.2 ++ [get_3d_index (i % CONV2_FILTERS) (i / CONV2_FILTERS / P2_SIZE)
            (i / CONV2_FILTERS % P2_SIZE) P2_SIZE P2_SIZE])
      else none)
    (fun (state : List α × List Nat) (i : Nat) =>
      (state.1.set i (input.getD (i % 64 * 49 + i / 64 / 7 * 7 + i / 64 % 7) 0),
        state.2 ++ [i % 64 * 49 + i / 64 / 7 * 7 + i / 64 % 7]))
    (List.range FC1_WEIGHTS_H)
    (fun s i hi _ => ⟨by
      have hi2 : i < 3136 := List.mem_range.mp hi
      dsimp only
      rw [src_eq, if_pos ⟨hi2, by
        have := src_lt i hi2
        unfold CONV2_FILTERS P2_SIZE
        omega⟩], trivial⟩)
    (output, []) trivial
  rw [h.1, foldl_pair (fun (b : List α) (i : Nat) =>
      b.set i (input.getD (i % 64 * 49 + i / 64 / 7 * 7 + i / 64 % 7) 0))
    (fun (log : List Nat) (i : Nat) => log ++ [i % 64 * 49 + i / 64 / 7 * 7 + i / 64 % 7]),
    CNN.foldl_push_eq_map, List.nil_append, flatten_minimal_eq]
  rfl

end FashionMnist
end AlexNet

namespace AlexNet

/-- Element `k` of the list `f 0, ..., f (n - 1)`. -/
theorem getD_map_range {α : Type} [Zero α] (f : Nat → α) (n k : Nat) (hk : k < n) :
    ((List.range n).map f).getD k 0 = f k := by
  simp only [List.getD_eq_getElem?_getD, List.getElem?_map,
    List.getElem?_eq_getElem (show k < (List.range n).length by simpa using hk),
    List.getElem_range, Option.map_some', Option.getD_some]

namespace FashionMnist

/-- C35. `flatten_minimal` is a bijective re-ordering of the 3136 pooled values from
channel-major (CHW) to channel-last (HWC) order. For arrays of the declared sizes
(`flattened[3136]`, `pool2_out[64 * 7 * 7]`): for every `ch < 64`, `row < 7`, `col < 7`,
`output[(row * 7 + col) * 64 + ch] = input[ch * 49 + row * 7 + col]`; the output array is a
permutation of the input array; the loop run with both array accesses tested against the
declared sizes succeeds, and the source indices it reads are all in `[0, 3136)`, each read
exactly once. -/
theorem flatten_minimal_reorders {α : Type} [Zero α] (output input : List α)
    (hout : output.length = FC1_WEIGHTS_H)
    (hin : input.length = CONV2_FILTERS * P2_SIZE * P2_SIZE) :
    (∀ ch row col, ch < 64 → row < 7 → col < 7 →
      (flatten_minimal output input).getD ((row * 7 + col) * 64 + ch) 0 =
        input.getD (ch * 49 + row * 7 + col) 0) ∧
    (flatten_minimal output input).length = 3136 ∧
    (flatten_minimal output input).Perm input ∧
    ∃ reads, flatten_minimalChecked output input =
        some (flatten_minimal output input, reads) ∧
      reads.length = 3136 ∧ (∀ src ∈ reads, src < 3136) ∧
      (∀ src, src < 3136 → reads.count src = 1) := by
  have hmap := flatten_minimal_map output input hout
  have hin2 : input.length = 3136 := hin
  refine ⟨fun ch row col h1 h2 h3 => ?_, by rw [hmap, List.length_map, List.length_range],
    ?_, _, flatten_minimalChecked_eq output input,
    by rw [List.length_map, List.length_range], fun src hs => ?_, fun src hs => ?_⟩
  · rw [hmap]
    have hk : (row * 7 + col) * 64 + ch < 3136 := by omega
    rw [getD_map_range _ _ _ hk]
    have e : ((row * 7 + col) * 64 + ch) % 64 * 49 + ((row * 7 + col) * 64 + ch) / 64 / 7 * 7 +
        ((row * 7 + col) * 64 + ch) / 64 % 7 = ch * 49 + row * 7 + col := by omega
    rw [e]
  · rw [hmap]
    have e1 : (List.range 3136).map (fun i =>
        input.getD (i % 64 * 49 + i / 64 / 7 * 7 + i / 64 % 7) 0) =
        ((List.range 3136).map (fun i => i % 64 * 49 + i / 64 / 7 * 7 + i / 64 % 7)).map
          (fun k => input.getD k 0) := by
      rw [List.map_map]
      rfl
    have e2 : input = (List.range 3136).map (fun k => input.getD k 0) := by
      refine list_ext_getD _ _ (by rw [hin2, List.length_map, List.length_range]) (fun k hk => ?_)
      rw [hin2] at hk
      rw [getD_map_range _ _ _ hk]
    rw [e1]
    nth_rewrite 2 [e2]
    exact src_perm.map _
  · exact List.mem_range.mp (src_perm.subset hs)
  · rw [src_perm.count_eq]
    exact List.count_eq_one_of_mem (List.nodup_range _) (List.mem_range.mpr hs)

/-- Instance of `flatten_minimal_reorders`: the pooled array holding `0, 1, ..., 3135`,
read at channel 1, row 2, column 3. -/
theorem flatten_minimal_reorders_witness :
    (flatten_minimal (List.replicate 3136 (0 : Int))
      ((List.range 3136).map (fun i => ((i : Nat) : Int)))).getD ((2 * 7 + 3) * 64 + 1) 0 =
      ((List.range 3136).map (fun i => ((i : Nat) : Int))).getD (1 * 49 + 2 * 7 + 3) 0 :=
  (flatten_minimal_reorders (List.replicate 3136 (0 : Int))
    ((List.range 3136).map (fun i => ((i : Nat) : Int))) (List.length_replicate _ _)
    (by rw [List.length_map, List.length_range]; rfl)).1 1 2 3 (by decide) (by decide) (by decide)

end FashionMnist
end AlexNet

namespace AlexNet
namespace FashionMnist

/-- Truncation toward zero moves a rational by less than one and keeps integer bounds. -/
theorem truncToInt_bounds (q : ℚ) (lo hi : Int) (h1 : (lo : ℚ) ≤ q) (h2 : q < hi + 1)
    (hlo : lo ≤ 0) (hhi : 0 ≤ hi) :
    lo ≤ truncToInt q ∧ truncToInt q ≤ hi ∧ |(truncToInt q : ℚ) - q| < 1 := by
  unfold truncToInt
  split
  · rename_i h0
    have a1 : ((⌊q⌋ : Int) : ℚ) ≤ q := Int.floor_le q
    have a2 : q < ⌊q⌋ + 1 := Int.lt_floor_add_one q
    have a3 : 0 ≤ ⌊q⌋ := Int.floor_nonneg.mpr h0
    have a4 : ⌊q⌋ < hi + 1 := by
      have : ((⌊q⌋ : Int) : ℚ) < ((hi + 1 : Int) : ℚ) := by push_cast; linarith
      exact_mod_cast this
    refine ⟨by omega, by omega, ?_⟩
    rw [abs_lt]
    constructor <;> linarith
  · rename_i h0
    have h0 : q < 0 := lt_of_not_le h0
    have a1 : q ≤ ((⌈q⌉ : Int) : ℚ) := Int.le_ceil q
    have a2 : ((⌈q⌉ : Int) : ℚ) < q + 1 := Int.ceil_lt_add_one q
    have a3 : ⌈q⌉ ≤ 0 := by
      have := Int.ceil_le.mpr (show q ≤ ((0 : Int) : ℚ) by push_cast; linarith)
      exact this
    have a4 : lo ≤ ⌈q⌉ := by
      have : ((lo : Int) : ℚ) ≤ ((⌈q⌉ : Int) : ℚ) := by linarith
      exact_mod_cast this
    refine ⟨a4, by omega, ?_⟩
    rw [abs_lt]
    constructor <;> linarith

/-- Truncation toward zero of an integer is that integer. -/
theorem truncToInt_intCast (n : Int) : truncToInt (n : ℚ) = n := by
  unfold truncToInt
  split
  · exact Int.floor_intCast n
  · exact Int.ceil_intCast n

/-- The cast to `short` keeps a value of the 16-bit range. -/
theorem toShort_id (z : Int) (h1 : -32768 ≤ z) (h2 : z ≤ 32767) : toShort z = z := by
  unfold toShort
  omega

/-- The conversion is truncation of the clamped input scaled by `2^11`; the scaled value
lies in `[-32768, 32766)`. -/
theorem float_to_fixed16_5_eq (f : ℚ) :
    float_to_fixed16_5 f = truncToInt (max (-16) (min f (15999 / 1000)) * 2048) ∧
    -32768 ≤ float_to_fixed16_5 f ∧ float_to_fixed16_5 f ≤ 32765 := by
  have hc : (if (if f > 15999 / 1000 then (15999 / 1000 : ℚ) else f) < -16 then (-16 : ℚ)
      else (if f > 15999 / 1000 then (15999 / 1000 : ℚ) else f)) =
      max (-16) (min f (15999 / 1000)) := by
    by_cases h : f > 15999 / 1000
    · rw [if_pos h, if_neg (by norm_num), min_eq_right (le_of_lt h), max_eq_right (by norm_num)]
    · rw [if_neg h, min_eq_left (not_lt.mp h)]
      by_cases h2 : f < -16
      · rw [if_pos h2, max_eq_left (le_of_lt h2)]
      · rw [if_neg h2, max_eq_right (not_lt.mp h2)]
  have e : float_to_fixed16_5 f =
      toShort (truncToInt (max (-16) (min f (15999 / 1000)) * 2048)) := by
    unfold float_to_fixed16_5
    dsimp only
    rw [hc]
    norm_num
  have b1 : (-16 : ℚ) ≤ max (-16) (min f (15999 / 1000)) := le_max_left _ _
  have b2 : max (-16) (min f (15999 / 1000)) ≤ (15999 / 1000 : ℚ) :=
    max_le (by norm_num) (min_le_right _ _)
  have tb := truncToInt_bounds (max (-16) (min f (15999 / 1000)) * 2048) (-32768) 32765
    (by push_cast; linarith) (by push_cast; linarith) (by decide) (by decide)
  rw [e, toShort_id _ tb.1 (by omega)]
  exact ⟨rfl, tb.1, tb.2.1⟩

/-- C36. Over exact rationals: for every input `f`, `float_to_fixed16_5 f` lies in
`[-32768, 32765]` (so the cast to 16 bits keeps the truncated value: the result is the
truncation toward zero of the clamped input times `2^11`), converting back differs from
`f` clamped to `[-16, 15.999]` by less than `2^-11`, and for every `f` in that range that
is a multiple of `2^-11` the round trip returns `f` exactly. -/
theorem fixed16_5_round_trip (f : ℚ) :
    -32768 ≤ float_to_fixed16_5 f ∧ float_to_fixed16_5 f ≤ 32765 ∧
    float_to_fixed16_5 f = truncToInt (max (-16) (min f (15999 / 1000)) * 2 ^ 11) ∧
    toShort (truncToInt (max (-16) (min f (15999 / 1000)) * 2 ^ 11)) =
      truncToInt (max (-16) (min f (15999 / 1000)) * 2 ^ 11) ∧
    |fixed16_5_to_float (float_to_fixed16_5 f) - max (-16) (min f (15999 / 1000))| <
      1 / 2 ^ 11 ∧
    ((∃ n : Int, f = n / 2 ^ 11) → -16 ≤ f → f ≤ 15999 / 1000 →
      fixed16_5_to_float (float_to_fixed16_5 f) = f) := by
  have key := float_to_fixed16_5_eq f
  have b1 : (-16 : ℚ) ≤ max (-16) (min f (15999 / 1000)) := le_max_left _ _
  have b2 : max (-16) (min f (15999 / 1000)) ≤ (15999 / 1000 : ℚ) :=
    max_le (by norm_num) (min_le_right _ _)
  have tb := truncToInt_bounds (max (-16) (min f (15999 / 1000)) * 2048) (-32768) 32765
    (by push_cast; linarith) (by push_cast; linarith) (by decide) (by decide)
  have e11 : ((2 : ℚ) ^ 11) = 2048 := by norm_num
  rw [e11]
  refine ⟨key.2.1, key.2.2, key.1, toShort_id _ tb.1 (by omega), ?_, ?_⟩
  · rw [key.1]
    unfold fixed16_5_to_float
    have h3 := tb.2.2
    rw [abs_lt] at h3 ⊢
    have e : (((2 ^ 11 : Nat) : ℚ)) = 2048 := by norm_num
    rw [e]
    constructor
    · rw [lt_sub_iff_add_lt, lt_div_iff₀ (by norm_num)]
      linarith [h3.1]
    · rw [sub_lt_iff_lt_add, div_lt_iff₀ (by norm_num)]
      linarith [h3.2]
  · rintro ⟨n, hn⟩ h1 h2
    rw [key.1, min_eq_left h2, max_eq_right h1]
    unfold fixed16_5_to_float
    have e : (((2 ^ 11 : Nat) : ℚ)) = 2048 := by norm_num
    rw [e, hn, div_mul_cancel₀ _ (by norm_num : (2048 : ℚ) ≠ 0), truncToInt_intCast]

/-- Instance of `fixed16_5_round_trip`: `1.5 = 3072 / 2^11` is returned exactly. -/
theorem fixed16_5_round_trip_witness :
    fixed16_5_to_float (float_to_fixed16_5 (3 / 2)) = 3 / 2 :=
  (fixed16_5_round_trip (3 / 2)).2.2.2.2.2 ⟨3072, by norm_num⟩ (by norm_num) (by norm_num)

end FashionMnist
end AlexNet

namespace AlexNet
namespace FashionMnist

/-- The marker `-999.0f` saturates: it is stored as `-32768`, the encoding of `-16.0`. -/
theorem marker_saturates : float_to_fixed16_5 (-999) = -32768 := by
  rw [(float_to_fixed16_5_eq (-999)).1,
    min_eq_left (by norm_num : (-999 : ℚ) ≤ 15999 / 1000),
    max_eq_left (by norm_num : (-999 : ℚ) ≤ -16)]
  have e : ((-16 : ℚ) * 2048) = ((-32768 : Int) : ℚ) := by norm_num
  rw [e, truncToInt_intCast]

/-- No 16-bit value converts back to `-999.0`. -/
theorem fixed16_5_to_float_ne_marker (data : Int) (h1 : -32768 ≤ data) :
    fixed16_5_to_float data ≠ -999 := by
  unfold fixed16_5_to_float
  have e : (((2 ^ 11 : Nat) : ℚ)) = 2048 := by norm_num
  rw [e]
  intro h
  rw [div_eq_iff (by norm_num : (2048 : ℚ) ≠ 0)] at h
  have h2 : (data : ℚ) = ((-2045952 : Int) : ℚ) := by rw [h]; norm_num
  have h3 : data = -2045952 := by exact_mod_cast h2
  omega

/-- Step 1 leaves `-32768` in each of the ten entries of the predictions buffer. -/
theorem markerBuffer_eq : markerBuffer = List.replicate 10 (-32768) := by
  unfold markerBuffer
  rw [marker_saturates]
  decide

/-- The flag `data_changed` is set as soon as the last entry of the buffer is a 16-bit
value. -/
theorem dataChanged_of_short (predictions_ptr : List Int)
    (h : -32768 ≤ predictions_ptr.getD 9 0) : dataChanged predictions_ptr = true := by
  unfold dataChanged
  have e : FC2_WEIGHTS_W = 9 + 1 := rfl
  rw [e, List.range_succ, List.foldl_append, List.foldl_cons, List.foldl_nil]
  dsimp only
  rw [if_pos (fixed16_5_to_float_ne_marker _ h)]

/-- The waiting loop returns `CNN_SUCCESS` or `CNN_ERROR_TIMEOUT`. -/
theorem waitLoop_codes (hw : Hardware) (timeout_ms : Nat) (fuel reads elapsed_ms : Nat) :
    waitLoop hw timeout_ms fuel reads elapsed_ms = CNN_SUCCESS ∨
      waitLoop hw timeout_ms fuel reads elapsed_ms = CNN_ERROR_TIMEOUT := by
  induction fuel generalizing reads elapsed_ms with
  | zero => exact Or.inr rfl
  | succ n ih =>
    unfold waitLoop
    dsimp only
    split
    · exact Or.inl rfl
    · split
      · exact ih _ _
      · exact Or.inr rfl

/-- Whatever the accelerator does, as long as the last entry of the predictions buffer is a
16-bit value when step 5 reads it, `run_cnn_single_image` does not return
`CNN_ERROR_DATA`. -/
theorem run_cnn_never_data_error (hw : Hardware)
    (h : -32768 ≤ (hw.predictions markerBuffer).getD 9 0) :
    run_cnn_single_image hw ≠ CNN_ERROR_DATA := by
  unfold run_cnn_single_image
  dsimp only
  rw [dataChanged_of_short _ h]
  split
  · decide
  · split
    · decide
    · split
      · rcases waitLoop_codes hw 15000 (15000 / 10 + 1) (reset_accelerator hw 0).2 0 with e | e
        · rename_i hne
          exact absurd e hne
        · unfold wait_for_accelerator_completion
          rw [e]
          decide
      · simp only [not_true_eq_false, if_false]
        decide

/-- C37 (the code departs from it). On an accelerator that reports `DONE` and writes
nothing, the predictions buffer read in step 5 is the buffer of step 1, every entry still
holding the marker `float_to_fixed16_5 (-999) = -32768`; converted back, the marker is
`-16`, not `-999`, so the flag `data_changed` is set and `run_cnn_single_image` returns
`CNN_SUCCESS` instead of `CNN_ERROR_DATA`. -/
theorem run_cnn_marker_undetected :
    Example.silentHardware.predictions markerBuffer = markerBuffer ∧
    markerBuffer = List.replicate FC2_WEIGHTS_W (float_to_fixed16_5 (-999)) ∧
    float_to_fixed16_5 (-999) = -32768 ∧
    fixed16_5_to_float (float_to_fixed16_5 (-999)) = -16 ∧
    (reset_accelerator Example.silentHardware 0).1 = CNN_SUCCESS ∧
    wait_for_accelerator_completion Example.silentHardware
      (reset_accelerator Example.silentHardware 0).2 15000 = CNN_SUCCESS ∧
    dataChanged (Example.silentHardware.predictions markerBuffer) = true ∧
    run_cnn_single_image Example.silentHardware = CNN_SUCCESS ∧
    run_cnn_single_image Example.silentHardware ≠ CNN_ERROR_DATA := by
  have hd : dataChanged (Example.silentHardware.predictions markerBuffer) = true := by
    refine dataChanged_of_short _ ?_
    show -32768 ≤ markerBuffer.getD 9 0
    rw [markerBuffer_eq]
    decide
  have hrun : run_cnn_single_image Example.silentHardware = CNN_SUCCESS := by
    unfold run_cnn_single_image
    dsimp only
    rw [hd]
    rfl
  refine ⟨rfl, ?_, marker_saturates, ?_, rfl, rfl, hd, hrun, ?_⟩
  · rw [markerBuffer_eq, marker_saturates]
    rfl
  · rw [marker_saturates]
    unfold fixed16_5_to_float
    norm_num
  · rw [hrun]
    decide

end FashionMnist
end AlexNet

namespace AlexNet

/-- A value of the `int` range is not changed by wrapping. -/
theorem wrap32_id (z : Int) (h1 : 0 ≤ z) (h2 : z < 2 ^ 31) : wrap32 z = z := by
  unfold wrap32
  have e31 : (2 : Int) ^ 31 = 2147483648 := by norm_num
  have e32 : (2 : Int) ^ 32 = 4294967296 := by norm_num
  rw [e31] at h2 ⊢
  rw [e32]
  omega

/-- The `int` products of the baseline network do not depend on the element type. -/
theorem trace_new_int (α : Type) [LinearOrderedCommRing α] :
    productsTrace (CNN.new : CNN α).layers (3, 224, 224) =
      productsTrace (CNN.new : CNN Int).layers (3, 224, 224) := rfl

/-- The `int` products of the tiled network do not depend on the element type. -/
theorem trace_newV2_int (α : Type) [LinearOrderedCommRing α] :
    productsTrace (CNN.newV2 : CNN α).layers (3, 224, 224) =
      productsTrace (CNN.newV2 : CNN Int).layers (3, 224, 224) := rfl

/-- For a tensor with fewer than `2^31` elements, the index `at` computes with its mixed
64-bit and `int` arithmetic is the mathematical flat index. -/
theorem Tensor3D.machineIndex_eq {α : Type} (t : Tensor3D α) (d h w : Int)
    (hr : t.InRange d h w) (hsz : t.depth * t.height * t.width < 2 ^ 31) :
    t.machineIndex d h w = t.index d h w := by
  obtain ⟨h1, h2, h3, h4, h5, h6⟩ := hr
  have hW : 1 ≤ t.width := by omega
  have hH : 1 ≤ t.height := by omega
  have hD : 1 ≤ t.depth := by omega
  have a1 : h * t.width ≤ (t.height - 1) * t.width :=
    mul_le_mul_of_nonneg_right (by omega) (by omega)
  have a0 : 0 ≤ h * t.width := mul_nonneg h3 (by omega)
  have b0 : 0 ≤ d * t.height := mul_nonneg h1 (by omega)
  have b1 : d * t.height ≤ (t.depth - 1) * t.height :=
    mul_le_mul_of_nonneg_right (by omega) (by omega)
  have c0 : 0 ≤ d * t.height * t.width := mul_nonneg b0 (by omega)
  have c1 : d * t.height * t.width ≤ (t.depth - 1) * t.height * t.width :=
    mul_le_mul_of_nonneg_right b1 (by omega)
  have hHW : 0 ≤ t.height * t.width := mul_nonneg (by omega) (by omega)
  have e1 : (t.depth - 1) * t.height * t.width =
      t.depth * t.height * t.width - t.height * t.width := by ring
  have e2 : (t.height - 1) * t.width = t.height * t.width - t.width := by ring
  have hDHW : t.height * t.width ≤ t.depth * t.height * t.width := by
    have := mul_le_mul_of_nonneg_right hD hHW
    rw [one_mul, ← mul_assoc] at this
    exact this
  have hdd : d ≤ d * t.height := le_mul_of_one_le_right h1 hH
  have hdd2 : d * t.height ≤ d * t.height * t.width := le_mul_of_one_le_right b0 hW
  have e31 : (2 : Int) ^ 31 = 2147483648 := by norm_num
  have e64 : (2 : Int) ^ 64 = 18446744073709551616 := by norm_num
  unfold Tensor3D.machineIndex Tensor3D.index mul32
  rw [wrap32_id _ a0 (by omega)]
  rw [e64]
  rw [e31] at hsz
  have hd64 : d % 18446744073709551616 = d := Int.emod_eq_of_lt h1 (by omega)
  rw [hd64]
  exact Int.emod_eq_of_lt (by omega) (by omega)

/-- For a weight file of fewer than `2^31` elements, the `int` index of the convolution
`loadWeights` is the mathematical index. -/
theorem convWeightIdx32_eq (M N K to_ ti k : Int) (h1 : 0 ≤ to_) (h2 : to_ < M) (h3 : 0 ≤ ti)
    (h4 : ti < N) (h5 : 0 ≤ k) (h6 : k < K * K) (hK : 0 ≤ K) (hsz : M * N * K * K < 2 ^ 31) :
    convWeightIdx32 N K to_ ti k = to_ * N * K * K + ti * K * K + k := by
  have hK1 : 1 ≤ K := by
    by_contra hc
    have : K = 0 := by omega
    rw [this] at h6
    omega
  have hN : 1 ≤ N := by omega
  have a0 : 0 ≤ to_ * N := mul_nonneg h1 (by omega)
  have a1 : 0 ≤ to_ * N * K := mul_nonneg a0 hK
  have a2 : 0 ≤ to_ * N * K * K := mul_nonneg a1 hK
  have a3 : to_ * N ≤ to_ * N * K := le_mul_of_one_le_right a0 hK1
  have a4 : to_ * N * K ≤ to_ * N * K * K := le_mul_of_one_le_right a1 hK1
  have b0 : 0 ≤ ti * K := mul_nonneg h3 hK
  have b1 : 0 ≤ ti * K * K := mul_nonneg b0 hK
  have b2 : ti * K ≤ ti * K * K := le_mul_of_one_le_right b0 hK1
  have hKK : 0 ≤ K * K := mul_nonneg hK hK
  have c1 : ti * K * K ≤ (N - 1) * K * K :=
    mul_le_mul_of_nonneg_right (mul_le_mul_of_nonneg_right (by omega) hK) hK
  have c2 : to_ * N * K * K ≤ (M - 1) * N * K * K :=
    mul_le_mul_of_nonneg_right (mul_le_mul_of_nonneg_right
      (mul_le_mul_of_nonneg_right (by omega) (by omega)) hK) hK
  have e1 : (N - 1) * K * K = N * K * K - K * K := by ring
  have e2 : (M - 1) * N * K * K = M * N * K * K - N * K * K := by ring
  have hNKK : 0 ≤ N * K * K := mul_nonneg (mul_nonneg (by omega) hK) hK
  have e31 : (2 : Int) ^ 31 = 2147483648 := by norm_num
  have w31 : ∀ z : Int, 0 ≤ z → z < 2147483648 → wrap32 z = z := fun z hz1 hz2 =>
    wrap32_id z hz1 (by rw [e31]; exact hz2)
  rw [e31] at hsz
  unfold convWeightIdx32 add32 mul32
  rw [w31 (to_ * N) a0 (by omega), w31 (to_ * N * K) a1 (by omega),
    w31 (to_ * N * K * K) a2 (by omega), w31 (ti * K) b0 (by omega),
    w31 (ti * K * K) b1 (by omega), w31 (to_ * N * K * K + ti * K * K) (by omega) (by omega),
    w31 (to_ * N * K * K + ti * K * K + k) (by omega) (by omega)]

/-- For a weight matrix of fewer than `2^31` elements, the `int` index of the
fully-connected `loadWeights` is the mathematical index. -/
theorem fcWeightIdx32_eq (outputSize inputSize i j : Int) (h1 : 0 ≤ i) (h2 : i < outputSize)
    (h3 : 0 ≤ j) (h4 : j < inputSize) (hsz : outputSize * inputSize < 2 ^ 31) :
    fcWeightIdx32 inputSize i j = i * inputSize + j := by
  have a0 : 0 ≤ i * inputSize := mul_nonneg h1 (by omega)
  have a1 : i * inputSize ≤ (outputSize - 1) * inputSize :=
    mul_le_mul_of_nonneg_right (by omega) (by omega)
  have e1 : (outputSize - 1) * inputSize = outputSize * inputSize - inputSize := by ring
  have e31 : (2 : Int) ^ 31 = 2147483648 := by norm_num
  have w31 : ∀ z : Int, 0 ≤ z → z < 2147483648 → wrap32 z = z := fun z hz1 hz2 =>
    wrap32_id z hz1 (by rw [e31]; exact hz2)
  rw [e31] at hsz
  unfold fcWeightIdx32 add32 mul32
  rw [w31 (i * inputSize) a0 (by omega), w31 (i * inputSize + j) (by omega) (by omega)]

set_option maxRecDepth 100000 in
/-- C38. For both builds of the reference architecture on a `3 x 224 x 224` input, every
`int` product formed as an element count or byte count in construction, `forward` and
`loadWeights` has all its intermediate values in `[0, 2^31)`, its 32-bit value equals the
mathematical product, and it is at most 150,994,944, the byte count of fc6, whose element
count `4096 * 9216` is 37,748,736. For any tensor, weight file or weight matrix of fewer than
`2^31` elements the flat indices computed by `at` and by the two `loadWeights` loops equal
their mathematical values. -/
theorem reference_int_products_exact (α : Type) [LinearOrderedCommRing α] :
    (∀ fs ∈ ([3, 224, 224] : List Int) :: productsTrace (CNN.new : CNN α).layers (3, 224, 224),
      (∀ p ∈ partialProducts fs, 0 ≤ p ∧ p < 2 ^ 31) ∧ prod32 fs = fs.prod ∧
        fs.prod ≤ 150994944) ∧
    (∀ fs ∈ ([3, 224, 224] : List Int) ::
        productsTrace (CNN.newV2 : CNN α).layers (3, 224, 224),
      (∀ p ∈ partialProducts fs, 0 ≤ p ∧ p < 2 ^ 31) ∧ prod32 fs = fs.prod ∧
        fs.prod ≤ 150994944) ∧
    ([4096, 9216] : List Int) ∈ productsTrace (CNN.new : CNN α).layers (3, 224, 224) ∧
    ([4096, 9216, 4] : List Int) ∈ productsTrace (CNN.new : CNN α).layers (3, 224, 224) ∧
    prod32 [4096, 9216] = 37748736 ∧ prod32 [4096, 9216, 4] = 150994944 ∧
    (∀ (t : Tensor3D α) (d h w : Int), t.InRange d h w →
      t.depth * t.height * t.width < 2 ^ 31 → t.machineIndex d h w = t.index d h w) ∧
    (∀ M N K to_ ti k : Int, 0 ≤ to_ → to_ < M → 0 ≤ ti → ti < N → 0 ≤ k → k < K * K →
      0 ≤ K → M * N * K * K < 2 ^ 31 →
      convWeightIdx32 N K to_ ti k = to_ * N * K * K + ti * K * K + k) ∧
    (∀ outputSize inputSize i j : Int, 0 ≤ i → i < outputSize → 0 ≤ j → j < inputSize →
      outputSize * inputSize < 2 ^ 31 → fcWeightIdx32 inputSize i j = i * inputSize + j) := by
  rw [trace_new_int α, trace_newV2_int α]
  exact ⟨by decide, by decide, by decide, by decide, by decide, by decide,
    fun t d h w => Tensor3D.machineIndex_eq t d h w, convWeightIdx32_eq, fcWeightIdx32_eq⟩

/-- Instance of `reference_int_products_exact`: the last weight of fc6. -/
theorem reference_int_products_exact_witness :
    fcWeightIdx32 9216 4095 9215 = 4095 * 9216 + 9215 :=
  (reference_int_products_exact Int).2.2.2.2.2.2.2.2 4096 9216 4095 9215 (by decide)
    (by decide) (by decide) (by decide) (by decide)

end AlexNet

namespace AlexNet

/-- A checked loop whose body never fails returns the state of the unchecked loop. -/
theorem foldlM_some {σ ι : Type} (g : σ → ι → Option σ) (f : σ → ι → σ) (l : List ι)
    (h : ∀ s x, x ∈ l → g s x = some (f s x)) : ∀ s, l.foldlM g s = some (l.foldl f s) := by
  induction l with
  | nil => exact fun s => rfl
  | cons a l ih =>
    intro s
    rw [List.foldlM_cons, h s a (List.mem_cons_self a l), List.foldl_cons]
    exact ih (fun s x hx => h s x (List.mem_cons_of_mem a hx)) _

/-- A checked loop over a state paired with a log: when each iteration succeeds and appends
the entries `w x`, the loop succeeds and appends the entries of all iterations in order. -/
theorem foldlM_log {σ ι : Type} (g : σ × List Nat → ι → Option (σ × List Nat))
    (f : σ → ι → σ) (w : ι → List Nat) (l : List ι)
    (h : ∀ s lg x, x ∈ l → g (s, lg) x = some (f s x, lg ++ w x)) :
    ∀ s lg, l.foldlM g (s, lg) = some (l.foldl f s, lg ++ l.flatMap w) := by
  induction l with
  | nil =>
    intro s lg
    rw [List.flatMap_nil, List.append_nil]
    rfl
  | cons a l ih =>
    intro s lg
    rw [List.foldlM_cons, h s lg a (List.mem_cons_self a l), List.foldl_cons,
      List.flatMap_cons, ← List.append_assoc]
    exact ih (fun s lg x hx => h s lg x (List.mem_cons_of_mem a hx)) _ _

namespace Accelerator

variable {α : Type} [LinearOrderedCommRing α]

theorem read1_some (a : List α) (size i : Nat) (h : i < size) :
    read1 a size i = some (a.getD i 0) := if_pos h

theorem write1_some {β : Type} (a : List β) (size i : Nat) (v : β) (h : i < size) :
    write1 a size i v = some (a.set i v) := if_pos h

theorem read3_some (a : List α) (D1 D2 D3 i j k : Nat) (hi : i < D1) (hj : j < D2)
    (hk : k < D3) : read3 a D1 D2 D3 i j k = some (a.getD (at3 D2 D3 i j k) 0) :=
  if_pos ⟨hi, hj, hk⟩

theorem write3_some {β : Type} (a : List β) (D1 D2 D3 i j k : Nat) (v : β) (hi : i < D1) (hj : j < D2)
    (hk : k < D3) : write3 a D1 D2 D3 i j k v = some (a.set (at3 D2 D3 i j k) v) :=
  if_pos ⟨hi, hj, hk⟩

theorem readInt_some (a : List α) (size : Nat) (idx : Int) (h0 : 0 ≤ idx) (h : idx < size) :
    readInt a size idx = some (a.getD idx.toNat 0) := if_pos ⟨h0, h⟩

/-- An offset inside the part of a tile that lies in the range plus the tile offset is in
the range. -/
theorem limit_add_lt (x offset T n : Nat)
    (h : x < (if offset + T > n then n - offset else T)) : x + offset < n := by
  split at h <;> omega

/-- The tested `load_bias` succeeds with the result of `load_bias`. -/
theorem load_biasChecked_some (bias_ddr bias_buffer : List α) (m_offset M : Nat) :
    load_biasChecked bias_ddr bias_buffer m_offset M =
      some (load_bias bias_ddr bias_buffer m_offset M) := by
  unfold load_biasChecked load_bias
  dsimp only
  rw [foldlM_some _ (fun bias_buffer (m : Nat) => bias_buffer.set m 0) _
    (fun s m hm => write1_some _ _ _ _ (List.mem_range.mp hm))]
  refine foldlM_some _ _ _ (fun s m hm => ?_) _
  have hm := List.mem_range.mp hm
  rw [read1_some _ _ _ (limit_add_lt _ _ _ _ hm)]
  exact write1_some _ _ _ _ (lt_of_lt_of_le hm (limit_le _ _ _))

/-- The tested `init_output_buffer` succeeds with the result of `init_output_buffer`. -/
theorem init_output_bufferChecked_some (output_buffer bias_buffer : List α) (tm_bound : Nat) :
    init_output_bufferChecked output_buffer bias_buffer tm_bound =
      some (init_output_buffer output_buffer bias_buffer tm_bound) := by
  unfold init_output_bufferChecked init_output_buffer
  refine foldlM_some _ _ _ (fun s too htoo => ?_) _
  refine foldlM_some _ _ _ (fun s trr htrr => ?_) _
  refine foldlM_some _ _ _ (fun s tcc htcc => ?_) _
  have h1 := List.mem_range.mp htoo
  have h2 := List.mem_range.mp htrr
  have h3 := List.mem_range.mp htcc
  by_cases h : too < tm_bound
  · rw [if_pos h, if_pos h, read1_some _ _ _ h1]
    exact write3_some _ _ _ _ _ _ _ _ h1 h2 h3
  · rw [if_neg h, if_neg h]
    exact write3_some _ _ _ _ _ _ _ _ h1 h2 h3

/-- The tested `apply_relu` succeeds with the result of `apply_relu`. -/
theorem apply_reluChecked_some (buffer : List α) (tm tr tc : Nat) (htm : tm ≤ TM)
    (htr : tr ≤ TR) (htc : tc ≤ TC) :
    apply_reluChecked buffer tm tr tc = some (apply_relu buffer tm tr tc) := by
  unfold apply_reluChecked apply_relu
  refine foldlM_some _ _ _ (fun s too htoo => ?_) _
  refine foldlM_some _ _ _ (fun s trr htrr => ?_) _
  refine foldlM_some _ _ _ (fun s tcc htcc => ?_) _
  have h1 : too < TM := lt_of_lt_of_le (List.mem_range.mp htoo) htm
  have h2 : trr < TR := lt_of_lt_of_le (List.mem_range.mp htrr) htr
  have h3 : tcc < TC := lt_of_lt_of_le (List.mem_range.mp htcc) htc
  rw [read3_some _ _ _ _ _ _ _ h1 h2 h3]
  show (if _ then _ else _) = _
  split
  · exact write3_some _ _ _ _ _ _ _ _ h1 h2 h3
  · rfl

end Accelerator
end AlexNet

namespace AlexNet
namespace Accelerator

variable {α : Type} [LinearOrderedCommRing α]

/-- An offset inside a batch of a batched loop plus the start of the batch is below the
bound of the loop. -/
theorem batch_index_lt (n T base offset : Nat) (hT : 1 ≤ T) (hb : base ∈ tileStarts n T)
    (ho : offset < (if base + T ≤ n then T else n - base)) : base + offset < n := by
  have h := ((mem_tileStarts n T hT base).mp hb).1
  split at ho <;> omega

/-- For a kernel of at most `MAX_KERNEL_SIZE`, the tested `load_weight_tile` succeeds with
the result of `load_weight_tile`. -/
theorem load_weight_tileChecked_some (weights_ddr weight_buffer : List α)
    (m_offset n_offset M N K : Nat) (hK : K ≤ MAX_KERNEL_SIZE) :
    load_weight_tileChecked weights_ddr weight_buffer m_offset n_offset M N K =
      some (load_weight_tile weights_ddr weight_buffer m_offset n_offset M N K) := by
  unfold load_weight_tileChecked load_weight_tile
  dsimp only
  rw [foldlM_some _ (fun weight_buffer (m : Nat) =>
      (List.range TN).foldl (fun weight_buffer (n : Nat) =>
        (List.range (MAX_KERNEL_SIZE * MAX_KERNEL_SIZE)).foldl (fun weight_buffer (k : Nat) =>
          weight_buffer.set (at3 TN (MAX_KERNEL_SIZE * MAX_KERNEL_SIZE) m n k) 0)
          weight_buffer) weight_buffer) _
    (fun s m hm => foldlM_some _ _ _ (fun s n hn => foldlM_some _ _ _ (fun s k hk =>
      write3_some _ _ _ _ _ _ _ _ (List.mem_range.mp hm) (List.mem_range.mp hn)
        (List.mem_range.mp hk)) _) _)]
  refine foldlM_some _ _ _ (fun s m hm => ?_) _
  refine foldlM_some _ _ _ (fun s n hn => ?_) _
  refine foldlM_some _ _ _ (fun s k_base hk_base => ?_) _
  refine foldlM_some _ _ _ (fun s k_offset hk_offset => ?_) _
  have hm := List.mem_range.mp hm
  have hn := List.mem_range.mp hn
  have hk : k_base + k_offset < K * K :=
    batch_index_lt _ _ _ _ (by decide) hk_base (List.mem_range.mp hk_offset)
  have hidx : (m + m_offset) * N * (K * K) + (n + n_offset) * (K * K) + (k_base + k_offset) <
      M * N * K * K := by
    rw [Nat.mul_assoc (M * N) K K]
    exact flat3_lt (limit_add_lt _ _ _ _ hm) (limit_add_lt _ _ _ _ hn) hk
  rw [read1_some _ _ _ hidx]
  exact write3_some _ _ _ _ _ _ _ _ (lt_of_lt_of_le hm (limit_le _ _ _))
    (lt_of_lt_of_le hn (limit_le _ _ _)) (lt_of_lt_of_le hk (kernel_area_le K hK))

/-- The tested `load_input_tile` succeeds with the result of `load_input_tile`. -/
theorem load_input_tileChecked_some (input_ddr input_buffer : List α)
    (n_offset h_offset w_offset N H W S P : Nat) :
    load_input_tileChecked input_ddr input_buffer n_offset h_offset w_offset N H W S P =
      some (load_input_tile input_ddr input_buffer n_offset h_offset w_offset N H W S P) := by
  unfold load_input_tileChecked load_input_tile
  dsimp only
  rw [foldlM_some _ (fun input_buffer (n : Nat) =>
      (List.range INPUT_TILE_HEIGHT).foldl (fun input_buffer (h : Nat) =>
        (List.range INPUT_TILE_WIDTH).foldl (fun input_buffer (w : Nat) =>
          input_buffer.set (at3 INPUT_TILE_HEIGHT INPUT_TILE_WIDTH n h w) 0)
          input_buffer) input_buffer) _
    (fun s n hn => foldlM_some _ _ _ (fun s h hh => foldlM_some _ _ _ (fun s w hw =>
      write3_some _ _ _ _ _ _ _ _ (List.mem_range.mp hn) (List.mem_range.mp hh)
        (List.mem_range.mp hw)) _) _)]
  refine foldlM_some _ _ _ (fun s n hn => ?_) _
  refine foldlM_some _ _ _ (fun s h hh => ?_) _
  have hn := List.mem_range.mp hn
  have hh := List.mem_range.mp hh
  rw [foldlM_some _ (fun row_buffer (w : Nat) =>
      if 0 ≤ (h : Int) + (h_offset : Int) * S - P ∧ (h : Int) + (h_offset : Int) * S - P < H ∧
          0 ≤ (w : Int) + (w_offset : Int) * S - P ∧ (w : Int) + (w_offset : Int) * S - P < W then
        row_buffer.set w (input_ddr.getD (((n + n_offset : Nat) : Int) * H * W +
          ((h : Int) + (h_offset : Int) * S - P) * W +
          ((w : Int) + (w_offset : Int) * S - P)).toNat 0)
      else row_buffer.set w 0) _ (fun s w hw => ?_)]
  · refine foldlM_some _ _ _ (fun s w hw => ?_) _
    have hw := List.mem_range.mp hw
    rw [read1_some _ _ _ hw]
    exact write3_some _ _ _ _ _ _ _ _ (lt_of_lt_of_le hn (limit_le _ _ _)) hh hw
  · have hw := List.mem_range.mp hw
    dsimp only
    by_cases hc : 0 ≤ (h : Int) + (h_offset : Int) * S - P ∧
        (h : Int) + (h_offset : Int) * S - P < H ∧
        0 ≤ (w : Int) + (w_offset : Int) * S - P ∧ (w : Int) + (w_offset : Int) * S - P < W
    · rw [if_pos hc, if_pos hc]
      have hN : ((n + n_offset : Nat) : Int) < (N : Int) := by
        exact_mod_cast limit_add_lt _ _ _ _ hn
      have h0 := Tensor3D.flat_nonneg (H := (H : Int)) (W := (W : Int))
        (d := ((n + n_offset : Nat) : Int)) (by positivity) hc.1 hc.2.1 hc.2.2.1 hc.2.2.2
      have h1 := Tensor3D.flat_lt (D := (N : Int)) (H := (H : Int)) (W := (W : Int)) hN hc.1
        hc.2.1 hc.2.2.1 hc.2.2.2
      rw [readInt_some _ _ _ h0 (by push_cast; exact h1)]
      exact write1_some _ _ _ _ hw
    · rw [if_neg hc, if_neg hc]
      exact write1_some _ _ _ _ hw

/-- For a kernel of at most `MAX_KERNEL_SIZE`, a stride of at most `MAX_STRIDE` and tile
bounds of at most the tile sizes, the tested `compute_tile` succeeds with the result of
`compute_tile`. -/
theorem compute_tileChecked_some (input_buffer weight_buffer output_buffer : List α)
    (K S tm tn tr tc : Nat) (hK : K ≤ MAX_KERNEL_SIZE) (hS : S ≤ MAX_STRIDE) (htm : tm ≤ TM)
    (htn : tn ≤ TN) (htr : tr ≤ TR) (htc : tc ≤ TC) :
    compute_tileChecked input_buffer weight_buffer output_buffer K S tm tn tr tc =
      some (compute_tile input_buffer weight_buffer output_buffer K S tm tn tr tc) := by
  unfold compute_tileChecked compute_tile
  refine foldlM_some _ _ _ (fun s i hi => ?_) _
  refine foldlM_some _ _ _ (fun s j hj => ?_) _
  refine foldlM_some _ _ _ (fun s trr htrr => ?_) _
  refine foldlM_some _ _ _ (fun s tcc htcc => ?_) _
  dsimp only
  refine foldlM_some _ _ _ (fun s too_base hbase => ?_) _
  refine foldlM_some _ _ _ (fun s tii htii => ?_) _
  refine foldlM_some _ _ _ (fun s too_offset hoffset => ?_) _
  have hi := List.mem_range.mp hi
  have hj := List.mem_range.mp hj
  have htrr : trr < TR := lt_of_lt_of_le (List.mem_range.mp htrr) htr
  have htcc : tcc < TC := lt_of_lt_of_le (List.mem_range.mp htcc) htc
  have htii : tii < TN := lt_of_lt_of_le (List.mem_range.mp htii) htn
  have htoo : too_base + too_offset < TM := lt_of_lt_of_le
    (batch_index_lt _ _ _ _ (by decide) hbase (List.mem_range.mp hoffset)) htm
  have hk : i * K + j < MAX_KERNEL_SIZE * MAX_KERNEL_SIZE :=
    lt_of_lt_of_le (kernel_index_lt i j K hi hj) (kernel_area_le K hK)
  have hh : trr * S + i < INPUT_TILE_HEIGHT := tile_input_lt trr S i K htrr hS hi hK
  have hw : tcc * S + j < INPUT_TILE_WIDTH := tile_input_lt tcc S j K htcc hS hj hK
  rw [read3_some _ _ _ _ _ _ _ htoo htrr htcc, read3_some _ _ _ _ _ _ _ htoo htii hk,
    read3_some _ _ _ _ _ _ _ htii hh hw]
  exact write3_some _ _ _ _ _ _ _ _ htoo htrr htcc

end Accelerator
end AlexNet

namespace AlexNet
namespace Accelerator

variable {α : Type} [LinearOrderedCommRing α]

/-- The bound of a tile is at most the tile size. -/
theorem bound_le (n o T : Nat) : (if n - o < T then n - o else T) ≤ T := by
  split <;> omega

/-- The tested `store_output_tile` succeeds with the result of `store_output_tile` and
records the indices `storeWrites`. -/
theorem store_output_tileChecked_some (output_ddr : List α) (lg : List Nat)
    (output_buffer : List α) (m_offset h_offset w_offset M R C : Nat) :
    store_output_tileChecked (output_ddr, lg) output_buffer m_offset h_offset w_offset M R C =
      some (store_output_tile output_ddr output_buffer m_offset h_offset w_offset M R C,
        lg ++ storeWrites m_offset h_offset w_offset M R C) := by
  unfold store_output_tileChecked store_output_tile storeWrites
  dsimp only
  refine foldlM_log _ _ _ _ (fun s lg m hm => ?_) _ _
  dsimp only
  refine foldlM_log _ _ _ _ (fun s lg r hr => ?_) _ _
  dsimp only
  have hm := List.mem_range.mp hm
  have hr := List.mem_range.mp hr
  rw [foldlM_some _ (fun row_buffer (c : Nat) =>
      row_buffer.set c (output_buffer.getD (at3 TR TC m r c) 0)) _ (fun s c hc => ?_)]
  · refine foldlM_log _ _ _ _ (fun s lg c hc => ?_) _ _
    have hc := List.mem_range.mp hc
    dsimp only
    rw [read1_some _ _ _ (lt_of_lt_of_le hc (limit_le _ _ _))]
    simp only [Option.bind_eq_bind, Option.some_bind]
    rw [write1_some _ _ _ _ (flat3_lt (limit_add_lt _ _ _ _ hm) (limit_add_lt _ _ _ _ hr)
        (limit_add_lt _ _ _ _ hc))]
    rfl
  · have hc := List.mem_range.mp hc
    rw [read3_some _ _ _ _ _ _ _ (lt_of_lt_of_le hm (limit_le _ _ _))
      (lt_of_lt_of_le hr (limit_le _ _ _)) (lt_of_lt_of_le hc (limit_le _ _ _))]
    exact write1_some _ _ _ _ (lt_of_lt_of_le hc (limit_le _ _ _))

/-- The tested body of `tn_loop` succeeds with the result of the body. -/
theorem tnStepChecked_some (input_ddr weights_ddr : List α) (N M input_H input_W K S P : Nat)
    (m_offset r_offset c_offset tm_bound tr_bound tc_bound : Nat) (mem : Memory α) (tn : Nat)
    (hK : K ≤ MAX_KERNEL_SIZE) (hS : S ≤ MAX_STRIDE) (htm : tm_bound ≤ TM)
    (htr : tr_bound ≤ TR) (htc : tc_bound ≤ TC) :
    tnStepChecked input_ddr weights_ddr N M input_H input_W K S P m_offset r_offset c_offset
        tm_bound tr_bound tc_bound mem tn =
      some (tnStep input_ddr weights_ddr N M input_H input_W K S P m_offset r_offset c_offset
        tm_bound tr_bound tc_bound mem tn) := by
  unfold tnStepChecked tnStep
  dsimp only
  rw [load_weight_tileChecked_some _ _ _ _ _ _ _ hK, load_input_tileChecked_some]
  dsimp only [bind, Option.bind]
  rw [compute_tileChecked_some _ _ _ _ _ _ _ _ _ hK hS htm (bound_le _ _ _) htr htc]

/-- The tested body of `tc_loop` succeeds with the result of the body and records the
writes of the tile. -/
theorem tcStepChecked_some (input_ddr weights_ddr : List α)
    (N M input_H input_W output_H output_W K S P : Nat)
    (tn_steps m_offset tm_bound r_offset tr_bound : Nat) (mem : Memory α) (lg : List Nat)
    (tc : Nat) (hK : K ≤ MAX_KERNEL_SIZE) (hS : S ≤ MAX_STRIDE) (htm : tm_bound ≤ TM)
    (htr : tr_bound ≤ TR) :
    tcStepChecked input_ddr weights_ddr N M input_H input_W output_H output_W K S P tn_steps
        m_offset tm_bound r_offset tr_bound (mem, lg) tc =
      some (tcStep input_ddr weights_ddr N M input_H input_W output_H output_W K S P tn_steps
        m_offset tm_bound r_offset tr_bound mem tc,
        lg ++ storeWrites m_offset r_offset (tc * TC) M output_H output_W) := by
  unfold tcStepChecked tcStep
  dsimp only
  rw [init_output_bufferChecked_some]
  dsimp only [bind, Option.bind]
  rw [foldlM_some _ (tnStep input_ddr weights_ddr N M input_H input_W K S P m_offset r_offset
      (tc * TC) tm_bound tr_bound (if output_W - tc * TC < TC then output_W - tc * TC else TC))
    _ (fun s tn _ => tnStepChecked_some _ _ _ _ _ _ _ _ _ _ _ _ _ _ _ _ _ hK hS htm htr
      (bound_le _ _ _))]
  dsimp only
  rw [apply_reluChecked_some _ _ _ _ htm htr (bound_le _ _ _)]
  dsimp only
  rw [store_output_tileChecked_some]

/-- The tested body of `tr_loop` succeeds and records the writes of its tiles. -/
theorem trStepChecked_some (input_ddr weights_ddr : List α)
    (N M input_H input_W output_H output_W K S P : Nat)
    (tn_steps tc_steps m_offset tm_bound : Nat) (mem : Memory α) (lg : List Nat) (tr : Nat)
    (hK : K ≤ MAX_KERNEL_SIZE) (hS : S ≤ MAX_STRIDE) (htm : tm_bound ≤ TM) :
    trStepChecked input_ddr weights_ddr N M input_H input_W output_H output_W K S P tn_steps
        tc_steps m_offset tm_bound (mem, lg) tr =
      some (trStep input_ddr weights_ddr N M input_H input_W output_H output_W K S P tn_steps
        tc_steps m_offset tm_bound mem tr,
        lg ++ (List.range tc_steps).flatMap (fun tc =>
          storeWrites m_offset (tr * TR) (tc * TC) M output_H output_W)) := by
  unfold trStepChecked trStep
  dsimp only
  exact foldlM_log _ _ _ _ (fun s lg tc _ =>
    tcStepChecked_some _ _ _ _ _ _ _ _ _ _ _ _ _ _ _ _ _ _ _ hK hS htm (bound_le _ _ _)) _ _

/-- The tested body of `tm_loop` succeeds and records the writes of its tiles. -/
theorem tmStepChecked_some (input_ddr weights_ddr bias_ddr : List α)
    (N M input_H input_W output_H output_W K S P : Nat)
    (tn_steps tr_steps tc_steps : Nat) (mem : Memory α) (lg : List Nat) (tm : Nat)
    (hK : K ≤ MAX_KERNEL_SIZE) (hS : S ≤ MAX_STRIDE) :
    tmStepChecked input_ddr weights_ddr bias_ddr N M input_H input_W output_H output_W K S P
        tn_steps tr_steps tc_steps (mem, lg) tm =
      some (tmStep input_ddr weights_ddr bias_ddr N M input_H input_W output_H output_W K S P
        tn_steps tr_steps tc_steps mem tm,
        lg ++ (List.range tr_steps).flatMap (fun tr => (List.range tc_steps).flatMap (fun tc =>
          storeWrites (tm * TM) (tr * TR) (tc * TC) M output_H output_W))) := by
  unfold tmStepChecked tmStep
  dsimp only
  rw [load_biasChecked_some]
  dsimp only [bind, Option.bind]
  exact foldlM_log _ _ _ _ (fun s lg tr _ =>
    trStepChecked_some _ _ _ _ _ _ _ _ _ _ _ _ _ _ _ _ _ _ hK hS (bound_le _ _ _)) _ _

/-- For a kernel of at most `MAX_KERNEL_SIZE` and a stride of at most `MAX_STRIDE`, the
accelerator with every access tested succeeds, returns the output memory of
`fashion_mnist_cnn_accelerator`, and records the writes of one `store_output_tile` on the
single-tile path and of every tile on the tiled path. -/
theorem acceleratorChecked_some (input_ddr weights_ddr bias_ddr : List α)
    (layer_config : LayerConfig) (layer_idx : Int) (mem : Memory α)
    (hK : layer_config.kernel_size ≤ MAX_KERNEL_SIZE) (hS : layer_config.stride ≤ MAX_STRIDE) :
    fashion_mnist_cnn_acceleratorChecked input_ddr weights_ddr bias_ddr layer_config layer_idx
        mem =
      some (fashion_mnist_cnn_accelerator input_ddr weights_ddr bias_ddr layer_config
        layer_idx mem,
        if layer_config.input_channels ≤ TN ∧ layer_config.output_channels ≤ TM ∧
            layer_config.output_height ≤ TR ∧ layer_config.output_width ≤ TC then
          storeWrites 0 0 0 layer_config.output_channels layer_config.output_height
            layer_config.output_width
        else tiledWrites layer_config.output_channels layer_config.output_height
          layer_config.output_width) := by
  unfold fashion_mnist_cnn_acceleratorChecked fashion_mnist_cnn_accelerator
  dsimp only
  split
  · rename_i h
    rw [load_biasChecked_some, load_weight_tileChecked_some _ _ _ _ _ _ _ hK,
      load_input_tileChecked_some]
    simp only [Option.bind_eq_bind, Option.some_bind]
    rw [init_output_bufferChecked_some]
    simp only [Option.some_bind]
    rw [compute_tileChecked_some _ _ _ _ _ _ _ _ _ hK hS h.2.1 h.1 h.2.2.1 h.2.2.2]
    simp only [Option.some_bind]
    rw [apply_reluChecked_some _ _ _ _ h.2.1 h.2.2.1 h.2.2.2]
    simp only [Option.some_bind]
    rw [store_output_tileChecked_some, List.nil_append]
  · rw [foldlM_log _ _ _ _ (fun s lg tm _ =>
      tmStepChecked_some _ _ _ _ _ _ _ _ _ _ _ _ _ _ _ _ _ _ hK hS) _ _]
    rw [List.nil_append]
    rfl

end Accelerator
end AlexNet

namespace AlexNet
namespace Accelerator

/-- Occurrences of a value in the concatenation of the lists `w 0, ..., w (n - 1)`. -/
theorem count_flatMap_range (a n : Nat) (w : Nat → List Nat) :
    List.count a ((List.range n).flatMap w) = ∑ i ∈ Finset.range n, List.count a (w i) := by
  rw [List.count_flatMap, Tensor3D.sum_map_range]
  rfl

/-- Summing over the offsets inside each tile and over the tiles is summing over the
range. -/
theorem sum_steps_limit {β : Type} [AddCommMonoid β] (n T : Nat) (hT : 1 ≤ T) (f : Nat → β) :
    ∑ t ∈ Finset.range ((n + T - 1) / T),
      ∑ y ∈ Finset.range (if t * T + T > n then n - t * T else T), f (y + t * T) =
    ∑ x ∈ Finset.range n, f x := by
  rw [← sum_steps n T hT f]
  refine Finset.sum_congr rfl (fun t _ => ?_)
  rw [bound_eq n (t * T) T (by omega)]
  refine Finset.sum_congr rfl (fun y _ => ?_)
  rw [Nat.add_comm]

/-- Summing over the cells of each output tile and over the tiles is summing over the
output cells. -/
theorem sum_tiles3 {β : Type} [AddCommMonoid β] (M R C : Nat) (g : Nat → Nat → Nat → β) :
    ∑ tm ∈ Finset.range ((M + TM - 1) / TM), ∑ tr ∈ Finset.range ((R + TR - 1) / TR),
      ∑ tc ∈ Finset.range ((C + TC - 1) / TC),
        ∑ m ∈ Finset.range (if tm * TM + TM > M then M - tm * TM else TM),
          ∑ r ∈ Finset.range (if tr * TR + TR > R then R - tr * TR else TR),
            ∑ c ∈ Finset.range (if tc * TC + TC > C then C - tc * TC else TC),
              g (m + tm * TM) (r + tr * TR) (c + tc * TC) =
    ∑ oc ∈ Finset.range M, ∑ oh ∈ Finset.range R, ∑ ow ∈ Finset.range C, g oc oh ow := by
  have e1 : ∀ tm tr, ∑ tc ∈ Finset.range ((C + TC - 1) / TC),
      ∑ m ∈ Finset.range (if tm * TM + TM > M then M - tm * TM else TM),
        ∑ r ∈ Finset.range (if tr * TR + TR > R then R - tr * TR else TR),
          ∑ c ∈ Finset.range (if tc * TC + TC > C then C - tc * TC else TC),
            g (m + tm * TM) (r + tr * TR) (c + tc * TC) =
      ∑ m ∈ Finset.range (if tm * TM + TM > M then M - tm * TM else TM),
        ∑ r ∈ Finset.range (if tr * TR + TR > R then R - tr * TR else TR),
          ∑ ow ∈ Finset.range C, g (m + tm * TM) (r + tr * TR) ow := by
    intro tm tr
    rw [Finset.sum_comm]
    refine Finset.sum_congr rfl (fun m _ => ?_)
    rw [Finset.sum_comm]
    refine Finset.sum_congr rfl (fun r _ => ?_)
    exact sum_steps_limit C TC (by decide) (fun ow => g (m + tm * TM) (r + tr * TR) ow)
  have e2 : ∀ tm, ∑ tr ∈ Finset.range ((R + TR - 1) / TR),
      ∑ m ∈ Finset.range (if tm * TM + TM > M then M - tm * TM else TM),
        ∑ r ∈ Finset.range (if tr * TR + TR > R then R - tr * TR else TR),
          ∑ ow ∈ Finset.range C, g (m + tm * TM) (r + tr * TR) ow =
      ∑ m ∈ Finset.range (if tm * TM + TM > M then M - tm * TM else TM),
        ∑ oh ∈ Finset.range R, ∑ ow ∈ Finset.range C, g (m + tm * TM) oh ow := by
    intro tm
    rw [Finset.sum_comm]
    refine Finset.sum_congr rfl (fun m _ => ?_)
    exact sum_steps_limit R TR (by decide)
      (fun oh => ∑ ow ∈ Finset.range C, g (m + tm * TM) oh ow)
  rw [Finset.sum_congr rfl (fun tm _ => Finset.sum_congr rfl (fun tr _ => e1 tm tr)),
    Finset.sum_congr rfl (fun tm _ => e2 tm)]
  exact sum_steps_limit M TM (by decide)
    (fun oc => ∑ oh ∈ Finset.range R, ∑ ow ∈ Finset.range C, g oc oh ow)

/-- Exactly one cell of an `M x R x C` output has a given flat index below `M * R * C`, and
none has a flat index from `M * R * C` on. -/
theorem sum_cells_index (M R C idx : Nat) :
    ∑ oc ∈ Finset.range M, ∑ oh ∈ Finset.range R, ∑ ow ∈ Finset.range C,
      (if oc * R * C + oh * C + ow = idx then 1 else 0) = if idx < M * R * C then 1 else 0 := by
  by_cases h : idx < M * R * C
  · rw [if_pos h]
    have hC : 0 < C := by
      rcases Nat.eq_zero_or_pos C with e | e
      · rw [e, Nat.mul_zero] at h
        omega
      · exact e
    have hR : 0 < R := by
      rcases Nat.eq_zero_or_pos R with e | e
      · rw [e, Nat.mul_zero, Nat.zero_mul] at h
        omega
      · exact e
    have hRC : 0 < R * C := Nat.mul_pos hR hC
    have d1 := Nat.div_add_mod idx (R * C)
    have d2 := Nat.div_add_mod (idx % (R * C)) C
    have b1 : idx / (R * C) < M := by
      rw [Nat.div_lt_iff_lt_mul hRC, ← Nat.mul_assoc]
      exact h
    have b2 : idx % (R * C) / C < R := by
      rw [Nat.div_lt_iff_lt_mul hC]
      exact Nat.mod_lt _ hRC
    have b3 : idx % (R * C) % C < C := Nat.mod_lt _ hC
    have e0 : idx / (R * C) * R * C + idx % (R * C) / C * C + idx % (R * C) % C = idx := by
      have e1 : idx / (R * C) * R * C = R * C * (idx / (R * C)) := by
        rw [Nat.mul_assoc, Nat.mul_comm]
      have e2 : idx % (R * C) / C * C = C * (idx % (R * C) / C) := Nat.mul_comm _ _
      rw [e1, e2]
      omega
    rw [Finset.sum_eq_single_of_mem (idx / (R * C)) (Finset.mem_range.mpr b1),
      Finset.sum_eq_single_of_mem (idx % (R * C) / C) (Finset.mem_range.mpr b2),
      Finset.sum_eq_single_of_mem (idx % (R * C) % C) (Finset.mem_range.mpr b3), if_pos e0]
    · intro ow how hne
      rw [if_neg]
      intro e
      exact hne (flat3_inj b2 (Finset.mem_range.mp how) b2 b3 (e.trans e0.symm)).2.2
    · intro oh hoh hne
      refine Finset.sum_eq_zero (fun ow how => ?_)
      rw [if_neg]
      intro e
      exact hne (flat3_inj (Finset.mem_range.mp hoh) (Finset.mem_range.mp how) b2 b3
        (e.trans e0.symm)).2.1
    · intro oc _ hne
      refine Finset.sum_eq_zero (fun oh hoh => Finset.sum_eq_zero (fun ow how => ?_))
      rw [if_neg]
      intro e
      exact hne (flat3_inj (Finset.mem_range.mp hoh) (Finset.mem_range.mp how) b2 b3
        (e.trans e0.symm)).1
  · rw [if_neg h]
    refine Finset.sum_eq_zero (fun oc hoc => Finset.sum_eq_zero (fun oh hoh =>
      Finset.sum_eq_zero (fun ow how => ?_)))
    rw [if_neg]
    intro e
    have := flat3_lt (Finset.mem_range.mp hoc) (Finset.mem_range.mp hoh)
      (Finset.mem_range.mp how)
    omega

/-- Occurrences of an index among the writes of one `store_output_tile`. -/
theorem count_storeWrites (m_offset h_offset w_offset M R C idx : Nat) :
    List.count idx (storeWrites m_offset h_offset w_offset M R C) =
      ∑ m ∈ Finset.range (if m_offset + TM > M then M - m_offset else TM),
        ∑ r ∈ Finset.range (if h_offset + TR > R then R - h_offset else TR),
          ∑ c ∈ Finset.range (if w_offset + TC > C then C - w_offset else TC),
            (if (m + m_offset) * R * C + (r + h_offset) * C + (c + w_offset) = idx then 1
              else 0) := by
  unfold storeWrites
  dsimp only
  rw [count_flatMap_range]
  refine Finset.sum_congr rfl (fun m _ => ?_)
  rw [count_flatMap_range]
  refine Finset.sum_congr rfl (fun r _ => ?_)
  rw [count_flatMap_range]
  refine Finset.sum_congr rfl (fun c _ => ?_)
  rw [List.count_singleton]
  simp only [beq_iff_eq]

/-- Each index below `M * R * C` occurs once among the writes of the tiled path, and no
other index occurs. -/
theorem count_tiledWrites (M R C idx : Nat) :
    List.count idx (tiledWrites M R C) = if idx < M * R * C then 1 else 0 := by
  unfold tiledWrites
  rw [count_flatMap_range, ← sum_cells_index M R C idx,
    ← sum_tiles3 M R C (fun oc oh ow => if oc * R * C + oh * C + ow = idx then 1 else 0)]
  refine Finset.sum_congr rfl (fun tm _ => ?_)
  rw [count_flatMap_range]
  refine Finset.sum_congr rfl (fun tr _ => ?_)
  rw [count_flatMap_range]
  refine Finset.sum_congr rfl (fun tc _ => ?_)
  exact count_storeWrites _ _ _ _ _ _ _

/-- Each index below `M * R * C` occurs once among the writes of the single-tile path, and
no other index occurs. -/
theorem count_singleWrites (M R C idx : Nat) (hM : M ≤ TM) (hR : R ≤ TR) (hC : C ≤ TC) :
    List.count idx (storeWrites 0 0 0 M R C) = if idx < M * R * C then 1 else 0 := by
  have lim : ∀ n T : Nat, n ≤ T → (if 0 + T > n then n - 0 else T) = n := by
    intro n T h
    split <;> omega
  rw [count_storeWrites, lim M TM hM, lim R TR hR, lim C TC hC, ← sum_cells_index M R C idx]
  rfl

end Accelerator
end AlexNet

namespace AlexNet
namespace Accelerator

variable {α : Type} [LinearOrderedCommRing α]

/-- C34. For every layer configuration with kernel size at most 5 and stride at most 2 (in
particular with `1 <= K <= 5`, `1 <= S <= 2`, `P >= 0` and positive `N`, `M`, `H`, `W`, `R`,
`C`), whatever the contents of the memories and of the local buffers: the run of
`fashion_mnist_cnn_accelerator` in which every subscript of `input_buffer[TN][17][17]`,
`weight_buffer[TM][TN][25]`, `output_buffer[TM][TR][TC]`, `bias_buffer[TM]` and of the row
buffers is tested against the declared dimension, and every index into the memories behind
the ports against `N * H * W` (input), `M * N * K * K` (weights), `M` (bias) and `M * R * C`
(output), never fails and returns the output memory of the untested run; every index it
writes to `output_ddr` is below `M * R * C`, and each index of `[0, M * R * C)` is written
exactly once. -/
theorem accelerator_accesses_in_range (input_ddr weights_ddr bias_ddr : List α)
    (layer_config : LayerConfig) (layer_idx : Int) (mem : Memory α)
    (hK : layer_config.kernel_size ≤ 5) (hS : layer_config.stride ≤ 2) :
    ∃ writes : List Nat,
      fashion_mnist_cnn_acceleratorChecked input_ddr weights_ddr bias_ddr layer_config
          layer_idx mem =
        some (fashion_mnist_cnn_accelerator input_ddr weights_ddr bias_ddr layer_config
          layer_idx mem, writes) ∧
      (∀ idx ∈ writes, idx < layer_config.output_channels * layer_config.output_height *
        layer_config.output_width) ∧
      (∀ idx, idx < layer_config.output_channels * layer_config.output_height *
        layer_config.output_width → writes.count idx = 1) := by
  refine ⟨_, acceleratorChecked_some input_ddr weights_ddr bias_ddr layer_config layer_idx mem
    hK hS, ?_⟩
  have hcount : ∀ idx, List.count idx
      (if layer_config.input_channels ≤ TN ∧ layer_config.output_channels ≤ TM ∧
          layer_config.output_height ≤ TR ∧ layer_config.output_width ≤ TC then
        storeWrites 0 0 0 layer_config.output_channels layer_config.output_height
          layer_config.output_width
      else tiledWrites layer_config.output_channels layer_config.output_height
        layer_config.output_width) =
      if idx < layer_config.output_channels * layer_config.output_height *
        layer_config.output_width then 1 else 0 := by
    intro idx
    split
    · rename_i h
      exact count_singleWrites _ _ _ _ h.2.1 h.2.2.1 h.2.2.2
    · exact count_tiledWrites _ _ _ _
  constructor
  · intro idx hmem
    by_contra hlt
    have h0 := hcount idx
    rw [if_neg hlt] at h0
    exact List.count_eq_zero.mp h0 hmem
  · intro idx hlt
    rw [hcount idx, if_pos hlt]

/-- Instance of `accelerator_accesses_in_range`: the configuration `5 x 9 x 9` to
`9 x 5 x 8` with kernel 2, stride 2 and padding 1, which takes the tiled path, on buffers
and an output memory filled with the value `7`. -/
theorem accelerator_accesses_in_range_witness :
    ∃ writes : List Nat,
      fashion_mnist_cnn_acceleratorChecked (Example.testData 405 5) (Example.testData 180 7)
          (Example.testData 9 2) Example.tiledConfig 0 (Example.dirtyMemory 360) =
        some (fashion_mnist_cnn_accelerator (Example.testData 405 5) (Example.testData 180 7)
          (Example.testData 9 2) Example.tiledConfig 0 (Example.dirtyMemory 360), writes) ∧
      (∀ idx ∈ writes, idx < Example.tiledConfig.output_channels *
        Example.tiledConfig.output_height * Example.tiledConfig.output_width) ∧
      (∀ idx, idx < Example.tiledConfig.output_channels *
        Example.tiledConfig.output_height * Example.tiledConfig.output_width →
        writes.count idx = 1) :=
  accelerator_accesses_in_range (Example.testData 405 5) (Example.testData 180 7)
    (Example.testData 9 2) Example.tiledConfig 0 (Example.dirtyMemory 360) (by decide)
    (by decide)

end Accelerator
end AlexNet
